import Mathlib

/-!
CGP-Library (`src/cgp.c`): a shallow embedding and its verified properties

Conventions of the embedding.

* A C `float` is a `CFloat`: an IEEE-754 binary32 value.  A finite value is kept as the
  integer number of units of `2^-149` (the smallest subnormal) it consists of, so that every
  finite binary32 value is an integer; arithmetic computes the exact result and rounds it to
  nearest, ties to even.  The two zeros are identified (they compare equal in C).
* A C `int` that holds a size, an index or a gene is a `Nat`; `rand()` returns a `Nat`.  Sums of
  sizes are assumed not to overflow `int`.
* A C array is a `List` whose length is the allocated length.  A read outside the list gives a
  default value and a write outside the list is dropped; the theorems state the allocation
  facts they need (`Allocated`).
* `exit(0)` and a division by zero are modelled by `Except.error`.
* A `strcpy` that runs past its destination is modelled by `none`.  The functions with
  `Checked` in their name stop at an access outside an array instead of skipping it.
* `rand()` is a stream of draws that is threaded through the functions that call it.
-/

namespace CGP

/-! ## binary32 values -/

/-- A C `float`.  `fin k` is the finite value `k * 2^-149`. -/
inductive CFloat where
  | fin (k : Int)
  | pinf
  | ninf
  | nan
deriving DecidableEq

namespace CFloat

instance : Inhabited CFloat := ⟨fin 0⟩

/-- `FLT_MAX = (2^24 - 1) * 2^104`, in units of `2^-149`. -/
def maxUnits : Nat := (2 ^ 24 - 1) * 2 ^ 253

/-- `FLT_MIN = 2^-126` (the smallest positive normalised value), in units of `2^-149`. -/
def minNormalUnits : Nat := 2 ^ 23

/-- The integer nearest to `N / D`, ties to even. -/
def roundNearestEven (N D : Nat) : Nat :=
  let q := N / D
  let r := N % D
  if 2 * r < D then q
  else if D < 2 * r then q + 1
  else if q % 2 = 0 then q else q + 1

/-- The number of low bits of `q` that do not fit a 24 bit significand: the largest `s`
with `2^(23+s) ≤ q`, and `0` when `q < 2^24`; found by binary search, for `q < 2^278`. -/
def excessBits (q : Nat) : Nat :=
  ([128, 64, 32, 16, 8, 4, 2, 1].foldl
    (fun (s : Nat × Nat) b => if 2 ^ 23 ≤ s.2 / 2 ^ b then (s.1 + b, s.2 / 2 ^ b) else s) (0, q)).1

/-- The magnitude `N / D` (in units) rounded to the binary32 grid, exponent unbounded above. -/
def roundMag (N D : Nat) : Nat :=
  let shift := excessBits (N / D)
  roundNearestEven N (D * 2 ^ shift) * 2 ^ shift

/-- The binary32 value nearest to `± N / D` units; what exceeds `FLT_MAX` after rounding is an
infinity (`2^277` units is the first power of two above `FLT_MAX`). -/
def ofSignMag (neg : Bool) (N D : Nat) : CFloat :=
  if 2 ^ 24 * 2 ^ 253 ≤ N / D then (if neg then ninf else pinf)
  else
    let m := roundMag N D
    if maxUnits < m then (if neg then ninf else pinf)
    else fin (if neg then - (m : Int) else (m : Int))

/-- Rounding of an exact integer number of units. -/
def ofUnits (k : Int) : CFloat := ofSignMag (decide (k < 0)) k.natAbs 1

/-- The conversion `(float) n` of a non-negative C `int`. -/
def ofNat (n : Nat) : CFloat := ofSignMag false (n * 2 ^ 149) 1

/-- The C constant `FLT_MAX`. -/
def FLT_MAX : CFloat := fin maxUnits

/-- The C constant `FLT_MIN`. -/
def FLT_MIN : CFloat := fin minNormalUnits

/-- The float `0`. -/
def zero : CFloat := fin 0

/-- The float `1`. -/
def one : CFloat := ofNat 1

/-- C `isinf(x) != 0`. -/
def isinf : CFloat → Bool
  | pinf => true
  | ninf => true
  | _ => false

/-- C `isnan(x) != 0`. -/
def isnan : CFloat → Bool
  | nan => true
  | _ => false

/-- C `x < y` on floats: false as soon as an operand is not a number. -/
def lt : CFloat → CFloat → Bool
  | fin a, fin b => decide (a < b)
  | fin _, pinf => true
  | ninf, fin _ => true
  | ninf, pinf => true
  | _, _ => false

/-- C `x > y` on floats. -/
def gt (x y : CFloat) : Bool := lt y x

/-- C `x <= y` on floats: false as soon as an operand is not a number. -/
def le : CFloat → CFloat → Bool
  | nan, _ => false
  | _, nan => false
  | x, y => !(lt y x)

/-- C `x >= y` on floats. -/
def ge (x y : CFloat) : Bool := le y x

/-- C `x + y` on floats. -/
def add : CFloat → CFloat → CFloat
  | nan, _ => nan
  | _, nan => nan
  | pinf, ninf => nan
  | ninf, pinf => nan
  | pinf, _ => pinf
  | _, pinf => pinf
  | ninf, _ => ninf
  | _, ninf => ninf
  | fin a, fin b => ofUnits (a + b)

/-- C `- x` on floats. -/
def neg : CFloat → CFloat
  | fin a => fin (-a)
  | pinf => ninf
  | ninf => pinf
  | nan => nan

/-- C `x - y` on floats. -/
def sub (x y : CFloat) : CFloat := add x (neg y)

/-- C `x * y` on floats. -/
def mul : CFloat → CFloat → CFloat
  | nan, _ => nan
  | _, nan => nan
  | fin a, fin b => ofSignMag (decide (a < 0) != decide (b < 0)) (a.natAbs * b.natAbs) (2 ^ 149)
  | fin a, pinf => if a = 0 then nan else if a < 0 then ninf else pinf
  | fin a, ninf => if a = 0 then nan else if a < 0 then pinf else ninf
  | pinf, fin b => if b = 0 then nan else if b < 0 then ninf else pinf
  | ninf, fin b => if b = 0 then nan else if b < 0 then pinf else ninf
  | pinf, pinf => pinf
  | ninf, ninf => pinf
  | pinf, ninf => ninf
  | ninf, pinf => ninf

/-- C `x / y` on floats.  The model has one zero, so a zero divisor is taken to be `+0`: the
quotient of a non-zero value by `-0.0`, to which C gives the opposite sign, is not
represented. -/
def div : CFloat → CFloat → CFloat
  | nan, _ => nan
  | _, nan => nan
  | fin a, fin b =>
    if b = 0 then (if a = 0 then nan else if a < 0 then ninf else pinf)
    else ofSignMag (decide (a < 0) != decide (b < 0)) (a.natAbs * 2 ^ 149) b.natAbs
  | fin _, pinf => zero
  | fin _, ninf => zero
  | pinf, fin b => if b < 0 then ninf else pinf
  | ninf, fin b => if b < 0 then pinf else ninf
  | pinf, pinf => nan
  | ninf, ninf => nan
  | pinf, ninf => nan
  | ninf, pinf => nan

end CFloat

open CFloat

/-! ## Structures (`cgp.c`, lines 35-103) -/

/-- The type of a node function:
`float f(const int numInputs, const float *inputs, const float *connectionWeights)`. -/
abbrev NodeFunction := Nat → List CFloat → List CFloat → CFloat

/-- The `struct node`. -/
structure node where
  function : Nat
  inputs : List Nat
  weights : List CFloat
  active : Nat
  output : CFloat
deriving DecidableEq

instance : Inhabited node := ⟨⟨0, [], [], 0, fin 0⟩⟩

/-- The `struct chromosome`. -/
structure chromosome where
  numInputs : Nat
  numOutputs : Nat
  numNodes : Nat
  numActiveNodes : Nat
  arity : Nat
  nodes : List node
  outputNodes : List Nat
  activeNodes : List Nat
  fitness : CFloat
  outputValues : List CFloat
deriving DecidableEq

instance : Inhabited chromosome := ⟨⟨0, 0, 0, 0, 0, [], [], [], fin 0, []⟩⟩

/-- The `struct fuctionSet`: `functionNames` and `functions` are the arrays of
`FUNCTIONSETSIZE` slots, of which the first `numFunctions` are in use. -/
structure fuctionSet where
  numFunctions : Nat
  functionNames : List String
  functions : List NodeFunction

/-- The `struct parameters`.  Its four function pointers are left out: `mutationType`,
`selectionScheme` and `reproductionScheme` are assigned once, in `initialiseParameters`, to
`probabilisticMutation`, `pickHighest` and `mutateRandomParent`, and the fitness function is
passed to the functions that call it. -/
structure parameters where
  mu : Nat
  lambda : Nat
  evolutionaryStrategy : Char
  mutationRate : CFloat
  connectionsWeightRange : CFloat
  generations : Nat
  numInputs : Nat
  numNodes : Nat
  numOutputs : Nat
  arity : Nat
  nodeInputsHold : List CFloat
  funcSet : fuctionSet
  updateFrequency : Nat

/-- The `struct population`; `trainedGenerations` is `-1` before a run. -/
structure population where
  mu : Nat
  lambda : Nat
  parents : List chromosome
  children : List chromosome
  trainedGenerations : Int

/-- The `struct data`. -/
structure data where
  numSamples : Nat
  numInputs : Nat
  numOutputs : Nat
  inputData : List (List CFloat)
  outputData : List (List CFloat)

/-- `FUNCTIONSETSIZE`. -/
def FUNCTIONSETSIZE : Nat := 50

/-- How a run stops without returning: one of the two `exit(0)` calls of `cgp.c`, or a
division by zero in `rand() % n` or in `gen % updateFrequency`. -/
inductive Fault where
  | emptyFunctionSet
  | dataMismatch
  | divisionByZero
deriving DecidableEq

/-! ## Loops -/

/-- The loop `for(i=0; i<n; i++) s = body(s, i)`. -/
def forLoop {σ : Type} (n : Nat) (body : σ → Nat → σ) (init : σ) : σ :=
  match n with
  | 0 => init
  | k + 1 => body (forLoop k body init) k

/-- The loop `for(i=0; i<n; i++) s = body(s, i)` whose body may stop the run. -/
def forLoopE {σ : Type} (n : Nat) (body : σ → Nat → Except Fault σ) (init : σ) :
    Except Fault σ :=
  match n with
  | 0 => Except.ok init
  | k + 1 =>
    match forLoopE k body init with
    | Except.ok s => body s k
    | Except.error e => Except.error e

/-! ## Random draws (`rand`, `randFloat` and the four gene samplers, lines 1114-1145,
1210-1217, 1599-1601) -/

/-- The state of the C library generator: the constant `RAND_MAX` and the draws to come. -/
structure RandState where
  RAND_MAX : Nat
  draws : Nat → Nat

/-- Every draw is at most `RAND_MAX`, as the C standard requires of `rand()`. -/
def RandState.InRange (s : RandState) : Prop := ∀ n, s.draws n ≤ s.RAND_MAX

/-- The C function `rand()`. -/
def rand (s : RandState) : Nat × RandState :=
  (s.draws 0, { s with draws := fun n => s.draws (n + 1) })

/-- The expression `rand() % n`. -/
def randMod (n : Nat) (s : RandState) : Except Fault (Nat × RandState) :=
  if n = 0 then Except.error Fault.divisionByZero
  else Except.ok ((rand s).1 % n, (rand s).2)

/-- The function `randFloat`. -/
def randFloat (s : RandState) : CFloat × RandState :=
  (CFloat.div (ofNat (rand s).1) (ofNat s.RAND_MAX), (rand s).2)

/-- The function `getRandomConnectionWeight`. -/
def getRandomConnectionWeight (params : parameters) (s : RandState) : CFloat × RandState :=
  (CFloat.sub
    (CFloat.mul (CFloat.mul (randFloat s).1 (ofNat 2)) params.connectionsWeightRange)
    params.connectionsWeightRange, (randFloat s).2)

/-- The function `getRandomFunction`. -/
def getRandomFunction (params : parameters) (s : RandState) : Except Fault (Nat × RandState) :=
  if params.funcSet.numFunctions < 1 then Except.error Fault.emptyFunctionSet
  else randMod params.funcSet.numFunctions s

/-- The function `getRandomNodeInput`. -/
def getRandomNodeInput (params : parameters) (nodePosition : Nat) (s : RandState) :
    Except Fault (Nat × RandState) :=
  randMod (params.numInputs + nodePosition) s

/-- The function `getRandomChromosomeOutput`. -/
def getRandomChromosomeOutput (params : parameters) (s : RandState) :
    Except Fault (Nat × RandState) :=
  randMod (params.numInputs + params.numNodes) s

/-! ## Sorting (`bubbleSortInt`, lines 1606-1626, and the loop of `sortChromosomeArray`) -/

/-- One step of the `for` loop of the two bubble sorts:
`if(array[i] > array[i+1]) { finished = 0; swap }`, on the array and the flag `finished`. -/
def bubbleStep {α : Type} (gt : α → α → Bool) (s : List α × Bool) (i : Nat) : List α × Bool :=
  match s.1[i]?, s.1[i + 1]? with
  | some x, some y => if gt x y then ((s.1.set i y).set (i + 1) x, false) else s
  | _, _ => s

/-- One run of the loop `for(i=0; i < length-1; i++)` of the two bubble sorts, entered with
`finished = 1`. -/
def bubblePass {α : Type} (gt : α → α → Bool) (length : Nat) (array : List α) : List α × Bool :=
  forLoop (length - 1) (bubbleStep gt) (array, true)

/-- The loop `while(finished == 0)` of the two bubble sorts, at most `fuel` passes. -/
def bubbleLoop {α : Type} (gt : α → α → Bool) (length : Nat) : Nat → List α → List α
  | 0, array => array
  | fuel + 1, array =>
    let r := bubblePass gt length array
    if r.2 then r.1 else bubbleLoop gt length fuel r.1

/-- A number of passes after which a bubble sort of `length` entries has stopped: every pass
but the last removes an inversion, and there are at most `length * length` of them. -/
def sortFuel (length : Nat) : Nat := length * length + 1

/-- The function `bubbleSortInt`. -/
def bubbleSortInt (array : List Nat) (length : Nat) : List Nat :=
  bubbleLoop (fun a b => decide (a > b)) length (sortFuel length) array

/-- Lines 979-981 of `sortChromosomeArray`: the first chromosome and the last change places. -/
def swapEnds (chromoArray : List chromosome) (numChromos : Nat) : List chromosome :=
  match chromoArray[0]?, chromoArray[numChromos - 1]? with
  | some first, some last => (chromoArray.set 0 last).set (numChromos - 1) first
  | _, _ => chromoArray

/-- The function `sortChromosomeArray`. -/
def sortChromosomeArray (chromoArray : List chromosome) (numChromos : Nat) : List chromosome :=
  bubbleLoop (fun a b => CFloat.gt a.fitness b.fitness) numChromos (sortFuel numChromos)
    (swapEnds chromoArray numChromos)

/-! ## Active nodes (lines 1150-1204) -/

/-- The assignment `nodes[i] = f(nodes[i])`. -/
def modifyNode (nodes : List node) (i : Nat) (f : node → node) : List node :=
  match nodes[i]? with
  | some n => nodes.set i (f n)
  | none => nodes

/-- Lines 1196-1198 of `recursivelySetActiveNodes`: the node `index` is logged as active. -/
def logActive (chromo : chromosome) (index : Nat) : chromosome :=
  { chromo with
    nodes := modifyNode chromo.nodes index (fun n => { n with active := 1 })
    activeNodes := chromo.activeNodes.set chromo.numActiveNodes index
    numActiveNodes := chromo.numActiveNodes + 1 }

/-- The function `recursivelySetActiveNodes`; `fuel` bounds the depth of the recursion.  The
connection genes of the node are not written during the recursion; they are read from the
node as it is found at the entry. -/
def recursivelySetActiveNodes : Nat → chromosome → Nat → chromosome
  | 0, chromo, _ => chromo
  | fuel + 1, chromo, nodeIndex =>
    if nodeIndex < chromo.numInputs then chromo
    else
      match chromo.nodes[nodeIndex - chromo.numInputs]? with
      | none => chromo
      | some n =>
        if n.active = 1 then chromo
        else
          forLoop chromo.arity
            (fun c i => recursivelySetActiveNodes fuel c (n.inputs.getD i 0))
            (logActive chromo (nodeIndex - chromo.numInputs))

/-- The first loop of `setActiveNodes`: `chromo->nodes[i]->active = 0` for every node. -/
def resetActive (numNodes : Nat) (nodes : List node) : List node :=
  forLoop numNodes (fun ns i => modifyNode ns i (fun n => { n with active := 0 })) nodes

/-- The loop over the output genes of `setActiveNodes` (lines 1163-1172).  The recursion of
`recursivelySetActiveNodes` enters a node only when it flags it, so its depth is at most
`numNodes + 1`. -/
def markOutputs (chromo : chromosome) : chromosome :=
  forLoop chromo.numOutputs
    (fun c i =>
      if c.outputNodes.getD i 0 < c.numInputs then c
      else recursivelySetActiveNodes (c.numNodes + 1) c (c.outputNodes.getD i 0)) chromo

/-- The function `setActiveNodes`. -/
def setActiveNodes (chromo : chromosome) : chromosome :=
  let chromo1 := markOutputs
    { chromo with numActiveNodes := 0, nodes := resetActive chromo.numNodes chromo.nodes }
  { chromo1 with activeNodes := bubbleSortInt chromo1.activeNodes chromo1.numActiveNodes }

/-! ## Execution (lines 1005-1066) -/

/-- Lines 1039-1053 of `executeChromosome`: the replacement of an infinite or not-a-number
node output. -/
def sanitise (output : CFloat) : CFloat :=
  let output1 :=
    if output.isinf then (if CFloat.gt output CFloat.zero then FLT_MAX else FLT_MIN)
    else output
  if output1.isnan then CFloat.zero else output1

/-- The entry `funcSet->functions[i]`. -/
def fuctionSet.get (funcSet : fuctionSet) (i : Nat) : NodeFunction :=
  funcSet.functions.getD i (fun _ _ _ => CFloat.zero)

/-- The value found at the address `nodeInputLocation` (lines 1024-1029 and 1059-1064): a
chromosome input or the cached output of a node. -/
def readLocation (numInputs : Nat) (nodes : List node) (inputs : List CFloat)
    (nodeInputLocation : Nat) : CFloat :=
  if nodeInputLocation < numInputs then inputs.getD nodeInputLocation default
  else (nodes.getD (nodeInputLocation - numInputs) default).output

/-- The body of the loop over the active nodes of `executeChromosome` (lines 1015-1053), on
the scratch buffer `nodeInputsHold` and the nodes. -/
def executeNode (params : parameters) (inputs : List CFloat) (activeNodes : List Nat)
    (s : List CFloat × List node) (i : Nat) : List CFloat × List node :=
  let currentActiveNode := activeNodes.getD i 0
  let hold := forLoop params.arity
    (fun (hold : List CFloat) j =>
      hold.set j (readLocation params.numInputs s.2 inputs
        ((s.2.getD currentActiveNode default).inputs.getD j 0))) s.1
  let n := s.2.getD currentActiveNode default
  let output := sanitise ((params.funcSet.get n.function) params.arity hold n.weights)
  (hold, s.2.set currentActiveNode { n with output := output })

/-- The function `executeChromosome`: the parameters (whose scratch buffer is written), the
chromosome (whose node outputs are written) and the array `outputs` after the call. -/
def executeChromosome (params : parameters) (chromo : chromosome) (inputs outputs : List CFloat) :
    parameters × chromosome × List CFloat :=
  let s := forLoop chromo.numActiveNodes
    (executeNode params inputs chromo.activeNodes) (params.nodeInputsHold, chromo.nodes)
  let outputs1 := forLoop params.numOutputs
    (fun (outs : List CFloat) i =>
      outs.set i (readLocation params.numInputs s.2 inputs (chromo.outputNodes.getD i 0))) outputs
  ({ params with nodeInputsHold := s.1 }, { chromo with nodes := s.2 }, outputs1)

/-! ## Node functions (lines 1319-1541) -/

/-- The node function `add`. -/
def add (numInputs : Nat) (inputs : List CFloat) (_connectionWeights : List CFloat) : CFloat :=
  forLoop numInputs (fun sum i => CFloat.add sum (inputs.getD i default)) CFloat.zero

/-! ## Construction and copy (lines 685-743, 768-816, 1073-1101) -/

/-- The function `initialiseNode`. -/
def initialiseNode (params : parameters) (nodePosition : Nat) (s : RandState) :
    Except Fault (node × RandState) := do
  let f ← getRandomFunction params s
  let g ← forLoopE params.arity
    (fun (st : List Nat × List CFloat × RandState) _ => do
      let c ← getRandomNodeInput params nodePosition st.2.2
      let w := getRandomConnectionWeight params c.2
      pure (st.1 ++ [c.1], st.2.1 ++ [w.1], w.2))
    ([], [], f.2)
  pure ({ function := f.1, inputs := g.1, weights := g.2.1, active := 1, output := CFloat.zero },
    g.2.2)

/-- The function `initialiseChromosome`.  The contents of the freshly allocated
`outputValues` are not specified by C; they are taken to be zeros. -/
def initialiseChromosome (params : parameters) (s : RandState) :
    Except Fault (chromosome × RandState) :=
  if params.funcSet.numFunctions < 1 then Except.error Fault.emptyFunctionSet
  else do
    let ns ← forLoopE params.numNodes
      (fun (st : List node × RandState) i => do
        let n ← initialiseNode params i st.2
        pure (st.1 ++ [n.1], n.2))
      ([], s)
    let os ← forLoopE params.numOutputs
      (fun (st : List Nat × RandState) _ => do
        let o ← getRandomChromosomeOutput params st.2
        pure (st.1 ++ [o.1], o.2))
      ([], ns.2)
    pure (setActiveNodes
      { numInputs := params.numInputs
        numOutputs := params.numOutputs
        numNodes := params.numNodes
        numActiveNodes := params.numNodes
        arity := params.arity
        nodes := ns.1
        outputNodes := os.1
        activeNodes := forLoop params.numNodes (fun l i => l ++ [i]) []
        fitness := CFloat.neg CFloat.one
        outputValues := List.replicate params.numOutputs CFloat.zero }, os.2)

/-- The function `copyNode`. -/
def copyNode (params : parameters) (nodeDest nodeSrc : node) : node :=
  forLoop params.arity
    (fun d i =>
      { d with
        inputs := d.inputs.set i (nodeSrc.inputs.getD i 0)
        weights := d.weights.set i (nodeSrc.weights.getD i default) })
    { nodeDest with function := nodeSrc.function, active := nodeSrc.active }

/-- The first loop of `copyChromosome` (lines 773-775): the nodes are copied. -/
def copyNodes (params : parameters) (dest src : List node) : List node :=
  forLoop params.numNodes
    (fun ns i => match ns[i]?, src[i]? with
      | some d, some n => ns.set i (copyNode params d n)
      | _, _ => ns) dest

/-- The function `copyChromosome`. -/
def copyChromosome (params : parameters) (chromoDest chromoSrc : chromosome) : chromosome :=
  { chromoDest with
    nodes := copyNodes params chromoDest.nodes chromoSrc.nodes
    outputNodes := forLoop params.numOutputs
      (fun os i => os.set i (chromoSrc.outputNodes.getD i 0)) chromoDest.outputNodes
    activeNodes := forLoop params.numNodes
      (fun l i => l.set i (chromoSrc.activeNodes.getD i 0)) chromoDest.activeNodes
    numInputs := chromoSrc.numInputs
    numOutputs := chromoSrc.numOutputs
    numActiveNodes := chromoSrc.numActiveNodes
    fitness := chromoSrc.fitness }

/-! ## Mutation (lines 1279-1314) -/

/-- The assignment `chromo->nodes[i]->function = f`. -/
def setFunctionGene (chromo : chromosome) (i f : Nat) : chromosome :=
  { chromo with nodes := modifyNode chromo.nodes i (fun n => { n with function := f }) }

/-- The assignment `chromo->nodes[i]->inputs[j] = c`. -/
def setInputGene (chromo : chromosome) (i j c : Nat) : chromosome :=
  { chromo with nodes := modifyNode chromo.nodes i (fun n => { n with inputs := n.inputs.set j c }) }

/-- The assignment `chromo->nodes[i]->weights[j] = w`. -/
def setWeightGene (chromo : chromosome) (i j : Nat) (w : CFloat) : chromosome :=
  { chromo with
    nodes := modifyNode chromo.nodes i (fun n => { n with weights := n.weights.set j w }) }

/-- The assignment `chromo->outputNodes[i] = o`. -/
def setOutputGene (chromo : chromosome) (i o : Nat) : chromosome :=
  { chromo with outputNodes := chromo.outputNodes.set i o }

/-- Lines 1286-1289 of `probabilisticMutation`: the function gene of the node `i`. -/
def mutateFunctionGene (params : parameters) (i : Nat) (st : chromosome × RandState) :
    Except Fault (chromosome × RandState) :=
  if CFloat.le (randFloat st.2).1 params.mutationRate then
    match getRandomFunction params (randFloat st.2).2 with
    | Except.ok f =>
      Except.ok (setFunctionGene st.1 i f.1, f.2)
    | Except.error e => Except.error e
  else Except.ok (st.1, (randFloat st.2).2)

/-- Lines 1294-1297 of `probabilisticMutation`: the connection gene `j` of the node `i`. -/
def mutateInputGene (params : parameters) (i j : Nat) (st : chromosome × RandState) :
    Except Fault (chromosome × RandState) :=
  if CFloat.le (randFloat st.2).1 params.mutationRate then
    match getRandomNodeInput params i (randFloat st.2).2 with
    | Except.ok c =>
      Except.ok (setInputGene st.1 i j c.1, c.2)
    | Except.error e => Except.error e
  else Except.ok (st.1, (randFloat st.2).2)

/-- Lines 1299-1302 of `probabilisticMutation`: the weight gene `j` of the node `i`. -/
def mutateWeightGene (params : parameters) (i j : Nat) (st : chromosome × RandState) :
    chromosome × RandState :=
  if CFloat.le (randFloat st.2).1 params.mutationRate then
    (setWeightGene st.1 i j (getRandomConnectionWeight params (randFloat st.2).2).1,
      (getRandomConnectionWeight params (randFloat st.2).2).2)
  else (st.1, (randFloat st.2).2)

/-- The body of the loop over `j` of `probabilisticMutation`, for the node `i`. -/
def mutateConnection (params : parameters) (i : Nat) (st : chromosome × RandState) (j : Nat) :
    Except Fault (chromosome × RandState) :=
  match mutateInputGene params i j st with
  | Except.ok st1 => Except.ok (mutateWeightGene params i j st1)
  | Except.error e => Except.error e

/-- The body of the loop over the nodes of `probabilisticMutation`. -/
def mutateNode (params : parameters) (st : chromosome × RandState) (i : Nat) :
    Except Fault (chromosome × RandState) :=
  match mutateFunctionGene params i st with
  | Except.ok st1 => forLoopE params.arity (mutateConnection params i) st1
  | Except.error e => Except.error e

/-- The body of the loop over the outputs of `probabilisticMutation` (lines 1309-1312). -/
def mutateOutput (params : parameters) (st : chromosome × RandState) (i : Nat) :
    Except Fault (chromosome × RandState) :=
  if CFloat.le (randFloat st.2).1 params.mutationRate then
    match getRandomChromosomeOutput params (randFloat st.2).2 with
    | Except.ok o => Except.ok (setOutputGene st.1 i o.1, o.2)
    | Except.error e => Except.error e
  else Except.ok (st.1, (randFloat st.2).2)

/-- The function `probabilisticMutation`. -/
def probabilisticMutation (params : parameters) (chromo : chromosome) (s : RandState) :
    Except Fault (chromosome × RandState) :=
  match forLoopE params.numNodes (mutateNode params) (chromo, s) with
  | Except.ok st => forLoopE params.numOutputs (mutateOutput params) st
  | Except.error e => Except.error e

/-! ## Selection and reproduction (lines 929-999) -/

/-- The function `pickHighest`: the parents and the candidates after the call. -/
def pickHighest (params : parameters) (parents candidateChromos : List chromosome)
    (numCandidateChromos : Nat) : List chromosome × List chromosome :=
  let sorted := sortChromosomeArray candidateChromos numCandidateChromos
  (forLoop params.mu
    (fun ps i => match ps[i]?, sorted[i]? with
      | some p, some c => ps.set i (copyChromosome params p c)
      | _, _ => ps) parents, sorted)

/-- The assignment `pop->children[i] = child`. -/
def setChild (pop : population) (i : Nat) (child : chromosome) : population :=
  { pop with children := pop.children.set i child }

/-- The body of the loop of `mutateRandomParent` (lines 936-940). -/
def reproduceChild (params : parameters) (st : population × RandState) (i : Nat) :
    Except Fault (population × RandState) :=
  match randMod params.mu st.2 with
  | Except.error e => Except.error e
  | Except.ok r =>
    match st.1.children[i]?, st.1.parents[r.1]? with
    | some child, some parent =>
      match probabilisticMutation params (copyChromosome params child parent) r.2 with
      | Except.ok m => Except.ok (setChild st.1 i m.1, m.2)
      | Except.error e => Except.error e
    | _, _ => Except.ok (st.1, r.2)

/-- The function `mutateRandomParent`. -/
def mutateRandomParent (params : parameters) (pop : population) (s : RandState) :
    Except Fault (population × RandState) :=
  forLoopE params.lambda (reproduceChild params) (pop, s)

/-! ## Fitness (lines 821-828, 1547-1595) -/

/-- The type of a fitness function
`float f(struct parameters *params, struct chromosome *chromo, struct data *dat)`.  The two
structures are opaque outside `cgp.c`; the call may stop the run, and otherwise yields the
contents of the scratch buffer `params->nodeInputsHold` after the call, the chromosome after
the call and the returned value. -/
abbrev FitnessFunction :=
  parameters → chromosome → data → Except Fault (List CFloat × chromosome × CFloat)

/-- The function `setChromosomeFitness`. -/
def setChromosomeFitness (fitnessFunction : FitnessFunction) (params : parameters)
    (chromo : chromosome) (dat : data) : Except Fault (parameters × chromosome) :=
  match fitnessFunction params chromo dat with
  | Except.ok r =>
    Except.ok ({ params with nodeInputsHold := r.1 }, { r.2.1 with fitness := r.2.2 })
  | Except.error e => Except.error e

/-- The body of the loop over the samples of `supervisedLearning`. -/
def supervisedSample (dat : data) (st : parameters × chromosome × CFloat) (i : Nat) :
    parameters × chromosome × CFloat :=
  let e := executeChromosome st.1 st.2.1 (dat.inputData.getD i []) st.2.1.outputValues
  let chromo1 : chromosome := { e.2.1 with outputValues := e.2.2 }
  (e.1, chromo1, forLoop chromo1.numOutputs
    (fun error j =>
      let temp := CFloat.sub (chromo1.outputValues.getD j default)
        ((dat.outputData.getD i []).getD j default)
      if CFloat.ge temp CFloat.zero then CFloat.add error temp else CFloat.sub error temp)
    st.2.2)

/-- The function `supervisedLearning`. -/
def supervisedLearning : FitnessFunction := fun params chromo dat =>
  if chromo.numInputs ≠ dat.numInputs then Except.error Fault.dataMismatch
  else if chromo.numOutputs ≠ dat.numOutputs then Except.error Fault.dataMismatch
  else
    let r := forLoop dat.numSamples (supervisedSample dat) (params, chromo, CFloat.zero)
    Except.ok (r.1.nodeInputsHold, r.2.1, r.2.2)

/-! ## The evolutionary loop (lines 837-923) -/

/-- What `evolvePopulation` works on: the parameters, the population, the array
`candidateChromos` and the generator. -/
structure EvoState where
  params : parameters
  pop : population
  candidateChromos : List chromosome
  rng : RandState

/-- The statements `setActiveNodes(c[i]); setChromosomeFitness(params, c[i], dat);` (lines
866-867 and 878-879), on the parameters and the array `c`. -/
def evaluateChromosome (fitnessFunction : FitnessFunction) (dat : data)
    (st : parameters × List chromosome) (i : Nat) :
    Except Fault (parameters × List chromosome) :=
  match st.2[i]? with
  | some c =>
    match setChromosomeFitness fitnessFunction st.1 (setActiveNodes c) dat with
    | Except.ok r => Except.ok (r.1, st.2.set i r.2)
    | Except.error e => Except.error e
  | none => Except.ok st

/-- The loops over the first `n` chromosomes of an array that evaluate them (lines 865-868
and 877-880). -/
def evaluateChromosomes (fitnessFunction : FitnessFunction) (dat : data) (n : Nat)
    (params : parameters) (chromos : List chromosome) :
    Except Fault (parameters × List chromosome) :=
  forLoopE n (evaluateChromosome fitnessFunction dat) (params, chromos)

/-- The size of the candidate array (lines 847-852). -/
def numCandidates (params : parameters) : Nat :=
  if params.evolutionaryStrategy = '+' then params.mu + params.lambda else params.lambda

/-- The loop that fills the candidate array (lines 887-895). -/
def fillCandidates (params : parameters) (pop : population) (numCandidateChromos : Nat)
    (candidateChromos : List chromosome) : List chromosome :=
  forLoop numCandidateChromos
    (fun cs i =>
      match cs[i]? with
      | none => cs
      | some c =>
        if i < params.lambda then
          match pop.children[i]? with
          | some child => cs.set i (copyChromosome params c child)
          | none => cs
        else
          match pop.parents[i - params.lambda]? with
          | some parent => cs.set i (copyChromosome params c parent)
          | none => cs)
    candidateChromos

/-- One generation up to and including the selection (lines 876-898). -/
def selectionStep (fitnessFunction : FitnessFunction) (dat : data) (st : EvoState) :
    Except Fault EvoState :=
  match evaluateChromosomes fitnessFunction dat st.params.lambda st.params st.pop.children with
  | Except.error e => Except.error e
  | Except.ok ev =>
    let pop1 : population := { st.pop with children := ev.2 }
    let cands := fillCandidates ev.1 pop1 (numCandidates ev.1) st.candidateChromos
    let sel := pickHighest ev.1 pop1.parents cands (numCandidates ev.1)
    Except.ok { st with params := ev.1, pop := { pop1 with parents := sel.1 },
                        candidateChromos := sel.2 }

/-- The reproduction at the end of a generation (line 912). -/
def reproductionStep (st : EvoState) : Except Fault EvoState :=
  match mutateRandomParent st.params st.pop st.rng with
  | Except.ok r => Except.ok { st with pop := r.1, rng := r.2 }
  | Except.error e => Except.error e

/-- The test `pop->parents[0]->fitness <= 0` (line 901). -/
def solutionFound (st : EvoState) : Bool :=
  CFloat.le (st.pop.parents.getD 0 default).fitness CFloat.zero

/-- The loop over the generations (lines 874-913), entered at generation `gen` with
`remaining` generations to go; the result is the state and the value of `gen` at the exit.
The test `gen % params->updateFrequency == 0` (line 907) divides by zero when
`updateFrequency` is `0`. -/
def evolveLoop (fitnessFunction : FitnessFunction) (dat : data) :
    Nat → Nat → EvoState → Except Fault (EvoState × Nat)
  | 0, gen, st => Except.ok (st, gen)
  | remaining + 1, gen, st =>
    match selectionStep fitnessFunction dat st with
    | Except.error e => Except.error e
    | Except.ok st1 =>
      if solutionFound st1 then Except.ok (st1, gen)
      else if st1.params.updateFrequency = 0 then Except.error Fault.divisionByZero
      else
        match reproductionStep st1 with
        | Except.error e => Except.error e
        | Except.ok st2 => evolveLoop fitnessFunction dat remaining (gen + 1) st2

/-- The allocation of the candidate array (lines 855-859). -/
def initialiseCandidates (params : parameters) (s : RandState) :
    Except Fault (List chromosome × RandState) :=
  forLoopE (numCandidates params)
    (fun (st : List chromosome × RandState) _ =>
      match initialiseChromosome params st.2 with
      | Except.ok c => Except.ok (st.1 ++ [c.1], c.2)
      | Except.error e => Except.error e)
    ([], s)

/-- The part of `evolvePopulation` before the loop (lines 846-869): the candidate array is
allocated and, under the `+` strategy, the parents are evaluated. -/
def evolveInit (fitnessFunction : FitnessFunction) (params : parameters) (pop : population)
    (dat : data) (s : RandState) : Except Fault EvoState :=
  match initialiseCandidates params s with
  | Except.error e => Except.error e
  | Except.ok cs =>
    if params.evolutionaryStrategy = '+' then
      match evaluateChromosomes fitnessFunction dat params.mu params pop.parents with
      | Except.error e => Except.error e
      | Except.ok ev =>
        Except.ok { params := ev.1, pop := { pop with parents := ev.2 },
                    candidateChromos := cs.1, rng := cs.2 }
    else Except.ok { params := params, pop := pop, candidateChromos := cs.1, rng := cs.2 }

/-- The function `evolvePopulation`: the parameters, the population and the generator after
the call. -/
def evolvePopulation (fitnessFunction : FitnessFunction) (params : parameters)
    (pop : population) (dat : data) (s : RandState) :
    Except Fault (parameters × population × RandState) :=
  match evolveInit fitnessFunction params pop dat s with
  | Except.error e => Except.error e
  | Except.ok st0 =>
    match evolveLoop fitnessFunction dat st0.params.generations 0 st0 with
    | Except.error e => Except.error e
    | Except.ok r =>
      Except.ok (r.1.params, { r.1.pop with trainedGenerations := (r.2 : Int) }, r.1.rng)

/-- The parents after the selection of each generation that `evolveLoop` runs, in order. -/
def evolveTrace (fitnessFunction : FitnessFunction) (dat : data) :
    Nat → EvoState → Except Fault (List (List chromosome))
  | 0, _ => Except.ok []
  | remaining + 1, st =>
    match selectionStep fitnessFunction dat st with
    | Except.error e => Except.error e
    | Except.ok st1 =>
      if solutionFound st1 then Except.ok [st1.pop.parents]
      else if st1.params.updateFrequency = 0 then Except.error Fault.divisionByZero
      else
        match reproductionStep st1 with
        | Except.error e => Except.error e
        | Except.ok st2 =>
          match evolveTrace fitnessFunction dat remaining st2 with
          | Except.error e => Except.error e
          | Except.ok rest => Except.ok (st1.pop.parents :: rest)

/-! ## Predicates of the specification -/

/-- The acyclicity invariant: every connection gene of the node at position `p` is smaller
than `numInputs + p`. -/
def Acyclic (numInputs : Nat) (chromo : chromosome) : Prop :=
  ∀ p, p < chromo.nodes.length →
    ∀ c ∈ (chromo.nodes.getD p default).inputs, c < numInputs + p

instance (numInputs : Nat) (chromo : chromosome) : Decidable (Acyclic numInputs chromo) := by
  unfold Acyclic
  infer_instance

/-- The arrays of a chromosome have the lengths with which `initialiseChromosome` allocates
them. -/
def Allocated (chromo : chromosome) : Prop :=
  chromo.nodes.length = chromo.numNodes ∧
  (∀ n ∈ chromo.nodes, n.inputs.length = chromo.arity ∧ n.weights.length = chromo.arity) ∧
  chromo.outputNodes.length = chromo.numOutputs ∧
  chromo.activeNodes.length = chromo.numNodes ∧
  chromo.outputValues.length = chromo.numOutputs

instance (chromo : chromosome) : Decidable (Allocated chromo) := by
  unfold Allocated
  infer_instance

/-- A chromosome has the dimensions of the parameters, and the scratch buffer of the
parameters has the length with which `initialiseParameters` allocates it. -/
def Fits (params : parameters) (chromo : chromosome) : Prop :=
  chromo.numInputs = params.numInputs ∧ chromo.numNodes = params.numNodes ∧
  chromo.numOutputs = params.numOutputs ∧ chromo.arity = params.arity ∧
  params.nodeInputsHold.length = params.arity

instance (params : parameters) (chromo : chromosome) : Decidable (Fits params chromo) := by
  unfold Fits
  infer_instance

/-- Every connection gene and every output gene is an address: smaller than
`numInputs + numNodes`. -/
def GenesInRange (chromo : chromosome) : Prop :=
  (∀ n ∈ chromo.nodes, ∀ c ∈ n.inputs, c < chromo.numInputs + chromo.numNodes) ∧
  ∀ o ∈ chromo.outputNodes, o < chromo.numInputs + chromo.numNodes

instance (chromo : chromosome) : Decidable (GenesInRange chromo) := by
  unfold GenesInRange
  infer_instance

/-- The node `i` is reachable from an output gene by following connection genes; a gene
`g ≥ numInputs` refers to the node `g - numInputs`. -/
inductive Reachable (chromo : chromosome) : Nat → Prop
  | output {o : Nat} : o ∈ chromo.outputNodes → chromo.numInputs ≤ o →
      Reachable chromo (o - chromo.numInputs)
  | connection {i : Nat} {n : node} {c : Nat} : Reachable chromo i →
      chromo.nodes[i]? = some n → c ∈ n.inputs → chromo.numInputs ≤ c →
      Reachable chromo (c - chromo.numInputs)

/-- The active list `activeNodes[0 .. numActiveNodes)`. -/
def activeList (chromo : chromosome) : List Nat :=
  chromo.activeNodes.take chromo.numActiveNodes

/-- The node `i` carries the flag `active == 1`. -/
def flagged (chromo : chromosome) (i : Nat) : Prop :=
  ∃ n, chromo.nodes[i]? = some n ∧ n.active = 1

/-- The node `i` has, among its first `arity` connection genes, the address of the node `k`. -/
def edge (numInputs arity : Nat) (conn : List (List Nat)) (i k : Nat) : Prop :=
  ∃ l, conn[i]? = some l ∧ ∃ j, j < arity ∧ l.getD j 0 = numInputs + k

/-- What the marking of `recursivelySetActiveNodes` leaves as it is: everything but the
`active` flags, the array `activeNodes` (whose length stays) and `numActiveNodes`. -/
structure SameGenes (c d : chromosome) : Prop where
  numInputs : d.numInputs = c.numInputs
  numOutputs : d.numOutputs = c.numOutputs
  numNodes : d.numNodes = c.numNodes
  arity : d.arity = c.arity
  outputNodes : d.outputNodes = c.outputNodes
  fitness : d.fitness = c.fitness
  outputValues : d.outputValues = c.outputValues
  nodes : d.nodes.map (fun n => { n with active := 0 }) =
    c.nodes.map (fun n => { n with active := 0 })
  activeLength : d.activeNodes.length = c.activeNodes.length

/-- The state of the marking is consistent: the active list has no repetition and holds
exactly the flagged nodes. -/
structure MarkInv (c : chromosome) : Prop where
  nodup : (activeList c).Nodup
  mem : ∀ i, i ∈ activeList c ↔ flagged c i
  le : c.numActiveNodes ≤ c.activeNodes.length
  length : c.activeNodes.length = c.nodes.length

/-- What a call `recursivelySetActiveNodes(c, v)` that returns `d` has done, with the
connection genes `conn` of the chromosome. -/
structure MarkPost (numInputs arity : Nat) (conn : List (List Nat)) (c d : chromosome)
    (v : Nat) : Prop where
  same : SameGenes c d
  inv : MarkInv d
  mono : ∀ i, flagged c i → flagged d i
  count : c.numActiveNodes ≤ d.numActiveNodes
  target : numInputs ≤ v → flagged d (v - numInputs)
  closed : ∀ i, flagged d i → ¬ flagged c i → ∀ k, edge numInputs arity conn i k → flagged d k
  sound : ∀ i, flagged d i → ¬ flagged c i →
    numInputs ≤ v ∧ Relation.ReflTransGen (edge numInputs arity conn) (v - numInputs) i

/-- The state `d` of the marking after the first `j` runs of the loop over the connection
genes `genes` of the node `idx`, entered in the state `c`. -/
structure MarkLoop (numInputs arity : Nat) (conn : List (List Nat)) (c : chromosome)
    (idx : Nat) (genes : List Nat) (j : Nat) (d : chromosome) : Prop where
  same : SameGenes c d
  inv : MarkInv d
  mono : ∀ i, flagged c i → flagged d i
  count : c.numActiveNodes ≤ d.numActiveNodes
  targets : ∀ k, k < j → numInputs ≤ genes.getD k 0 → flagged d (genes.getD k 0 - numInputs)
  closed : ∀ i, flagged d i → ¬ flagged c i → ∀ k, edge numInputs arity conn i k → flagged d k
  sound : ∀ i, flagged d i → ¬ flagged c i →
    Relation.ReflTransGen (edge numInputs arity conn) idx i

/-- The number of inversions of a list: the pairs of positions `i < j` whose entries are in
the order `gt`. -/
def inversions {α : Type} (gt : α → α → Bool) : List α → Nat
  | [] => 0
  | x :: l => l.countP (fun y => gt x y) + inversions gt l

/-- No two neighbours among the first `n` entries are in the order `gt`. -/
def Adjacent {α : Type} (gt : α → α → Bool) (n : Nat) (a : List α) : Prop :=
  ∀ i, i + 1 < n → ∀ x y, a[i]? = some x → a[i + 1]? = some y → gt x y = false

/-- The genes of the nodes of a chromosome: the function gene, the connection genes and the
weight genes of each node, without the `active` flags and the cached outputs. -/
def genes (chromo : chromosome) : List (Nat × List Nat × List CFloat) :=
  chromo.nodes.map (fun n => (n.function, n.inputs, n.weights))

/-- The value of the address `a` in the graph of a chromosome with the node genes `g`, for the
input vector `inputs`: `inputs[a]` when `a < numInputs`, and otherwise the sanitised result of
the function of the node `a - numInputs` on the values of its connection genes and on its
weights.  A connection gene that is not smaller than `a` (there is none under the acyclicity
invariant) counts as zero. -/
def value (funcSet : fuctionSet) (numInputs arity : Nat) (g : List (Nat × List Nat × List CFloat))
    (inputs : List CFloat) (a : Nat) : CFloat :=
  if a < numInputs then inputs.getD a default
  else
    let n := g.getD (a - numInputs) (0, [], [])
    sanitise ((funcSet.get n.1) arity
      (n.2.1.map (fun c => if h : c < a then value funcSet numInputs arity g inputs c
        else CFloat.zero))
      n.2.2)
termination_by a
decreasing_by exact h

/-- Every output gene is an address: smaller than `numInputs + numNodes`. -/
def OutputsInRange (chromo : chromosome) : Prop :=
  ∀ o ∈ chromo.outputNodes, o < chromo.numInputs + chromo.numNodes

instance (chromo : chromosome) : Decidable (OutputsInRange chromo) := by
  unfold OutputsInRange
  infer_instance

/-- The chromosome is decoded: its active list is the one that `setActiveNodes` computes
from its genes, and lies inside the array `activeNodes`. -/
def Decoded (chromo : chromosome) : Prop :=
  activeList chromo = activeList (setActiveNodes chromo) ∧
  chromo.numActiveNodes ≤ chromo.activeNodes.length

instance (chromo : chromosome) : Decidable (Decoded chromo) := by
  unfold Decoded
  infer_instance

/-- The chromosome `d` holds a copy of `c`: the same node genes, `active` flags, output genes,
active list and fitness. -/
def CopyOf (c d : chromosome) : Prop :=
  genes d = genes c ∧ d.nodes.map (fun n => n.active) = c.nodes.map (fun n => n.active) ∧
  d.outputNodes = c.outputNodes ∧ d.activeNodes = c.activeNodes ∧
  d.numActiveNodes = c.numActiveNodes ∧ d.fitness = c.fitness

instance (c d : chromosome) : Decidable (CopyOf c d) := by
  unfold CopyOf
  infer_instance

/-- The smaller of two floats, as `b < a ? b : a` computes it. -/
def CFloat.min (a b : CFloat) : CFloat := if CFloat.lt b a then b else a

/-- The minimum fitness among the chromosomes of a list (`+inf` for the empty list). -/
def bestFitness : List chromosome → CFloat
  | [] => CFloat.pinf
  | c :: cs => CFloat.min c.fitness (bestFitness cs)

/-- The fitness values of a list of chromosomes are in non-decreasing order. -/
def SortedByFitness (l : List chromosome) : Prop :=
  l.Pairwise (fun a b => CFloat.le a.fitness b.fitness = true)

instance (l : List chromosome) : Decidable (SortedByFitness l) := by
  unfold SortedByFitness
  infer_instance

/-- No chromosome of the list has a not-a-number fitness. -/
def NoNaN (l : List chromosome) : Prop := ∀ c ∈ l, c.fitness.isnan = false

instance (l : List chromosome) : Decidable (NoNaN l) := by
  unfold NoNaN
  infer_instance

/-- The fitness function never returns not-a-number: its values are totally ordered. -/
def NeverNaN (fitnessFunction : FitnessFunction) : Prop :=
  ∀ params chromo dat r, fitnessFunction params chromo dat = Except.ok r → r.2.2.isnan = false

/-- The two parameter structures differ at most in the scratch buffer `nodeInputsHold`. -/
def SameButHold (p q : parameters) : Prop := q = { p with nodeInputsHold := q.nodeInputsHold }

/-- A state of `evolvePopulation` under the `+` strategy: the arrays have their allocated
lengths, there is a parent, and no parent has a not-a-number fitness. -/
structure PlusState (st : EvoState) : Prop where
  plus : st.params.evolutionaryStrategy = '+'
  mu : 1 ≤ st.params.mu
  parents : st.pop.parents.length = st.params.mu
  children : st.pop.children.length = st.params.lambda
  candidates : st.candidateChromos.length = st.params.mu + st.params.lambda
  nan : NoNaN st.pop.parents

/-- The best fitness among the parents does not get worse from one entry to the next. -/
def NonIncreasing (trace : List (List chromosome)) : Prop :=
  trace.Chain' (fun ps qs => CFloat.le (bestFitness qs) (bestFitness ps) = true)

/-! ## Concrete inputs -/

/-- Parameters with two inputs, one node of arity two, one output and the function set
`add`; `mu = 1`, `lambda = 1`, the `,` strategy and mutation rate `0`. -/
def exampleParams : parameters :=
  { mu := 1, lambda := 1, evolutionaryStrategy := ',', mutationRate := CFloat.zero,
    connectionsWeightRange := CFloat.one, generations := 2, numInputs := 2, numNodes := 1,
    numOutputs := 1, arity := 2, nodeInputsHold := [CFloat.zero, CFloat.zero],
    funcSet := ⟨1, ["add"], [add]⟩, updateFrequency := 1000 }

/-- The chromosome of the scenario: one node `add` with connection genes `[0, 1]` and weights
`[0, 0]`, and the output gene `2`. -/
def exampleChromosome : chromosome :=
  { numInputs := 2, numOutputs := 1, numNodes := 1, numActiveNodes := 1, arity := 2,
    nodes := [⟨0, [0, 1], [CFloat.zero, CFloat.zero], 1, CFloat.zero⟩], outputNodes := [2],
    activeNodes := [0], fitness := CFloat.neg CFloat.one, outputValues := [CFloat.zero] }

/-- A generator with `RAND_MAX = 32767` whose draws are `7, 5, 0, 1, 5, 5, 5, 5, 9, 9, ...`. -/
def exampleRand : RandState := ⟨32767, fun n => [7, 5, 0, 1, 5, 5, 5, 5].getD n 9⟩

/-- A chromosome of the same dimensions as `exampleChromosome` with other genes and another
cached node output: a destination for `copyChromosome`. -/
def exampleBlank : chromosome :=
  { numInputs := 2, numOutputs := 1, numNodes := 1, numActiveNodes := 0, arity := 2,
    nodes := [⟨0, [1, 1], [CFloat.one, CFloat.zero], 0, CFloat.one⟩], outputNodes := [0],
    activeNodes := [0], fitness := CFloat.zero, outputValues := [CFloat.one] }

/-- The chromosome `exampleChromosome` with another cached node output, as an execution on
other inputs leaves it. -/
def exampleStale : chromosome :=
  { exampleChromosome with
    nodes := [⟨0, [0, 1], [CFloat.zero, CFloat.zero], 1, CFloat.ofNat 9⟩] }

/-- A candidate pool of three copies of `exampleChromosome` whose fitness values are `1`,
not-a-number and `2`. -/
def examplePool : List chromosome :=
  [{ exampleChromosome with fitness := CFloat.ofNat 1 },
   { exampleChromosome with fitness := CFloat.nan },
   { exampleChromosome with fitness := CFloat.ofNat 2 }]

/-- A candidate pool of three copies of `exampleChromosome` whose fitness values are `3`,
`1` and `2`. -/
def exampleRankedPool : List chromosome :=
  [{ exampleChromosome with fitness := CFloat.ofNat 3 },
   { exampleChromosome with fitness := CFloat.ofNat 1 },
   { exampleChromosome with fitness := CFloat.ofNat 2 }]

/-- The parameters `exampleParams` with the `+` strategy. -/
def examplePlusParams : parameters := { exampleParams with evolutionaryStrategy := '+' }

/-- A population of one parent and one child, both `exampleChromosome`. -/
def examplePopulation : population :=
  { mu := 1, lambda := 1, parents := [exampleChromosome], children := [exampleChromosome],
    trainedGenerations := -1 }

/-- A data set of one sample: the inputs `[1, 3]` and the expected output `[7]`. -/
def exampleData : data :=
  { numSamples := 1, numInputs := 2, numOutputs := 1,
    inputData := [[CFloat.ofNat 1, CFloat.ofNat 3]], outputData := [[CFloat.ofNat 7]] }

/-- A fitness function that counts: the number of active nodes plus one. -/
def exampleFitness : FitnessFunction := fun params chromo _ =>
  Except.ok (params.nodeInputsHold, chromo, CFloat.ofNat (chromo.numActiveNodes + 1))

/-- The state in which `evolvePopulation` enters its loop on the example with the `+`
strategy. -/
def exampleStart : EvoState :=
  match evolveInit exampleFitness examplePlusParams examplePopulation exampleData exampleRand with
  | Except.ok st => st
  | Except.error _ =>
    { params := examplePlusParams, pop := examplePopulation, candidateChromos := [],
      rng := exampleRand }

/-- The parents after each selection of the run from `exampleStart`. -/
def exampleTrace : List (List chromosome) :=
  match evolveTrace exampleFitness exampleData 2 exampleStart with
  | Except.ok trace => trace
  | Except.error _ => []

/-- A stream of draws, all at most `RAND_MAX`, in which `rand()` returns `0` several times. -/
def exampleZeroDraws : RandState :=
  ⟨32767, fun n => [0, 0, 3, 1, 3, 0, 7, 5, 0, 1, 5, 5, 5, 5].getD n 9⟩

/-- Two inputs equal to `-FLT_MAX`: their sum overflows to negative infinity. -/
def exampleLowInputs : List CFloat := [CFloat.neg CFloat.FLT_MAX, CFloat.neg CFloat.FLT_MAX]

/-! ## Populations (lines 168-230, 463-488) -/

/-- The function `getNumberOfGenerations`. -/
def getNumberOfGenerations (pop : population) : Int := pop.trainedGenerations

/-- The loops of `initialisePopulation` that fill an array of `n` chromosomes (lines 476-482). -/
def initialiseChromosomes (params : parameters) (n : Nat) (s : RandState) :
    Except Fault (List chromosome × RandState) :=
  forLoopE n
    (fun (st : List chromosome × RandState) _ =>
      match initialiseChromosome params st.2 with
      | Except.ok c => Except.ok (st.1 ++ [c.1], c.2)
      | Except.error e => Except.error e)
    ([], s)

/-- The function `initialisePopulation`. -/
def initialisePopulation (params : parameters) (s : RandState) :
    Except Fault (population × RandState) :=
  match initialiseChromosomes params params.mu s with
  | Except.error e => Except.error e
  | Except.ok ps =>
    match initialiseChromosomes params params.lambda ps.2 with
    | Except.error e => Except.error e
    | Except.ok cs =>
      Except.ok ({ mu := params.mu, lambda := params.lambda, parents := ps.1, children := cs.1,
                   trainedGenerations := -1 }, cs.2)

/-- One step of the two loops of `getFittestChromosome`: the chromosome `c` replaces the best
one when `c->fitness < bestFitness`.  The state is `bestChromo` and `bestFitness`. -/
def fitterOf (s : chromosome × CFloat) (c : chromosome) : chromosome × CFloat :=
  if CFloat.lt c.fitness s.2 then (c, c.fitness) else s

/-- The function `getFittestChromosome`; the loop over the parents starts at `i = 1`. -/
def getFittestChromosome (params : parameters) (pop : population) : chromosome :=
  let s0 := (pop.parents.getD 0 default, (pop.parents.getD 0 default).fitness)
  let s1 := forLoop (params.mu - 1)
    (fun s k => fitterOf s (pop.parents.getD (k + 1) default)) s0
  let s2 := forLoop params.lambda (fun s i => fitterOf s (pop.children.getD i default)) s1
  s2.1

/-! ## Node functions (lines 1331-1541) -/

/-- C `x == y` on floats: false as soon as an operand is not a number. -/
def CFloat.eq : CFloat → CFloat → Bool
  | CFloat.fin a, CFloat.fin b => decide (a = b)
  | CFloat.pinf, CFloat.pinf => true
  | CFloat.ninf, CFloat.ninf => true
  | _, _ => false

/-- The node function `sub`; the loop starts at `i = 1`. -/
def sub (numInputs : Nat) (inputs : List CFloat) (_connectionWeights : List CFloat) : CFloat :=
  forLoop (numInputs - 1) (fun sum k => CFloat.sub sum (inputs.getD (k + 1) default))
    (inputs.getD 0 default)

/-- The node function `mul`. -/
def mul (numInputs : Nat) (inputs : List CFloat) (_connectionWeights : List CFloat) : CFloat :=
  forLoop numInputs (fun multiplication i => CFloat.mul multiplication (inputs.getD i default))
    CFloat.one

/-- The node function `divide`; the loop starts at `i = 1`.  As in `CFloat.div`, a division by
`-0.0` is computed as a division by `+0`. -/
def divide (numInputs : Nat) (inputs : List CFloat) (_connectionWeights : List CFloat) :
    CFloat :=
  forLoop (numInputs - 1) (fun divide k => CFloat.div divide (inputs.getD (k + 1) default))
    (inputs.getD 0 default)

/-- The loop of `and`, `nand`, `or` and `nor`: `out` starts as `start` and becomes `other` at
the first input that is `== key`, where the loop is left.  The state is `out` and whether the
loop has been left. -/
def firstHit (numInputs : Nat) (inputs : List CFloat) (key start other : CFloat) : CFloat :=
  (forLoop numInputs
    (fun (s : CFloat × Bool) i =>
      if s.2 then s
      else if CFloat.eq (inputs.getD i default) key then (other, true) else s)
    (start, false)).1

/-- The node function `and`. -/
def and (numInputs : Nat) (inputs : List CFloat) (_connectionWeights : List CFloat) : CFloat :=
  firstHit numInputs inputs CFloat.zero CFloat.one CFloat.zero

/-- The node function `nand`. -/
def nand (numInputs : Nat) (inputs : List CFloat) (_connectionWeights : List CFloat) : CFloat :=
  firstHit numInputs inputs CFloat.zero CFloat.zero CFloat.one

/-- The node function `or`. -/
def or (numInputs : Nat) (inputs : List CFloat) (_connectionWeights : List CFloat) : CFloat :=
  firstHit numInputs inputs CFloat.one CFloat.zero CFloat.one

/-- The node function `nor`. -/
def nor (numInputs : Nat) (inputs : List CFloat) (_connectionWeights : List CFloat) : CFloat :=
  firstHit numInputs inputs CFloat.one CFloat.one CFloat.zero

/-- The loop of `xor` and `xnor`: `numOnes` counts the inputs that are `== 1`, and the loop is
left as soon as `numOnes > 1`.  The state is `numOnes` and whether the loop has been left. -/
def countOnes (numInputs : Nat) (inputs : List CFloat) : Nat :=
  (forLoop numInputs
    (fun (s : Nat × Bool) i =>
      if s.2 then s
      else
        let numOnes := if CFloat.eq (inputs.getD i default) CFloat.one then s.1 + 1 else s.1
        (numOnes, decide (numOnes > 1)))
    (0, false)).1

/-- The node function `xor`; its `int` result is converted to `float`. -/
def xor (numInputs : Nat) (inputs : List CFloat) (_connectionWeights : List CFloat) : CFloat :=
  CFloat.ofNat (if countOnes numInputs inputs = 1 then 1 else 0)

/-- The node function `xnor`; its `int` result is converted to `float`. -/
def xnor (numInputs : Nat) (inputs : List CFloat) (_connectionWeights : List CFloat) : CFloat :=
  CFloat.ofNat (if countOnes numInputs inputs = 1 then 0 else 1)

/-- The node function `not`. -/
def not (_numInputs : Nat) (inputs : List CFloat) (_connectionWeights : List CFloat) : CFloat :=
  if CFloat.eq (inputs.getD 0 default) CFloat.zero then CFloat.one else CFloat.zero

/-! ## The function set (lines 567-662) -/

/-- `FUNCTIONNAMELENGTH`. -/
def FUNCTIONNAMELENGTH : Nat := 512

/-- The C library function `strcpy` into an array of `capacity` chars: the bytes of the source
and the terminating NUL have to fit.  `none` stands for a copy that runs past the array, which C
leaves undefined. -/
def strcpy (capacity : Nat) (source : List Char) : Option (List Char) :=
  if (String.mk source).utf8ByteSize < capacity then some source else none

/-- Lines 653-661 of `addNodeFunctionCustom`: the count goes up by one, and the name as copied
and the function are stored in the last slot in use. -/
def storeNodeFunction (params : parameters) (function : NodeFunction) (name : String) :
    parameters :=
  let numFunctions := params.funcSet.numFunctions + 1
  { params with
    funcSet :=
      { numFunctions := numFunctions
        functionNames := params.funcSet.functionNames.set (numFunctions - 1) name
        functions := params.funcSet.functions.set (numFunctions - 1) function } }

/-- The function `addNodeFunctionCustom`.  The name is copied with `strcpy` into a slot of
`FUNCTIONNAMELENGTH` chars; the result is `none` when the copy runs past the slot. -/
def addNodeFunctionCustom (params : parameters) (function : NodeFunction)
    (functionName : String) : Option parameters :=
  if params.funcSet.numFunctions ≥ FUNCTIONSETSIZE then some params
  else
    match strcpy FUNCTIONNAMELENGTH functionName.data with
    | some name => some (storeNodeFunction params function (String.mk name))
    | none => none

/-- The function `addPresetFuctionToFunctionSet`. -/
def addPresetFuctionToFunctionSet (params : parameters) (functionName : String) :
    Option parameters :=
  if functionName = "add" then addNodeFunctionCustom params add "add"
  else if functionName = "sub" then addNodeFunctionCustom params sub "sub"
  else if functionName = "mul" then addNodeFunctionCustom params mul "mul"
  else if functionName = "div" then addNodeFunctionCustom params divide "div"
  else if functionName = "and" then addNodeFunctionCustom params and "and"
  else if functionName = "nand" then addNodeFunctionCustom params nand "nand"
  else if functionName = "or" then addNodeFunctionCustom params or "or"
  else if functionName = "nor" then addNodeFunctionCustom params nor "nor"
  else if functionName = "xor" then addNodeFunctionCustom params xor "xor"
  else if functionName = "xnor" then addNodeFunctionCustom params xnor "xnor"
  else if functionName = "not" then addNodeFunctionCustom params not "not"
  else some params

/-- The C library function `strtok` with the delimiter `","`, on the characters that are left
to scan: the next token and the characters left after it, or `none` (the `NULL` result) when
only delimiters are left. -/
def strtok (rest : List Char) : Option (List Char × List Char) :=
  match rest.dropWhile (fun c => c == ',') with
  | [] => none
  | c :: cs =>
    some ((c :: cs).takeWhile (fun c => c != ','),
      ((c :: cs).dropWhile (fun c => c != ',')).drop 1)

/-- The loop `while (pch != NULL)` of `addNodeFunction`, entered with the result `pch` of the
last call of `strtok`; `none` also when the loop has not ended after `fuel` runs. -/
def addNodeFunctionLoop : Nat → parameters → Option (List Char × List Char) → Option parameters
  | _, params, none => some params
  | 0, _, some _ => none
  | fuel + 1, params, some pch =>
    match addPresetFuctionToFunctionSet params (String.mk pch.1) with
    | some params1 => addNodeFunctionLoop fuel params1 (strtok pch.2)
    | none => none

/-- The function `addNodeFunction`; `functionNames` holds the characters of the C string.  They
are copied with `strcpy` into the local array `funcNames` of `FUNCTIONNAMELENGTH` chars; the
result is `none` when the copy runs past the array.  Every run of the loop consumes a
character, so `length + 1` runs are allowed. -/
def addNodeFunction (params : parameters) (functionNames : List Char) : Option parameters :=
  match strcpy FUNCTIONNAMELENGTH functionNames with
  | some funcNames => addNodeFunctionLoop (funcNames.length + 1) params (strtok funcNames)
  | none => none

/-! ## Reproduction with the mutation operator as a parameter (lines 929-942) -/

/-- The type of the function pointer `params->mutationType`,
`void f(struct parameters *params, struct chromosome *chromo)`: the chromosome and the
generator after the call, when the call returns. -/
abbrev MutationType :=
  parameters → chromosome → RandState → Except Fault (chromosome × RandState)

/-- The body of the loop of `mutateRandomParent` (lines 936-940), with the function that
`params->mutationType` points to as a parameter. -/
def reproduceChildWith (mutationType : MutationType) (params : parameters)
    (st : population × RandState) (i : Nat) : Except Fault (population × RandState) :=
  match randMod params.mu st.2 with
  | Except.error e => Except.error e
  | Except.ok r =>
    match st.1.children[i]?, st.1.parents[r.1]? with
    | some child, some parent =>
      match mutationType params (copyChromosome params child parent) r.2 with
      | Except.ok m => Except.ok (setChild st.1 i m.1, m.2)
      | Except.error e => Except.error e
    | _, _ => Except.ok (st.1, r.2)

/-- The function `mutateRandomParent`, with the function that `params->mutationType` points to
as a parameter; `mutateRandomParent` is the case of `probabilisticMutation`, the only function
that the pointer is assigned. -/
def mutateRandomParentWith (mutationType : MutationType) (params : parameters)
    (pop : population) (s : RandState) : Except Fault (population × RandState) :=
  forLoopE params.lambda (reproduceChildWith mutationType params) (pop, s)

/-! ## More predicates of the specification -/

/-- The state after the selection step of generation `g` of a run of the generation loop that
starts in the state `st` and does not stop before generation `g`. -/
def afterSelection (fitnessFunction : FitnessFunction) (dat : data) :
    Nat → EvoState → Except Fault EvoState
  | 0, st => selectionStep fitnessFunction dat st
  | g + 1, st =>
    match selectionStep fitnessFunction dat st with
    | Except.error e => Except.error e
    | Except.ok st1 =>
      match reproductionStep st1 with
      | Except.error e => Except.error e
      | Except.ok st2 => afterSelection fitnessFunction dat g st2

/-- The names of a comma-separated list: the runs of characters between the commas (an empty
run counts as an empty name). -/
def splitNames : List Char → List (List Char)
  | [] => [[]]
  | c :: cs =>
    if c = ',' then [] :: splitNames cs
    else
      match splitNames cs with
      | [] => [[c]]
      | t :: ts => (c :: t) :: ts

/-- The built-in node functions by name. -/
def builtinFunctions : List (String × NodeFunction) :=
  [("add", add), ("sub", sub), ("mul", mul), ("div", divide), ("and", and), ("nand", nand),
   ("or", or), ("nor", nor), ("xor", xor), ("xnor", xnor), ("not", not)]

/-- The built-in names: `add`, `sub`, `mul`, `div`, `and`, `nand`, `or`, `nor`, `xor`, `xnor`
and `not`. -/
def builtinNames : List String := builtinFunctions.map (fun b => b.1)

/-- The built-in node function of a name (a constant function for any other name). -/
def builtinFunction (name : String) : NodeFunction :=
  (builtinFunctions.lookup name).getD (fun _ _ _ => CFloat.zero)

/-- The names in use of the function set: the slots `0 .. numFunctions`. -/
def usedNames (params : parameters) : List String :=
  params.funcSet.functionNames.take params.funcSet.numFunctions

/-- The functions in use of the function set: the slots `0 .. numFunctions`. -/
def usedFunctions (params : parameters) : List NodeFunction :=
  params.funcSet.functions.take params.funcSet.numFunctions

/-- The names of a comma-separated list that are built-in names, in the order of the list and
as far as a function set that holds `count` functions has room for them. -/
def namesAdded (count : Nat) (functionNames : List Char) : List String :=
  (((splitNames functionNames).map String.mk).filter (fun n => decide (n ∈ builtinNames))).take
    (FUNCTIONSETSIZE - count)

/-- What `addNodeFunctionCustom` leaves when the name fits its slot: the parameters as they
were when the function set is full, and otherwise with the name and the function stored. -/
def withFunction (params : parameters) (function : NodeFunction) (functionName : String) :
    parameters :=
  if params.funcSet.numFunctions ≥ FUNCTIONSETSIZE then params
  else storeNodeFunction params function functionName

/-- What `addPresetFuctionToFunctionSet` leaves: the parameters with the built-in function of
the name added as far as there is room, and the parameters as they were for any other name. -/
def withPreset (params : parameters) (functionName : String) : parameters :=
  if functionName ∈ builtinNames then withFunction params (builtinFunction functionName)
    functionName
  else params

/-- The string fits an array of `FUNCTIONNAMELENGTH` chars together with its terminating NUL. -/
def NameFits (name : String) : Prop := name.utf8ByteSize < FUNCTIONNAMELENGTH

instance (name : String) : Decidable (NameFits name) := by
  unfold NameFits
  infer_instance

/-- The two parameter structures differ at most in the function set. -/
def SameButFuncSet (p q : parameters) : Prop := q = { p with funcSet := q.funcSet }

/-- The chromosome `c` is the first one of the list `l` with the least fitness: it stands at
some position `k`, every chromosome before it has a greater fitness, and none has a smaller
one. -/
def FittestOf (l : List chromosome) (c : chromosome) : Prop :=
  ∃ k : Nat, l[k]? = some c ∧
    (∀ j : Nat, j < k → ∀ d : chromosome, l[j]? = some d →
      CFloat.lt c.fitness d.fitness = true) ∧
    ∀ d ∈ l, CFloat.le c.fitness d.fitness = true

/-- The absolute value of a float. -/
def CFloat.abs : CFloat → CFloat
  | CFloat.fin k => CFloat.fin (k.natAbs : Int)
  | CFloat.pinf => CFloat.pinf
  | CFloat.ninf => CFloat.pinf
  | CFloat.nan => CFloat.nan

/-- The float is finite: neither an infinity nor not-a-number. -/
def CFloat.isFinite : CFloat → Bool
  | CFloat.fin _ => true
  | _ => false

/-- The output `j` of a chromosome on an input vector: what `executeChromosome` leaves in the
slot `j` of the array `outputs`. -/
def outputOf (params : parameters) (chromo : chromosome) (inputs : List CFloat) (j : Nat) :
    CFloat :=
  (executeChromosome params chromo inputs chromo.outputValues).2.2.getD j default

/-- The expected value `dat->outputData[i][j]`. -/
def expectedOf (dat : data) (i j : Nat) : CFloat := (dat.outputData.getD i []).getD j default

/-- The absolute errors `|output_j(sample i) - expected[i][j]|` of a chromosome on a data set,
sample by sample and, within a sample, output by output. -/
def errorTerms (params : parameters) (chromo : chromosome) (dat : data) : List CFloat :=
  (List.range dat.numSamples).flatMap (fun i =>
    (List.range dat.numOutputs).map (fun j =>
      CFloat.abs (CFloat.sub (outputOf params chromo (dat.inputData.getD i []) j)
        (expectedOf dat i j))))

/-- The sum of the absolute errors, added up in the order of `errorTerms`. -/
def absoluteError (params : parameters) (chromo : chromosome) (dat : data) : CFloat :=
  (errorTerms params chromo dat).foldl CFloat.add CFloat.zero

/-- Every value of the data set is finite. -/
def FiniteData (dat : data) : Prop :=
  (∀ row ∈ dat.inputData, ∀ x ∈ row, CFloat.isFinite x = true) ∧
  ∀ row ∈ dat.outputData, ∀ x ∈ row, CFloat.isFinite x = true

instance (dat : data) : Decidable (FiniteData dat) := by
  unfold FiniteData
  infer_instance

/-- The chromosome `d` differs from `c` at most in the cached outputs of the nodes and in the
contents of the array `outputValues`. -/
def SameButOutputs (c d : chromosome) : Prop :=
  d = { c with nodes := d.nodes, outputValues := d.outputValues } ∧
  d.nodes.map (fun n => (n.function, n.inputs, n.weights, n.active)) =
    c.nodes.map (fun n => (n.function, n.inputs, n.weights, n.active)) ∧
  d.outputValues.length = c.outputValues.length

/-! ## More concrete inputs -/

/-- A chromosome of three nodes over one input whose only output gene addresses the last
node, which reads the two nodes before it in descending order; it is not decoded. -/
def exampleGraph : chromosome :=
  { numInputs := 1, numOutputs := 1, numNodes := 3, numActiveNodes := 0, arity := 2,
    nodes := [⟨0, [0, 0], [CFloat.zero, CFloat.zero], 0, CFloat.zero⟩,
              ⟨0, [0, 0], [CFloat.zero, CFloat.zero], 1, CFloat.zero⟩,
              ⟨0, [2, 1], [CFloat.zero, CFloat.zero], 0, CFloat.zero⟩],
    outputNodes := [3], activeNodes := [7, 7, 7], fitness := CFloat.neg CFloat.one,
    outputValues := [CFloat.zero] }

/-- The data set `exampleData` with the expected output `6`, which the sum of the second
input with itself reaches. -/
def exampleReachableData : data :=
  { numSamples := 1, numInputs := 2, numOutputs := 1,
    inputData := [[CFloat.ofNat 1, CFloat.ofNat 3]], outputData := [[CFloat.ofNat 6]] }

/-- What `evolvePopulation` returns on `exampleParams`, `examplePopulation` and the data set
`exampleReachableData` with the draws `exampleZeroDraws`. -/
def exampleRun : parameters × population × RandState :=
  match evolvePopulation supervisedLearning exampleParams examplePopulation exampleReachableData
    exampleZeroDraws with
  | Except.ok r => r
  | Except.error _ => (exampleParams, examplePopulation, exampleZeroDraws)

/-- The parameters `exampleParams` with a function set that holds no function. -/
def exampleEmptyParams : parameters :=
  { exampleParams with funcSet := ⟨0, [], []⟩ }

/-- The parameters `exampleParams` with the function set as `initialiseParameters` leaves it:
no function in use, and the `FUNCTIONSETSIZE` slots filled with an empty name and a constant
function (C leaves their contents unspecified). -/
def exampleFreshParams : parameters :=
  { exampleParams with
    funcSet := ⟨0, List.replicate FUNCTIONSETSIZE "",
      List.replicate FUNCTIONSETSIZE (fun _ _ _ => CFloat.zero)⟩ }

/-- The parameters `exampleParams` with a full function set: `FUNCTIONSETSIZE` times `add`. -/
def exampleFullParams : parameters :=
  { exampleParams with
    funcSet := ⟨FUNCTIONSETSIZE, List.replicate FUNCTIONSETSIZE "add",
      List.replicate FUNCTIONSETSIZE add⟩ }

/-- A list of names with an unknown name, an empty name and a trailing comma. -/
def exampleNames : List Char := "add,foo,,sub,".data

/-- A population of one parent whose fitness is not-a-number and one child of fitness `1`. -/
def exampleNaNPopulation : population :=
  { mu := 1, lambda := 1, parents := [{ exampleChromosome with fitness := CFloat.nan }],
    children := [{ exampleChromosome with fitness := CFloat.ofNat 1 }],
    trainedGenerations := -1 }

/-- A population of one parent of fitness `2` and one child of fitness `1`. -/
def exampleRankedPopulation : population :=
  { mu := 1, lambda := 1, parents := [{ exampleChromosome with fitness := CFloat.ofNat 2 }],
    children := [{ exampleChromosome with fitness := CFloat.ofNat 1 }],
    trainedGenerations := -1 }

/-- A mutation operator that changes nothing. -/
def exampleNoMutation : MutationType := fun _ chromo s => Except.ok (chromo, s)

/-- What `mutateRandomParent` returns on `exampleParams`, `examplePopulation` and the draws
`exampleRand`, with `probabilisticMutation` as the mutation operator. -/
def exampleOffspring : population × RandState :=
  match mutateRandomParentWith probabilisticMutation exampleParams examplePopulation
    exampleRand with
  | Except.ok r => r
  | Except.error _ => (examplePopulation, exampleRand)

/-- The chromosome `exampleChromosome` with the output gene on the first input: no node is
active. -/
def examplePassThrough : chromosome :=
  { exampleChromosome with outputNodes := [0], numActiveNodes := 0 }

/-- A data set of one sample whose first input and whose expected output are `+inf`. -/
def exampleInfiniteData : data :=
  { numSamples := 1, numInputs := 2, numOutputs := 1,
    inputData := [[CFloat.pinf, CFloat.zero]], outputData := [[CFloat.pinf]] }


/-- A name of 512 characters `a`: with its terminating NUL it does not fit an array of
`FUNCTIONNAMELENGTH` chars. -/
def exampleLongName : String := String.mk (List.replicate FUNCTIONNAMELENGTH 'a')
/-! ## Parameters (lines 402-442, 515-531) -/

/-- The function `initialiseParameters`.  The constant `0.05` is the binary32 value nearest to
`5/100`; the contents of the freshly allocated `nodeInputsHold` and of the slots of the function
set are not specified by C and are taken to be zeros, empty names and a constant function. -/
def initialiseParameters (numInputs numNodes numOutputs arity : Nat) : parameters :=
  { mu := 1
    lambda := 4
    evolutionaryStrategy := '+'
    mutationRate := CFloat.ofSignMag false (5 * 2 ^ 149) 100
    connectionsWeightRange := CFloat.one
    generations := 10000
    updateFrequency := 1000
    arity := arity
    numInputs := numInputs
    numNodes := numNodes
    numOutputs := numOutputs
    funcSet := ⟨0, List.replicate FUNCTIONSETSIZE "",
      List.replicate FUNCTIONSETSIZE (fun _ _ _ => CFloat.zero)⟩
    nodeInputsHold := List.replicate arity CFloat.zero }

/-- The function `getMu`. -/
def getMu (params : parameters) : Nat := params.mu

/-- The function `setMu`; its argument is a C `int` of any sign. -/
def setMu (params : parameters) (mu : Int) : parameters :=
  if mu > 0 then { params with mu := mu.toNat } else params

/-! ## The selection with checked reads of the candidates (lines 952-999) -/

/-- The loop `for(i=0; i<n; i++) s = body(s, i)` whose body may stop the run with a value. -/
def forLoopX {σ ε : Type} (n : Nat) (body : σ → Nat → Except ε σ) (init : σ) : Except ε σ :=
  match n with
  | 0 => Except.ok init
  | k + 1 =>
    match forLoopX k body init with
    | Except.ok s => body s k
    | Except.error e => Except.error e

/-- The read `chromoArray[i]` of an array of chromosomes, checked: an index outside the array
stops the run, and the index is the value of the stop. -/
def readChromosome (chromoArray : List chromosome) (i : Int) : Except Int chromosome :=
  if i < 0 then Except.error i
  else
    match chromoArray[i.toNat]? with
    | some c => Except.ok c
    | none => Except.error i

/-- One step of the loop `for(i=0; i < numChromos-1; i++)` of `sortChromosomeArray` with the
reads `chromoArray[i]` and `chromoArray[i+1]` checked. -/
def sortStepChecked (s : List chromosome × Bool) (i : Nat) :
    Except Int (List chromosome × Bool) :=
  match readChromosome s.1 (Int.ofNat i) with
  | Except.error e => Except.error e
  | Except.ok x =>
    match readChromosome s.1 (Int.ofNat (i + 1)) with
    | Except.error e => Except.error e
    | Except.ok y =>
      Except.ok
        (if CFloat.gt x.fitness y.fitness then ((s.1.set i y).set (i + 1) x, false) else s)

/-- One run of the loop `for(i=0; i < numChromos-1; i++)` of `sortChromosomeArray` with checked
reads, entered with `finished = 1`. -/
def sortPassChecked (numChromos : Nat) (chromoArray : List chromosome) :
    Except Int (List chromosome × Bool) :=
  forLoopX (numChromos - 1) sortStepChecked (chromoArray, true)

/-- The loop `while(finished == 0)` of `sortChromosomeArray` with checked reads, at most `fuel`
passes. -/
def sortLoopChecked (numChromos : Nat) : Nat → List chromosome → Except Int (List chromosome)
  | 0, chromoArray => Except.ok chromoArray
  | fuel + 1, chromoArray =>
    match sortPassChecked numChromos chromoArray with
    | Except.error e => Except.error e
    | Except.ok r => if r.2 then Except.ok r.1 else sortLoopChecked numChromos fuel r.1

/-- The function `sortChromosomeArray` with every read of `chromoArray` checked. -/
def sortChromosomeArrayChecked (chromoArray : List chromosome) (numChromos : Nat) :
    Except Int (List chromosome) :=
  match readChromosome chromoArray 0 with
  | Except.error e => Except.error e
  | Except.ok first =>
    match readChromosome chromoArray (Int.ofNat numChromos - 1) with
    | Except.error e => Except.error e
    | Except.ok last =>
      sortLoopChecked numChromos (sortFuel numChromos)
        ((chromoArray.set 0 last).set (numChromos - 1) first)

/-- The function `pickHighest` with every read of `candidateChromos` checked: the parents and
the candidates after the call, or the first index that is read outside the array. -/
def pickHighestChecked (params : parameters) (parents candidateChromos : List chromosome)
    (numCandidateChromos : Nat) : Except Int (List chromosome × List chromosome) :=
  match sortChromosomeArrayChecked candidateChromos numCandidateChromos with
  | Except.error e => Except.error e
  | Except.ok sorted =>
    match forLoopX params.mu
      (fun ps i =>
        match readChromosome sorted (Int.ofNat i) with
        | Except.error e => Except.error e
        | Except.ok c =>
          match ps[i]? with
          | some p => Except.ok (ps.set i (copyChromosome params p c))
          | none => Except.ok ps) parents with
    | Except.error e => Except.error e
    | Except.ok ps => Except.ok (ps, sorted)

/-! ## Decoding with checked accesses (lines 1150-1204, 1606-1626) -/

/-- The loop `for(i=0; i<n; i++) s = body(s, i)` whose body may fail; a failure ends the run
with `none`. -/
def forLoopO {σ : Type} (n : Nat) (body : σ → Nat → Option σ) (init : σ) : Option σ :=
  match n with
  | 0 => some init
  | k + 1 =>
    match forLoopO k body init with
    | some s => body s k
    | none => none

/-- The function `recursivelySetActiveNodes` with every access checked.  The result is `none`
when the node `nodeIndex - numInputs` is outside `nodes`, when the write
`activeNodes[numActiveNodes] = ...` is outside `activeNodes`, when a connection gene is read
outside `inputs`, or when a call would be nested more than `depth` calls below the call at
which the count starts. -/
def recursivelySetActiveNodesChecked : Nat → chromosome → Nat → Option chromosome
  | 0, chromo, nodeIndex =>
    if nodeIndex < chromo.numInputs then some chromo
    else
      match chromo.nodes[nodeIndex - chromo.numInputs]? with
      | none => none
      | some n =>
        if n.active = 1 then some chromo
        else if chromo.numActiveNodes < chromo.activeNodes.length then
          forLoopO chromo.arity (fun _ _ => none)
            (logActive chromo (nodeIndex - chromo.numInputs))
        else none
  | depth + 1, chromo, nodeIndex =>
    if nodeIndex < chromo.numInputs then some chromo
    else
      match chromo.nodes[nodeIndex - chromo.numInputs]? with
      | none => none
      | some n =>
        if n.active = 1 then some chromo
        else if chromo.numActiveNodes < chromo.activeNodes.length then
          forLoopO chromo.arity
            (fun c i =>
              match n.inputs[i]? with
              | some g => recursivelySetActiveNodesChecked depth c g
              | none => none)
            (logActive chromo (nodeIndex - chromo.numInputs))
        else none

/-- The first loop of `setActiveNodes` with the access `chromo->nodes[i]` checked. -/
def resetActiveChecked (numNodes : Nat) (nodes : List node) : Option (List node) :=
  forLoopO numNodes
    (fun ns i =>
      match ns[i]? with
      | some n => some (ns.set i { n with active := 0 })
      | none => none) nodes

/-- The loop over the output genes of `setActiveNodes` with the access `outputNodes[i]`
checked; the calls of `recursivelySetActiveNodes` may nest `numNodes` calls deep below the call
made here. -/
def markOutputsChecked (chromo : chromosome) : Option chromosome :=
  forLoopO chromo.numOutputs
    (fun c i =>
      match c.outputNodes[i]? with
      | some g =>
        if g < c.numInputs then some c else recursivelySetActiveNodesChecked c.numNodes c g
      | none => none) chromo

/-- One step of the loop of the bubble sorts with the accesses `array[i]` and `array[i+1]`
checked. -/
def bubbleStepChecked {α : Type} (gt : α → α → Bool) (s : List α × Bool) (i : Nat) :
    Option (List α × Bool) :=
  match s.1[i]?, s.1[i + 1]? with
  | some x, some y => some (if gt x y then ((s.1.set i y).set (i + 1) x, false) else s)
  | _, _ => none

/-- One run of the loop `for(i=0; i < length-1; i++)` of the bubble sorts with checked
accesses. -/
def bubblePassChecked {α : Type} (gt : α → α → Bool) (length : Nat) (array : List α) :
    Option (List α × Bool) :=
  forLoopO (length - 1) (bubbleStepChecked gt) (array, true)

/-- The loop `while(finished == 0)` of the bubble sorts with checked accesses; `none` also when
the loop has not ended after `fuel` passes. -/
def bubbleLoopChecked {α : Type} (gt : α → α → Bool) (length : Nat) :
    Nat → List α → Option (List α)
  | 0, _ => none
  | fuel + 1, array =>
    match bubblePassChecked gt length array with
    | some r => if r.2 then some r.1 else bubbleLoopChecked gt length fuel r.1
    | none => none

/-- The function `bubbleSortInt` with checked accesses and at most `sortFuel length` passes. -/
def bubbleSortIntChecked (array : List Nat) (length : Nat) : Option (List Nat) :=
  bubbleLoopChecked (fun a b => decide (a > b)) length (sortFuel length) array

/-- The function `setActiveNodes` with checked accesses, a bounded nesting of the calls of
`recursivelySetActiveNodes` and a bounded number of passes of the sort. -/
def setActiveNodesChecked (chromo : chromosome) : Option chromosome :=
  match resetActiveChecked chromo.numNodes chromo.nodes with
  | none => none
  | some nodes =>
    match markOutputsChecked { chromo with numActiveNodes := 0, nodes := nodes } with
    | none => none
    | some chromo1 =>
      match bubbleSortIntChecked chromo1.activeNodes chromo1.numActiveNodes with
      | none => none
      | some sorted => some { chromo1 with activeNodes := sorted }
/-! ## Predicates of the specification, continued -/

/-- The scratch buffer and the nodes after the first `k` runs of the loop over the active nodes
of `executeChromosome` (lines 1012-1054). -/
def executionState (params : parameters) (chromo : chromosome) (inputs : List CFloat)
    (k : Nat) : List CFloat × List node :=
  forLoop k (executeNode params inputs chromo.activeNodes) (params.nodeInputsHold, chromo.nodes)

/-- Every output gene of the chromosome is an address of the parameters, smaller than
`numInputs + numNodes`, and every function gene is an index of the function set, smaller than
`numFunctions`. -/
def OutputsAndFunctionsInRange (params : parameters) (chromo : chromosome) : Prop :=
  (∀ o ∈ chromo.outputNodes, o < params.numInputs + params.numNodes) ∧
  ∀ n ∈ chromo.nodes, n.function < params.funcSet.numFunctions

instance (params : parameters) (chromo : chromosome) :
    Decidable (OutputsAndFunctionsInRange params chromo) := by
  unfold OutputsAndFunctionsInRange
  infer_instance


/-- The chromosome as `setActiveNodes` enters its loop over the output genes: no node is
flagged and `numActiveNodes` is zero. -/
def resetChromosome (chromo : chromosome) : chromosome :=
  { chromo with numActiveNodes := 0, nodes := resetActive chromo.numNodes chromo.nodes }

/-- The nodes in the order in which `recursivelySetActiveNodes` logs them during
`setActiveNodes`: the active list before it is sorted. -/
def markingLog (chromo : chromosome) : List Nat :=
  activeList (markOutputs (resetChromosome chromo))

/-- Every draw of `rand()` to come is at least `1` and at most `RAND_MAX`, and `RAND_MAX` is
an `int` of 32 bits. -/
def RandState.Positive (s : RandState) : Prop :=
  s.RAND_MAX < 2 ^ 31 ∧ ∀ n, 1 ≤ s.draws n ∧ s.draws n ≤ s.RAND_MAX

/-- A state of `evolvePopulation` with one parent, one child and one candidate, all allocated
and of the dimensions of the parameters `params`, in which the child carries the node genes and
the output genes of the chromosome `g`, the parameters differ from `params` at most in the
contents of the scratch buffer, and no draw to come is `0`. -/
structure CloneState (params : parameters) (g : chromosome) (st : EvoState) : Prop where
  same : SameButHold params st.params
  hold : st.params.nodeInputsHold.length = params.nodeInputsHold.length
  parent : ∃ p, st.pop.parents = [p] ∧ Fits params p ∧ Allocated p
  child : ∃ c, st.pop.children = [c] ∧ Fits params c ∧ Allocated c ∧ genes c = genes g ∧
    c.outputNodes = g.outputNodes
  candidate : ∃ k, st.candidateChromos = [k] ∧ Fits params k ∧ Allocated k
  rng : st.rng.Positive
/-! ## Concrete inputs, continued -/

/-- A vector of three truth values: `1`, `0`, `0`. -/
def exampleBits : List CFloat := [CFloat.one, CFloat.zero, CFloat.zero]

/-- The parameters `exampleParams` with `mu = 2`: under the `,` strategy more parents than
children. -/
def exampleWideParams : parameters := { exampleParams with mu := 2 }


/-- A candidate pool of three chromosomes of the fitness `-1` whose node reads the inputs
`(0, 0)`, `(1, 1)` and `(0, 1)`. -/
def exampleTiedPool : List chromosome :=
  [{ exampleChromosome with
      nodes := [⟨0, [0, 0], [CFloat.zero, CFloat.zero], 1, CFloat.zero⟩] },
   { exampleChromosome with
      nodes := [⟨0, [1, 1], [CFloat.zero, CFloat.zero], 1, CFloat.zero⟩] },
   exampleChromosome]

/-- A chromosome like `exampleChromosome` whose node reads the input `1` twice. -/
def exampleNewBlood : chromosome :=
  { exampleChromosome with
    nodes := [⟨0, [1, 1], [CFloat.zero, CFloat.zero], 1, CFloat.zero⟩] }

/-- A population of the parent `exampleChromosome` and the child `exampleNewBlood`. -/
def exampleTiePopulation : population :=
  { mu := 1, lambda := 1, parents := [exampleChromosome], children := [exampleNewBlood],
    trainedGenerations := -1 }

/-- A chromosome of one input and two nodes that violates the acyclicity invariant: the node
`0` reads the node `1` and the input, the node `1` reads the node `0` and itself, and the
output gene is the node `1`. -/
def exampleCycle : chromosome :=
  { numInputs := 1, numOutputs := 1, numNodes := 2, numActiveNodes := 0, arity := 2,
    nodes := [⟨0, [2, 0], [CFloat.zero, CFloat.zero], 0, CFloat.zero⟩,
              ⟨0, [1, 2], [CFloat.zero, CFloat.zero], 0, CFloat.zero⟩],
    outputNodes := [2], activeNodes := [0, 0], fitness := CFloat.zero,
    outputValues := [CFloat.zero] }

/-- A generator with `RAND_MAX = 32767` whose draws are `1, 2, 3, 4, 5, 1, 2, ...`: `rand()`
never returns `0`. -/
def examplePositiveDraws : RandState := ⟨32767, fun n => n % 5 + 1⟩
/-! ## Loops -/

theorem forLoop_induction {σ : Type} (P : Nat → σ → Prop) (n : Nat) (body : σ → Nat → σ)
    (init : σ) (h0 : P 0 init) (hstep : ∀ k s, k < n → P k s → P (k + 1) (body s k)) :
    P n (forLoop n body init) := by
  induction n with
  | zero => exact h0
  | succ m ih =>
    simp only [forLoop]
    exact hstep m _ (Nat.lt_succ_self m)
      (ih (fun k s hk hP => hstep k s (Nat.lt_succ_of_lt hk) hP))

theorem forLoopE_ok {σ : Type} (P : Nat → σ → Prop) (n : Nat)
    (body : σ → Nat → Except Fault σ) (init : σ) (h0 : P 0 init)
    (hstep : ∀ k s, k < n → P k s → ∃ t, body s k = Except.ok t ∧ P (k + 1) t) :
    ∃ t, forLoopE n body init = Except.ok t ∧ P n t := by
  induction n with
  | zero => exact ⟨init, rfl, h0⟩
  | succ m ih =>
    obtain ⟨t, ht, hP⟩ := ih (fun k s hk hP => hstep k s (Nat.lt_succ_of_lt hk) hP)
    obtain ⟨u, hu, hQ⟩ := hstep m t (Nat.lt_succ_self m) hP
    refine ⟨u, ?_, hQ⟩
    simp only [forLoopE, ht, hu]

/-! ## Random genes -/

theorem randMod_ok (n : Nat) (s : RandState) (h : 0 < n) :
    ∃ r, randMod n s = Except.ok r ∧ r.1 < n := by
  refine ⟨((rand s).1 % n, (rand s).2), ?_, Nat.mod_lt _ h⟩
  simp [randMod, Nat.pos_iff_ne_zero.mp h]

theorem getRandomFunction_ok (params : parameters) (s : RandState)
    (h : 1 ≤ params.funcSet.numFunctions) :
    ∃ r, getRandomFunction params s = Except.ok r ∧ r.1 < params.funcSet.numFunctions := by
  obtain ⟨r, hr, hlt⟩ := randMod_ok params.funcSet.numFunctions s h
  refine ⟨r, ?_, hlt⟩
  simp [getRandomFunction, hr, Nat.not_lt.mpr h]

theorem initialiseNode_ok (params : parameters) (nodePosition : Nat) (s : RandState)
    (hI : 1 ≤ params.numInputs) (hF : 1 ≤ params.funcSet.numFunctions) :
    ∃ r, initialiseNode params nodePosition s = Except.ok r ∧
      r.1.function < params.funcSet.numFunctions ∧
      r.1.inputs.length = params.arity ∧ r.1.weights.length = params.arity ∧
      ∀ c ∈ r.1.inputs, c < params.numInputs + nodePosition := by
  obtain ⟨f, hf, hflt⟩ := getRandomFunction_ok params s hF
  obtain ⟨g, hg, hlen, hwlen, hin⟩ := forLoopE_ok
    (fun k (st : List Nat × List CFloat × RandState) =>
      st.1.length = k ∧ st.2.1.length = k ∧ ∀ c ∈ st.1, c < params.numInputs + nodePosition)
    params.arity
    (fun (st : List Nat × List CFloat × RandState) _ => do
      let c ← getRandomNodeInput params nodePosition st.2.2
      let w := getRandomConnectionWeight params c.2
      pure (st.1 ++ [c.1], st.2.1 ++ [w.1], w.2))
    ([], [], f.2) (by simp)
    (by
      intro k st _ hP
      obtain ⟨c, hc, hclt⟩ := randMod_ok (params.numInputs + nodePosition) st.2.2 (by omega)
      simp only [getRandomNodeInput, hc, bind, Except.bind, pure, Except.pure]
      refine ⟨_, rfl, by simp [hP.1], by simp [hP.2.1], ?_⟩
      intro x hx
      rcases List.mem_append.mp hx with hx | hx
      · exact hP.2.2 x hx
      · simp at hx
        omega)
  simp only [bind, Except.bind, pure, Except.pure] at hg
  simp only [initialiseNode, hf, hg, bind, Except.bind, pure, Except.pure]
  exact ⟨_, rfl, hflt, hlen, hwlen, hin⟩

/-! ## The marking of the active nodes -/

theorem SameGenes.refl (c : chromosome) : SameGenes c c :=
  ⟨rfl, rfl, rfl, rfl, rfl, rfl, rfl, rfl, rfl⟩

theorem SameGenes.trans {a b c : chromosome} (h1 : SameGenes a b) (h2 : SameGenes b c) :
    SameGenes a c :=
  ⟨h2.numInputs.trans h1.numInputs, h2.numOutputs.trans h1.numOutputs,
    h2.numNodes.trans h1.numNodes, h2.arity.trans h1.arity,
    h2.outputNodes.trans h1.outputNodes, h2.fitness.trans h1.fitness,
    h2.outputValues.trans h1.outputValues, h2.nodes.trans h1.nodes,
    h2.activeLength.trans h1.activeLength⟩

theorem SameGenes.length {c d : chromosome} (h : SameGenes c d) :
    d.nodes.length = c.nodes.length := by
  simpa using congrArg List.length h.nodes

theorem SameGenes.conn {c d : chromosome} (h : SameGenes c d) :
    d.nodes.map (fun n => n.inputs) = c.nodes.map (fun n => n.inputs) := by
  have := congrArg (List.map (fun n : node => n.inputs)) h.nodes
  simpa [List.map_map, Function.comp_def] using this

theorem modifyNode_length (nodes : List node) (i : Nat) (f : node → node) :
    (modifyNode nodes i f).length = nodes.length := by
  unfold modifyNode
  split <;> simp

theorem modifyNode_getElem? (nodes : List node) (i j : Nat) (f : node → node) :
    (modifyNode nodes i f)[j]? = if j = i then nodes[j]?.map f else nodes[j]? := by
  unfold modifyNode
  split
  · rename_i n hn
    by_cases hji : j = i
    · subst hji
      have hlt : j < nodes.length := (List.getElem?_eq_some_iff.mp hn).1
      simp [hn, hlt]
    · simp [hji, List.getElem?_set_ne (Ne.symm hji)]
  · rename_i hn
    by_cases hji : j = i
    · subst hji
      simp [hn]
    · simp [hji]

theorem modifyNode_map (nodes : List node) (i : Nat) (f : node → node) {β : Type}
    (g : node → β) (h : ∀ n, g (f n) = g n) :
    (modifyNode nodes i f).map g = nodes.map g := by
  apply List.ext_getElem?
  intro j
  simp only [List.getElem?_map, modifyNode_getElem?]
  split
  · cases nodes[j]? <;> simp [h]
  · rfl

theorem logActive_same (c : chromosome) (idx : Nat) : SameGenes c (logActive c idx) :=
  ⟨rfl, rfl, rfl, rfl, rfl, rfl, rfl, modifyNode_map _ _ _ _ (fun _ => rfl), by
    simp [logActive]⟩

theorem logActive_flagged (c : chromosome) (idx : Nat) (i : Nat) (h : idx < c.nodes.length) :
    flagged (logActive c idx) i ↔ flagged c i ∨ i = idx := by
  unfold flagged
  simp only [logActive, modifyNode_getElem?]
  by_cases hi : i = idx
  · subst hi
    simp [List.getElem?_eq_getElem h]
  · simp [hi]

theorem nodup_length_le (l : List Nat) (n : Nat) (hd : l.Nodup) (h : ∀ x ∈ l, x < n) :
    l.length ≤ n := by
  have := (List.subperm_of_subset hd (fun x hx => List.mem_range.mpr (h x hx))).length_le
  simpa using this

theorem flagged_lt {c : chromosome} {i : Nat} (h : flagged c i) : i < c.nodes.length := by
  obtain ⟨n, hn, _⟩ := h
  exact (List.getElem?_eq_some_iff.mp hn).1

theorem activeList_length {c : chromosome} (h : MarkInv c) :
    (activeList c).length = c.numActiveNodes := by
  simp [activeList, h.le]

theorem MarkInv.room {c : chromosome} (h : MarkInv c) {idx : Nat} (hidx : idx < c.nodes.length)
    (hnot : ¬ flagged c idx) : c.numActiveNodes < c.nodes.length := by
  have hd : (idx :: activeList c).Nodup :=
    List.nodup_cons.mpr ⟨fun hm => hnot ((h.mem idx).mp hm), h.nodup⟩
  have hl := nodup_length_le (idx :: activeList c) c.nodes.length hd (by
    intro x hx
    rcases List.mem_cons.mp hx with hx | hx
    · exact hx ▸ hidx
    · exact flagged_lt ((h.mem x).mp hx))
  simp only [List.length_cons, activeList_length h] at hl
  omega

theorem take_set_of_le {α : Type} (l : List α) (a : α) {n m : Nat} (h : m ≤ n) :
    (l.set n a).take m = l.take m := by
  rw [List.set_take]
  exact List.set_eq_of_length_le (by simp; omega)

theorem logActive_activeList {c : chromosome} (idx : Nat)
    (hk : c.numActiveNodes < c.activeNodes.length) :
    activeList (logActive c idx) = activeList c ++ [idx] := by
  simp only [activeList, logActive, List.take_succ, List.getElem?_set_self hk,
    Option.toList_some]
  rw [take_set_of_le _ _ (Nat.le_refl _)]

theorem logActive_inv {c : chromosome} (h : MarkInv c) {idx : Nat}
    (hidx : idx < c.nodes.length) (hnot : ¬ flagged c idx) : MarkInv (logActive c idx) := by
  have hroom := h.room hidx hnot
  have hk : c.numActiveNodes < c.activeNodes.length := h.length ▸ hroom
  have hal := logActive_activeList idx hk
  refine ⟨?_, ?_, ?_, ?_⟩
  · rw [hal]
    refine List.Nodup.append h.nodup (List.nodup_singleton idx) ?_
    intro x hx hx2
    rw [List.mem_singleton] at hx2
    exact hnot ((h.mem idx).mp (hx2 ▸ hx))
  · intro i
    rw [hal, logActive_flagged c idx i hidx, List.mem_append, List.mem_singleton, h.mem i]
  · simp only [logActive, List.length_set]
    omega
  · simp only [logActive, List.length_set, modifyNode_length]
    exact h.length

theorem MarkPost.of_unchanged (numInputs arity : Nat) (conn : List (List Nat))
    (c : chromosome) (v : Nat) (hinv : MarkInv c)
    (ht : numInputs ≤ v → flagged c (v - numInputs)) : MarkPost numInputs arity conn c c v :=
  ⟨SameGenes.refl c, hinv, fun _ h => h, Nat.le_refl _, ht,
    fun _ h hn => absurd h hn, fun _ h hn => absurd h hn⟩

theorem MarkLoop.step {numInputs arity : Nat} {conn : List (List Nat)} {c : chromosome}
    {idx : Nat} {genes : List Nat} {j : Nat} {d e : chromosome}
    (hL : MarkLoop numInputs arity conn c idx genes j d)
    (hP : MarkPost numInputs arity conn d e (genes.getD j 0))
    (hedge : numInputs ≤ genes.getD j 0 →
      edge numInputs arity conn idx (genes.getD j 0 - numInputs)) :
    MarkLoop numInputs arity conn c idx genes (j + 1) e := by
  refine ⟨hL.same.trans hP.same, hP.inv, fun i h => hP.mono i (hL.mono i h),
    Nat.le_trans hL.count hP.count, ?_, ?_, ?_⟩
  · intro k hk hge
    rcases Nat.lt_succ_iff_lt_or_eq.mp hk with hk | hk
    · exact hP.mono _ (hL.targets k hk hge)
    · subst hk
      exact hP.target hge
  · intro i hi hn k hk
    by_cases hd : flagged d i
    · exact hP.mono _ (hL.closed i hd hn k hk)
    · exact hP.closed i hi hd k hk
  · intro i hi hn
    by_cases hd : flagged d i
    · exact hL.sound i hd hn
    · obtain ⟨hge, hr⟩ := hP.sound i hi hd
      exact Relation.ReflTransGen.head (hedge hge) hr

theorem recursivelySetActiveNodes_post (numInputs arity : Nat) (conn : List (List Nat))
    (hlen : ∀ l ∈ conn, l.length = arity)
    (hrange : ∀ l ∈ conn, ∀ g ∈ l, g < numInputs + conn.length) :
    ∀ (fuel : Nat) (c : chromosome) (v : Nat), c.numInputs = numInputs → c.arity = arity →
      c.nodes.map (fun n => n.inputs) = conn → MarkInv c → v < numInputs + conn.length →
      conn.length - c.numActiveNodes < fuel →
      MarkPost numInputs arity conn c (recursivelySetActiveNodes fuel c v) v := by
  intro fuel
  induction fuel with
  | zero =>
    intro c v _ _ _ _ _ hf
    omega
  | succ fuel ih =>
    intro c v hI ha hconn hinv hv hf
    have hnl : c.nodes.length = conn.length := by rw [← hconn]; simp
    simp only [recursivelySetActiveNodes, hI, ha]
    split
    · rename_i hlt
      exact MarkPost.of_unchanged _ _ _ c v hinv (fun h => absurd hlt (Nat.not_lt.mpr h))
    · rename_i hge
      have hge : numInputs ≤ v := Nat.le_of_not_lt hge
      have hidx : v - numInputs < c.nodes.length := by omega
      split
      · rename_i hnone
        rw [List.getElem?_eq_getElem hidx] at hnone
        exact absurd hnone (by simp)
      · rename_i n hn
        split
        · rename_i hact
          exact MarkPost.of_unchanged _ _ _ c v hinv (fun _ => ⟨n, hn, hact⟩)
        · rename_i hact
          have hnot : ¬ flagged c (v - numInputs) := by
            rintro ⟨m, hm, hm1⟩
            rw [hn] at hm
            cases hm
            exact hact hm1
          have hroom := hinv.room hidx hnot
          have hinv1 := logActive_inv hinv hidx hnot
          have hsame1 := logActive_same c (v - numInputs)
          have hcn : conn[v - numInputs]? = some n.inputs := by
            rw [← hconn, List.getElem?_map, hn]
            rfl
          have hnmem : n.inputs ∈ conn := List.mem_iff_getElem?.mpr ⟨_, hcn⟩
          have hL : MarkLoop numInputs arity conn (logActive c (v - numInputs))
              (v - numInputs) n.inputs arity
              (forLoop arity (fun c i => recursivelySetActiveNodes fuel c (n.inputs.getD i 0))
                (logActive c (v - numInputs))) := by
            apply forLoop_induction
              (MarkLoop numInputs arity conn (logActive c (v - numInputs)) (v - numInputs)
                n.inputs)
            · exact ⟨SameGenes.refl _, hinv1, fun _ h => h, Nat.le_refl _,
                fun k hk => absurd hk (Nat.not_lt_zero k), fun _ h hn => absurd h hn,
                fun _ h hn => absurd h hn⟩
            · intro j d hj hLd
              have hg : n.inputs.getD j 0 ∈ n.inputs := by
                have hjl : j < n.inputs.length := by rw [hlen _ hnmem]; exact hj
                simp [List.getD_eq_getElem?_getD, List.getElem?_eq_getElem hjl]
              have hsd := hsame1.trans hLd.same
              have hcount : c.numActiveNodes + 1 ≤ d.numActiveNodes := hLd.count
              refine hLd.step (ih d _ (hsd.numInputs.trans hI) (hsd.arity.trans ha)
                (hsd.conn.trans hconn) hLd.inv (hrange _ hnmem _ hg) (by omega)) ?_
              intro hge2
              exact ⟨n.inputs, hcn, j, hj, by omega⟩
          refine ⟨hsame1.trans hL.same, hL.inv, ?_, ?_, ?_, ?_, ?_⟩
          · intro i hi
            exact hL.mono i ((logActive_flagged c _ i hidx).mpr (Or.inl hi))
          · have : c.numActiveNodes + 1 ≤ _ := hL.count
            omega
          · intro _
            exact hL.mono _ ((logActive_flagged c _ _ hidx).mpr (Or.inr rfl))
          · intro i hi hn2 k hk
            by_cases hii : i = v - numInputs
            · subst hii
              obtain ⟨l, hl, j, hj, hjk⟩ := hk
              rw [hcn] at hl
              cases hl
              have := hL.targets j hj (by omega)
              rwa [hjk, Nat.add_sub_cancel_left] at this
            · refine hL.closed i hi ?_ k hk
              rw [logActive_flagged c _ i hidx]
              rintro (h | h)
              · exact hn2 h
              · exact hii h
          · intro i hi hn2
            refine ⟨hge, ?_⟩
            by_cases hii : i = v - numInputs
            · subst hii
              exact Relation.ReflTransGen.refl
            · refine hL.sound i hi ?_
              rw [logActive_flagged c _ i hidx]
              rintro (h | h)
              · exact hn2 h
              · exact hii h

/-! ## The bubble sorts -/

theorem swap_split {α : Type} (a : List α) (i : Nat) (x y : α) (hx : a[i]? = some x)
    (hy : a[i + 1]? = some y) :
    ∃ A B, A.length = i ∧ a = A ++ x :: y :: B ∧
      (a.set i y).set (i + 1) x = A ++ y :: x :: B := by
  obtain ⟨h1, hx1⟩ := List.getElem?_eq_some_iff.mp hx
  obtain ⟨h2, hy1⟩ := List.getElem?_eq_some_iff.mp hy
  have hA : (a.take i).length = i := by simp; omega
  have hsplit : a = a.take i ++ x :: y :: a.drop (i + 2) := by
    conv_lhs => rw [← List.take_append_drop i a]
    rw [List.drop_eq_getElem_cons h1, List.drop_eq_getElem_cons h2, hx1, hy1]
  refine ⟨a.take i, a.drop (i + 2), hA, hsplit, ?_⟩
  conv_lhs => rw [hsplit]
  rw [List.set_append_right _ _ (by omega), List.set_append_right _ _ (by simp [hA])]
  have : i + 1 - i = 1 := by omega
  simp [hA, this]

theorem inversions_swap {α : Type} (gt : α → α → Bool)
    (hasym : ∀ x y, gt x y = true → gt y x = false) (A B : List α) (x y : α)
    (h : gt x y = true) :
    inversions gt (A ++ x :: y :: B) = inversions gt (A ++ y :: x :: B) + 1 := by
  induction A with
  | nil =>
    simp only [List.nil_append, inversions, List.countP_cons, h, hasym x y h]
    simp
    omega
  | cons p A ih =>
    have hc : (A ++ x :: y :: B).countP (fun z => gt p z) =
        (A ++ y :: x :: B).countP (fun z => gt p z) :=
      List.Perm.countP_eq _ (List.Perm.append_left _ (List.Perm.swap _ _ _))
    show (A ++ x :: y :: B).countP (fun z => gt p z) + inversions gt (A ++ x :: y :: B) =
      (A ++ y :: x :: B).countP (fun z => gt p z) + inversions gt (A ++ y :: x :: B) + 1
    rw [ih, hc]
    omega

theorem inversions_le {α : Type} (gt : α → α → Bool) (l : List α) :
    inversions gt l ≤ l.length * l.length := by
  induction l with
  | nil => simp [inversions]
  | cons x l ih =>
    have := List.countP_le_length (fun y => gt x y) (l := l)
    simp only [inversions, List.length_cons]
    nlinarith

theorem bubbleStep_spec {α : Type} (gt : α → α → Bool)
    (hasym : ∀ x y, gt x y = true → gt y x = false) (n i : Nat) (hi : i + 1 < n)
    (a : List α) (f : Bool) :
    (bubbleStep gt (a, f) i).1.length = a.length ∧
    ((bubbleStep gt (a, f) i).1.take n).Perm (a.take n) ∧
    (bubbleStep gt (a, f) i).1.drop n = a.drop n ∧
    ((bubbleStep gt (a, f) i = (a, f) ∧
        ∀ x y, a[i]? = some x → a[i + 1]? = some y → gt x y = false) ∨
      ((bubbleStep gt (a, f) i).2 = false ∧
        inversions gt ((bubbleStep gt (a, f) i).1.take n) + 1 = inversions gt (a.take n))) := by
  unfold bubbleStep
  simp only
  split
  · rename_i x y hx hy
    split
    · rename_i hgt
      obtain ⟨A, B, hA, ha, hs⟩ := swap_split a i x y hx hy
      have hn : n = A.length + (n - i - 2 + 2) := by omega
      refine ⟨by simp, ?_, ?_, Or.inr ⟨rfl, ?_⟩⟩
      · simp only [hs]
        rw [ha, hn, List.take_append, List.take_append]
        simp only [List.take_succ_cons]
        exact List.Perm.append_left _ (List.Perm.swap _ _ _)
      · simp only [hs]
        rw [ha, hn, List.drop_append, List.drop_append]
        simp
      · simp only [hs]
        rw [ha, hn, List.take_append, List.take_append]
        simp only [List.take_succ_cons]
        exact (inversions_swap gt hasym A _ x y hgt).symm
    · rename_i hgt
      refine ⟨rfl, List.Perm.refl _, rfl, Or.inl ⟨rfl, ?_⟩⟩
      intro x1 y1 hx1 hy1
      rw [hx] at hx1
      rw [hy] at hy1
      cases hx1
      cases hy1
      simpa using hgt
  · rename_i hnone
    refine ⟨rfl, List.Perm.refl _, rfl, Or.inl ⟨rfl, ?_⟩⟩
    intro x y hx hy
    exact absurd hy (by
      intro hy
      exact hnone x y hx hy)

theorem bubblePass_spec {α : Type} (gt : α → α → Bool)
    (hasym : ∀ x y, gt x y = true → gt y x = false) (n : Nat) (a : List α) :
    (bubblePass gt n a).1.length = a.length ∧
    ((bubblePass gt n a).1.take n).Perm (a.take n) ∧
    (bubblePass gt n a).1.drop n = a.drop n ∧
    ((bubblePass gt n a).2 = true → (bubblePass gt n a).1 = a ∧ Adjacent gt n a) ∧
    ((bubblePass gt n a).2 = false →
      inversions gt ((bubblePass gt n a).1.take n) < inversions gt (a.take n)) := by
  have key := forLoop_induction
    (fun k (s : List α × Bool) =>
      s.1.length = a.length ∧ (s.1.take n).Perm (a.take n) ∧ s.1.drop n = a.drop n ∧
      inversions gt (s.1.take n) ≤ inversions gt (a.take n) ∧
      (s.2 = true → s.1 = a ∧
        ∀ i, i < k → ∀ x y, a[i]? = some x → a[i + 1]? = some y → gt x y = false) ∧
      (s.2 = false → inversions gt (s.1.take n) < inversions gt (a.take n)))
    (n - 1) (bubbleStep gt) (a, true)
    ⟨rfl, List.Perm.refl _, rfl, Nat.le_refl _,
      fun _ => ⟨rfl, fun i hi => absurd hi (Nat.not_lt_zero i)⟩, fun h => by simp at h⟩
    (by
      rintro k ⟨l, f⟩ hk ⟨h1, h2, h3, h4, h5, h6⟩
      obtain ⟨s1, s2, s3, s4⟩ := bubbleStep_spec gt hasym n k (by omega) l f
      simp only at h1 h2 h3 h4 h5 h6
      refine ⟨s1.trans h1, s2.trans h2, s3.trans h3, ?_, ?_, ?_⟩
      · rcases s4 with ⟨he, _⟩ | ⟨_, hinv⟩
        · rw [he]
          exact h4
        · omega
      · intro hf
        rcases s4 with ⟨he, hadj⟩ | ⟨hfalse, _⟩
        · rw [he] at hf ⊢
          obtain ⟨hla, hprev⟩ := h5 hf
          refine ⟨hla, ?_⟩
          intro i hi
          rcases Nat.lt_succ_iff_lt_or_eq.mp hi with hi | hi
          · exact hprev i hi
          · subst hi
            subst hla
            exact hadj
        · rw [hfalse] at hf
          exact absurd hf (by simp)
      · intro hf
        rcases s4 with ⟨he, _⟩ | ⟨_, hinv⟩
        · rw [he] at hf ⊢
          exact h6 hf
        · omega)
  obtain ⟨h1, h2, h3, _, h5, h6⟩ := key
  refine ⟨h1, h2, h3, ?_, h6⟩
  intro hf
  obtain ⟨hla, hadj⟩ := h5 hf
  exact ⟨hla, fun i hi => hadj i (by omega)⟩

theorem bubbleLoop_spec {α : Type} (gt : α → α → Bool)
    (hasym : ∀ x y, gt x y = true → gt y x = false) (n : Nat) :
    ∀ (fuel : Nat) (a : List α), inversions gt (a.take n) < fuel →
      (bubbleLoop gt n fuel a).length = a.length ∧
      ((bubbleLoop gt n fuel a).take n).Perm (a.take n) ∧
      (bubbleLoop gt n fuel a).drop n = a.drop n ∧
      Adjacent gt n (bubbleLoop gt n fuel a) := by
  intro fuel
  induction fuel with
  | zero =>
    intro a h
    omega
  | succ fuel ih =>
    intro a h
    obtain ⟨h1, h2, h3, h4, h5⟩ := bubblePass_spec gt hasym n a
    simp only [bubbleLoop]
    split
    · rename_i hf
      obtain ⟨hla, hadj⟩ := h4 hf
      rw [hla]
      exact ⟨rfl, List.Perm.refl _, rfl, hadj⟩
    · rename_i hf
      have hf : (bubblePass gt n a).2 = false := by simpa using hf
      obtain ⟨i1, i2, i3, i4⟩ := ih (bubblePass gt n a).1 (by have := h5 hf; omega)
      exact ⟨i1.trans h1, i2.trans h2, i3.trans h3, i4⟩

theorem sortFuel_enough {α : Type} (gt : α → α → Bool) (n : Nat) (a : List α) :
    inversions gt (a.take n) < sortFuel n := by
  have h := inversions_le gt (a.take n)
  have hl : (a.take n).length ≤ n := by simp
  have := Nat.mul_le_mul hl hl
  unfold sortFuel
  omega

theorem Adjacent.chain {α : Type} {gt : α → α → Bool} {n : Nat} {a : List α}
    (h : Adjacent gt n a) : (a.take n).Chain' (fun x y => gt x y = false) := by
  rw [List.chain'_iff_get]
  intro i hi
  have hlen : (a.take n).length ≤ n := by simp
  have h1 : i < (a.take n).length := by omega
  have h2 : i + 1 < (a.take n).length := by omega
  refine h i (by omega) _ _ ?_ ?_
  · rw [← List.getElem?_take_of_lt (show i < n by omega), List.getElem?_eq_getElem h1]
    rfl
  · rw [← List.getElem?_take_of_lt (show i + 1 < n by omega), List.getElem?_eq_getElem h2]
    rfl

theorem bubbleSortInt_spec (a : List Nat) (n : Nat) :
    (bubbleSortInt a n).length = a.length ∧
    ((bubbleSortInt a n).take n).Perm (a.take n) ∧
    (bubbleSortInt a n).drop n = a.drop n ∧
    ((bubbleSortInt a n).take n).Sorted (· ≤ ·) := by
  obtain ⟨h1, h2, h3, h4⟩ := bubbleLoop_spec (fun a b : Nat => decide (a > b))
    (by intro x y h; simp at h ⊢; omega) n (sortFuel n) a (sortFuel_enough _ n a)
  refine ⟨h1, h2, h3, ?_⟩
  have hc := h4.chain
  have hc2 : ((bubbleSortInt a n).take n).Chain' (· ≤ ·) := by
    refine List.Chain'.imp ?_ hc
    intro x y hxy
    simpa using hxy
  exact List.chain'_iff_pairwise.mp hc2

/-! ## `setActiveNodes` -/

theorem resetActive_getElem? (nodes : List node) (k j : Nat) :
    (resetActive k nodes)[j]? =
      if j < k then nodes[j]?.map (fun n => { n with active := 0 }) else nodes[j]? := by
  induction k with
  | zero => simp [resetActive, forLoop]
  | succ k ih =>
    have hstep : resetActive (k + 1) nodes =
        modifyNode (resetActive k nodes) k (fun n => { n with active := 0 }) := rfl
    rw [hstep, modifyNode_getElem?, ih]
    by_cases hjk : j = k
    · subst hjk
      simp
    · by_cases hlt : j < k
      · simp [hjk, hlt, Nat.lt_succ_of_lt hlt]
      · have : ¬ j < k + 1 := by omega
        simp [hjk, hlt, this]

theorem resetActive_map (nodes : List node) (k : Nat) {β : Type} (g : node → β)
    (h : ∀ n : node, g { n with active := 0 } = g n) :
    (resetActive k nodes).map g = nodes.map g := by
  apply List.ext_getElem?
  intro j
  simp only [List.getElem?_map, resetActive_getElem?]
  split
  · cases nodes[j]? <;> simp [h]
  · rfl

theorem edge_of_gene {chromo : chromosome} {i c : Nat} {n : node}
    (hn : chromo.nodes[i]? = some n) (hc : c ∈ n.inputs) (hge : chromo.numInputs ≤ c)
    (hlen : n.inputs.length = chromo.arity) :
    edge chromo.numInputs chromo.arity (chromo.nodes.map (fun n => n.inputs)) i
      (c - chromo.numInputs) := by
  obtain ⟨j, hj, hjc⟩ := List.mem_iff_getElem.mp hc
  refine ⟨n.inputs, by simp [hn], j, hlen ▸ hj, ?_⟩
  simp [List.getD_eq_getElem?_getD, List.getElem?_eq_getElem hj, hjc]
  omega

theorem gene_of_edge {chromo : chromosome} {i k : Nat}
    (hlen : ∀ n ∈ chromo.nodes, n.inputs.length = chromo.arity)
    (he : edge chromo.numInputs chromo.arity (chromo.nodes.map (fun n => n.inputs)) i k) :
    ∃ n, chromo.nodes[i]? = some n ∧ (chromo.numInputs + k) ∈ n.inputs := by
  obtain ⟨l, hl, j, hj, hjk⟩ := he
  rw [List.getElem?_map] at hl
  cases hn : chromo.nodes[i]? with
  | none => simp [hn] at hl
  | some n =>
    simp only [hn, Option.map_some', Option.some.injEq] at hl
    subst hl
    refine ⟨n, rfl, ?_⟩
    have hjl : j < n.inputs.length := by
      rw [hlen n (List.mem_iff_getElem?.mpr ⟨i, hn⟩)]
      exact hj
    rw [← hjk]
    simp [List.getD_eq_getElem?_getD, List.getElem?_eq_getElem hjl]

theorem reachable_of_edges {chromo : chromosome}
    (hlen : ∀ n ∈ chromo.nodes, n.inputs.length = chromo.arity) {i k : Nat}
    (hr : Relation.ReflTransGen
      (edge chromo.numInputs chromo.arity (chromo.nodes.map (fun n => n.inputs))) i k)
    (hi : Reachable chromo i) : Reachable chromo k := by
  induction hr with
  | refl => exact hi
  | tail _ he ih =>
    obtain ⟨n, hn, hmem⟩ := gene_of_edge hlen he
    have := Reachable.connection ih hn hmem (Nat.le_add_right _ _)
    simpa using this

theorem markOutputs_spec (chromo c0 : chromosome) (hA : Allocated chromo)
    (hR : GenesInRange chromo) (hs : SameGenes chromo c0) (hinv : MarkInv c0)
    (hnone : ∀ i, ¬ flagged c0 i) :
    SameGenes chromo (markOutputs c0) ∧ MarkInv (markOutputs c0) ∧
    ∀ i, flagged (markOutputs c0) i ↔ Reachable chromo i := by
  obtain ⟨hAn, hAl, hAo, hAa, _⟩ := hA
  have hlen : ∀ n ∈ chromo.nodes, n.inputs.length = chromo.arity := fun n hn => (hAl n hn).1
  have hconnlen : (chromo.nodes.map (fun n => n.inputs)).length = chromo.numNodes := by
    simp [hAn]
  have key := forLoop_induction
    (fun k (d : chromosome) =>
      SameGenes chromo d ∧ MarkInv d ∧ (∀ i, flagged d i → Reachable chromo i) ∧
      (∀ i, flagged d i → ∀ j,
        edge chromo.numInputs chromo.arity (chromo.nodes.map (fun n => n.inputs)) i j →
        flagged d j) ∧
      (∀ j, j < k → chromo.numInputs ≤ chromo.outputNodes.getD j 0 →
        flagged d (chromo.outputNodes.getD j 0 - chromo.numInputs)))
    c0.numOutputs
    (fun c i =>
      if c.outputNodes.getD i 0 < c.numInputs then c
      else recursivelySetActiveNodes (c.numNodes + 1) c (c.outputNodes.getD i 0)) c0
    ⟨hs, hinv, fun i h => absurd h (hnone i), fun i h => absurd h (hnone i),
      fun j hj => absurd hj (Nat.not_lt_zero j)⟩
    (by
      rintro k d hk ⟨h1, h2, h3, h4, h5⟩
      rw [hs.numOutputs] at hk
      simp only [h1.outputNodes, h1.numInputs, h1.numNodes]
      split
      · rename_i hlt
        refine ⟨h1, h2, h3, h4, ?_⟩
        intro j hj hge
        rcases Nat.lt_succ_iff_lt_or_eq.mp hj with hj | hj
        · exact h5 j hj hge
        · subst hj
          omega
      · rename_i hge
        have hge : chromo.numInputs ≤ chromo.outputNodes.getD k 0 := Nat.le_of_not_lt hge
        have hko : k < chromo.outputNodes.length := by omega
        have hmem : chromo.outputNodes.getD k 0 ∈ chromo.outputNodes := by
          simp [List.getD_eq_getElem?_getD, List.getElem?_eq_getElem hko]
        have hP := recursivelySetActiveNodes_post chromo.numInputs chromo.arity
          (chromo.nodes.map (fun n => n.inputs))
          (by
            intro l hl
            obtain ⟨n, hn, rfl⟩ := List.mem_map.mp hl
            exact hlen n hn)
          (by
            intro l hl g hg
            obtain ⟨n, hn, rfl⟩ := List.mem_map.mp hl
            rw [hconnlen]
            exact hR.1 n hn g hg)
          (chromo.numNodes + 1) d (chromo.outputNodes.getD k 0) h1.numInputs h1.arity h1.conn
          h2 (by rw [hconnlen]; exact hR.2 _ hmem) (by rw [hconnlen]; omega)
        refine ⟨h1.trans hP.same, hP.inv, ?_, ?_, ?_⟩
        · intro i hi
          by_cases hd : flagged d i
          · exact h3 i hd
          · exact reachable_of_edges hlen (hP.sound i hi hd).2 (Reachable.output hmem hge)
        · intro i hi j hj
          by_cases hd : flagged d i
          · exact hP.mono j (h4 i hd j hj)
          · exact hP.closed i hi hd j hj
        · intro j hj hge2
          rcases Nat.lt_succ_iff_lt_or_eq.mp hj with hj | hj
          · exact hP.mono _ (h5 j hj hge2)
          · subst hj
            exact hP.target hge2)
  obtain ⟨h1, h2, h3, h4, h5⟩ := key
  refine ⟨h1, h2, fun i => ⟨h3 i, ?_⟩⟩
  intro hr
  induction hr with
  | @output o ho hge =>
    obtain ⟨j, hj, hjo⟩ := List.mem_iff_getElem.mp ho
    have hg : chromo.outputNodes.getD j 0 = o := by
      simp only [List.getD_eq_getElem?_getD, List.getElem?_eq_getElem hj, hjo, Option.getD_some]
    have := h5 j (by rw [hs.numOutputs, ← hAo]; exact hj) (by rw [hg]; exact hge)
    rw [hg] at this
    exact this
  | connection _ hn hc hge ih =>
    exact h4 _ ih _ (edge_of_gene hn hc hge (hlen _ (List.getElem?_mem hn)))

theorem setActiveNodes_spec (chromo : chromosome) (hA : Allocated chromo)
    (hR : GenesInRange chromo) :
    SameGenes chromo (setActiveNodes chromo) ∧
    (activeList (setActiveNodes chromo)).Sorted (· < ·) ∧
    (∀ i, i ∈ activeList (setActiveNodes chromo) ↔ Reachable chromo i) ∧
    (∀ i, flagged (setActiveNodes chromo) i ↔ Reachable chromo i) ∧
    (setActiveNodes chromo).numActiveNodes ≤ (setActiveNodes chromo).activeNodes.length := by
  have hAn := hA.1
  have hAa := hA.2.2.2.1
  have hs0 : SameGenes chromo
      { chromo with numActiveNodes := 0, nodes := resetActive chromo.numNodes chromo.nodes } :=
    ⟨rfl, rfl, rfl, rfl, rfl, rfl, rfl, resetActive_map _ _ _ (fun _ => rfl), rfl⟩
  have hnone : ∀ i, ¬ flagged
      { chromo with numActiveNodes := 0, nodes := resetActive chromo.numNodes chromo.nodes }
      i := by
    rintro i ⟨n, hn, hact⟩
    simp only [resetActive_getElem?] at hn
    split at hn
    · cases hni : chromo.nodes[i]? with
      | none => simp [hni] at hn
      | some m =>
        simp only [hni, Option.map_some', Option.some.injEq] at hn
        subst hn
        simp at hact
    · rw [List.getElem?_eq_none (by omega)] at hn
      cases hn
  have hinv0 : MarkInv
      { chromo with numActiveNodes := 0, nodes := resetActive chromo.numNodes chromo.nodes } := by
    refine ⟨by simp [activeList], ?_, Nat.zero_le _, ?_⟩
    · intro i
      simp only [activeList, List.take_zero, List.not_mem_nil, false_iff]
      exact hnone i
    · rw [hs0.length, hAa, hAn]
  obtain ⟨h1, h2, h3⟩ := markOutputs_spec chromo _ hA hR hs0 hinv0 hnone
  obtain ⟨b1, b2, _, b4⟩ := bubbleSortInt_spec
    (markOutputs
      { chromo with numActiveNodes := 0,
                    nodes := resetActive chromo.numNodes chromo.nodes }).activeNodes
    (markOutputs
      { chromo with numActiveNodes := 0,
                    nodes := resetActive chromo.numNodes chromo.nodes }).numActiveNodes
  refine ⟨?_, ?_, ?_, ?_, ?_⟩
  · exact ⟨h1.numInputs, h1.numOutputs, h1.numNodes, h1.arity, h1.outputNodes, h1.fitness,
      h1.outputValues, h1.nodes, b1.trans h1.activeLength⟩
  · exact List.Sorted.lt_of_le b4 ((List.Perm.nodup_iff b2).mpr h2.nodup)
  · intro i
    rw [← h3 i, ← h2.mem i]
    exact b2.mem_iff
  · exact h3
  · show _ ≤ (bubbleSortInt _ _).length
    rw [b1]
    exact h2.le

theorem recursivelySetActiveNodes_same :
    ∀ (fuel : Nat) (c : chromosome) (v : Nat),
      SameGenes c (recursivelySetActiveNodes fuel c v) := by
  intro fuel
  induction fuel with
  | zero => intro c v; exact SameGenes.refl c
  | succ fuel ih =>
    intro c v
    simp only [recursivelySetActiveNodes]
    split
    · exact SameGenes.refl c
    · split
      · exact SameGenes.refl c
      · split
        · exact SameGenes.refl c
        · exact forLoop_induction (fun _ d => SameGenes c d) _ _ _ (logActive_same c _)
            (fun k d _ hd => hd.trans (ih d _))

theorem markOutputs_same (c : chromosome) : SameGenes c (markOutputs c) :=
  forLoop_induction (fun _ d => SameGenes c d) _ _ _ (SameGenes.refl c)
    (fun k d _ hd => by
      simp only
      split
      · exact hd
      · exact hd.trans (recursivelySetActiveNodes_same _ d _))

theorem setActiveNodes_same (chromo : chromosome) : SameGenes chromo (setActiveNodes chromo) := by
  have hs0 : SameGenes chromo
      { chromo with numActiveNodes := 0, nodes := resetActive chromo.numNodes chromo.nodes } :=
    ⟨rfl, rfl, rfl, rfl, rfl, rfl, rfl, resetActive_map _ _ _ (fun _ => rfl), rfl⟩
  have h1 := hs0.trans (markOutputs_same _)
  have hb := (bubbleSortInt_spec
    (markOutputs
      { chromo with numActiveNodes := 0,
                    nodes := resetActive chromo.numNodes chromo.nodes }).activeNodes
    (markOutputs
      { chromo with numActiveNodes := 0,
                    nodes := resetActive chromo.numNodes chromo.nodes }).numActiveNodes).1
  exact ⟨h1.numInputs, h1.numOutputs, h1.numNodes, h1.arity, h1.outputNodes, h1.fitness,
    h1.outputValues, h1.nodes, hb.trans h1.activeLength⟩

theorem getD_inputs (nodes : List node) (p : Nat) :
    (nodes.getD p default).inputs = ((nodes.map (fun n => n.inputs))[p]?).getD [] := by
  simp only [List.getD_eq_getElem?_getD, List.getElem?_map]
  cases nodes[p]? <;> rfl

theorem Acyclic.of_conn {numInputs : Nat} {c d : chromosome}
    (h : d.nodes.map (fun n => n.inputs) = c.nodes.map (fun n => n.inputs))
    (hc : Acyclic numInputs c) : Acyclic numInputs d := by
  intro p hp g hg
  have hl : d.nodes.length = c.nodes.length := by
    simpa using congrArg List.length h
  rw [getD_inputs, h, ← getD_inputs] at hg
  exact hc p (hl ▸ hp) g hg

theorem erased_getElem? {l1 l2 : List node}
    (h : l1.map (fun n => { n with active := 0 }) = l2.map (fun n => { n with active := 0 }))
    {i : Nat} {n : node} (hi : l1[i]? = some n) :
    ∃ m, l2[i]? = some m ∧ n.function = m.function ∧ n.inputs = m.inputs ∧
      n.weights = m.weights ∧ n.output = m.output := by
  have hm := congrArg (fun l => l[i]?) h
  simp only [List.getElem?_map, hi, Option.map_some'] at hm
  cases hci : l2[i]? with
  | none => simp [hci] at hm
  | some m =>
    simp only [hci, Option.map_some', Option.some.injEq, node.mk.injEq] at hm
    exact ⟨m, rfl, hm.1, hm.2.1, hm.2.2.1, hm.2.2.2.2⟩

theorem SameGenes.allocated {c d : chromosome} (h : SameGenes c d) (hA : Allocated c) :
    Allocated d := by
  obtain ⟨h1, h2, h3, h4, h5⟩ := hA
  refine ⟨by rw [h.length, h.numNodes, h1], ?_, by rw [h.outputNodes, h.numOutputs, h3],
    by rw [h.activeLength, h.numNodes, h4], by rw [h.outputValues, h.numOutputs, h5]⟩
  intro n hn
  obtain ⟨i, hi⟩ := List.mem_iff_getElem?.mp hn
  obtain ⟨m, hm, _, e1, e2, _⟩ := erased_getElem? h.nodes hi
  rw [h.arity, e1, e2]
  exact h2 m (List.getElem?_mem hm)

theorem SameGenes.keepsRange {c d : chromosome} (h : SameGenes c d) (hR : GenesInRange c) :
    GenesInRange d := by
  refine ⟨?_, by rw [h.outputNodes, h.numInputs, h.numNodes]; exact hR.2⟩
  intro n hn g hg
  obtain ⟨i, hi⟩ := List.mem_iff_getElem?.mp hn
  obtain ⟨m, hm, _, e1, _, _⟩ := erased_getElem? h.nodes hi
  rw [h.numInputs, h.numNodes]
  exact hR.1 m (List.getElem?_mem hm) g (e1 ▸ hg)

/-! ## Construction -/

theorem forLoop_append_length (n : Nat) :
    (forLoop n (fun (l : List Nat) i => l ++ [i]) []).length = n := by
  induction n with
  | zero => rfl
  | succ k ih => simp [forLoop, ih]

theorem Acyclic.genesInRange {chromo : chromosome} (h : Acyclic chromo.numInputs chromo)
    (hn : chromo.nodes.length = chromo.numNodes)
    (ho : ∀ o ∈ chromo.outputNodes, o < chromo.numInputs + chromo.numNodes) :
    GenesInRange chromo := by
  refine ⟨?_, ho⟩
  intro n hmem g hg
  obtain ⟨p, hp, hpn⟩ := List.mem_iff_getElem.mp hmem
  have := h p hp g (by
    simp only [List.getD_eq_getElem?_getD, List.getElem?_eq_getElem hp, Option.getD_some, hpn]
    exact hg)
  omega

theorem initialiseChromosome_ok (params : parameters) (s : RandState)
    (hI : 1 ≤ params.numInputs) (hF : 1 ≤ params.funcSet.numFunctions) :
    ∃ r, initialiseChromosome params s = Except.ok r ∧
      Acyclic params.numInputs r.1 ∧ Allocated r.1 ∧ GenesInRange r.1 ∧
      r.1.numInputs = params.numInputs ∧ r.1.numNodes = params.numNodes ∧
      r.1.numOutputs = params.numOutputs ∧ r.1.arity = params.arity := by
  obtain ⟨ns, hns, hnl, hna, hnacyc⟩ := forLoopE_ok
    (fun k (st : List node × RandState) =>
      st.1.length = k ∧
      (∀ n ∈ st.1, n.inputs.length = params.arity ∧ n.weights.length = params.arity) ∧
      ∀ p, p < k → ∀ g ∈ (st.1.getD p default).inputs, g < params.numInputs + p)
    params.numNodes
    (fun (st : List node × RandState) i => do
      let n ← initialiseNode params i st.2
      pure (st.1 ++ [n.1], n.2))
    ([], s) ⟨rfl, by simp, fun p hp => absurd hp (Nat.not_lt_zero p)⟩
    (by
      intro k st _ hP
      obtain ⟨n, hn, _, hil, hwl, hin⟩ := initialiseNode_ok params k st.2 hI hF
      simp only [hn, bind, Except.bind, pure, Except.pure]
      refine ⟨_, rfl, by simp [hP.1], ?_, ?_⟩
      · intro m hm
        rcases List.mem_append.mp hm with hm | hm
        · exact hP.2.1 m hm
        · rw [List.mem_singleton] at hm
          subst hm
          exact ⟨hil, hwl⟩
      · intro p hp g hg
        rcases Nat.lt_succ_iff_lt_or_eq.mp hp with hp | hp
        · refine hP.2.2 p hp g ?_
          simpa [List.getD_eq_getElem?_getD, List.getElem?_append_left (hP.1.symm ▸ hp)]
            using hg
        · subst hp
          refine hin g ?_
          simpa [List.getD_eq_getElem?_getD, ← hP.1] using hg)
  obtain ⟨os, hos, hol, hor⟩ := forLoopE_ok
    (fun k (st : List Nat × RandState) =>
      st.1.length = k ∧ ∀ o ∈ st.1, o < params.numInputs + params.numNodes)
    params.numOutputs
    (fun (st : List Nat × RandState) _ => do
      let o ← getRandomChromosomeOutput params st.2
      pure (st.1 ++ [o.1], o.2))
    ([], ns.2) ⟨rfl, by simp⟩
    (by
      intro k st _ hP
      obtain ⟨o, ho, holt⟩ := randMod_ok (params.numInputs + params.numNodes) st.2 (by omega)
      simp only [getRandomChromosomeOutput, ho, bind, Except.bind, pure, Except.pure]
      refine ⟨_, rfl, by simp [hP.1], ?_⟩
      intro x hx
      rcases List.mem_append.mp hx with hx | hx
      · exact hP.2 x hx
      · rw [List.mem_singleton] at hx
        exact hx ▸ holt)
  simp only [bind, Except.bind, pure, Except.pure] at hns hos
  simp only [initialiseChromosome, Nat.not_lt.mpr hF, if_false, hns, hos, bind, Except.bind,
    pure, Except.pure]
  refine ⟨_, rfl, ?_⟩
  have hsame := setActiveNodes_same
    { numInputs := params.numInputs
      numOutputs := params.numOutputs
      numNodes := params.numNodes
      numActiveNodes := params.numNodes
      arity := params.arity
      nodes := ns.1
      outputNodes := os.1
      activeNodes := forLoop params.numNodes (fun l i => l ++ [i]) []
      fitness := CFloat.neg CFloat.one
      outputValues := List.replicate params.numOutputs CFloat.zero }
  have hacyc : Acyclic params.numInputs
      { numInputs := params.numInputs
        numOutputs := params.numOutputs
        numNodes := params.numNodes
        numActiveNodes := params.numNodes
        arity := params.arity
        nodes := ns.1
        outputNodes := os.1
        activeNodes := forLoop params.numNodes (fun l i => l ++ [i]) []
        fitness := CFloat.neg CFloat.one
        outputValues := List.replicate params.numOutputs CFloat.zero } := by
    intro p hp g hg
    exact hnacyc p (hnl ▸ hp) g hg
  refine ⟨hacyc.of_conn hsame.conn, hsame.allocated ?_, hsame.keepsRange ?_,
    hsame.numInputs, hsame.numNodes, hsame.numOutputs, hsame.arity⟩
  · exact ⟨hnl, hna, hol, forLoop_append_length _, by simp⟩
  · exact Acyclic.genesInRange hacyc hnl hor

/-! ## Mutation -/

theorem mutateFunctionGene_ok (params : parameters) (P : chromosome → Prop) (i : Nat)
    (st : chromosome × RandState) (hF : 1 ≤ params.funcSet.numFunctions)
    (hfun : ∀ c f, P c → f < params.funcSet.numFunctions →
      P (setFunctionGene c i f))
    (h0 : P st.1) : ∃ t, mutateFunctionGene params i st = Except.ok t ∧ P t.1 := by
  obtain ⟨f, hf, hflt⟩ := getRandomFunction_ok params (randFloat st.2).2 hF
  unfold mutateFunctionGene
  simp only [hf]
  split
  · exact ⟨_, rfl, hfun _ _ h0 hflt⟩
  · exact ⟨_, rfl, h0⟩

theorem mutateInputGene_ok (params : parameters) (P : chromosome → Prop) (i j : Nat)
    (st : chromosome × RandState) (hI : 1 ≤ params.numInputs)
    (hin : ∀ c k g, P c → g < params.numInputs + i →
      P (setInputGene c i k g))
    (h0 : P st.1) : ∃ t, mutateInputGene params i j st = Except.ok t ∧ P t.1 := by
  obtain ⟨c, hc, hclt⟩ := randMod_ok (params.numInputs + i) (randFloat st.2).2 (by omega)
  unfold mutateInputGene
  simp only [getRandomNodeInput, hc]
  split
  · exact ⟨_, rfl, hin _ _ _ h0 hclt⟩
  · exact ⟨_, rfl, h0⟩

theorem mutateWeightGene_ok (params : parameters) (P : chromosome → Prop) (i j : Nat)
    (st : chromosome × RandState)
    (hw : ∀ c k w, P c →
      P (setWeightGene c i k w))
    (h0 : P st.1) : P (mutateWeightGene params i j st).1 := by
  unfold mutateWeightGene
  split
  · exact hw _ _ _ h0
  · exact h0

theorem mutateOutput_ok (params : parameters) (P : chromosome → Prop) (i : Nat)
    (st : chromosome × RandState) (hI : 1 ≤ params.numInputs + params.numNodes)
    (hout : ∀ c k o, P c → o < params.numInputs + params.numNodes →
      P (setOutputGene c k o))
    (h0 : P st.1) : ∃ t, mutateOutput params st i = Except.ok t ∧ P t.1 := by
  obtain ⟨o, ho, holt⟩ := randMod_ok (params.numInputs + params.numNodes) (randFloat st.2).2 hI
  unfold mutateOutput
  simp only [getRandomChromosomeOutput, ho]
  split
  · exact ⟨_, rfl, hout _ _ _ h0 holt⟩
  · exact ⟨_, rfl, h0⟩

/-- Probabilistic mutation is a sequence of gene assignments with in-range values: it returns,
and it keeps every property of the chromosome that each such assignment keeps. -/
theorem probabilisticMutation_invariant (params : parameters) (P : chromosome → Prop)
    (chromo : chromosome) (s : RandState)
    (hI : 1 ≤ params.numInputs) (hF : 1 ≤ params.funcSet.numFunctions)
    (hfun : ∀ c i f, P c → f < params.funcSet.numFunctions →
      P (setFunctionGene c i f))
    (hin : ∀ c i k g, P c → i < params.numNodes → g < params.numInputs + i →
      P (setInputGene c i k g))
    (hw : ∀ c i k w, P c →
      P (setWeightGene c i k w))
    (hout : ∀ c k o, P c → o < params.numInputs + params.numNodes →
      P (setOutputGene c k o))
    (h0 : P chromo) : ∃ r, probabilisticMutation params chromo s = Except.ok r ∧ P r.1 := by
  obtain ⟨st, hst, hP⟩ := forLoopE_ok (fun _ (st : chromosome × RandState) => P st.1)
    params.numNodes (mutateNode params) (chromo, s) h0
    (by
      intro i st hi hP
      obtain ⟨t, ht, hPt⟩ := mutateFunctionGene_ok params P i st hF (hfun · i) hP
      obtain ⟨u, hu, hPu⟩ := forLoopE_ok (fun _ (st : chromosome × RandState) => P st.1)
        params.arity (mutateConnection params i) t hPt
        (by
          intro j st _ hP
          obtain ⟨v, hv, hPv⟩ := mutateInputGene_ok params P i j st hI
            (fun c k g hc hg => hin c i k g hc hi hg) hP
          refine ⟨mutateWeightGene params i j v, ?_,
            mutateWeightGene_ok params P i j v (hw · i) hPv⟩
          simp only [mutateConnection, hv])
      exact ⟨u, by simp only [mutateNode, ht, hu], hPu⟩)
  obtain ⟨r, hr, hPr⟩ := forLoopE_ok (fun _ (st : chromosome × RandState) => P st.1)
    params.numOutputs (mutateOutput params) st hP
    (fun i st _ hP => mutateOutput_ok params P i st (by omega) hout hP)
  exact ⟨r, by simp only [probabilisticMutation, hst, hr], hPr⟩

theorem Acyclic.set_input {numInputs : Nat} {c : chromosome} (h : Acyclic numInputs c)
    (i k g : Nat) (hg : g < numInputs + i) :
    Acyclic numInputs (setInputGene c i k g) := by
  intro p hp x hx
  simp only [setInputGene, modifyNode_length] at hp
  simp only [setInputGene, List.getD_eq_getElem?_getD, modifyNode_getElem?,
    List.getElem?_eq_getElem hp] at hx
  have hold := h p hp
  simp only [List.getD_eq_getElem?_getD, List.getElem?_eq_getElem hp, Option.getD_some] at hold
  split at hx
  · rename_i hpi
    simp only [Option.map_some', Option.getD_some] at hx
    rcases List.mem_or_eq_of_mem_set hx with hx | hx
    · exact hold x hx
    · omega
  · exact hold x hx

/-! ## Execution -/

theorem value_input (funcSet : fuctionSet) (numInputs arity : Nat)
    (g : List (Nat × List Nat × List CFloat)) (inputs : List CFloat) (a : Nat)
    (h : a < numInputs) : value funcSet numInputs arity g inputs a = inputs.getD a default := by
  rw [value]
  simp [h]

theorem value_node (funcSet : fuctionSet) (numInputs arity : Nat)
    (g : List (Nat × List Nat × List CFloat)) (inputs : List CFloat) (p : Nat)
    (f : Nat) (ins : List Nat) (ws : List CFloat) (hg : g[p]? = some (f, ins, ws))
    (hacyc : ∀ c ∈ ins, c < numInputs + p) :
    value funcSet numInputs arity g inputs (numInputs + p) =
      sanitise ((funcSet.get f) arity (ins.map (value funcSet numInputs arity g inputs)) ws) := by
  rw [value]
  have h1 : ¬ numInputs + p < numInputs := by omega
  simp only [h1, if_false, Nat.add_sub_cancel_left, List.getD_eq_getElem?_getD, hg,
    Option.getD_some]
  congr 2
  apply List.map_congr_left
  intro c hc
  simp [hacyc c hc]

theorem forLoop_set (α : Type) (F : Nat → α) (a : Nat) (h0 : List α) (hl : h0.length = a) :
    forLoop a (fun hold j => hold.set j (F j)) h0 = (List.range a).map F := by
  have key := forLoop_induction
    (fun k (hold : List α) => hold.length = a ∧ ∀ j, j < k → hold[j]? = some (F j))
    a (fun hold j => hold.set j (F j)) h0 ⟨hl, fun j hj => absurd hj (Nat.not_lt_zero j)⟩
    (by
      intro k hold hk hP
      refine ⟨by simp [hP.1], ?_⟩
      intro j hj
      rcases Nat.lt_succ_iff_lt_or_eq.mp hj with hj | hj
      · rw [List.getElem?_set_ne (by omega)]
        exact hP.2 j hj
      · subst hj
        rw [List.getElem?_set_self (by omega)])
  apply List.ext_getElem?
  intro j
  by_cases hj : j < a
  · rw [key.2 j hj]
    simp [hj]
  · rw [List.getElem?_eq_none (by omega), List.getElem?_eq_none (by simp; omega)]

theorem forLoop_set_front (α : Type) (F : Nat → α) (a : Nat) (h0 : List α)
    (hl : a ≤ h0.length) (j : Nat) (hj : j < a) :
    (forLoop a (fun hold j => hold.set j (F j)) h0)[j]? = some (F j) := by
  have key := forLoop_induction
    (fun k (hold : List α) => hold.length = h0.length ∧ ∀ j, j < k → hold[j]? = some (F j))
    a (fun hold j => hold.set j (F j)) h0 ⟨rfl, fun j hj => absurd hj (Nat.not_lt_zero j)⟩
    (by
      intro k hold hk hP
      refine ⟨by simp [hP.1], ?_⟩
      intro j hj
      rcases Nat.lt_succ_iff_lt_or_eq.mp hj with hj | hj
      · rw [List.getElem?_set_ne (by omega)]
        exact hP.2 j hj
      · subst hj
        rw [List.getElem?_set_self (by omega)])
  exact key.2 j hj

theorem range_map_getD (α β : Type) (G : β → α) (ins : List β) (d : β) :
    (List.range ins.length).map (fun j => G (ins.getD j d)) = ins.map G := by
  apply List.ext_getElem?
  intro j
  by_cases hj : j < ins.length
  · simp [hj, List.getElem?_eq_getElem hj]
  · rw [List.getElem?_eq_none (by simp; omega), List.getElem?_eq_none (by simp; omega)]

theorem executeNode_spec (params : parameters) (g : List (Nat × List Nat × List CFloat))
    (inputs : List CFloat) (activeNodes : List Nat) (k idx : Nat)
    (s : List CFloat × List node) (f : Nat) (ins : List Nat) (ws : List CFloat)
    (hk : activeNodes.getD k 0 = idx) (hg : g[idx]? = some (f, ins, ws))
    (hlen : ins.length = params.arity) (hacyc : ∀ c ∈ ins, c < params.numInputs + idx)
    (hprev : ∀ c ∈ ins, params.numInputs ≤ c →
      (s.2.getD (c - params.numInputs) default).output =
        value params.funcSet params.numInputs params.arity g inputs c)
    (hs1 : s.1.length = params.arity)
    (hs2 : s.2.map (fun n => (n.function, n.inputs, n.weights)) = g) :
    (executeNode params inputs activeNodes s k).1.length = params.arity ∧
    (executeNode params inputs activeNodes s k).2.map
      (fun n => (n.function, n.inputs, n.weights)) = g ∧
    ((executeNode params inputs activeNodes s k).2.getD idx default).output =
      value params.funcSet params.numInputs params.arity g inputs (params.numInputs + idx) ∧
    ∀ i, i ≠ idx →
      (executeNode params inputs activeNodes s k).2.getD i default = s.2.getD i default := by
  have hn : ∃ n, s.2[idx]? = some n ∧ n.function = f ∧ n.inputs = ins ∧ n.weights = ws := by
    have := congrArg (fun l => l[idx]?) hs2
    simp only [List.getElem?_map, hg] at this
    cases hsi : s.2[idx]? with
    | none => simp [hsi] at this
    | some n =>
      simp only [hsi, Option.map_some', Option.some.injEq, Prod.mk.injEq] at this
      exact ⟨n, rfl, this.1, this.2.1, this.2.2⟩
  obtain ⟨n, hsn, hnf, hni, hnw⟩ := hn
  subst hnf hni hnw
  have hidx : idx < s.2.length := (List.getElem?_eq_some_iff.mp hsn).1
  have hgetD : s.2.getD idx default = n := by
    simp [List.getD_eq_getElem?_getD, hsn]
  have hread : ∀ c ∈ n.inputs, readLocation params.numInputs s.2 inputs c =
      value params.funcSet params.numInputs params.arity g inputs c := by
    intro c hc
    unfold readLocation
    split
    · rename_i hlt
      rw [value_input _ _ _ _ _ _ hlt]
    · rename_i hge
      exact hprev c hc (Nat.le_of_not_lt hge)
  have hhold : forLoop params.arity
      (fun (hold : List CFloat) j =>
        hold.set j (readLocation params.numInputs s.2 inputs (n.inputs.getD j 0))) s.1 =
      n.inputs.map (value params.funcSet params.numInputs params.arity g inputs) := by
    rw [forLoop_set CFloat _ params.arity s.1 hs1]
    conv_lhs => rw [← hlen]
    rw [range_map_getD CFloat Nat (readLocation params.numInputs s.2 inputs) n.inputs 0]
    exact List.map_congr_left hread
  unfold executeNode
  simp only [hk, hgetD]
  rw [hhold]
  refine ⟨by simp [hlen], ?_, ?_, ?_⟩
  · rw [← hs2]
    apply List.ext_getElem?
    intro j
    simp only [List.getElem?_map]
    by_cases hj : idx = j
    · subst hj
      rw [List.getElem?_set_self hidx, hsn]
      rfl
    · rw [List.getElem?_set_ne hj]
  · rw [value_node _ _ _ _ _ _ n.function n.inputs n.weights hg hacyc]
    simp [List.getD_eq_getElem?_getD, List.getElem?_set_self hidx]
  · intro i hi
    simp [List.getD_eq_getElem?_getD, List.getElem?_set_ne (Ne.symm hi)]

theorem sorted_index {L : List Nat} (hs : L.Sorted (· < ·)) {j k x y : Nat}
    (hj : L[j]? = some x) (hk : L[k]? = some y) : j < k ↔ x < y := by
  obtain ⟨hj1, hj2⟩ := List.getElem?_eq_some_iff.mp hj
  obtain ⟨hk1, hk2⟩ := List.getElem?_eq_some_iff.mp hk
  have hp := List.pairwise_iff_getElem.mp hs
  constructor
  · intro h
    have := hp j k hj1 hk1 h
    omega
  · intro h
    by_contra hcon
    rcases Nat.lt_or_eq_of_le (Nat.le_of_not_lt hcon) with hlt | heq
    · have := hp k j hk1 hj1 hlt
      omega
    · subst heq
      omega

theorem Reachable.lt {chromo : chromosome} (hR : GenesInRange chromo) {i : Nat}
    (h : Reachable chromo i) : i < chromo.numNodes := by
  cases h with
  | output ho hge =>
    have := hR.2 _ ho
    omega
  | connection _ hn hc hge =>
    have := hR.1 _ (List.getElem?_mem hn) _ hc
    omega

theorem executeChromosome_outputs (params : parameters) (chromo : chromosome)
    (inputs outputs : List CFloat) (hF : Fits params chromo) (hA : Allocated chromo)
    (hAc : Acyclic params.numInputs chromo) (hO : OutputsInRange chromo) (hD : Decoded chromo)
    (hout : params.numOutputs ≤ outputs.length) (k : Nat) (hk : k < params.numOutputs) :
    (executeChromosome params chromo inputs outputs).2.2[k]? =
      some (value params.funcSet params.numInputs params.arity (genes chromo) inputs
        (chromo.outputNodes.getD k 0)) := by
  obtain ⟨hFi, hFn, hFo, hFa, hFh⟩ := hF
  have hAc1 : Acyclic chromo.numInputs chromo := hFi ▸ hAc
  have hR := Acyclic.genesInRange hAc1 hA.1 hO
  obtain ⟨_, hsorted, hmem, _, _⟩ := setActiveNodes_spec chromo hA hR
  rw [← hD.1] at hsorted hmem
  have hLlen : (activeList chromo).length = chromo.numActiveNodes := by
    simp [activeList, hD.2]
  have hgetL : ∀ j, j < chromo.numActiveNodes →
      (activeList chromo)[j]? = some (chromo.activeNodes.getD j 0) := by
    intro j hj
    have hjl : j < chromo.activeNodes.length := Nat.lt_of_lt_of_le hj hD.2
    simp [activeList, List.getElem?_take, hj, List.getElem?_eq_getElem hjl]
  have hnode : ∀ i, Reachable chromo i → ∃ n, chromo.nodes[i]? = some n ∧
      (genes chromo)[i]? = some (n.function, n.inputs, n.weights) ∧
      n.inputs.length = params.arity ∧ ∀ c ∈ n.inputs, c < params.numInputs + i := by
    intro i hi
    have hlt : i < chromo.nodes.length := by rw [hA.1]; exact hi.lt hR
    refine ⟨chromo.nodes[i], List.getElem?_eq_getElem hlt, ?_, ?_, ?_⟩
    · simp [genes, List.getElem?_eq_getElem hlt]
    · rw [← hFa]
      exact (hA.2.1 _ (List.getElem_mem hlt)).1
    · intro c hc
      refine hAc i hlt c ?_
      simpa [List.getD_eq_getElem?_getD, List.getElem?_eq_getElem hlt] using hc
  have key := forLoop_induction
    (fun j (s : List CFloat × List node) =>
      s.1.length = params.arity ∧
      s.2.map (fun n => (n.function, n.inputs, n.weights)) = genes chromo ∧
      ∀ m, m < j → ∀ i, (activeList chromo)[m]? = some i →
        (s.2.getD i default).output =
          value params.funcSet params.numInputs params.arity (genes chromo) inputs
            (params.numInputs + i))
    chromo.numActiveNodes (executeNode params inputs chromo.activeNodes)
    (params.nodeInputsHold, chromo.nodes)
    ⟨hFh, rfl, fun m hm => absurd hm (Nat.not_lt_zero m)⟩
    (by
      intro j s hj hP
      have hLj := hgetL j hj
      have hreach : Reachable chromo (chromo.activeNodes.getD j 0) :=
        (hmem _).mp (List.getElem?_mem hLj)
      obtain ⟨n, hn, hgn, hnl, hnacyc⟩ := hnode _ hreach
      obtain ⟨e1, e2, e3, e4⟩ := executeNode_spec params (genes chromo) inputs
        chromo.activeNodes j (chromo.activeNodes.getD j 0) s n.function n.inputs n.weights rfl
        hgn hnl hnacyc
        (by
          intro c hc hge
          have hrc : Reachable chromo (c - chromo.numInputs) :=
            Reachable.connection hreach hn hc (hFi ▸ hge)
          obtain ⟨m, hm⟩ := List.mem_iff_getElem?.mp ((hmem _).mpr hrc)
          have hlt := hnacyc c hc
          have hmj : m < j := (sorted_index hsorted hm hLj).mpr (by omega)
          have := hP.2.2 m hmj _ hm
          rw [hFi] at this
          rw [this]
          congr 1
          omega)
        hP.1 hP.2.1
      refine ⟨e1, e2, ?_⟩
      intro m hm i hi
      rcases Nat.lt_succ_iff_lt_or_eq.mp hm with hm | hm
      · have hne : i ≠ chromo.activeNodes.getD j 0 := by
          intro heq
          have := (sorted_index hsorted hi hLj).mp hm
          omega
        rw [e4 i hne]
        exact hP.2.2 m hm i hi
      · subst hm
        rw [hLj] at hi
        cases hi
        exact e3)
  obtain ⟨_, k2, k3⟩ := key
  have hfinal : ∀ i, Reachable chromo i →
      ((forLoop chromo.numActiveNodes (executeNode params inputs chromo.activeNodes)
        (params.nodeInputsHold, chromo.nodes)).2.getD i default).output =
        value params.funcSet params.numInputs params.arity (genes chromo) inputs
          (params.numInputs + i) := by
    intro i hi
    obtain ⟨m, hm⟩ := List.mem_iff_getElem?.mp ((hmem _).mpr hi)
    have hml : m < chromo.numActiveNodes := by
      rw [← hLlen]
      exact (List.getElem?_eq_some_iff.mp hm).1
    exact k3 m hml i hm
  unfold executeChromosome
  simp only
  rw [forLoop_set_front CFloat _ params.numOutputs outputs hout k hk]
  congr 1
  unfold readLocation
  split
  · rename_i hlt
    rw [value_input _ _ _ _ _ _ hlt]
  · rename_i hge
    have hko : k < chromo.outputNodes.length := by rw [hA.2.2.1, hFo]; exact hk
    have hmemo : chromo.outputNodes.getD k 0 ∈ chromo.outputNodes := by
      simp [List.getD_eq_getElem?_getD, List.getElem?_eq_getElem hko]
    have hr : Reachable chromo (chromo.outputNodes.getD k 0 - chromo.numInputs) :=
      Reachable.output hmemo (by omega)
    have := hfinal _ hr
    rw [hFi] at this
    rw [this]
    congr 1
    omega

/-! ## Copies -/

theorem forLoop_copy (α : Type) (src dest : List α) (d : α) (n : Nat)
    (hs : src.length = n) (hd : dest.length = n) :
    forLoop n (fun l i => l.set i (src.getD i d)) dest = src := by
  rw [forLoop_set α (fun i => src.getD i d) n dest hd, ← hs]
  have := range_map_getD α α id src d
  simpa using this

theorem copyNode_eq (params : parameters) (nodeDest nodeSrc : node)
    (h1 : nodeDest.inputs.length = params.arity) (h2 : nodeDest.weights.length = params.arity)
    (h3 : nodeSrc.inputs.length = params.arity) (h4 : nodeSrc.weights.length = params.arity) :
    copyNode params nodeDest nodeSrc = { nodeSrc with output := nodeDest.output } := by
  have key := forLoop_induction
    (fun k (d : node) =>
      d.function = nodeSrc.function ∧ d.active = nodeSrc.active ∧ d.output = nodeDest.output ∧
      d.inputs = forLoop k (fun l i => l.set i (nodeSrc.inputs.getD i 0)) nodeDest.inputs ∧
      d.weights = forLoop k (fun l i => l.set i (nodeSrc.weights.getD i default))
        nodeDest.weights)
    params.arity
    (fun d i =>
      { d with
        inputs := d.inputs.set i (nodeSrc.inputs.getD i 0)
        weights := d.weights.set i (nodeSrc.weights.getD i default) })
    { nodeDest with function := nodeSrc.function, active := nodeSrc.active }
    ⟨rfl, rfl, rfl, rfl, rfl⟩
    (by
      intro k d _ hP
      refine ⟨hP.1, hP.2.1, hP.2.2.1, ?_, ?_⟩
      · simp only [forLoop, hP.2.2.2.1]
      · simp only [forLoop, hP.2.2.2.2])
  obtain ⟨k1, k2, k3, k4, k5⟩ := key
  rw [forLoop_copy Nat _ _ 0 _ h3 h1] at k4
  rw [forLoop_copy CFloat _ _ default _ h4 h2] at k5
  unfold copyNode
  cases hc : forLoop params.arity
    (fun d i =>
      { d with
        inputs := d.inputs.set i (nodeSrc.inputs.getD i 0)
        weights := d.weights.set i (nodeSrc.weights.getD i default) })
    { nodeDest with function := nodeSrc.function, active := nodeSrc.active }
  rw [hc] at k1 k2 k3 k4 k5
  simp only at k1 k2 k3 k4 k5
  subst k1 k2 k3 k4 k5
  rfl

theorem copyNodes_getElem? (params : parameters) (dest src : List node)
    (hd : dest.length = params.numNodes) (hs : src.length = params.numNodes) :
    (copyNodes params dest src).length = params.numNodes ∧
    ∀ i (hi : i < params.numNodes),
      (copyNodes params dest src)[i]? =
        some (copyNode params (dest.get ⟨i, hd ▸ hi⟩) (src.get ⟨i, hs ▸ hi⟩)) := by
  have key := forLoop_induction
    (fun k (ns : List node) =>
      ns.length = params.numNodes ∧
      (∀ i (hi : i < params.numNodes), i < k →
        ns[i]? = some (copyNode params (dest.get ⟨i, hd ▸ hi⟩) (src.get ⟨i, hs ▸ hi⟩))) ∧
      ∀ i, k ≤ i → ns[i]? = dest[i]?)
    params.numNodes
    (fun ns i => match ns[i]?, src[i]? with
      | some d, some m => ns.set i (copyNode params d m)
      | _, _ => ns) dest
    ⟨hd, fun i _ hi => absurd hi (Nat.not_lt_zero i), fun _ _ => rfl⟩
    (by
      intro k ns hk hP
      have h1 : ns[k]? = some (dest.get ⟨k, hd ▸ hk⟩) := by
        rw [hP.2.2 k (Nat.le_refl k), List.getElem?_eq_getElem (hd ▸ hk)]
        rfl
      have h2 : src[k]? = some (src.get ⟨k, hs ▸ hk⟩) := by
        rw [List.getElem?_eq_getElem (hs ▸ hk)]
        rfl
      simp only [h1, h2]
      refine ⟨by simp [hP.1], ?_, ?_⟩
      · intro i hi hik
        rcases Nat.lt_succ_iff_lt_or_eq.mp hik with hik | hik
        · rw [List.getElem?_set_ne (by omega)]
          exact hP.2.1 i hi hik
        · subst hik
          rw [List.getElem?_set_self (by omega)]
      · intro i hi
        rw [List.getElem?_set_ne (by omega)]
        exact hP.2.2 i (by omega))
  exact ⟨key.1, fun i hi => key.2.1 i hi hi⟩

theorem copyNodes_spec (params : parameters) (arity : Nat) (dest src : List node)
    (hd : dest.length = params.numNodes) (hs : src.length = params.numNodes)
    (ha : params.arity = arity)
    (hda : ∀ n ∈ dest, n.inputs.length = arity ∧ n.weights.length = arity)
    (hsa : ∀ n ∈ src, n.inputs.length = arity ∧ n.weights.length = arity) :
    (copyNodes params dest src).length = params.numNodes ∧
    (copyNodes params dest src).map (fun n => (n.function, n.inputs, n.weights)) =
      src.map (fun n => (n.function, n.inputs, n.weights)) ∧
    (copyNodes params dest src).map (fun n => n.active) = src.map (fun n => n.active) ∧
    (copyNodes params dest src).map (fun n => n.output) = dest.map (fun n => n.output) := by
  obtain ⟨hlen, hget⟩ := copyNodes_getElem? params dest src hd hs
  have hnode : ∀ i (hi : i < params.numNodes),
      (copyNodes params dest src)[i]? =
        some { src.get ⟨i, hs ▸ hi⟩ with output := (dest.get ⟨i, hd ▸ hi⟩).output } := by
    intro i hi
    rw [hget i hi, copyNode_eq params _ _
      (by rw [ha]; exact (hda _ (List.get_mem _ _ _)).1)
      (by rw [ha]; exact (hda _ (List.get_mem _ _ _)).2)
      (by rw [ha]; exact (hsa _ (List.get_mem _ _ _)).1)
      (by rw [ha]; exact (hsa _ (List.get_mem _ _ _)).2)]
  refine ⟨hlen, ?_, ?_, ?_⟩
  · apply List.ext_getElem?
    intro i
    simp only [List.getElem?_map]
    by_cases hi : i < params.numNodes
    · rw [hnode i hi, List.getElem?_eq_getElem (hs ▸ hi)]
      rfl
    · rw [List.getElem?_eq_none (by omega), List.getElem?_eq_none (by omega)]
  · apply List.ext_getElem?
    intro i
    simp only [List.getElem?_map]
    by_cases hi : i < params.numNodes
    · rw [hnode i hi, List.getElem?_eq_getElem (hs ▸ hi)]
      rfl
    · rw [List.getElem?_eq_none (by omega), List.getElem?_eq_none (by omega)]
  · apply List.ext_getElem?
    intro i
    simp only [List.getElem?_map]
    by_cases hi : i < params.numNodes
    · rw [hnode i hi, List.getElem?_eq_getElem (hd ▸ hi)]
      rfl
    · rw [List.getElem?_eq_none (by omega), List.getElem?_eq_none (by omega)]

theorem copyChromosome_spec (params : parameters) (dest src : chromosome)
    (hFd : Fits params dest) (hAd : Allocated dest) (hFs : Fits params src)
    (hAs : Allocated src) :
    CopyOf src (copyChromosome params dest src) ∧ Allocated (copyChromosome params dest src) ∧
    Fits params (copyChromosome params dest src) ∧
    (copyChromosome params dest src).outputValues = dest.outputValues ∧
    (copyChromosome params dest src).nodes.map (fun n => n.output) =
      dest.nodes.map (fun n => n.output) := by
  obtain ⟨hd1, hd2, hd3, hd4, hd5⟩ := hFd
  obtain ⟨hs1, hs2, hs3, hs4, hs5⟩ := hFs
  obtain ⟨ad1, ad2, ad3, ad4, ad5⟩ := hAd
  obtain ⟨as1, as2, as3, as4, as5⟩ := hAs
  obtain ⟨c1, c2, c3, c4⟩ := copyNodes_spec params params.arity dest.nodes src.nodes
    (by omega) (by omega) rfl (hd4 ▸ ad2) (hs4 ▸ as2)
  have houts : forLoop params.numOutputs
      (fun os i => os.set i (src.outputNodes.getD i 0)) dest.outputNodes = src.outputNodes :=
    forLoop_copy Nat _ _ 0 _ (by omega) (by omega)
  have hact : forLoop params.numNodes
      (fun l i => l.set i (src.activeNodes.getD i 0)) dest.activeNodes = src.activeNodes :=
    forLoop_copy Nat _ _ 0 _ (by omega) (by omega)
  have hlens : ∀ n ∈ copyNodes params dest.nodes src.nodes,
      n.inputs.length = params.arity ∧ n.weights.length = params.arity := by
    intro n hn
    obtain ⟨i, hi⟩ := List.mem_iff_getElem?.mp hn
    have := congrArg (fun l => l[i]?) c2
    simp only [List.getElem?_map, hi, Option.map_some'] at this
    cases hsi : src.nodes[i]? with
    | none => simp [hsi] at this
    | some m =>
      simp only [hsi, Option.map_some', Option.some.injEq, Prod.mk.injEq] at this
      rw [this.2.1, this.2.2, ← hs4]
      exact as2 m (List.getElem?_mem hsi)
  refine ⟨⟨c2, c3, houts, hact, rfl, rfl⟩, ⟨?_, ?_, ?_, ?_, ?_⟩,
    ⟨hs1, hd2, hs3, hd4, hd5⟩, rfl, c4⟩
  · exact c1.trans hd2.symm
  · intro n hn
    have := hlens n hn
    exact ⟨this.1.trans hd4.symm, this.2.trans hd4.symm⟩
  · exact (congrArg List.length houts).trans as3
  · exact (congrArg List.length hact).trans (show src.activeNodes.length = dest.numNodes by omega)
  · exact ad5.trans (show dest.numOutputs = src.numOutputs by omega)

/-! ## Consequences for decoded chromosomes -/

theorem Reachable.congr {c d : chromosome}
    (h1 : d.nodes.map (fun n => n.inputs) = c.nodes.map (fun n => n.inputs))
    (h2 : d.outputNodes = c.outputNodes) (h3 : d.numInputs = c.numInputs) {i : Nat}
    (h : Reachable c i) : Reachable d i := by
  induction h with
  | output ho hge =>
    rw [← h3]
    exact Reachable.output (h2 ▸ ho) (h3 ▸ hge)
  | @connection i n g _ hn hc hge ih =>
    have := congrArg (fun l => l[i]?) h1
    simp only [List.getElem?_map, hn, Option.map_some'] at this
    cases hd : d.nodes[i]? with
    | none => simp [hd] at this
    | some m =>
      simp only [hd, Option.map_some', Option.some.injEq] at this
      rw [← h3]
      exact Reachable.connection ih hd (this ▸ hc) (h3 ▸ hge)

theorem genes_inputs {c d : chromosome} (h : genes d = genes c) :
    d.nodes.map (fun n => n.inputs) = c.nodes.map (fun n => n.inputs) := by
  have := congrArg (List.map (fun t : Nat × List Nat × List CFloat => t.2.1)) h
  simpa [genes, List.map_map, Function.comp_def] using this

theorem SameGenes.genes {c d : chromosome} (h : SameGenes c d) : genes d = genes c := by
  have := congrArg (List.map (fun n : node => (n.function, n.inputs, n.weights))) h.nodes
  simpa [CGP.genes, List.map_map, Function.comp_def] using this

theorem sorted_unique {l1 l2 : List Nat} (h1 : l1.Sorted (· < ·)) (h2 : l2.Sorted (· < ·))
    (h : ∀ i, i ∈ l1 ↔ i ∈ l2) : l1 = l2 :=
  List.eq_of_perm_of_sorted ((List.perm_ext_iff_of_nodup h1.nodup h2.nodup).mpr h) h1 h2

theorem setActiveNodes_activeList_congr {c d : chromosome} (hAc : Allocated c)
    (hRc : GenesInRange c) (hAd : Allocated d) (hRd : GenesInRange d)
    (h1 : d.nodes.map (fun n => n.inputs) = c.nodes.map (fun n => n.inputs))
    (h2 : d.outputNodes = c.outputNodes) (h3 : d.numInputs = c.numInputs) :
    activeList (setActiveNodes d) = activeList (setActiveNodes c) := by
  obtain ⟨_, s1, m1, _, _⟩ := setActiveNodes_spec c hAc hRc
  obtain ⟨_, s2, m2, _, _⟩ := setActiveNodes_spec d hAd hRd
  refine sorted_unique s2 s1 ?_
  intro i
  rw [m1, m2]
  exact ⟨Reachable.congr h1.symm h2.symm h3.symm, Reachable.congr h1 h2 h3⟩

theorem setActiveNodes_decoded (chromo : chromosome) (hA : Allocated chromo)
    (hR : GenesInRange chromo) : Decoded (setActiveNodes chromo) := by
  have hs := setActiveNodes_same chromo
  refine ⟨?_, (setActiveNodes_spec chromo hA hR).2.2.2.2⟩
  exact (setActiveNodes_activeList_congr hA hR (hs.allocated hA) (hs.keepsRange hR)
    hs.conn hs.outputNodes hs.numInputs).symm

/-! ## The order of the floats -/

theorem CFloat.gt_asymm (x y : CFloat) (h : CFloat.gt x y = true) : CFloat.gt y x = false := by
  cases x <;> cases y <;> simp_all [CFloat.gt, CFloat.lt]
  omega

theorem CFloat.le_of_not_gt {x y : CFloat} (hx : x.isnan = false) (hy : y.isnan = false)
    (h : CFloat.gt x y = false) : CFloat.le x y = true := by
  cases x <;> cases y <;> simp_all [CFloat.gt, CFloat.lt, CFloat.le, CFloat.isnan]

theorem CFloat.le_trans {x y z : CFloat} (h1 : CFloat.le x y = true)
    (h2 : CFloat.le y z = true) : CFloat.le x z = true := by
  cases x <;> cases y <;> cases z <;> simp_all [CFloat.lt, CFloat.le]
  omega

theorem CFloat.le_refl {x : CFloat} (hx : x.isnan = false) : CFloat.le x x = true := by
  cases x <;> simp_all [CFloat.lt, CFloat.le, CFloat.isnan]

theorem CFloat.le_of_lt {x y : CFloat} (h : CFloat.lt x y = true) : CFloat.le x y = true := by
  cases x <;> cases y <;> simp_all [CFloat.lt, CFloat.le]
  omega

theorem CFloat.le_of_not_lt {x y : CFloat} (hx : x.isnan = false) (hy : y.isnan = false)
    (h : CFloat.lt y x = false) : CFloat.le x y = true := by
  cases x <;> cases y <;> simp_all [CFloat.lt, CFloat.le, CFloat.isnan]

theorem CFloat.min_le_left {a b : CFloat} (ha : a.isnan = false) :
    CFloat.le (CFloat.min a b) a = true := by
  unfold CFloat.min
  split
  · rename_i h
    exact CFloat.le_of_lt h
  · exact CFloat.le_refl ha

theorem CFloat.min_le_right {a b : CFloat} (ha : a.isnan = false) (hb : b.isnan = false) :
    CFloat.le (CFloat.min a b) b = true := by
  unfold CFloat.min
  split
  · exact CFloat.le_refl hb
  · rename_i h
    exact CFloat.le_of_not_lt ha hb (by simpa using h)

theorem CFloat.min_isnan {a b : CFloat} (ha : a.isnan = false) (hb : b.isnan = false) :
    (CFloat.min a b).isnan = false := by
  unfold CFloat.min
  split <;> assumption

theorem CFloat.le_min {a b c : CFloat} (h1 : CFloat.le c a = true) (h2 : CFloat.le c b = true) :
    CFloat.le c (CFloat.min a b) = true := by
  unfold CFloat.min
  split <;> assumption

theorem bestFitness_isnan (l : List chromosome) (h : NoNaN l) : (bestFitness l).isnan = false := by
  induction l with
  | nil => rfl
  | cons c cs ih =>
    exact CFloat.min_isnan (h c (List.mem_cons_self _ _))
      (ih (fun x hx => h x (List.mem_cons_of_mem _ hx)))

theorem bestFitness_le (l : List chromosome) (h : NoNaN l) (c : chromosome) (hc : c ∈ l) :
    CFloat.le (bestFitness l) c.fitness = true := by
  induction l with
  | nil => cases hc
  | cons d ds ih =>
    have hd := h d (List.mem_cons_self _ _)
    have hds : NoNaN ds := fun x hx => h x (List.mem_cons_of_mem _ hx)
    rcases List.mem_cons.mp hc with hc | hc
    · subst hc
      exact CFloat.min_le_left hd
    · exact CFloat.le_trans (CFloat.min_le_right hd (bestFitness_isnan ds hds)) (ih hds hc)

theorem le_bestFitness (l : List chromosome) (x : CFloat) (hx : x.isnan = false)
    (h : ∀ c ∈ l, CFloat.le x c.fitness = true) : CFloat.le x (bestFitness l) = true := by
  induction l with
  | nil => cases x <;> simp_all [bestFitness, CFloat.le, CFloat.lt, CFloat.isnan]
  | cons d ds ih =>
    exact CFloat.le_min (h d (List.mem_cons_self _ _))
      (ih (fun c hc => h c (List.mem_cons_of_mem _ hc)))

/-! ## Selection -/

theorem chain_pairwise_on {α : Type} (R : α → α → Prop)
    (htrans : ∀ a b c, R a b → R b c → R a c) :
    ∀ l : List α, l.Chain' R → l.Pairwise R := by
  intro l
  induction l with
  | nil => intro _; exact List.Pairwise.nil
  | cons a l ih =>
    intro hc
    have hl := ih hc.tail
    refine List.Pairwise.cons ?_ hl
    intro b hb
    cases l with
    | nil => cases hb
    | cons d ds =>
      have had : R a d := (List.chain'_cons.mp hc).1
      rcases List.mem_cons.mp hb with hb | hb
      · exact hb ▸ had
      · exact htrans a d b had ((List.pairwise_cons.mp hl).1 b hb)

theorem set_perm_cons {α : Type} (h : α) :
    ∀ (t : List α) (k : Nat) (hk : k < t.length), (t[k] :: t.set k h).Perm (h :: t) := by
  intro t
  induction t with
  | nil => intro k hk; cases hk
  | cons u us ih =>
    intro k hk
    cases k with
    | zero => exact List.Perm.swap _ _ _
    | succ k =>
      have hk2 : k < us.length := by simpa using hk
      have h1 : ((u :: us)[k + 1] :: (u :: us).set (k + 1) h).Perm
          (u :: us[k] :: us.set k h) := List.Perm.swap _ _ _
      exact h1.trans (((ih k hk2).cons u).trans (List.Perm.swap _ _ _))

theorem swapEnds_perm (a : List chromosome) (n : Nat) : (swapEnds a n).Perm a := by
  unfold swapEnds
  split
  · rename_i first last h0 h1
    cases a with
    | nil => simp at h0
    | cons x t =>
      simp only [List.getElem?_cons_zero, Option.some.injEq] at h0
      subst h0
      cases hn : n - 1 with
      | zero =>
        simp
      | succ k =>
        rw [hn] at h1
        simp only [List.getElem?_cons_succ] at h1
        obtain ⟨hk, e⟩ := List.getElem?_eq_some_iff.mp h1
        simp only [List.set_cons_zero, List.set_cons_succ]
        rw [← e]
        exact set_perm_cons x t k hk
  · exact List.Perm.refl _

theorem sortChromosomeArray_spec (chromoArray : List chromosome) :
    (sortChromosomeArray chromoArray chromoArray.length).Perm chromoArray ∧
    (NoNaN chromoArray →
      SortedByFitness (sortChromosomeArray chromoArray chromoArray.length)) := by
  have hsw := swapEnds_perm chromoArray chromoArray.length
  obtain ⟨b1, b2, _, b4⟩ := bubbleLoop_spec
    (fun a b : chromosome => CFloat.gt a.fitness b.fitness)
    (fun x y h => CFloat.gt_asymm _ _ h) chromoArray.length (sortFuel chromoArray.length)
    (swapEnds chromoArray chromoArray.length) (sortFuel_enough _ _ _)
  have hlen : (sortChromosomeArray chromoArray chromoArray.length).length =
      chromoArray.length := b1.trans hsw.length_eq
  have hperm : (sortChromosomeArray chromoArray chromoArray.length).Perm chromoArray := by
    have h1 := b2
    rw [List.take_of_length_le (Nat.le_of_eq (b1.trans hsw.length_eq)),
      List.take_of_length_le (Nat.le_of_eq hsw.length_eq)] at h1
    exact h1.trans hsw
  refine ⟨hperm, ?_⟩
  intro hnan
  have hc := b4.chain
  rw [List.take_of_length_le (Nat.le_of_eq (b1.trans hsw.length_eq))] at hc
  have hnan2 : ∀ x ∈ sortChromosomeArray chromoArray chromoArray.length,
      x.fitness.isnan = false := fun x hx => hnan x (hperm.mem_iff.mp hx)
  have hc2 : (sortChromosomeArray chromoArray chromoArray.length).Chain'
      (fun a b => a.fitness.isnan = false ∧ b.fitness.isnan = false ∧
        CFloat.le a.fitness b.fitness = true) := by
    rw [List.chain'_iff_get] at hc ⊢
    intro i hi
    have h1 := hnan2 _ (List.get_mem _ i (by omega))
    have h2 := hnan2 _ (List.get_mem _ (i + 1) (by omega))
    exact ⟨h1, h2, CFloat.le_of_not_gt h1 h2 (hc i hi)⟩
  have hp := chain_pairwise_on
    (fun a b : chromosome => a.fitness.isnan = false ∧ b.fitness.isnan = false ∧
      CFloat.le a.fitness b.fitness = true)
    (fun a b c hab hbc => ⟨hab.1, hbc.2.1, CFloat.le_trans hab.2.2 hbc.2.2⟩) _ hc2
  exact hp.imp (fun h => h.2.2)

theorem pickHighest_parents (params : parameters) (parents cands : List chromosome) (n : Nat)
    (hp : params.mu ≤ parents.length)
    (hs : params.mu ≤ (sortChromosomeArray cands n).length) :
    (pickHighest params parents cands n).1.length = parents.length ∧
    (∀ i, i < params.mu → ∃ p c, parents[i]? = some p ∧
      (sortChromosomeArray cands n)[i]? = some c ∧
      (pickHighest params parents cands n).1[i]? = some (copyChromosome params p c)) ∧
    ∀ i, params.mu ≤ i → (pickHighest params parents cands n).1[i]? = parents[i]? := by
  let P : Nat → List chromosome → Prop := fun k ps =>
    ps.length = parents.length ∧
    (∀ i, i < k → ∃ p c, parents[i]? = some p ∧
      (sortChromosomeArray cands n)[i]? = some c ∧
      ps[i]? = some (copyChromosome params p c)) ∧
    ∀ i, k ≤ i → ps[i]? = parents[i]?
  have key : P params.mu (pickHighest params parents cands n).1 := by
    refine forLoop_induction P params.mu _ parents
      ⟨rfl, fun i hi => absurd hi (Nat.not_lt_zero i), fun _ _ => rfl⟩ ?_
    intro k ps hk hP
    obtain ⟨hP1, hP2, hP3⟩ := hP
    have hkp : k < parents.length := by omega
    have hks : k < (sortChromosomeArray cands n).length := by omega
    have h0 : parents[k]? = some parents[k] := List.getElem?_eq_getElem hkp
    have h1 : ps[k]? = some parents[k] := by rw [hP3 k (Nat.le_refl k), h0]
    have h2 : (sortChromosomeArray cands n)[k]? = some (sortChromosomeArray cands n)[k] :=
      List.getElem?_eq_getElem hks
    simp only [h1, h2]
    refine ⟨by simp [hP1], ?_, ?_⟩
    · intro i hi
      rcases Nat.lt_succ_iff_lt_or_eq.mp hi with hi | hi
      · obtain ⟨p, c, e1, e2, e3⟩ := hP2 i hi
        exact ⟨p, c, e1, e2, by rw [List.getElem?_set_ne (by omega)]; exact e3⟩
      · subst hi
        exact ⟨parents[i], (sortChromosomeArray cands n)[i], h0, h2,
          List.getElem?_set_self (by omega)⟩
    · intro i hi
      rw [List.getElem?_set_ne (by omega)]
      exact hP3 i (by omega)
  exact key

/-! ## The evolutionary loop -/

theorem forLoopE_inv {σ : Type} (P : Nat → σ → Prop) (n : Nat)
    (body : σ → Nat → Except Fault σ) (init : σ) (h0 : P 0 init)
    (hstep : ∀ k s t, k < n → P k s → body s k = Except.ok t → P (k + 1) t) :
    ∀ r, forLoopE n body init = Except.ok r → P n r := by
  induction n with
  | zero =>
    intro r hr
    simp only [forLoopE, Except.ok.injEq] at hr
    exact hr ▸ h0
  | succ m ih =>
    intro r hr
    simp only [forLoopE] at hr
    split at hr
    · rename_i s hs
      exact hstep m s r (Nat.lt_succ_self m)
        (ih (fun k s t hk => hstep k s t (Nat.lt_succ_of_lt hk)) s hs) hr
    · cases hr

theorem SameButHold.same (p : parameters) : SameButHold p p := rfl

theorem SameButHold.compose {p q r : parameters} (h1 : SameButHold p q) (h2 : SameButHold q r) :
    SameButHold p r := by
  unfold SameButHold at *
  rw [h2, h1]

theorem SameButHold.mu_eq {p q : parameters} (h : SameButHold p q) : q.mu = p.mu := by
  unfold SameButHold at h
  rw [h]

theorem SameButHold.lambda_eq {p q : parameters} (h : SameButHold p q) :
    q.lambda = p.lambda := by
  unfold SameButHold at h
  rw [h]

theorem SameButHold.strategy_eq {p q : parameters} (h : SameButHold p q) :
    q.evolutionaryStrategy = p.evolutionaryStrategy := by
  unfold SameButHold at h
  rw [h]

theorem evaluateChromosomes_spec (F : FitnessFunction) (hF : NeverNaN F) (dat : data) (n : Nat)
    (params : parameters) (chromos : List chromosome) (r : parameters × List chromosome)
    (h : evaluateChromosomes F dat n params chromos = Except.ok r) :
    SameButHold params r.1 ∧ r.2.length = chromos.length ∧
    (∀ i c, i < n → r.2[i]? = some c → c.fitness.isnan = false) ∧
    ∀ i, n ≤ i → r.2[i]? = chromos[i]? := by
  refine forLoopE_inv
    (fun k (st : parameters × List chromosome) =>
      SameButHold params st.1 ∧ st.2.length = chromos.length ∧
      (∀ i c, i < k → st.2[i]? = some c → c.fitness.isnan = false) ∧
      ∀ i, k ≤ i → st.2[i]? = chromos[i]?)
    n (evaluateChromosome F dat) (params, chromos)
    ⟨SameButHold.same _, rfl, fun i c hi => absurd hi (Nat.not_lt_zero i), fun _ _ => rfl⟩
    ?_ r h
  rintro k st t hk ⟨h1, h2, h3, h4⟩ ht
  unfold evaluateChromosome at ht
  split at ht
  · rename_i c hc
    unfold setChromosomeFitness at ht
    split at ht
    · rename_i u hu
      split at hu
      · rename_i v hv
        cases hu
        cases ht
        have hki : k < st.2.length := (List.getElem?_eq_some_iff.mp hc).1
        refine ⟨h1.compose rfl, by simp [h2], ?_, ?_⟩
        · intro i d hi hd
          rcases Nat.lt_succ_iff_lt_or_eq.mp hi with hi | hi
          · rw [List.getElem?_set_ne (by omega)] at hd
            exact h3 i d hi hd
          · subst hi
            rw [List.getElem?_set_self hki] at hd
            cases hd
            exact hF _ _ _ _ hv
        · intro i hi
          rw [List.getElem?_set_ne (by omega)]
          exact h4 i (by omega)
      · cases hu
    · cases ht
  · rename_i hc
    cases ht
    refine ⟨h1, h2, ?_, fun i hi => h4 i (by omega)⟩
    intro i d hi hd
    rcases Nat.lt_succ_iff_lt_or_eq.mp hi with hi | hi
    · exact h3 i d hi hd
    · subst hi
      rw [hc] at hd
      cases hd

theorem fillCandidates_spec (params : parameters) (pop : population) (n : Nat)
    (cands : List chromosome) (hn : n ≤ cands.length)
    (hch : params.lambda ≤ pop.children.length)
    (hpa : n - params.lambda ≤ pop.parents.length) :
    (fillCandidates params pop n cands).length = cands.length ∧
    (∀ i, i < n → ∃ c s, (fillCandidates params pop n cands)[i]? = some c ∧
      (if i < params.lambda then pop.children[i]? else pop.parents[i - params.lambda]?) =
        some s ∧ c.fitness = s.fitness) ∧
    ∀ i, n ≤ i → (fillCandidates params pop n cands)[i]? = cands[i]? := by
  let P : Nat → List chromosome → Prop := fun k cs =>
    cs.length = cands.length ∧
    (∀ i, i < k → ∃ c s, cs[i]? = some c ∧
      (if i < params.lambda then pop.children[i]? else pop.parents[i - params.lambda]?) =
        some s ∧ c.fitness = s.fitness) ∧
    ∀ i, k ≤ i → cs[i]? = cands[i]?
  have key : P n (fillCandidates params pop n cands) := by
    refine forLoop_induction P n _ cands
      ⟨rfl, fun i hi => absurd hi (Nat.not_lt_zero i), fun _ _ => rfl⟩ ?_
    intro k cs hk hP
    obtain ⟨hP1, hP2, hP3⟩ := hP
    have hkc : k < cands.length := by omega
    have h1 : cs[k]? = some cands[k] := by
      rw [hP3 k (Nat.le_refl k), List.getElem?_eq_getElem hkc]
    simp only [h1]
    by_cases hkl : k < params.lambda
    · have hkch : k < pop.children.length := by omega
      have h2 : pop.children[k]? = some pop.children[k] := List.getElem?_eq_getElem hkch
      simp only [hkl, if_true, h2]
      refine ⟨by simp [hP1], ?_, ?_⟩
      · intro i hi
        rcases Nat.lt_succ_iff_lt_or_eq.mp hi with hi | hi
        · obtain ⟨c, s, e1, e2, e3⟩ := hP2 i hi
          exact ⟨c, s, by rw [List.getElem?_set_ne (by omega)]; exact e1, e2, e3⟩
        · subst hi
          exact ⟨_, pop.children[i], List.getElem?_set_self (by omega),
            by simp only [hkl, if_true, h2], rfl⟩
      · intro i hi
        rw [List.getElem?_set_ne (by omega)]
        exact hP3 i (by omega)
    · have hkpa : k - params.lambda < pop.parents.length := by omega
      have h2 : pop.parents[k - params.lambda]? = some pop.parents[k - params.lambda] :=
        List.getElem?_eq_getElem hkpa
      simp only [hkl, if_false, h2]
      refine ⟨by simp [hP1], ?_, ?_⟩
      · intro i hi
        rcases Nat.lt_succ_iff_lt_or_eq.mp hi with hi | hi
        · obtain ⟨c, s, e1, e2, e3⟩ := hP2 i hi
          exact ⟨c, s, by rw [List.getElem?_set_ne (by omega)]; exact e1, e2, e3⟩
        · subst hi
          exact ⟨_, pop.parents[i - params.lambda], List.getElem?_set_self (by omega),
            by simp only [hkl, if_false, h2], rfl⟩
      · intro i hi
        rw [List.getElem?_set_ne (by omega)]
        exact hP3 i (by omega)
  exact key

theorem selectionStep_plus (F : FitnessFunction) (hF : NeverNaN F) (dat : data)
    (st st1 : EvoState) (hst : PlusState st) (h : selectionStep F dat st = Except.ok st1) :
    PlusState st1 ∧
    CFloat.le (bestFitness st1.pop.parents) (bestFitness st.pop.parents) = true := by
  unfold selectionStep at h
  split at h
  · cases h
  · rename_i ev hev
    obtain ⟨e1, e2, e3, _⟩ := evaluateChromosomes_spec F hF dat _ _ _ ev hev
    have hmu : ev.1.mu = st.params.mu := e1.mu_eq
    have hla : ev.1.lambda = st.params.lambda := e1.lambda_eq
    have hes : ev.1.evolutionaryStrategy = '+' := e1.strategy_eq.trans hst.plus
    have hN : numCandidates ev.1 = st.candidateChromos.length := by
      unfold numCandidates
      rw [if_pos hes, hmu, hla, hst.candidates]
    obtain ⟨f1, f2, _⟩ := fillCandidates_spec ev.1 { st.pop with children := ev.2 }
      (numCandidates ev.1) st.candidateChromos (Nat.le_of_eq hN)
      (by show ev.1.lambda ≤ ev.2.length; rw [e2, hla, hst.children])
      (by
        show numCandidates ev.1 - ev.1.lambda ≤ st.pop.parents.length
        rw [hN, hst.candidates, hla, hst.parents]
        omega)
    have hN2 : numCandidates ev.1 =
        (fillCandidates ev.1 { st.pop with children := ev.2 } (numCandidates ev.1)
          st.candidateChromos).length := hN.trans f1.symm
    have hfillnan : NoNaN (fillCandidates ev.1 { st.pop with children := ev.2 }
        (numCandidates ev.1) st.candidateChromos) := by
      intro c hc
      obtain ⟨i, hi⟩ := List.mem_iff_getElem?.mp hc
      have hil := (List.getElem?_eq_some_iff.mp hi).1
      obtain ⟨c2, s, g1, g2, g3⟩ := f2 i (by omega)
      rw [hi] at g1
      cases g1
      rw [g3]
      by_cases hlt : i < ev.1.lambda
      · rw [if_pos hlt] at g2
        exact e3 i s (hla ▸ hlt) g2
      · rw [if_neg hlt] at g2
        exact hst.nan s (List.getElem?_mem g2)
    have hparent : ∀ p ∈ st.pop.parents, ∃ c ∈ fillCandidates ev.1
        { st.pop with children := ev.2 } (numCandidates ev.1) st.candidateChromos,
        c.fitness = p.fitness := by
      intro p hp
      obtain ⟨j, hj, hjp⟩ := List.mem_iff_getElem.mp hp
      obtain ⟨c, s, g1, g2, g3⟩ := f2 (ev.1.lambda + j) (by
        rw [hN, hst.candidates, hla]
        rw [hst.parents] at hj
        omega)
      rw [if_neg (by omega), Nat.add_sub_cancel_left, List.getElem?_eq_getElem hj] at g2
      cases g2
      exact ⟨c, List.getElem?_mem g1, g3.trans (congrArg chromosome.fitness hjp)⟩
    have hsort := sortChromosomeArray_spec (fillCandidates ev.1
      { st.pop with children := ev.2 } (numCandidates ev.1) st.candidateChromos)
    rw [← hN2] at hsort
    obtain ⟨hperm, hsorted⟩ := hsort
    have hsorted := hsorted hfillnan
    have hslen := hperm.length_eq
    obtain ⟨q1, q2, _⟩ := pickHighest_parents ev.1 st.pop.parents
      (fillCandidates ev.1 { st.pop with children := ev.2 } (numCandidates ev.1)
        st.candidateChromos)
      (numCandidates ev.1) (by rw [hmu, hst.parents])
      (by
        rw [hslen, f1, hst.candidates, hmu]
        omega)
    have hsortnan : ∀ c ∈ sortChromosomeArray (fillCandidates ev.1
        { st.pop with children := ev.2 } (numCandidates ev.1) st.candidateChromos)
        (numCandidates ev.1), c.fitness.isnan = false :=
      fun c hc => hfillnan c (hperm.mem_iff.mp hc)
    cases h
    refine ⟨⟨hes, hmu ▸ hst.mu, ?_, ?_, ?_, ?_⟩, ?_⟩
    · show (pickHighest _ _ _ _).1.length = ev.1.mu
      rw [q1, hst.parents, hmu]
    · show ev.2.length = ev.1.lambda
      rw [e2, hst.children, hla]
    · exact hslen.trans (f1.trans (by rw [hst.candidates, hmu, hla]))
    · intro q hq
      obtain ⟨i, hi⟩ := List.mem_iff_getElem?.mp hq
      have hil : i < (pickHighest ev.1 st.pop.parents
          (fillCandidates ev.1 { st.pop with children := ev.2 } (numCandidates ev.1)
            st.candidateChromos) (numCandidates ev.1)).1.length :=
        (List.getElem?_eq_some_iff.mp hi).1
      rw [q1, hst.parents, ← hmu] at hil
      obtain ⟨p, c, g1, g2, g3⟩ := q2 i hil
      have hi2 : (pickHighest ev.1 st.pop.parents
          (fillCandidates ev.1 { st.pop with children := ev.2 } (numCandidates ev.1)
            st.candidateChromos) (numCandidates ev.1)).1[i]? = some q := hi
      rw [g3] at hi2
      cases hi2
      exact hsortnan c (List.getElem?_mem g2)
    · obtain ⟨p, c, g1, g2, g3⟩ := q2 0 (by rw [hmu]; exact hst.mu)
      have hcn := hsortnan c (List.getElem?_mem g2)
      have hmin : ∀ d ∈ sortChromosomeArray (fillCandidates ev.1
          { st.pop with children := ev.2 } (numCandidates ev.1) st.candidateChromos)
          (numCandidates ev.1), CFloat.le c.fitness d.fitness = true := by
        intro d hd
        obtain ⟨j, hj⟩ := List.mem_iff_getElem?.mp hd
        cases j with
        | zero =>
          rw [g2] at hj
          cases hj
          exact CFloat.le_refl hcn
        | succ j =>
          obtain ⟨h0, e0⟩ := List.getElem?_eq_some_iff.mp g2
          obtain ⟨hj1, ej⟩ := List.getElem?_eq_some_iff.mp hj
          have := List.pairwise_iff_getElem.mp hsorted 0 (j + 1) h0 hj1 (Nat.succ_pos j)
          rw [e0, ej] at this
          exact this
      have hnew : NoNaN (pickHighest ev.1 st.pop.parents
          (fillCandidates ev.1 { st.pop with children := ev.2 } (numCandidates ev.1)
            st.candidateChromos) (numCandidates ev.1)).1 := by
        intro q hq
        obtain ⟨i, hi⟩ := List.mem_iff_getElem?.mp hq
        have hil := (List.getElem?_eq_some_iff.mp hi).1
        rw [q1, hst.parents, ← hmu] at hil
        obtain ⟨p2, c2, k1, k2, k3⟩ := q2 i hil
        rw [k3] at hi
        cases hi
        exact hsortnan c2 (List.getElem?_mem k2)
      have h1 : CFloat.le (bestFitness (pickHighest ev.1 st.pop.parents
          (fillCandidates ev.1 { st.pop with children := ev.2 } (numCandidates ev.1)
            st.candidateChromos) (numCandidates ev.1)).1) c.fitness = true :=
        bestFitness_le _ hnew (copyChromosome ev.1 p c) (List.getElem?_mem g3)
      have h2 : CFloat.le c.fitness (bestFitness st.pop.parents) = true := by
        refine le_bestFitness _ _ hcn ?_
        intro x hx
        obtain ⟨y, hy, hyx⟩ := hparent x hx
        rw [← hyx]
        exact hmin y (hperm.mem_iff.mpr hy)
      exact CFloat.le_trans h1 h2

theorem mutateRandomParent_parents (params : parameters) (pop : population) (s : RandState)
    (r : population × RandState) (h : mutateRandomParent params pop s = Except.ok r) :
    r.1.parents = pop.parents ∧ r.1.children.length = pop.children.length := by
  refine forLoopE_inv
    (fun _ (st : population × RandState) =>
      st.1.parents = pop.parents ∧ st.1.children.length = pop.children.length)
    params.lambda (reproduceChild params) (pop, s) ⟨rfl, rfl⟩ ?_ r h
  rintro k st t _ ⟨h1, h2⟩ ht
  unfold reproduceChild at ht
  split at ht
  · cases ht
  · split at ht
    · split at ht
      · cases ht
        exact ⟨h1, by simp [setChild, h2]⟩
      · cases ht
    · cases ht
      exact ⟨h1, h2⟩

theorem reproductionStep_plus (st st2 : EvoState) (hst : PlusState st)
    (h : reproductionStep st = Except.ok st2) :
    PlusState st2 ∧ st2.pop.parents = st.pop.parents := by
  unfold reproductionStep at h
  split at h
  · rename_i r hr
    obtain ⟨h1, h2⟩ := mutateRandomParent_parents _ _ _ r hr
    cases h
    exact ⟨⟨hst.plus, hst.mu, h1 ▸ hst.parents, h2.trans hst.children, hst.candidates,
      h1 ▸ hst.nan⟩, h1⟩
  · cases h

theorem evolveTrace_nonIncreasing (F : FitnessFunction) (hF : NeverNaN F) (dat : data) :
    ∀ (n : Nat) (st : EvoState) (trace : List (List chromosome)), PlusState st →
      evolveTrace F dat n st = Except.ok trace → NonIncreasing (st.pop.parents :: trace) := by
  intro n
  induction n with
  | zero =>
    intro st trace _ h
    simp only [evolveTrace, Except.ok.injEq] at h
    subst h
    exact List.chain'_singleton _
  | succ n ih =>
    intro st trace hst h
    simp only [evolveTrace] at h
    split at h
    · cases h
    · rename_i st1 hsel
      obtain ⟨hst1, hle⟩ := selectionStep_plus F hF dat st st1 hst hsel
      split at h
      · cases h
        exact List.chain'_cons.mpr ⟨hle, List.chain'_singleton _⟩
      · split at h
        · cases h
        · split at h
          · cases h
          · rename_i st2 hrep
            obtain ⟨hst2, hpar⟩ := reproductionStep_plus st1 st2 hst1 hrep
            split at h
            · cases h
            · rename_i rest hrest
              cases h
              have := ih st2 rest hst2 hrest
              rw [hpar] at this
              exact List.chain'_cons.mpr ⟨hle, this⟩

theorem initialiseCandidates_length (params : parameters) (s : RandState)
    (r : List chromosome × RandState) (h : initialiseCandidates params s = Except.ok r) :
    r.1.length = numCandidates params := by
  refine forLoopE_inv (fun k (st : List chromosome × RandState) => st.1.length = k)
    (numCandidates params) _ ([], s) rfl ?_ r h
  intro k st t _ hP ht
  simp only at ht
  split at ht
  · cases ht
    simp [hP]
  · cases ht

theorem evolveInit_plus (F : FitnessFunction) (hF : NeverNaN F) (params : parameters)
    (pop : population) (dat : data) (s : RandState) (st0 : EvoState)
    (hplus : params.evolutionaryStrategy = '+') (hmu : 1 ≤ params.mu)
    (hpl : pop.parents.length = params.mu) (hcl : pop.children.length = params.lambda)
    (h : evolveInit F params pop dat s = Except.ok st0) : PlusState st0 := by
  unfold evolveInit at h
  split at h
  · cases h
  · rename_i cs hcs
    have hlen := initialiseCandidates_length params s cs hcs
    rw [if_pos hplus] at h
    split at h
    · cases h
    · rename_i ev hev
      obtain ⟨e1, e2, e3, _⟩ := evaluateChromosomes_spec F hF dat _ _ _ ev hev
      cases h
      refine ⟨e1.strategy_eq.trans hplus, e1.mu_eq ▸ hmu, ?_, hcl.trans e1.lambda_eq.symm, ?_, ?_⟩
      · show ev.2.length = ev.1.mu
        rw [e2, hpl, e1.mu_eq]
      · show cs.1.length = ev.1.mu + ev.1.lambda
        rw [hlen, e1.mu_eq, e1.lambda_eq]
        unfold numCandidates
        rw [if_pos hplus]
      · intro c hc
        obtain ⟨i, hi⟩ := List.mem_iff_getElem?.mp hc
        have hil : i < ev.2.length := (List.getElem?_eq_some_iff.mp hi).1
        exact e3 i c (by omega) hi

theorem evolveLoop_trace (F : FitnessFunction) (dat : data) :
    ∀ (n g : Nat) (st : EvoState) (r : EvoState × Nat),
      evolveLoop F dat n g st = Except.ok r →
      ∃ trace, evolveTrace F dat n st = Except.ok trace ∧
        (st.pop.parents :: trace).getLast? = some r.1.pop.parents := by
  intro n
  induction n with
  | zero =>
    intro g st r h
    simp only [evolveLoop, Except.ok.injEq] at h
    subst h
    exact ⟨[], rfl, rfl⟩
  | succ n ih =>
    intro g st r h
    cases hsel : selectionStep F dat st with
    | error e =>
      simp only [evolveLoop, hsel] at h
      cases h
    | ok st1 =>
      by_cases hfound : solutionFound st1 = true
      · simp only [evolveLoop, hsel, hfound, if_true, Except.ok.injEq] at h
        subst h
        simp only [evolveTrace, hsel, hfound, if_true]
        exact ⟨_, rfl, rfl⟩
      · have huf : ¬ st1.params.updateFrequency = 0 := by
          intro huf
          simp [evolveLoop, hsel, hfound, huf] at h
        cases hrep : reproductionStep st1 with
        | error e =>
          simp only [evolveLoop, hsel, hfound, huf, hrep] at h
          cases h
        | ok st2 =>
          simp only [evolveLoop, hsel, hfound, huf, hrep] at h
          obtain ⟨rest, hrest, hlast⟩ := ih (g + 1) st2 r h
          simp only [evolveTrace, hsel, hfound, huf, hrep, hrest]
          refine ⟨_, rfl, ?_⟩
          have hpar : st2.pop.parents = st1.pop.parents := by
            unfold reproductionStep at hrep
            split at hrep
            · rename_i m hm
              cases hrep
              exact (mutateRandomParent_parents _ _ _ m hm).1
            · cases hrep
          rw [hpar] at hlast
          rw [List.getLast?_cons_cons]
          exact hlast

/-! ## The claims -/

theorem Acyclic.set_function {numInputs : Nat} {c : chromosome} (h : Acyclic numInputs c)
    (i f : Nat) : Acyclic numInputs (setFunctionGene c i f) :=
  h.of_conn (modifyNode_map _ _ _ _ (fun _ => rfl))

theorem Acyclic.set_weight {numInputs : Nat} {c : chromosome} (h : Acyclic numInputs c)
    (i k : Nat) (w : CFloat) : Acyclic numInputs (setWeightGene c i k w) :=
  h.of_conn (modifyNode_map _ _ _ _ (fun _ => rfl))

theorem Acyclic.set_output {numInputs : Nat} {c : chromosome} (h : Acyclic numInputs c)
    (k o : Nat) : Acyclic numInputs (setOutputGene c k o) :=
  h.of_conn rfl

/-- C1. Acyclicity invariant: with at least one input and a non-empty function set, for every
sequence of random draws `initialiseChromosome` returns a chromosome in which every connection
gene of the node at position `p` is smaller than `numInputs + p` (genes are naturals, so they
are at least `0`); and `probabilisticMutation`, for every mutation rate and every sequence of
draws, returns a chromosome with this property when it is given one. -/
theorem acyclicity_invariant (params : parameters) (s : RandState)
    (hI : 1 ≤ params.numInputs) (hF : 1 ≤ params.funcSet.numFunctions) :
    (∃ r, initialiseChromosome params s = Except.ok r ∧ Acyclic params.numInputs r.1) ∧
    ∀ chromo, Acyclic params.numInputs chromo →
      ∃ r, probabilisticMutation params chromo s = Except.ok r ∧
        Acyclic params.numInputs r.1 := by
  refine ⟨?_, ?_⟩
  · obtain ⟨r, hr, hacyc, _⟩ := initialiseChromosome_ok params s hI hF
    exact ⟨r, hr, hacyc⟩
  · intro chromo h
    exact probabilisticMutation_invariant params (Acyclic params.numInputs) chromo s hI hF
      (fun c i f hc _ => hc.set_function i f)
      (fun c i k g hc _ hg => hc.set_input i k g hg)
      (fun c i k w hc => hc.set_weight i k w)
      (fun c k o hc _ => hc.set_output k o) h

theorem acyclicity_invariant_witness :
    1 ≤ exampleParams.numInputs ∧ 1 ≤ exampleParams.funcSet.numFunctions ∧
    ((∃ r, initialiseChromosome exampleParams exampleRand = Except.ok r ∧
        Acyclic exampleParams.numInputs r.1) ∧
      ∀ chromo, Acyclic exampleParams.numInputs chromo →
        ∃ r, probabilisticMutation exampleParams chromo exampleRand = Except.ok r ∧
          Acyclic exampleParams.numInputs r.1) :=
  ⟨by decide, by decide, acyclicity_invariant exampleParams exampleRand (by decide) (by decide)⟩

/-- C2. Decoding is sound and minimal: for every chromosome whose arrays have their allocated
lengths and whose connection and output genes are smaller than `numInputs + numNodes`, after
`setActiveNodes` a node index occurs in `activeNodes[0 .. numActiveNodes)` if and only if the
node is reachable from some output gene by following connection genes. -/
theorem setActiveNodes_sound_minimal (chromo : chromosome) (hA : Allocated chromo)
    (hR : GenesInRange chromo) (i : Nat) :
    i ∈ (setActiveNodes chromo).activeNodes.take (setActiveNodes chromo).numActiveNodes ↔
      Reachable chromo i :=
  (setActiveNodes_spec chromo hA hR).2.2.1 i

theorem setActiveNodes_sound_minimal_witness :
    Allocated exampleChromosome ∧ GenesInRange exampleChromosome ∧
    (0 ∈ (setActiveNodes exampleChromosome).activeNodes.take
        (setActiveNodes exampleChromosome).numActiveNodes ↔
      Reachable exampleChromosome 0) :=
  ⟨by decide, by decide, setActiveNodes_sound_minimal exampleChromosome (by decide) (by decide) 0⟩

theorem executeChromosome_value_spec (params : parameters) (chromo : chromosome)
    (inputs outputs : List CFloat) (hF : Fits params chromo) (hA : Allocated chromo)
    (hAc : Acyclic params.numInputs chromo) (hO : OutputsInRange chromo)
    (hout : params.numOutputs ≤ outputs.length) :
    (∀ k, k < params.numOutputs →
      (executeChromosome params (setActiveNodes chromo) inputs outputs).2.2[k]? =
        some (value params.funcSet params.numInputs params.arity (genes chromo) inputs
          (chromo.outputNodes.getD k 0))) ∧
    (∀ a, a < params.numInputs →
      value params.funcSet params.numInputs params.arity (genes chromo) inputs a =
        inputs.getD a default) ∧
    (∀ p n, chromo.nodes[p]? = some n →
      value params.funcSet params.numInputs params.arity (genes chromo) inputs
          (params.numInputs + p) =
        sanitise ((params.funcSet.get n.function) params.arity
          (n.inputs.map (value params.funcSet params.numInputs params.arity (genes chromo) inputs))
          n.weights)) := by
  have hs := setActiveNodes_same chromo
  have hR : GenesInRange chromo := Acyclic.genesInRange (hF.1 ▸ hAc) hA.1 hO
  refine ⟨?_, ?_, ?_⟩
  · intro k hk
    have := executeChromosome_outputs params (setActiveNodes chromo) inputs outputs
      ⟨hs.numInputs.trans hF.1, hs.numNodes.trans hF.2.1, hs.numOutputs.trans hF.2.2.1,
        hs.arity.trans hF.2.2.2.1, hF.2.2.2.2⟩
      (hs.allocated hA) (hAc.of_conn hs.conn) (hs.keepsRange hR).2
      (setActiveNodes_decoded chromo hA hR) hout k hk
    rw [hs.genes, hs.outputNodes] at this
    exact this
  · intro a ha
    exact value_input _ _ _ _ _ _ ha
  · intro p n hn
    have hp : p < chromo.nodes.length := (List.getElem?_eq_some_iff.mp hn).1
    refine value_node _ _ _ _ _ p n.function n.inputs n.weights (by simp [genes, hn]) ?_
    intro c hc
    refine hAc p hp c ?_
    simpa [List.getD_eq_getElem?_getD, hn] using hc

/-- C3. Execution computes the value of the graph: for a chromosome with allocated arrays and
the dimensions of the parameters that satisfies the acyclicity invariant and has in-range
output genes, after `setActiveNodes` the call of `executeChromosome` writes
`outputs[k] = value(outputNodes[k])` for every output `k`, where `value(a) = inputs[a]` for
`a < numInputs` and `value(numInputs + p)` is the sanitised result of the function of the node
`p` on the values of its connection genes and on its weights.  `value` is computed from the
genes alone (`genes chromo` holds no cached node output), so the outputs do not depend on the
node outputs cached before the call. -/
theorem executeChromosome_computes_value (params : parameters) (chromo : chromosome)
    (inputs outputs : List CFloat) (hF : Fits params chromo) (hA : Allocated chromo)
    (hAc : Acyclic params.numInputs chromo) (hO : OutputsInRange chromo)
    (hout : params.numOutputs ≤ outputs.length) :
    (∀ k, k < params.numOutputs →
      (executeChromosome params (setActiveNodes chromo) inputs outputs).2.2[k]? =
        some (value params.funcSet params.numInputs params.arity (genes chromo) inputs
          (chromo.outputNodes.getD k 0))) ∧
    (∀ a, a < params.numInputs →
      value params.funcSet params.numInputs params.arity (genes chromo) inputs a =
        inputs.getD a default) ∧
    (∀ p n, chromo.nodes[p]? = some n →
      value params.funcSet params.numInputs params.arity (genes chromo) inputs
          (params.numInputs + p) =
        sanitise ((params.funcSet.get n.function) params.arity
          (n.inputs.map (value params.funcSet params.numInputs params.arity (genes chromo) inputs))
          n.weights)) :=
  executeChromosome_value_spec params chromo inputs outputs hF hA hAc hO hout

theorem executeChromosome_computes_value_witness :
    Fits exampleParams exampleChromosome ∧ Allocated exampleChromosome ∧
    Acyclic exampleParams.numInputs exampleChromosome ∧ OutputsInRange exampleChromosome ∧
    exampleParams.numOutputs ≤ [CFloat.zero].length ∧
    ((∀ k, k < exampleParams.numOutputs →
      (executeChromosome exampleParams (setActiveNodes exampleChromosome)
          [ofNat 3, ofNat 4] [CFloat.zero]).2.2[k]? =
        some (value exampleParams.funcSet exampleParams.numInputs exampleParams.arity
          (genes exampleChromosome) [ofNat 3, ofNat 4]
          (exampleChromosome.outputNodes.getD k 0))) ∧
    (∀ a, a < exampleParams.numInputs →
      value exampleParams.funcSet exampleParams.numInputs exampleParams.arity
          (genes exampleChromosome) [ofNat 3, ofNat 4] a =
        [ofNat 3, ofNat 4].getD a default) ∧
    (∀ p n, exampleChromosome.nodes[p]? = some n →
      value exampleParams.funcSet exampleParams.numInputs exampleParams.arity
          (genes exampleChromosome) [ofNat 3, ofNat 4] (exampleParams.numInputs + p) =
        sanitise ((exampleParams.funcSet.get n.function) exampleParams.arity
          (n.inputs.map (value exampleParams.funcSet exampleParams.numInputs
            exampleParams.arity (genes exampleChromosome) [ofNat 3, ofNat 4]))
          n.weights))) :=
  ⟨by decide, by decide, by decide, by decide, by decide,
    executeChromosome_computes_value exampleParams exampleChromosome [ofNat 3, ofNat 4]
      [CFloat.zero] (by decide) (by decide) (by decide) (by decide) (by decide)⟩

/-- C4. The scenario: with the function set `add`, arity 2, two inputs, one node with the
connection genes `[0, 1]` and the weights `[0, 0]`, and the output gene `2`, decoding with
`setActiveNodes` and executing with the inputs `[3, 4]` yields the outputs `[7]`, whatever the
output array held before. -/
theorem add_scenario (x : CFloat) :
    (executeChromosome exampleParams (setActiveNodes exampleChromosome)
      [ofNat 3, ofNat 4] [x]).2.2 = [ofNat 7] := by
  have h : setActiveNodes exampleChromosome = exampleChromosome := by decide
  rw [h]
  have hv : add 2 [ofNat 3, ofNat 4] [CFloat.zero, CFloat.zero] = ofNat 7 := by decide
  simp [executeChromosome, forLoop, executeNode, readLocation, exampleChromosome, exampleParams,
    fuctionSet.get, hv, sanitise]
  decide

theorem value_congr_outputs (params : parameters) (c d : chromosome) (inputs : List CFloat)
    (hg : genes d = genes c) (ho : d.outputNodes = c.outputNodes) (k : Nat) :
    value params.funcSet params.numInputs params.arity (genes d) inputs
        (d.outputNodes.getD k 0) =
      value params.funcSet params.numInputs params.arity (genes c) inputs
        (c.outputNodes.getD k 0) := by
  rw [hg, ho]

/-- C7. Clone round trip: for chromosomes `A` and `B` with allocated arrays and the dimensions
of the parameters, `A` satisfying the acyclicity invariant with in-range output genes, after
`copyChromosome(B <- A)` the calls `setActiveNodes` and `executeChromosome` on `B` yield the
same active list and, for every input vector, the same outputs as on `A`. -/
theorem copyChromosome_round_trip (params : parameters) (A B : chromosome)
    (inputs outputsA outputsB : List CFloat)
    (hFA : Fits params A) (hAA : Allocated A) (hAcA : Acyclic params.numInputs A)
    (hOA : OutputsInRange A) (hFB : Fits params B) (hAB : Allocated B)
    (houtA : params.numOutputs ≤ outputsA.length)
    (houtB : params.numOutputs ≤ outputsB.length) :
    activeList (setActiveNodes (copyChromosome params B A)) = activeList (setActiveNodes A) ∧
    ∀ k, k < params.numOutputs →
      (executeChromosome params (setActiveNodes (copyChromosome params B A))
          inputs outputsB).2.2[k]? =
        (executeChromosome params (setActiveNodes A) inputs outputsA).2.2[k]? := by
  obtain ⟨hcopy, hAC, hFC, _, _⟩ := copyChromosome_spec params B A hFB hAB hFA hAA
  obtain ⟨cg, _, co, _, _, _⟩ := hcopy
  have hRA : GenesInRange A := Acyclic.genesInRange (hFA.1 ▸ hAcA) hAA.1 hOA
  have hAcC : Acyclic params.numInputs (copyChromosome params B A) :=
    hAcA.of_conn (genes_inputs cg)
  have hOC : OutputsInRange (copyChromosome params B A) := by
    intro o ho
    rw [co] at ho
    have := hOA o ho
    rw [hFC.1, hFC.2.1]
    rw [hFA.1, hFA.2.1] at this
    exact this
  have hRC : GenesInRange (copyChromosome params B A) :=
    Acyclic.genesInRange (hFC.1 ▸ hAcC) hAC.1 hOC
  refine ⟨setActiveNodes_activeList_congr hAA hRA hAC hRC (genes_inputs cg) co
    (hFC.1.trans hFA.1.symm), ?_⟩
  intro k hk
  rw [(executeChromosome_value_spec params _ inputs outputsB hFC hAC hAcC hOC houtB).1 k hk,
    (executeChromosome_value_spec params A inputs outputsA hFA hAA hAcA hOA houtA).1 k hk,
    value_congr_outputs params A _ inputs cg co k]

theorem copyChromosome_round_trip_witness :
    Fits exampleParams exampleChromosome ∧ Allocated exampleChromosome ∧
    Acyclic exampleParams.numInputs exampleChromosome ∧ OutputsInRange exampleChromosome ∧
    Fits exampleParams exampleBlank ∧ Allocated exampleBlank ∧
    exampleParams.numOutputs ≤ [CFloat.zero].length ∧
    (activeList (setActiveNodes (copyChromosome exampleParams exampleBlank exampleChromosome)) =
        activeList (setActiveNodes exampleChromosome) ∧
      ∀ k, k < exampleParams.numOutputs →
        (executeChromosome exampleParams
            (setActiveNodes (copyChromosome exampleParams exampleBlank exampleChromosome))
            [ofNat 3, ofNat 4] [CFloat.zero]).2.2[k]? =
          (executeChromosome exampleParams (setActiveNodes exampleChromosome)
            [ofNat 3, ofNat 4] [CFloat.zero]).2.2[k]?) :=
  ⟨by decide, by decide, by decide, by decide, by decide, by decide, by decide,
    copyChromosome_round_trip exampleParams exampleChromosome exampleBlank [ofNat 3, ofNat 4]
      [CFloat.zero] [CFloat.zero] (by decide) (by decide) (by decide) (by decide) (by decide)
      (by decide) (by decide) (by decide)⟩

/-- C10. Execution is deterministic: for decoded chromosomes with the same node genes and
output genes that satisfy the acyclicity invariant, two calls of `executeChromosome` with the
same input vector produce the same outputs, whatever the node output caches, the scratch
buffer `nodeInputsHold` and the output arrays hold before the two calls. -/
theorem executeChromosome_deterministic (params : parameters) (hold2 : List CFloat)
    (chromo1 chromo2 : chromosome) (inputs outputs1 outputs2 : List CFloat)
    (hh : hold2.length = params.arity)
    (hF1 : Fits params chromo1) (hA1 : Allocated chromo1)
    (hAc : Acyclic params.numInputs chromo1) (hO : OutputsInRange chromo1)
    (hD1 : Decoded chromo1)
    (hF2 : Fits params chromo2) (hA2 : Allocated chromo2) (hD2 : Decoded chromo2)
    (hg : genes chromo2 = genes chromo1) (ho : chromo2.outputNodes = chromo1.outputNodes)
    (hout1 : params.numOutputs ≤ outputs1.length)
    (hout2 : params.numOutputs ≤ outputs2.length) (k : Nat) (hk : k < params.numOutputs) :
    (executeChromosome params chromo1 inputs outputs1).2.2[k]? =
      (executeChromosome { params with nodeInputsHold := hold2 } chromo2 inputs
        outputs2).2.2[k]? := by
  have hO2 : OutputsInRange chromo2 := by
    intro o hmem
    rw [ho] at hmem
    have := hO o hmem
    rw [hF2.1, hF2.2.1]
    rw [hF1.1, hF1.2.1] at this
    exact this
  rw [executeChromosome_outputs params chromo1 inputs outputs1 hF1 hA1 hAc hO hD1 hout1 k hk,
    executeChromosome_outputs { params with nodeInputsHold := hold2 } chromo2 inputs outputs2
      ⟨hF2.1, hF2.2.1, hF2.2.2.1, hF2.2.2.2.1, hh⟩ hA2 (hAc.of_conn (genes_inputs hg)) hO2 hD2
      hout2 k hk]
  exact congrArg some (value_congr_outputs params chromo1 chromo2 inputs hg ho k).symm

theorem executeChromosome_deterministic_witness :
    [ofNat 3, ofNat 4].length = exampleParams.arity ∧
    Fits exampleParams exampleChromosome ∧ Allocated exampleChromosome ∧
    Acyclic exampleParams.numInputs exampleChromosome ∧ OutputsInRange exampleChromosome ∧
    Decoded exampleChromosome ∧ Fits exampleParams exampleStale ∧ Allocated exampleStale ∧
    Decoded exampleStale ∧ genes exampleStale = genes exampleChromosome ∧
    exampleStale.outputNodes = exampleChromosome.outputNodes ∧
    exampleParams.numOutputs ≤ [CFloat.zero].length ∧
    exampleParams.numOutputs ≤ [ofNat 5].length ∧ 0 < exampleParams.numOutputs ∧
    (executeChromosome exampleParams exampleChromosome [ofNat 3, ofNat 4] [CFloat.zero]).2.2[0]? =
      (executeChromosome { exampleParams with nodeInputsHold := [ofNat 3, ofNat 4] }
        exampleStale [ofNat 3, ofNat 4] [ofNat 5]).2.2[0]? :=
  ⟨by decide, by decide, by decide, by decide, by decide, by decide, by decide, by decide,
    by decide, by decide, by decide, by decide, by decide, by decide,
    executeChromosome_deterministic exampleParams [ofNat 3, ofNat 4] exampleChromosome
      exampleStale [ofNat 3, ofNat 4] [CFloat.zero] [ofNat 5] (by decide) (by decide)
      (by decide) (by decide) (by decide) (by decide) (by decide) (by decide) (by decide)
      (by decide) (by decide) (by decide) (by decide) 0 (by decide)⟩

theorem pickHighest_spec (params : parameters) (parents cands : List chromosome)
    (hmu1 : 1 ≤ params.mu) (hmu2 : params.mu ≤ cands.length)
    (hpl : params.mu ≤ parents.length)
    (hc : ∀ c ∈ cands, Fits params c ∧ Allocated c)
    (hp : ∀ p ∈ parents, Fits params p ∧ Allocated p) (hnan : NoNaN cands) :
    (pickHighest params parents cands cands.length).2.Perm cands ∧
    SortedByFitness (pickHighest params parents cands cands.length).2 ∧
    (∀ i, i < params.mu → ∃ p c,
      (pickHighest params parents cands cands.length).1[i]? = some p ∧
      (pickHighest params parents cands cands.length).2[i]? = some c ∧ CopyOf c p) ∧
    ((pickHighest params parents cands cands.length).1.take params.mu).map (fun c => c.fitness) =
      ((pickHighest params parents cands cands.length).2.take params.mu).map
        (fun c => c.fitness) ∧
    ∃ p, (pickHighest params parents cands cands.length).1[0]? = some p ∧
      ∀ c ∈ cands, CFloat.le p.fitness c.fitness = true := by
  obtain ⟨hperm, hsorted⟩ := sortChromosomeArray_spec cands
  have hsorted := hsorted hnan
  have hslen : (sortChromosomeArray cands cands.length).length = cands.length :=
    hperm.length_eq
  obtain ⟨q1, q2, _⟩ := pickHighest_parents params parents cands cands.length hpl
    (by omega)
  have hcopy : ∀ i, i < params.mu → ∃ p c,
      (pickHighest params parents cands cands.length).1[i]? = some p ∧
      (sortChromosomeArray cands cands.length)[i]? = some c ∧ CopyOf c p := by
    intro i hi
    obtain ⟨p, c, e1, e2, e3⟩ := q2 i hi
    have hpm := hp p (List.getElem?_mem e1)
    have hcm := hc c (hperm.mem_iff.mp (List.getElem?_mem e2))
    exact ⟨_, c, e3, e2, (copyChromosome_spec params p c hpm.1 hpm.2 hcm.1 hcm.2).1⟩
  refine ⟨hperm, hsorted, hcopy, ?_, ?_⟩
  · apply List.ext_getElem?
    intro i
    simp only [List.getElem?_map, List.getElem?_take]
    by_cases hi : i < params.mu
    · obtain ⟨p, c, e1, e2, e3⟩ := hcopy i hi
      have e2' : (pickHighest params parents cands cands.length).2[i]? = some c := e2
      simp only [hi, if_true, e1, e2', Option.map_some', e3.2.2.2.2.2]
    · simp only [hi, if_false, Option.map_none']
  · obtain ⟨p, c, e1, e2, e3⟩ := hcopy 0 (by omega)
    refine ⟨p, e1, ?_⟩
    intro d hd
    rw [e3.2.2.2.2.2]
    have hd2 : d ∈ sortChromosomeArray cands cands.length := hperm.mem_iff.mpr hd
    obtain ⟨j, hj⟩ := List.mem_iff_getElem?.mp hd2
    cases j with
    | zero =>
      rw [e2] at hj
      cases hj
      exact CFloat.le_refl (hnan c hd)
    | succ j =>
      obtain ⟨h0, e0⟩ := List.getElem?_eq_some_iff.mp e2
      obtain ⟨hj1, ej⟩ := List.getElem?_eq_some_iff.mp hj
      have := List.pairwise_iff_getElem.mp hsorted 0 (j + 1) h0 hj1 (Nat.succ_pos j)
      rw [e0, ej] at this
      exact this

/-- C6, as amended. Truncation selection: for a pool of `n` candidates none of whose fitness
values is not-a-number and every `mu` with `1 ≤ mu ≤ n`, after `pickHighest` the pool is a
permutation of the original pool sorted in non-decreasing fitness, `parents[i]` is a copy
(genes, `active` flags, output genes, active list, fitness) of the `i`-th chromosome of the
sorted pool for every `i < mu`, the parents' fitness values are the first `mu` of the sorted
pool, and `parents[0]` has the minimum fitness of the pool. -/
theorem pickHighest_truncation (params : parameters) (parents cands : List chromosome)
    (hmu1 : 1 ≤ params.mu) (hmu2 : params.mu ≤ cands.length)
    (hpl : params.mu ≤ parents.length)
    (hc : ∀ c ∈ cands, Fits params c ∧ Allocated c)
    (hp : ∀ p ∈ parents, Fits params p ∧ Allocated p) (hnan : NoNaN cands) :
    (pickHighest params parents cands cands.length).2.Perm cands ∧
    SortedByFitness (pickHighest params parents cands cands.length).2 ∧
    (∀ i, i < params.mu → ∃ p c,
      (pickHighest params parents cands cands.length).1[i]? = some p ∧
      (pickHighest params parents cands cands.length).2[i]? = some c ∧ CopyOf c p) ∧
    ((pickHighest params parents cands cands.length).1.take params.mu).map (fun c => c.fitness) =
      ((pickHighest params parents cands cands.length).2.take params.mu).map
        (fun c => c.fitness) ∧
    ∃ p, (pickHighest params parents cands cands.length).1[0]? = some p ∧
      ∀ c ∈ cands, CFloat.le p.fitness c.fitness = true :=
  pickHighest_spec params parents cands hmu1 hmu2 hpl hc hp hnan

theorem pickHighest_truncation_witness :
    1 ≤ exampleParams.mu ∧ exampleParams.mu ≤ exampleRankedPool.length ∧
    exampleParams.mu ≤ [exampleBlank].length ∧
    (∀ c ∈ exampleRankedPool, Fits exampleParams c ∧ Allocated c) ∧
    (∀ p ∈ [exampleBlank], Fits exampleParams p ∧ Allocated p) ∧ NoNaN exampleRankedPool ∧
    ((pickHighest exampleParams [exampleBlank] exampleRankedPool
        exampleRankedPool.length).2.Perm exampleRankedPool ∧
    SortedByFitness
      (pickHighest exampleParams [exampleBlank] exampleRankedPool exampleRankedPool.length).2 ∧
    (∀ i, i < exampleParams.mu → ∃ p c,
      (pickHighest exampleParams [exampleBlank] exampleRankedPool
        exampleRankedPool.length).1[i]? = some p ∧
      (pickHighest exampleParams [exampleBlank] exampleRankedPool
        exampleRankedPool.length).2[i]? = some c ∧ CopyOf c p) ∧
    ((pickHighest exampleParams [exampleBlank] exampleRankedPool
        exampleRankedPool.length).1.take exampleParams.mu).map (fun c => c.fitness) =
      ((pickHighest exampleParams [exampleBlank] exampleRankedPool
        exampleRankedPool.length).2.take exampleParams.mu).map (fun c => c.fitness) ∧
    ∃ p, (pickHighest exampleParams [exampleBlank] exampleRankedPool
        exampleRankedPool.length).1[0]? = some p ∧
      ∀ c ∈ exampleRankedPool, CFloat.le p.fitness c.fitness = true) :=
  ⟨by decide, by decide, by decide, by decide, by decide, by decide,
    pickHighest_truncation exampleParams [exampleBlank] exampleRankedPool (by decide)
      (by decide) (by decide) (by decide) (by decide) (by decide)⟩

/-- C6, counterexample. With a not-a-number fitness in the pool (fitness values `1`, NaN, `2`,
`mu = 1`) the pool after `pickHighest` is not sorted in non-decreasing fitness, and
`parents[0]` gets the fitness `2` although the pool holds a chromosome of fitness `1 < 2`. -/
theorem pickHighest_nan_counterexample :
    1 ≤ examplePool.length ∧ 1 ≤ exampleParams.mu ∧ exampleParams.mu ≤ examplePool.length ∧
    ¬ SortedByFitness (pickHighest exampleParams [exampleBlank] examplePool 3).2 ∧
    (pickHighest exampleParams [exampleBlank] examplePool 3).1.map (fun c => c.fitness) =
      [CFloat.ofNat 2] ∧
    examplePool.map (fun c => c.fitness) = [CFloat.ofNat 1, CFloat.nan, CFloat.ofNat 2] ∧
    CFloat.lt (CFloat.ofNat 1) (CFloat.ofNat 2) = true := by
  decide

theorem CFloat.ofNat_isnan (n : Nat) : (CFloat.ofNat n).isnan = false := by
  unfold CFloat.ofNat CFloat.ofSignMag
  simp only
  split
  · rfl
  · split <;> rfl

theorem exampleFitness_neverNaN : NeverNaN exampleFitness := by
  intro params chromo dat r h
  simp only [exampleFitness, Except.ok.injEq] at h
  subst h
  exact CFloat.ofNat_isnan _

/-- C5. Selection monotonicity: in `evolvePopulation` under the `+` strategy with the
selection scheme `pickHighest`, `mu ≥ 1` and a fitness function whose values are never
not-a-number (so they are totally ordered), the minimum fitness among the parents after the
selection of each generation is at most the minimum after the selection of the generation
before, and the minimum after generation `0` is at most the minimum among the initially
evaluated parents.  `trace` lists the parents after the selection of every generation run. -/
theorem selection_monotone (F : FitnessFunction) (hF : NeverNaN F) (params : parameters)
    (pop : population) (dat : data) (s : RandState) (st0 : EvoState)
    (trace : List (List chromosome))
    (hplus : params.evolutionaryStrategy = '+') (hmu : 1 ≤ params.mu)
    (hpl : pop.parents.length = params.mu) (hcl : pop.children.length = params.lambda)
    (h0 : evolveInit F params pop dat s = Except.ok st0)
    (ht : evolveTrace F dat st0.params.generations st0 = Except.ok trace) :
    NonIncreasing (st0.pop.parents :: trace) :=
  evolveTrace_nonIncreasing F hF dat _ st0 trace
    (evolveInit_plus F hF params pop dat s st0 hplus hmu hpl hcl h0) ht

theorem selection_monotone_witness :
    NeverNaN exampleFitness ∧ examplePlusParams.evolutionaryStrategy = '+' ∧
    1 ≤ examplePlusParams.mu ∧ examplePopulation.parents.length = examplePlusParams.mu ∧
    examplePopulation.children.length = examplePlusParams.lambda ∧
    evolveInit exampleFitness examplePlusParams examplePopulation exampleData exampleRand =
      Except.ok exampleStart ∧
    evolveTrace exampleFitness exampleData exampleStart.params.generations exampleStart =
      Except.ok exampleTrace ∧
    exampleTrace.length = 2 ∧
    NonIncreasing (exampleStart.pop.parents :: exampleTrace) :=
  ⟨exampleFitness_neverNaN, by decide, by decide, by decide, by decide, rfl, rfl, by decide,
    selection_monotone exampleFitness exampleFitness_neverNaN examplePlusParams
      examplePopulation exampleData exampleRand exampleStart exampleTrace (by decide)
      (by decide) (by decide) (by decide) rfl rfl⟩

theorem getD_le_of_all (l : List Nat) (d m n : Nat) (hl : ∀ x ∈ l, x ≤ m) (hd : d ≤ m) :
    l.getD n d ≤ m := by
  rw [List.getD_eq_getElem?_getD]
  cases h : l[n]? with
  | none => simpa using hd
  | some x => simpa using hl x (List.getElem?_mem h)

/-- C9. Evaluation of the clamp in `executeChromosome` at a negative overflow: on the inputs
`[-FLT_MAX, -FLT_MAX]` the node function `add` of the only active node returns negative
infinity, and the cached output of the node, which is also the output of the chromosome,
becomes `FLT_MIN`: a positive number, the smallest positive normal float, and not `-FLT_MAX`,
the most negative finite float.  The sign is lost.  Positive infinity is replaced by `FLT_MAX`
and not-a-number by `0`, as claimed. -/
theorem negative_infinity_becomes_FLT_MIN :
    add exampleParams.arity exampleLowInputs [CFloat.zero, CFloat.zero] = CFloat.ninf ∧
    (executeChromosome exampleParams exampleChromosome exampleLowInputs
        [CFloat.zero]).2.1.nodes.map (fun n => n.output) = [CFloat.FLT_MIN] ∧
    (executeChromosome exampleParams exampleChromosome exampleLowInputs
        [CFloat.zero]).2.2 = [CFloat.FLT_MIN] ∧
    sanitise CFloat.ninf = CFloat.FLT_MIN ∧
    CFloat.lt CFloat.zero CFloat.FLT_MIN = true ∧
    CFloat.lt (CFloat.neg CFloat.FLT_MAX) CFloat.FLT_MIN = true ∧
    CFloat.FLT_MIN ≠ CFloat.neg CFloat.FLT_MAX ∧
    sanitise CFloat.pinf = CFloat.FLT_MAX ∧
    sanitise CFloat.nan = CFloat.zero := by
  decide

/-! ## Decoding twice, and the order of the active list -/

theorem modifyNode_flags (nodes : List node) (i : Nat) (a : Nat) (ha : a ≤ 1)
    (h : ∀ n ∈ nodes, n.active ≤ 1) :
    ∀ n ∈ modifyNode nodes i (fun n => { n with active := a }), n.active ≤ 1 := by
  intro n hn
  obtain ⟨j, hj⟩ := List.mem_iff_getElem?.mp hn
  rw [modifyNode_getElem?] at hj
  split at hj
  · cases hm : nodes[j]? with
    | none => simp [hm] at hj
    | some m =>
      simp only [hm, Option.map_some', Option.some.injEq] at hj
      subst hj
      exact ha
  · exact h n (List.getElem?_mem hj)

theorem recursivelySetActiveNodes_flags :
    ∀ (fuel : Nat) (c : chromosome) (v : Nat), (∀ n ∈ c.nodes, n.active ≤ 1) →
      ∀ n ∈ (recursivelySetActiveNodes fuel c v).nodes, n.active ≤ 1 := by
  intro fuel
  induction fuel with
  | zero => intro c v h; exact h
  | succ fuel ih =>
    intro c v h
    simp only [recursivelySetActiveNodes]
    split
    · exact h
    · split
      · exact h
      · split
        · exact h
        · exact forLoop_induction (fun _ (d : chromosome) => ∀ n ∈ d.nodes, n.active ≤ 1) _ _ _
            (modifyNode_flags _ _ 1 (Nat.le_refl 1) h) (fun k d _ hd => ih d _ hd)

theorem resetActive_flags (k : Nat) (nodes : List node) (hk : nodes.length ≤ k) :
    ∀ n ∈ resetActive k nodes, n.active ≤ 1 := by
  intro n hn
  obtain ⟨j, hj⟩ := List.mem_iff_getElem?.mp hn
  rw [resetActive_getElem?] at hj
  split at hj
  · cases hm : nodes[j]? with
    | none => simp [hm] at hj
    | some m =>
      simp only [hm, Option.map_some', Option.some.injEq] at hj
      subst hj
      exact Nat.zero_le 1
  · rename_i hjk
    have := (List.getElem?_eq_some_iff.mp hj).1
    omega

theorem markOutputs_flags (c : chromosome) (h : ∀ n ∈ c.nodes, n.active ≤ 1) :
    ∀ n ∈ (markOutputs c).nodes, n.active ≤ 1 :=
  forLoop_induction (fun _ (d : chromosome) => ∀ n ∈ d.nodes, n.active ≤ 1) _ _ _ h
    (fun k d _ hd => by
      simp only
      split
      · exact hd
      · exact recursivelySetActiveNodes_flags _ d _ hd)

theorem setActiveNodes_flags (chromo : chromosome) (hlen : chromo.nodes.length ≤ chromo.numNodes) :
    ∀ n ∈ (setActiveNodes chromo).nodes, n.active ≤ 1 :=
  markOutputs_flags _ (resetActive_flags _ _ hlen)

theorem flags_eq_of_flagged (c d : chromosome) (hlen : d.nodes.length = c.nodes.length)
    (hc : ∀ n ∈ c.nodes, n.active ≤ 1) (hd : ∀ n ∈ d.nodes, n.active ≤ 1)
    (h : ∀ i, flagged d i ↔ flagged c i) :
    d.nodes.map (fun n => n.active) = c.nodes.map (fun n => n.active) := by
  apply List.ext_getElem?
  intro i
  simp only [List.getElem?_map]
  by_cases hi : i < c.nodes.length
  · have hi2 : i < d.nodes.length := hlen ▸ hi
    rw [List.getElem?_eq_getElem hi, List.getElem?_eq_getElem hi2]
    simp only [Option.map_some', Option.some.injEq]
    have h1 := hc _ (List.getElem_mem hi)
    have h2 := hd _ (List.getElem_mem hi2)
    have hiff := h i
    unfold flagged at hiff
    simp only [List.getElem?_eq_getElem hi, List.getElem?_eq_getElem hi2, Option.some.injEq,
      exists_eq_left'] at hiff
    omega
  · have hi2 : ¬ i < d.nodes.length := hlen ▸ hi
    rw [List.getElem?_eq_none (by omega), List.getElem?_eq_none (by omega)]

theorem SameGenes.keepsAllocated {c d : chromosome} (h : SameGenes c d) (hA : Allocated c)
    (hR : GenesInRange c) : Allocated d ∧ GenesInRange d :=
  ⟨h.allocated hA, h.keepsRange hR⟩

theorem setActiveNodes_reachable_iff (chromo : chromosome) (i : Nat) :
    Reachable (setActiveNodes chromo) i ↔ Reachable chromo i :=
  have hs := setActiveNodes_same chromo
  ⟨fun h => Reachable.congr hs.conn.symm hs.outputNodes.symm hs.numInputs.symm h,
    fun h => Reachable.congr hs.conn hs.outputNodes hs.numInputs h⟩

theorem activeList_length_of_le (c : chromosome) (h : c.numActiveNodes ≤ c.activeNodes.length) :
    (activeList c).length = c.numActiveNodes := by
  simp [activeList, h]

/-- C11. Decoding is idempotent: for every chromosome whose arrays have their allocated lengths
and whose connection and output genes are smaller than `numInputs + numNodes`, running
`setActiveNodes` twice in a row yields the same `numActiveNodes`, the same list
`activeNodes[0 .. numActiveNodes)` and the same `active` flag of every node as running it
once. -/
theorem setActiveNodes_idempotent (chromo : chromosome) (hA : Allocated chromo)
    (hR : GenesInRange chromo) :
    (setActiveNodes (setActiveNodes chromo)).numActiveNodes =
      (setActiveNodes chromo).numActiveNodes ∧
    (setActiveNodes (setActiveNodes chromo)).activeNodes.take
        (setActiveNodes (setActiveNodes chromo)).numActiveNodes =
      (setActiveNodes chromo).activeNodes.take (setActiveNodes chromo).numActiveNodes ∧
    (setActiveNodes (setActiveNodes chromo)).nodes.map (fun n => n.active) =
      (setActiveNodes chromo).nodes.map (fun n => n.active) := by
  have hs := setActiveNodes_same chromo
  have h1 := setActiveNodes_spec chromo hA hR
  have hAd := hs.allocated hA
  have h2 := setActiveNodes_spec (setActiveNodes chromo) hAd (hs.keepsRange hR)
  have hlist : activeList (setActiveNodes (setActiveNodes chromo)) =
      activeList (setActiveNodes chromo) :=
    sorted_unique h2.2.1 h1.2.1 (fun i =>
      (h2.2.2.1 i).trans ((setActiveNodes_reachable_iff chromo i).trans (h1.2.2.1 i).symm))
  refine ⟨?_, hlist, ?_⟩
  · rw [← activeList_length_of_le _ h2.2.2.2.2, ← activeList_length_of_le _ h1.2.2.2.2, hlist]
  · exact flags_eq_of_flagged _ _ h2.1.length
      (setActiveNodes_flags chromo (Nat.le_of_eq hA.1))
      (setActiveNodes_flags _ (Nat.le_of_eq hAd.1))
      (fun i => (h2.2.2.2.1 i).trans
        ((setActiveNodes_reachable_iff chromo i).trans (h1.2.2.2.1 i).symm))

theorem setActiveNodes_idempotent_witness :
    Allocated exampleGraph ∧ GenesInRange exampleGraph ∧
    (setActiveNodes exampleGraph).numActiveNodes = 3 ∧
    (setActiveNodes exampleGraph).activeNodes = [0, 1, 2] ∧
    ((setActiveNodes (setActiveNodes exampleGraph)).numActiveNodes =
      (setActiveNodes exampleGraph).numActiveNodes ∧
    (setActiveNodes (setActiveNodes exampleGraph)).activeNodes.take
        (setActiveNodes (setActiveNodes exampleGraph)).numActiveNodes =
      (setActiveNodes exampleGraph).activeNodes.take (setActiveNodes exampleGraph).numActiveNodes ∧
    (setActiveNodes (setActiveNodes exampleGraph)).nodes.map (fun n => n.active) =
      (setActiveNodes exampleGraph).nodes.map (fun n => n.active)) :=
  ⟨by decide, by decide, by decide, by decide,
    setActiveNodes_idempotent exampleGraph (by decide) (by decide)⟩

/-- C12. The decoded active list is ascending: for every chromosome whose arrays have their
allocated lengths and whose connection and output genes are smaller than
`numInputs + numNodes`, after `setActiveNodes` the entries `activeNodes[0 .. numActiveNodes)`
are in strictly increasing order, no node index occurs twice among them, and they are a
permutation of the indices that the depth-first marking has collected (the entries
`activeNodes[0 .. numActiveNodes)` before the call of `bubbleSortInt`). -/
theorem setActiveNodes_ascending (chromo : chromosome) (hA : Allocated chromo)
    (hR : GenesInRange chromo) :
    ((setActiveNodes chromo).activeNodes.take (setActiveNodes chromo).numActiveNodes).Sorted
      (· < ·) ∧
    ((setActiveNodes chromo).activeNodes.take (setActiveNodes chromo).numActiveNodes).Nodup ∧
    ((setActiveNodes chromo).activeNodes.take (setActiveNodes chromo).numActiveNodes).Perm
      (activeList (markOutputs
        { chromo with numActiveNodes := 0,
                      nodes := resetActive chromo.numNodes chromo.nodes })) := by
  have h1 := setActiveNodes_spec chromo hA hR
  exact ⟨h1.2.1, h1.2.1.nodup, (bubbleSortInt_spec _ _).2.1⟩

theorem setActiveNodes_ascending_witness :
    Allocated exampleGraph ∧ GenesInRange exampleGraph ∧
    activeList (markOutputs
      { exampleGraph with numActiveNodes := 0,
                          nodes := resetActive exampleGraph.numNodes exampleGraph.nodes }) =
      [2, 1, 0] ∧
    (setActiveNodes exampleGraph).activeNodes.take (setActiveNodes exampleGraph).numActiveNodes =
      [0, 1, 2] ∧
    (((setActiveNodes exampleGraph).activeNodes.take
        (setActiveNodes exampleGraph).numActiveNodes).Sorted (· < ·) ∧
    ((setActiveNodes exampleGraph).activeNodes.take
        (setActiveNodes exampleGraph).numActiveNodes).Nodup ∧
    ((setActiveNodes exampleGraph).activeNodes.take
        (setActiveNodes exampleGraph).numActiveNodes).Perm
      (activeList (markOutputs
        { exampleGraph with numActiveNodes := 0,
                            nodes := resetActive exampleGraph.numNodes exampleGraph.nodes }))) :=
  ⟨by decide, by decide, by decide, by decide,
    setActiveNodes_ascending exampleGraph (by decide) (by decide)⟩

/-! ## The recorded generation index -/

theorem SameButHold.generations_eq {p q : parameters} (h : SameButHold p q) :
    q.generations = p.generations := by
  unfold SameButHold at h
  rw [h]

theorem evaluateChromosomes_params (F : FitnessFunction) (dat : data) (n : Nat)
    (params : parameters) (chromos : List chromosome) (r : parameters × List chromosome)
    (h : evaluateChromosomes F dat n params chromos = Except.ok r) :
    SameButHold params r.1 := by
  refine forLoopE_inv (fun _ (st : parameters × List chromosome) => SameButHold params st.1)
    n (evaluateChromosome F dat) (params, chromos) (SameButHold.same _) ?_ r h
  intro k st t _ h1 ht
  unfold evaluateChromosome at ht
  split at ht
  · unfold setChromosomeFitness at ht
    split at ht
    · rename_i u hu
      split at hu
      · cases hu
        cases ht
        exact h1.compose rfl
      · cases hu
    · cases ht
  · cases ht
    exact h1

theorem evolveInit_generations (F : FitnessFunction) (params : parameters) (pop : population)
    (dat : data) (s : RandState) (st0 : EvoState)
    (h : evolveInit F params pop dat s = Except.ok st0) :
    st0.params.generations = params.generations := by
  unfold evolveInit at h
  split at h
  · cases h
  · split at h
    · split at h
      · cases h
      · rename_i ev hev
        cases h
        exact (evaluateChromosomes_params F dat _ _ _ ev hev).generations_eq
    · cases h
      rfl

theorem evolveLoop_index (F : FitnessFunction) (dat : data) :
    ∀ (n g : Nat) (st : EvoState) (r : EvoState × Nat),
      evolveLoop F dat n g st = Except.ok r →
      g ≤ r.2 ∧
      ((r.2 < g + n ∧ afterSelection F dat (r.2 - g) st = Except.ok r.1 ∧
          solutionFound r.1 = true) ∨ r.2 = g + n) ∧
      ∀ k, k < r.2 - g →
        ∃ stk, afterSelection F dat k st = Except.ok stk ∧ solutionFound stk = false := by
  intro n
  induction n with
  | zero =>
    intro g st r h
    simp only [evolveLoop, Except.ok.injEq] at h
    subst h
    exact ⟨Nat.le_refl _, Or.inr rfl, fun k hk => absurd hk (by simp)⟩
  | succ n ih =>
    intro g st r h
    cases hsel : selectionStep F dat st with
    | error e =>
      simp only [evolveLoop, hsel] at h
      cases h
    | ok st1 =>
      by_cases hfound : solutionFound st1 = true
      · simp only [evolveLoop, hsel, hfound, if_true, Except.ok.injEq] at h
        subst h
        refine ⟨Nat.le_refl _, Or.inl ⟨by omega, ?_, hfound⟩, fun k hk => absurd hk (by simp)⟩
        simp only [Nat.sub_self, afterSelection, hsel]
      · have huf : ¬ st1.params.updateFrequency = 0 := by
          intro huf
          simp [evolveLoop, hsel, hfound, huf] at h
        cases hrep : reproductionStep st1 with
        | error e =>
          simp only [evolveLoop, hsel, hfound, huf, hrep] at h
          cases h
        | ok st2 =>
          simp only [evolveLoop, hsel, hfound, huf, hrep] at h
          obtain ⟨h1, h2, h3⟩ := ih (g + 1) st2 r h
          have hsub : r.2 - g = (r.2 - (g + 1)) + 1 := by omega
          refine ⟨by omega, ?_, ?_⟩
          · rcases h2 with ⟨h2a, h2b, h2c⟩ | h2
            · refine Or.inl ⟨by omega, ?_, h2c⟩
              rw [hsub]
              simp only [afterSelection, hsel, hrep]
              exact h2b
            · exact Or.inr (by omega)
          · intro k hk
            cases k with
            | zero =>
              refine ⟨st1, by simp only [afterSelection, hsel], ?_⟩
              simpa using hfound
            | succ j =>
              obtain ⟨stk, hstk, hf⟩ := h3 j (by omega)
              refine ⟨stk, ?_, hf⟩
              simp only [afterSelection, hsel, hrep]
              exact hstk

theorem initialisePopulation_fresh (params : parameters) (s : RandState)
    (r : population × RandState) (h : initialisePopulation params s = Except.ok r) :
    r.1.trainedGenerations = -1 := by
  unfold initialisePopulation at h
  split at h
  · cases h
  · split at h
    · cases h
    · cases h
      rfl

/-- C13. Recorded generation index: when `evolvePopulation` returns, with the generation
budget `G = params->generations`, `getNumberOfGenerations` gives an index `g ≤ G` such that in
no generation `k < g` the first parent has a fitness `<= 0` after the selection step, and, when
`g < G`, the first parent has a fitness `<= 0` after the selection step of generation `g` and
the parents, the children and the generator are left as that selection step leaves them (no
reproduction step follows).  So `g` is the smallest such generation, and `G` when there is
none.  A population that `initialisePopulation` returns reports `-1`. -/
theorem recorded_generation_index (F : FitnessFunction) (params : parameters)
    (pop : population) (dat : data) (s : RandState) (r : parameters × population × RandState)
    (h : evolvePopulation F params pop dat s = Except.ok r) :
    (∃ (st0 : EvoState) (g : Nat), evolveInit F params pop dat s = Except.ok st0 ∧
      getNumberOfGenerations r.2.1 = (g : Int) ∧ g ≤ params.generations ∧
      (∀ k, k < g →
        ∃ stk, afterSelection F dat k st0 = Except.ok stk ∧ solutionFound stk = false) ∧
      (g < params.generations →
        ∃ stg, afterSelection F dat g st0 = Except.ok stg ∧ solutionFound stg = true ∧
          r.2.1.parents = stg.pop.parents ∧ r.2.1.children = stg.pop.children ∧
          r.2.2 = stg.rng)) ∧
    ∀ params0 s0 r0, initialisePopulation params0 s0 = Except.ok r0 →
      getNumberOfGenerations r0.1 = -1 := by
  refine ⟨?_, fun params0 s0 r0 h0 => initialisePopulation_fresh params0 s0 r0 h0⟩
  unfold evolvePopulation at h
  split at h
  · cases h
  · rename_i st0 hst0
    split at h
    · cases h
    · rename_i lr hlr
      cases h
      have hG := evolveInit_generations F params pop dat s st0 hst0
      obtain ⟨_, h2, h3⟩ := evolveLoop_index F dat _ 0 st0 lr hlr
      rw [hG] at h2
      simp only [Nat.sub_zero, Nat.zero_add] at h2 h3
      refine ⟨st0, lr.2, hst0, rfl, ?_, h3, ?_⟩
      · rcases h2 with ⟨h2a, _, _⟩ | h2
        · exact Nat.le_of_lt h2a
        · exact Nat.le_of_eq h2
      · intro hlt
        rcases h2 with ⟨_, h2b, h2c⟩ | h2
        · exact ⟨lr.1, h2b, h2c, rfl, rfl, rfl⟩
        · omega

theorem recorded_generation_index_witness :
    evolvePopulation supervisedLearning exampleParams examplePopulation exampleReachableData
      exampleZeroDraws = Except.ok exampleRun ∧
    exampleParams.generations = 2 ∧ getNumberOfGenerations exampleRun.2.1 = 1 ∧
    ((∃ (st0 : EvoState) (g : Nat), evolveInit supervisedLearning exampleParams examplePopulation
        exampleReachableData exampleZeroDraws = Except.ok st0 ∧
      getNumberOfGenerations exampleRun.2.1 = (g : Int) ∧ g ≤ exampleParams.generations ∧
      (∀ k, k < g →
        ∃ stk, afterSelection supervisedLearning exampleReachableData k st0 = Except.ok stk ∧
          solutionFound stk = false) ∧
      (g < exampleParams.generations →
        ∃ stg, afterSelection supervisedLearning exampleReachableData g st0 = Except.ok stg ∧
          solutionFound stg = true ∧
          exampleRun.2.1.parents = stg.pop.parents ∧
          exampleRun.2.1.children = stg.pop.children ∧ exampleRun.2.2 = stg.rng)) ∧
    ∀ params0 s0 r0, initialisePopulation params0 s0 = Except.ok r0 →
      getNumberOfGenerations r0.1 = -1) :=
  ⟨rfl, rfl, by decide,
    recorded_generation_index supervisedLearning exampleParams examplePopulation
      exampleReachableData exampleZeroDraws exampleRun rfl⟩

/-! ## The two fatal errors -/

/-- C15. Arity mismatch is fatal: `supervisedLearning` stops the run, at the check that comes
before the loop over the samples and so without an execution of the chromosome, if and only if
the chromosome's `numInputs` differs from the data set's `numInputs` or its `numOutputs`
differs from the data set's `numOutputs`; otherwise it returns what the loop over the samples
computes. -/
theorem supervisedLearning_mismatch_fatal (params : parameters) (chromo : chromosome)
    (dat : data) :
    ((∃ e, supervisedLearning params chromo dat = Except.error e) ↔
      (chromo.numInputs ≠ dat.numInputs ∨ chromo.numOutputs ≠ dat.numOutputs)) ∧
    ((chromo.numInputs ≠ dat.numInputs ∨ chromo.numOutputs ≠ dat.numOutputs) →
      supervisedLearning params chromo dat = Except.error Fault.dataMismatch) ∧
    (chromo.numInputs = dat.numInputs → chromo.numOutputs = dat.numOutputs →
      supervisedLearning params chromo dat =
        Except.ok
          ((forLoop dat.numSamples (supervisedSample dat)
              (params, chromo, CFloat.zero)).1.nodeInputsHold,
            (forLoop dat.numSamples (supervisedSample dat) (params, chromo, CFloat.zero)).2.1,
            (forLoop dat.numSamples (supervisedSample dat) (params, chromo, CFloat.zero)).2.2)) := by
  refine ⟨?_, ?_, ?_⟩
  · unfold supervisedLearning
    by_cases h1 : chromo.numInputs = dat.numInputs
    · by_cases h2 : chromo.numOutputs = dat.numOutputs
      · simp [h1, h2]
      · simp [h1, h2]
    · simp [h1]
  · intro h
    unfold supervisedLearning
    by_cases h1 : chromo.numInputs = dat.numInputs
    · have h2 : chromo.numOutputs ≠ dat.numOutputs := by
        rcases h with h | h
        · exact absurd h1 h
        · exact h
      simp [h1, h2]
    · simp [h1]
  · intro h1 h2
    unfold supervisedLearning
    simp [h1, h2]

theorem supervisedLearning_mismatch_fatal_witness :
    exampleGraph.numInputs ≠ exampleData.numInputs ∧
    supervisedLearning exampleParams exampleGraph exampleData =
      Except.error Fault.dataMismatch ∧
    exampleChromosome.numInputs = exampleData.numInputs ∧
    exampleChromosome.numOutputs = exampleData.numOutputs ∧
    (∃ r, supervisedLearning exampleParams exampleChromosome exampleData = Except.ok r ∧
      r.2.2 = CFloat.ofNat 3) :=
  ⟨by decide,
    (supervisedLearning_mismatch_fatal exampleParams exampleGraph exampleData).2.1
      (Or.inl (by decide)),
    by decide, by decide, ⟨_, rfl, by decide⟩⟩

theorem bind_error_only {α β : Type} (x : Except Fault α) (f : α → Except Fault β)
    (Q : Fault → Prop) (hx : ∀ e, x = Except.error e → Q e)
    (hf : ∀ a e, f a = Except.error e → Q e) :
    ∀ e, (x >>= f) = Except.error e → Q e := by
  intro e h
  cases x with
  | error e0 =>
    simp only [bind, Except.bind, Except.error.injEq] at h
    exact h ▸ hx e0 rfl
  | ok a => exact hf a e h

theorem forLoopE_error_only {σ : Type} (Q : Fault → Prop) (n : Nat)
    (body : σ → Nat → Except Fault σ) (init : σ)
    (h : ∀ s k e, body s k = Except.error e → Q e) :
    ∀ e, forLoopE n body init = Except.error e → Q e := by
  induction n with
  | zero =>
    intro e he
    simp [forLoopE] at he
  | succ k ih =>
    intro e he
    unfold forLoopE at he
    split at he
    · exact h _ _ _ he
    · rename_i e0 h0
      cases he
      exact ih _ h0

theorem randMod_error (n : Nat) (s : RandState) (e : Fault)
    (h : randMod n s = Except.error e) : e = Fault.divisionByZero := by
  unfold randMod at h
  split at h
  · cases h
    rfl
  · cases h

theorem getRandomFunction_error (params : parameters) (s : RandState) (e : Fault)
    (hF : 1 ≤ params.funcSet.numFunctions) (h : getRandomFunction params s = Except.error e) :
    e = Fault.divisionByZero := by
  unfold getRandomFunction at h
  rw [if_neg (Nat.not_lt.mpr hF)] at h
  exact randMod_error _ _ _ h

theorem initialiseNode_error (params : parameters) (nodePosition : Nat) (s : RandState)
    (e : Fault) (hF : 1 ≤ params.funcSet.numFunctions)
    (h : initialiseNode params nodePosition s = Except.error e) :
    e = Fault.divisionByZero := by
  unfold initialiseNode at h
  refine bind_error_only _ _ (fun e => e = Fault.divisionByZero)
    (fun e he => getRandomFunction_error params s e hF he) ?_ e h
  intro f e1
  refine bind_error_only _ _ (fun e => e = Fault.divisionByZero)
    (forLoopE_error_only _ _ _ _ ?_) ?_ e1
  · intro st k e2
    refine bind_error_only _ _ (fun e => e = Fault.divisionByZero)
      (fun e he => randMod_error _ _ e he) ?_ e2
    intro c e3 he3
    cases he3
  · intro g e2 he2
    cases he2

theorem initialiseChromosome_error (params : parameters) (s : RandState) (e : Fault)
    (hF : 1 ≤ params.funcSet.numFunctions)
    (h : initialiseChromosome params s = Except.error e) : e = Fault.divisionByZero := by
  unfold initialiseChromosome at h
  rw [if_neg (Nat.not_lt.mpr hF)] at h
  refine bind_error_only _ _ (fun e => e = Fault.divisionByZero)
    (forLoopE_error_only _ _ _ _ ?_) ?_ e h
  · intro st k e2
    refine bind_error_only _ _ (fun e => e = Fault.divisionByZero)
      (fun e he => initialiseNode_error params k st.2 e hF he) ?_ e2
    intro c e3 he3
    cases he3
  · intro ns e1
    refine bind_error_only _ _ (fun e => e = Fault.divisionByZero)
      (forLoopE_error_only _ _ _ _ ?_) ?_ e1
    · intro st k e2
      refine bind_error_only _ _ (fun e => e = Fault.divisionByZero)
        (fun e he => randMod_error _ _ e he) ?_ e2
      intro c e3 he3
      cases he3
    · intro os e2 he2
      cases he2

/-- C19. Empty function set is fatal at construction: `initialiseChromosome` stops the run
with the error of the empty function set, returning no chromosome, if and only if the function
set holds fewer than one function; with at least one input it stops the run in no other case
and returns a chromosome otherwise.  `getRandomFunction` stops the run under the same
condition and otherwise returns an index in `[0, numFunctions)`. -/
theorem empty_function_set_fatal (params : parameters) (s : RandState) :
    (initialiseChromosome params s = Except.error Fault.emptyFunctionSet ↔
      params.funcSet.numFunctions < 1) ∧
    (1 ≤ params.numInputs →
      ((∃ e, initialiseChromosome params s = Except.error e) ↔
        params.funcSet.numFunctions < 1)) ∧
    (1 ≤ params.numInputs → 1 ≤ params.funcSet.numFunctions →
      ∃ r, initialiseChromosome params s = Except.ok r) ∧
    ((∃ e, getRandomFunction params s = Except.error e) ↔ params.funcSet.numFunctions < 1) ∧
    (params.funcSet.numFunctions < 1 →
      getRandomFunction params s = Except.error Fault.emptyFunctionSet) ∧
    (1 ≤ params.funcSet.numFunctions →
      ∃ r, getRandomFunction params s = Except.ok r ∧ r.1 < params.funcSet.numFunctions) := by
  have hempty : params.funcSet.numFunctions < 1 →
      initialiseChromosome params s = Except.error Fault.emptyFunctionSet := by
    intro h
    unfold initialiseChromosome
    rw [if_pos h]
  refine ⟨⟨?_, hempty⟩, ?_, ?_, ⟨?_, ?_⟩, ?_, ?_⟩
  · intro h
    by_contra hn
    have := initialiseChromosome_error params s _ (by omega) h
    cases this
  · intro hI
    refine ⟨?_, fun h => ⟨_, hempty h⟩⟩
    rintro ⟨e, he⟩
    by_contra hn
    obtain ⟨r, hr, _⟩ := initialiseChromosome_ok params s hI (by omega)
    rw [hr] at he
    cases he
  · intro hI hF
    obtain ⟨r, hr, _⟩ := initialiseChromosome_ok params s hI hF
    exact ⟨r, hr⟩
  · rintro ⟨e, he⟩
    by_contra hn
    obtain ⟨r, hr, _⟩ := getRandomFunction_ok params s (by omega)
    rw [hr] at he
    cases he
  · intro h
    refine ⟨Fault.emptyFunctionSet, ?_⟩
    unfold getRandomFunction
    rw [if_pos h]
  · intro h
    unfold getRandomFunction
    rw [if_pos h]
  · intro hF
    exact getRandomFunction_ok params s hF

theorem empty_function_set_fatal_witness :
    exampleEmptyParams.funcSet.numFunctions < 1 ∧
    initialiseChromosome exampleEmptyParams exampleRand = Except.error Fault.emptyFunctionSet ∧
    getRandomFunction exampleEmptyParams exampleRand = Except.error Fault.emptyFunctionSet ∧
    1 ≤ exampleParams.numInputs ∧ 1 ≤ exampleParams.funcSet.numFunctions ∧
    (∃ r, initialiseChromosome exampleParams exampleRand = Except.ok r) ∧
    (∃ r, getRandomFunction exampleParams exampleRand = Except.ok r ∧
      r.1 < exampleParams.funcSet.numFunctions) :=
  ⟨by decide,
    (empty_function_set_fatal exampleEmptyParams exampleRand).1.mpr (by decide),
    (empty_function_set_fatal exampleEmptyParams exampleRand).2.2.2.2.1 (by decide),
    by decide, by decide,
    (empty_function_set_fatal exampleParams exampleRand).2.2.1 (by decide) (by decide),
    (empty_function_set_fatal exampleParams exampleRand).2.2.2.2.2 (by decide)⟩

/-! ## The function set -/

theorem withFunction_full (params : parameters) (function : NodeFunction)
    (functionName : String) (h : FUNCTIONSETSIZE ≤ params.funcSet.numFunctions) :
    withFunction params function functionName = params := by
  unfold withFunction
  rw [if_pos h]

theorem withFunction_room (params : parameters) (function : NodeFunction)
    (functionName : String) (h : params.funcSet.numFunctions < FUNCTIONSETSIZE) :
    withFunction params function functionName =
      { params with
        funcSet :=
          { numFunctions := params.funcSet.numFunctions + 1
            functionNames :=
              params.funcSet.functionNames.set params.funcSet.numFunctions functionName
            functions := params.funcSet.functions.set params.funcSet.numFunctions function } } := by
  unfold withFunction storeNodeFunction
  rw [if_neg (Nat.not_le.mpr h)]
  simp

theorem withFunction_count (params : parameters) (function : NodeFunction)
    (functionName : String) (h : params.funcSet.numFunctions ≤ FUNCTIONSETSIZE) :
    (withFunction params function functionName).funcSet.numFunctions ≤ FUNCTIONSETSIZE := by
  by_cases hk : params.funcSet.numFunctions < FUNCTIONSETSIZE
  · rw [withFunction_room params function functionName hk]
    exact hk
  · rw [withFunction_full params function functionName (Nat.not_lt.mp hk)]
    exact h

theorem strcpy_fits (name : String) (h : NameFits name) :
    strcpy FUNCTIONNAMELENGTH name.data = some name.data := by
  unfold strcpy
  exact if_pos h

theorem strcpy_overflow (name : String) (h : ¬ NameFits name) :
    strcpy FUNCTIONNAMELENGTH name.data = none := by
  unfold strcpy
  exact if_neg h

theorem addNodeFunctionCustom_full (params : parameters) (function : NodeFunction)
    (functionName : String) (h : FUNCTIONSETSIZE ≤ params.funcSet.numFunctions) :
    addNodeFunctionCustom params function functionName = some params := by
  unfold addNodeFunctionCustom
  rw [if_pos h]

theorem addNodeFunctionCustom_fits (params : parameters) (function : NodeFunction)
    (functionName : String) (h : NameFits functionName) :
    addNodeFunctionCustom params function functionName =
      some (withFunction params function functionName) := by
  unfold addNodeFunctionCustom withFunction
  split
  · rfl
  · rw [strcpy_fits functionName h]

theorem addNodeFunctionCustom_overflow (params : parameters) (function : NodeFunction)
    (functionName : String) (hk : params.funcSet.numFunctions < FUNCTIONSETSIZE)
    (h : ¬ NameFits functionName) :
    addNodeFunctionCustom params function functionName = none := by
  unfold addNodeFunctionCustom
  rw [if_neg (Nat.not_le.mpr hk), strcpy_overflow functionName h]

theorem foldlM_withFunction (additions : List (NodeFunction × String)) :
    ∀ params : parameters, params.funcSet.numFunctions ≤ FUNCTIONSETSIZE →
      (∀ p, additions.foldlM (fun q a => addNodeFunctionCustom q a.1 a.2) params = some p →
        p.funcSet.numFunctions ≤ FUNCTIONSETSIZE) ∧
      ((∀ a ∈ additions, NameFits a.2) →
        ∃ p, additions.foldlM (fun q a => addNodeFunctionCustom q a.1 a.2) params = some p) := by
  induction additions with
  | nil =>
    intro params hle
    refine ⟨?_, fun _ => ⟨params, rfl⟩⟩
    intro p hp
    simp only [List.foldlM_nil] at hp
    cases hp
    exact hle
  | cons a rest ih =>
    intro params hle
    constructor
    · intro p hp
      rw [List.foldlM_cons] at hp
      cases hq : addNodeFunctionCustom params a.1 a.2 with
      | none =>
        rw [hq] at hp
        cases hp
      | some q =>
        rw [hq] at hp
        have hqle : q.funcSet.numFunctions ≤ FUNCTIONSETSIZE := by
          by_cases hk : params.funcSet.numFunctions < FUNCTIONSETSIZE
          · by_cases hfit : NameFits a.2
            · rw [addNodeFunctionCustom_fits params a.1 a.2 hfit] at hq
              cases hq
              exact withFunction_count params a.1 a.2 hle
            · rw [addNodeFunctionCustom_overflow params a.1 a.2 hk hfit] at hq
              cases hq
          · rw [addNodeFunctionCustom_full params a.1 a.2 (Nat.not_lt.mp hk)] at hq
            cases hq
            exact hle
        exact (ih q hqle).1 p hp
    · intro hfit
      have ha : NameFits a.2 := hfit a (List.mem_cons_self _ _)
      obtain ⟨p, hp⟩ := (ih (withFunction params a.1 a.2)
        (withFunction_count params a.1 a.2 hle)).2
        (fun b hb => hfit b (List.mem_cons_of_mem _ hb))
      refine ⟨p, ?_⟩
      rw [List.foldlM_cons, addNodeFunctionCustom_fits params a.1 a.2 ha]
      exact hp

set_option maxRecDepth 20000 in
theorem exampleLongName_overflow : ¬ NameFits exampleLongName := by
  decide

theorem withPreset_builtin (params : parameters) (name : String) (h : name ∈ builtinNames) :
    withPreset params name = withFunction params (builtinFunction name) name := by
  unfold withPreset
  rw [if_pos h]

theorem withPreset_unknown (params : parameters) (name : String) (h : name ∉ builtinNames) :
    withPreset params name = params := by
  unfold withPreset
  rw [if_neg h]

theorem addPreset_unknown (params : parameters) (name : String) (h : name ∉ builtinNames) :
    addPresetFuctionToFunctionSet params name = some params := by
  simp only [builtinNames, builtinFunctions, List.map, List.mem_cons, List.mem_singleton,
    List.not_mem_nil, or_false, not_or] at h
  obtain ⟨h1, h2, h3, h4, h5, h6, h7, h8, h9, h10, h11⟩ := h
  simp only [addPresetFuctionToFunctionSet, h1, h2, h3, h4, h5, h6, h7, h8, h9, h10, h11,
    if_false]

theorem addPreset_eq (params : parameters) (name : String) :
    addPresetFuctionToFunctionSet params name = some (withPreset params name) := by
  by_cases h : name ∈ builtinNames
  · rw [withPreset_builtin params name h]
    simp only [builtinNames, builtinFunctions, List.map, List.mem_cons, List.mem_singleton,
      List.not_mem_nil, or_false] at h
    rcases h with h | h | h | h | h | h | h | h | h | h | h <;> subst h
    · exact addNodeFunctionCustom_fits params add "add" (by decide)
    · exact addNodeFunctionCustom_fits params sub "sub" (by decide)
    · exact addNodeFunctionCustom_fits params mul "mul" (by decide)
    · exact addNodeFunctionCustom_fits params divide "div" (by decide)
    · exact addNodeFunctionCustom_fits params and "and" (by decide)
    · exact addNodeFunctionCustom_fits params nand "nand" (by decide)
    · exact addNodeFunctionCustom_fits params or "or" (by decide)
    · exact addNodeFunctionCustom_fits params nor "nor" (by decide)
    · exact addNodeFunctionCustom_fits params xor "xor" (by decide)
    · exact addNodeFunctionCustom_fits params xnor "xnor" (by decide)
    · exact addNodeFunctionCustom_fits params not "not" (by decide)
  · rw [withPreset_unknown params name h, addPreset_unknown params name h]

theorem comma_tests (c : Char) (hc : ¬ c = ',') : (c != ',') = true ∧ (c == ',') = false :=
  ⟨by simpa using hc, by simpa using hc⟩

theorem splitNames_head (cs : List Char) :
    ∃ X, splitNames cs = cs.takeWhile (fun c => c != ',') :: X ∧
      X.filter (fun t => decide (t ≠ [])) =
        (splitNames ((cs.dropWhile (fun c => c != ',')).drop 1)).filter
          (fun t => decide (t ≠ [])) := by
  induction cs with
  | nil => exact ⟨[], rfl, rfl⟩
  | cons c cs ih =>
    by_cases hc : c = ','
    · subst hc
      exact ⟨splitNames cs, by simp [splitNames], by simp⟩
    · obtain ⟨X, hX, hf⟩ := ih
      refine ⟨X, ?_, ?_⟩
      · simp only [splitNames, hc, if_false, hX]
        rw [List.takeWhile_cons_of_pos (p := fun c => c != ',') (a := c) (comma_tests c hc).1]
      · rw [hf, List.dropWhile_cons_of_pos (p := fun c => c != ',') (a := c) (comma_tests c hc).1]

theorem strtok_comma (cs : List Char) : strtok (',' :: cs) = strtok cs := by
  unfold strtok
  rw [List.dropWhile_cons_of_pos (p := fun c => c == ',') (a := ',') (by decide)]

theorem strtok_letter (c : Char) (cs : List Char) (hc : ¬ c = ',') :
    strtok (c :: cs) =
      some ((c :: cs).takeWhile (fun c => c != ','),
        ((c :: cs).dropWhile (fun c => c != ',')).drop 1) := by
  unfold strtok
  rw [List.dropWhile_cons_of_neg (p := fun c => c == ',') (a := c) (by simp [(comma_tests c hc).2])]

theorem strtok_none (cs : List Char) (h : strtok cs = none) :
    (splitNames cs).filter (fun t => decide (t ≠ [])) = [] := by
  induction cs with
  | nil => rfl
  | cons c cs ih =>
    by_cases hc : c = ','
    · subst hc
      rw [strtok_comma] at h
      simpa [splitNames] using ih h
    · rw [strtok_letter c cs hc] at h
      cases h

theorem strtok_some (cs : List Char) (pch : List Char × List Char)
    (h : strtok cs = some pch) :
    (splitNames cs).filter (fun t => decide (t ≠ [])) =
      pch.1 :: (splitNames pch.2).filter (fun t => decide (t ≠ [])) ∧
    pch.2.length < cs.length := by
  induction cs with
  | nil => simp [strtok] at h
  | cons c cs ih =>
    by_cases hc : c = ','
    · subst hc
      rw [strtok_comma] at h
      obtain ⟨h1, h2⟩ := ih h
      refine ⟨by simpa [splitNames] using h1, ?_⟩
      simp only [List.length_cons]
      omega
    · rw [strtok_letter c cs hc] at h
      cases h
      obtain ⟨X, hX, hf⟩ := splitNames_head (c :: cs)
      refine ⟨?_, ?_⟩
      · rw [hX, List.filter_cons_of_pos
          (by rw [List.takeWhile_cons_of_pos (p := fun c => c != ',') (a := c) (comma_tests c hc).1]; simp), hf]
      · rw [List.dropWhile_cons_of_pos (p := fun c => c != ',') (a := c) (comma_tests c hc).1]
        have := (List.dropWhile_suffix (fun c => c != ',') (l := cs)).length_le
        simp only [List.length_drop, List.length_cons]
        omega

theorem addNodeFunctionLoop_tokens :
    ∀ (fuel : Nat) (params : parameters) (cs : List Char), cs.length < fuel →
      addNodeFunctionLoop fuel params (strtok cs) =
        some (((splitNames cs).filter (fun t => decide (t ≠ []))).foldl
          (fun p t => withPreset p (String.mk t)) params) := by
  intro fuel
  induction fuel with
  | zero => intro params cs h; omega
  | succ fuel ih =>
    intro params cs h
    cases hs : strtok cs with
    | none =>
      rw [strtok_none cs hs]
      rfl
    | some pch =>
      obtain ⟨h1, h2⟩ := strtok_some cs pch hs
      rw [h1]
      simp only [addNodeFunctionLoop, List.foldl_cons, addPreset_eq]
      exact ih _ pch.2 (by omega)

theorem foldl_filter_skip {α β : Type} (f : β → α → β) (q : α → Bool)
    (h : ∀ b a, q a = false → f b a = b) :
    ∀ (l : List α) (b : β), (l.filter q).foldl f b = l.foldl f b := by
  intro l
  induction l with
  | nil => intro b; rfl
  | cons a l ih =>
    intro b
    cases hq : q a with
    | true => simp [List.filter_cons, hq, ih]
    | false => simp [List.filter_cons, hq, ih, h b a hq]

theorem addNodeFunction_fold (params : parameters) (functionNames : List Char)
    (hfit : NameFits (String.mk functionNames)) :
    addNodeFunction params functionNames =
      some (((splitNames functionNames).map String.mk).foldl withPreset params) := by
  unfold addNodeFunction
  rw [strcpy_fits (String.mk functionNames) hfit]
  show addNodeFunctionLoop (functionNames.length + 1) params (strtok functionNames) = _
  rw [addNodeFunctionLoop_tokens _ params functionNames (Nat.lt_succ_self _),
    foldl_filter_skip _ _ ?_ _ params, List.foldl_map]
  intro b a ha
  have : a = [] := by simpa using ha
  subst this
  exact withPreset_unknown b _ (by decide)

theorem addNodeFunction_overflow (params : parameters) (functionNames : List Char)
    (h : ¬ NameFits (String.mk functionNames)) : addNodeFunction params functionNames = none := by
  unfold addNodeFunction
  rw [strcpy_overflow (String.mk functionNames) h]

theorem take_set_succ {α : Type} (l : List α) (a : α) (k : Nat) (h : k < l.length) :
    (l.set k a).take (k + 1) = l.take k ++ [a] := by
  rw [List.take_succ, take_set_of_le l a (Nat.le_refl k),
    List.getElem?_set_self (by simpa using h)]
  rfl

theorem withFunction_used (params : parameters) (function : NodeFunction)
    (functionName : String) (hk : params.funcSet.numFunctions < FUNCTIONSETSIZE)
    (hn : params.funcSet.functionNames.length = FUNCTIONSETSIZE)
    (hf : params.funcSet.functions.length = FUNCTIONSETSIZE) :
    (withFunction params function functionName).funcSet.numFunctions =
      params.funcSet.numFunctions + 1 ∧
    usedNames (withFunction params function functionName) =
      usedNames params ++ [functionName] ∧
    usedFunctions (withFunction params function functionName) =
      usedFunctions params ++ [function] ∧
    (withFunction params function functionName).funcSet.functionNames.length =
      FUNCTIONSETSIZE ∧
    (withFunction params function functionName).funcSet.functions.length =
      FUNCTIONSETSIZE ∧
    withFunction params function functionName =
      { params with funcSet := (withFunction params function functionName).funcSet } := by
  rw [withFunction_room params function functionName hk]
  refine ⟨rfl, take_set_succ _ _ _ (by omega), take_set_succ _ _ _ (by omega), ?_, ?_, rfl⟩
  · show (params.funcSet.functionNames.set _ _).length = _
    rw [List.length_set, hn]
  · show (params.funcSet.functions.set _ _).length = _
    rw [List.length_set, hf]

theorem SameButFuncSet.unchanged (p : parameters) : SameButFuncSet p p := rfl

theorem SameButFuncSet.followedBy {p q r : parameters} (h1 : SameButFuncSet p q)
    (h2 : SameButFuncSet q r) : SameButFuncSet p r := by
  unfold SameButFuncSet at *
  rw [h2, h1]

theorem withPreset_fold :
    ∀ (names : List String) (params : parameters),
      params.funcSet.numFunctions ≤ FUNCTIONSETSIZE →
      params.funcSet.functionNames.length = FUNCTIONSETSIZE →
      params.funcSet.functions.length = FUNCTIONSETSIZE →
      (names.foldl withPreset params).funcSet.numFunctions =
        params.funcSet.numFunctions +
          ((names.filter (fun n => decide (n ∈ builtinNames))).take
            (FUNCTIONSETSIZE - params.funcSet.numFunctions)).length ∧
      usedNames (names.foldl withPreset params) =
        usedNames params ++
          (names.filter (fun n => decide (n ∈ builtinNames))).take
            (FUNCTIONSETSIZE - params.funcSet.numFunctions) ∧
      usedFunctions (names.foldl withPreset params) =
        usedFunctions params ++
          ((names.filter (fun n => decide (n ∈ builtinNames))).take
            (FUNCTIONSETSIZE - params.funcSet.numFunctions)).map builtinFunction ∧
      SameButFuncSet params (names.foldl withPreset params) := by
  intro names
  induction names with
  | nil =>
    intro params _ _ _
    simpa using SameButFuncSet.unchanged params
  | cons n names ih =>
    intro params hk hn hf
    rw [List.foldl_cons]
    by_cases hb : n ∈ builtinNames
    · rw [withPreset_builtin params n hb, List.filter_cons_of_pos (by simpa using hb)]
      by_cases hroom : params.funcSet.numFunctions < FUNCTIONSETSIZE
      · obtain ⟨e1, e2, e3, e4, e5, e6⟩ :=
          withFunction_used params (builtinFunction n) n hroom hn hf
        obtain ⟨i1, i2, i3, i4⟩ := ih (withFunction params (builtinFunction n) n)
          (by rw [e1]; exact hroom) e4 e5
        have hsub : FUNCTIONSETSIZE - params.funcSet.numFunctions =
            (FUNCTIONSETSIZE -
              (withFunction params (builtinFunction n) n).funcSet.numFunctions) + 1 := by
          rw [e1]
          omega
        rw [hsub, List.take_succ_cons]
        refine ⟨?_, ?_, ?_, SameButFuncSet.followedBy e6 i4⟩
        · rw [i1, e1, List.length_cons]
          omega
        · rw [i2, e2, List.append_assoc]
          rfl
        · rw [i3, e3, List.map_cons, List.append_assoc]
          rfl
      · rw [withFunction_full params _ n (Nat.not_lt.mp hroom)]
        obtain ⟨i1, i2, i3, i4⟩ := ih params hk hn hf
        have hz : FUNCTIONSETSIZE - params.funcSet.numFunctions = 0 := by omega
        rw [hz] at i1 i2 i3
        rw [hz]
        simp only [List.take_zero, List.length_nil, List.map_nil, List.append_nil,
          Nat.add_zero] at i1 i2 i3 ⊢
        exact ⟨i1, i2, i3, i4⟩
    · rw [withPreset_unknown params n hb, List.filter_cons_of_neg (by simpa using hb)]
      exact ih params hk hn hf

theorem CFloat.lt_of_lt_of_le {x y z : CFloat} (h1 : CFloat.lt x y = true)
    (h2 : CFloat.le y z = true) : CFloat.lt x z = true := by
  cases x <;> cases y <;> cases z <;> simp_all [CFloat.lt, CFloat.le]
  omega

theorem fitterOf_snoc (l : List chromosome) (s : chromosome × CFloat) (c : chromosome)
    (hs : s.2 = s.1.fitness) (h : FittestOf l s.1) (hnan : NoNaN (l ++ [c])) :
    (fitterOf s c).2 = (fitterOf s c).1.fitness ∧ FittestOf (l ++ [c]) (fitterOf s c).1 := by
  obtain ⟨k, hk, hbefore, hle⟩ := h
  have hkl : k < l.length := (List.getElem?_eq_some_iff.mp hk).1
  have hcn : c.fitness.isnan = false := hnan c (by simp)
  have hsn : s.1.fitness.isnan = false :=
    hnan s.1 (List.mem_append_left _ (List.getElem?_mem hk))
  unfold fitterOf
  split
  · rename_i hlt
    rw [hs] at hlt
    refine ⟨rfl, l.length, by simp, ?_, ?_⟩
    · intro j hj d hd
      rw [List.getElem?_append_left hj] at hd
      exact CFloat.lt_of_lt_of_le hlt (hle d (List.getElem?_mem hd))
    · intro d hd
      rcases List.mem_append.mp hd with hd | hd
      · exact CFloat.le_of_lt (CFloat.lt_of_lt_of_le hlt (hle d hd))
      · rw [List.mem_singleton] at hd
        subst hd
        exact CFloat.le_refl hcn
  · rename_i hlt
    rw [hs] at hlt
    refine ⟨hs, k, ?_, ?_, ?_⟩
    · rw [List.getElem?_append_left hkl]
      exact hk
    · intro j hj d hd
      rw [List.getElem?_append_left (by omega)] at hd
      exact hbefore j hj d hd
    · intro d hd
      rcases List.mem_append.mp hd with hd | hd
      · exact hle d hd
      · rw [List.mem_singleton] at hd
        subst hd
        exact CFloat.le_of_not_lt hsn hcn (by simpa using hlt)

theorem take_succ_getD (l : List chromosome) (k : Nat) (h : k < l.length) :
    l.take (k + 1) = l.take k ++ [l.getD k default] := by
  rw [List.take_succ, List.getD_eq_getElem?_getD, List.getElem?_eq_getElem h]
  rfl

theorem getFittestChromosome_spec (params : parameters) (pop : population)
    (hmu : 1 ≤ params.mu) (hp : pop.parents.length = params.mu)
    (hc : pop.children.length = params.lambda) (hnan : NoNaN (pop.parents ++ pop.children)) :
    FittestOf (pop.parents ++ pop.children) (getFittestChromosome params pop) := by
  have h0 : 0 < pop.parents.length := by omega
  have hp0 : pop.parents[0]? = some (pop.parents.getD 0 default) := by
    rw [List.getD_eq_getElem?_getD, List.getElem?_eq_getElem h0]
    rfl
  have hstart : (pop.parents.getD 0 default, (pop.parents.getD 0 default).fitness).2 =
      (pop.parents.getD 0 default, (pop.parents.getD 0 default).fitness).1.fitness ∧
      FittestOf (pop.parents.take (0 + 1))
        (pop.parents.getD 0 default, (pop.parents.getD 0 default).fitness).1 := by
    refine ⟨rfl, 0, ?_, fun j hj => absurd hj (Nat.not_lt_zero j), ?_⟩
    · rw [take_succ_getD _ 0 h0]
      rfl
    · intro d hd
      rw [take_succ_getD _ 0 h0] at hd
      simp only [List.take_zero, List.nil_append, List.mem_singleton] at hd
      subst hd
      exact CFloat.le_refl (hnan _ (List.mem_append_left _ (List.getElem?_mem hp0)))
  have h1 := forLoop_induction
    (fun k (s : chromosome × CFloat) =>
      s.2 = s.1.fitness ∧ FittestOf (pop.parents.take (k + 1)) s.1)
    (params.mu - 1) (fun s k => fitterOf s (pop.parents.getD (k + 1) default))
    (pop.parents.getD 0 default, (pop.parents.getD 0 default).fitness) hstart
    (fun k s hk hP => by
      beta_reduce at hP ⊢
      rw [take_succ_getD _ (k + 1) (by omega)]
      refine fitterOf_snoc _ s _ hP.1 hP.2 ?_
      rw [← take_succ_getD _ (k + 1) (by omega)]
      exact fun d hd => hnan d (List.mem_append_left _ (List.mem_of_mem_take hd)))
  have hfull : pop.parents.take (params.mu - 1 + 1) = pop.parents := by
    rw [List.take_of_length_le (by omega)]
  beta_reduce at h1
  rw [hfull] at h1
  have h2 := forLoop_induction
    (fun k (s : chromosome × CFloat) =>
      s.2 = s.1.fitness ∧ FittestOf (pop.parents ++ pop.children.take k) s.1)
    params.lambda (fun s i => fitterOf s (pop.children.getD i default))
    (forLoop (params.mu - 1) (fun s k => fitterOf s (pop.parents.getD (k + 1) default))
      (pop.parents.getD 0 default, (pop.parents.getD 0 default).fitness))
    (by simpa using h1)
    (fun k s hk hP => by
      beta_reduce at hP ⊢
      rw [take_succ_getD _ k (by omega), ← List.append_assoc]
      refine fitterOf_snoc _ s _ hP.1 hP.2 ?_
      rw [List.append_assoc, ← take_succ_getD _ k (by omega)]
      intro d hd
      rcases List.mem_append.mp hd with hd | hd
      · exact hnan d (List.mem_append_left _ hd)
      · exact hnan d (List.mem_append_right _ (List.mem_of_mem_take hd)))
  beta_reduce at h2
  rw [List.take_of_length_le (by omega)] at h2
  exact h2.2

/-- C17, as amended. `getFittestChromosome` returns the best member of the population: for
every population with `mu ≥ 1` parents and `lambda` children none of whose fitness values is
not-a-number, the returned chromosome is one of the parents or children, its fitness is less
than or equal to the fitness of every parent and every child, and it is the first chromosome of
minimal fitness in the order `parents[0 .. mu)` then `children[0 .. lambda)`: every chromosome
before it has a greater fitness. -/
theorem getFittestChromosome_best (params : parameters) (pop : population)
    (hmu : 1 ≤ params.mu) (hp : pop.parents.length = params.mu)
    (hc : pop.children.length = params.lambda) (hnan : NoNaN (pop.parents ++ pop.children)) :
    getFittestChromosome params pop ∈ pop.parents ++ pop.children ∧
    (∀ c ∈ pop.parents ++ pop.children,
      CFloat.le (getFittestChromosome params pop).fitness c.fitness = true) ∧
    ∃ k : Nat, (pop.parents ++ pop.children)[k]? = some (getFittestChromosome params pop) ∧
      ∀ j : Nat, j < k → ∀ d : chromosome, (pop.parents ++ pop.children)[j]? = some d →
        CFloat.lt (getFittestChromosome params pop).fitness d.fitness = true := by
  obtain ⟨k, hk, hbefore, hle⟩ := getFittestChromosome_spec params pop hmu hp hc hnan
  exact ⟨List.getElem?_mem hk, hle, k, hk, hbefore⟩

theorem getFittestChromosome_best_witness :
    1 ≤ exampleParams.mu ∧ exampleRankedPopulation.parents.length = exampleParams.mu ∧
    exampleRankedPopulation.children.length = exampleParams.lambda ∧
    NoNaN (exampleRankedPopulation.parents ++ exampleRankedPopulation.children) ∧
    (getFittestChromosome exampleParams exampleRankedPopulation).fitness = CFloat.ofNat 1 ∧
    (getFittestChromosome exampleParams exampleRankedPopulation ∈
      exampleRankedPopulation.parents ++ exampleRankedPopulation.children ∧
    (∀ c ∈ exampleRankedPopulation.parents ++ exampleRankedPopulation.children,
      CFloat.le (getFittestChromosome exampleParams exampleRankedPopulation).fitness
        c.fitness = true) ∧
    ∃ k : Nat, (exampleRankedPopulation.parents ++ exampleRankedPopulation.children)[k]? =
        some (getFittestChromosome exampleParams exampleRankedPopulation) ∧
      ∀ j : Nat, j < k → ∀ d : chromosome,
        (exampleRankedPopulation.parents ++ exampleRankedPopulation.children)[j]? = some d →
        CFloat.lt (getFittestChromosome exampleParams exampleRankedPopulation).fitness
          d.fitness = true) :=
  ⟨by decide, by decide, by decide, by decide, by decide,
    getFittestChromosome_best exampleParams exampleRankedPopulation (by decide) (by decide)
      (by decide) (by decide)⟩

/-- C17, counterexample. With one parent whose fitness is not-a-number and one child of
fitness `1`, `getFittestChromosome` returns the parent, whose fitness is not less than or equal
to the fitness of the child (nor to its own). -/
theorem getFittestChromosome_nan_counterexample :
    1 ≤ exampleParams.mu ∧ exampleNaNPopulation.parents.length = exampleParams.mu ∧
    exampleNaNPopulation.children.length = exampleParams.lambda ∧
    (getFittestChromosome exampleParams exampleNaNPopulation).fitness = CFloat.nan ∧
    ¬ (∀ c ∈ exampleNaNPopulation.parents ++ exampleNaNPopulation.children,
      CFloat.le (getFittestChromosome exampleParams exampleNaNPopulation).fitness
        c.fitness = true) := by
  decide

/-! ## Reproduction -/

theorem mutateRandomParent_eq_with (params : parameters) (pop : population) (s : RandState) :
    mutateRandomParent params pop s =
      mutateRandomParentWith probabilisticMutation params pop s := rfl

theorem mutateRandomParentWith_spec (mutationType : MutationType) (params : parameters)
    (pop : population) (s : RandState) (r : population × RandState)
    (hmu : 1 ≤ params.mu) (hp : pop.parents.length = params.mu)
    (hc : pop.children.length = params.lambda)
    (hfit : ∀ c ∈ pop.parents ++ pop.children, Fits params c ∧ Allocated c)
    (h : mutateRandomParentWith mutationType params pop s = Except.ok r) :
    r.1.parents = pop.parents ∧ r.1.mu = pop.mu ∧ r.1.lambda = pop.lambda ∧
    r.1.trainedGenerations = pop.trainedGenerations ∧
    r.1.children.length = pop.children.length ∧
    ∀ i, i < params.lambda →
      ∃ (k : Nat) (parent clone child : chromosome) (s1 s2 : RandState),
        k < params.mu ∧ pop.parents[k]? = some parent ∧ CopyOf parent clone ∧
        mutationType params clone s1 = Except.ok (child, s2) ∧
        r.1.children[i]? = some child := by
  have hinv := forLoopE_inv
    (fun j (st : population × RandState) =>
      st.1.parents = pop.parents ∧ st.1.mu = pop.mu ∧ st.1.lambda = pop.lambda ∧
      st.1.trainedGenerations = pop.trainedGenerations ∧
      st.1.children.length = pop.children.length ∧
      (∀ i, j ≤ i → st.1.children[i]? = pop.children[i]?) ∧
      ∀ i, i < j →
        ∃ (k : Nat) (parent clone child : chromosome) (s1 s2 : RandState),
          k < params.mu ∧ pop.parents[k]? = some parent ∧ CopyOf parent clone ∧
          mutationType params clone s1 = Except.ok (child, s2) ∧
          st.1.children[i]? = some child)
    params.lambda (reproduceChildWith mutationType params) (pop, s)
    ⟨rfl, rfl, rfl, rfl, rfl, fun _ _ => rfl, fun i hi => absurd hi (Nat.not_lt_zero i)⟩
    ?_ r h
  · exact ⟨hinv.1, hinv.2.1, hinv.2.2.1, hinv.2.2.2.1, hinv.2.2.2.2.1, hinv.2.2.2.2.2.2⟩
  · rintro j st t hj ⟨h1, h2, h3, h4, h5, h6, h7⟩ ht
    obtain ⟨rm, hrm, hrlt⟩ := randMod_ok params.mu st.2 (by omega)
    have hjc : j < pop.children.length := by omega
    have hchild : st.1.children[j]? = some (pop.children[j]) := by
      rw [h6 j (Nat.le_refl j), List.getElem?_eq_getElem hjc]
    have hrp : rm.1 < pop.parents.length := by omega
    have hparent : st.1.parents[rm.1]? = some (pop.parents[rm.1]) := by
      rw [h1, List.getElem?_eq_getElem hrp]
    unfold reproduceChildWith at ht
    simp only [hrm, hchild, hparent] at ht
    split at ht
    · rename_i m hm
      cases ht
      refine ⟨h1, h2, h3, h4, by simp [setChild, h5], ?_, ?_⟩
      · intro i hi
        show (st.1.children.set j m.1)[i]? = _
        rw [List.getElem?_set_ne (by omega)]
        exact h6 i (by omega)
      · intro i hi
        rcases Nat.lt_succ_iff_lt_or_eq.mp hi with hi | hi
        · obtain ⟨k, parent, clone, child, s1, s2, e1, e2, e3, e4, e5⟩ := h7 i hi
          refine ⟨k, parent, clone, child, s1, s2, e1, e2, e3, e4, ?_⟩
          show (st.1.children.set j m.1)[i]? = _
          rw [List.getElem?_set_ne (by omega)]
          exact e5
        · subst hi
          have hparentmem : pop.parents[rm.1] ∈ pop.parents := List.getElem_mem hrp
          have hchildmem : pop.children[i] ∈ pop.children := List.getElem_mem hjc
          have hPf := hfit _ (List.mem_append_left _ hparentmem)
          have hCf := hfit _ (List.mem_append_right _ hchildmem)
          refine ⟨rm.1, pop.parents[rm.1], copyChromosome params pop.children[i]
            pop.parents[rm.1], m.1, rm.2, m.2, by omega, List.getElem?_eq_getElem hrp,
            (copyChromosome_spec params _ _ hCf.1 hCf.2 hPf.1 hPf.2).1, hm, ?_⟩
          show (st.1.children.set i m.1)[i]? = _
          rw [List.getElem?_set_self (by omega)]
    · cases ht

/-- C16. Reproduction clones a parent and touches nothing else: for every population with
`mu ≥ 1` parents and `lambda` children (allocated, with the dimensions of the parameters),
every sequence of random draws and every mutation operator, when `mutateRandomParent` returns
it leaves every parent (and `mu`, `lambda`, `trainedGenerations`) unchanged, and each of the
`lambda` children is the result of the mutation operator on a copy (genes, `active` flags,
output genes, active list, fitness) of `parents[k]` for some `k < mu`; with a mutation operator
that changes nothing, every child is such a copy of some parent.  The function
`mutateRandomParent` is the case of the operator `probabilisticMutation`. -/
theorem mutateRandomParent_clones (mutationType : MutationType) (params : parameters)
    (pop : population) (s : RandState) (r : population × RandState)
    (hmu : 1 ≤ params.mu) (hp : pop.parents.length = params.mu)
    (hc : pop.children.length = params.lambda)
    (hfit : ∀ c ∈ pop.parents ++ pop.children, Fits params c ∧ Allocated c)
    (h : mutateRandomParentWith mutationType params pop s = Except.ok r) :
    r.1.parents = pop.parents ∧ r.1.mu = pop.mu ∧ r.1.lambda = pop.lambda ∧
    r.1.trainedGenerations = pop.trainedGenerations ∧
    r.1.children.length = pop.children.length ∧
    (∀ i, i < params.lambda →
      ∃ (k : Nat) (parent clone child : chromosome) (s1 s2 : RandState),
        k < params.mu ∧ pop.parents[k]? = some parent ∧ CopyOf parent clone ∧
        mutationType params clone s1 = Except.ok (child, s2) ∧
        r.1.children[i]? = some child) ∧
    ((∀ p c s1 m, mutationType p c s1 = Except.ok m → m.1 = c) →
      ∀ i, i < params.lambda →
        ∃ (k : Nat) (parent child : chromosome),
          k < params.mu ∧ pop.parents[k]? = some parent ∧ r.1.children[i]? = some child ∧
          CopyOf parent child) ∧
    ∀ s0, mutateRandomParent params pop s0 =
      mutateRandomParentWith probabilisticMutation params pop s0 := by
  obtain ⟨h1, h2, h3, h4, h5, h6⟩ :=
    mutateRandomParentWith_spec mutationType params pop s r hmu hp hc hfit h
  refine ⟨h1, h2, h3, h4, h5, h6, ?_, fun s0 => rfl⟩
  intro hid i hi
  obtain ⟨k, parent, clone, child, s1, s2, e1, e2, e3, e4, e5⟩ := h6 i hi
  have : child = clone := hid params clone s1 (child, s2) e4
  subst this
  exact ⟨k, parent, child, e1, e2, e5, e3⟩

theorem mutateRandomParent_clones_witness :
    1 ≤ exampleParams.mu ∧ examplePopulation.parents.length = exampleParams.mu ∧
    examplePopulation.children.length = exampleParams.lambda ∧
    (∀ c ∈ examplePopulation.parents ++ examplePopulation.children,
      Fits exampleParams c ∧ Allocated c) ∧
    mutateRandomParentWith probabilisticMutation exampleParams examplePopulation exampleRand =
      Except.ok exampleOffspring ∧
    (∃ r, mutateRandomParentWith exampleNoMutation exampleParams examplePopulation
        exampleRand = Except.ok r ∧
      ∀ child ∈ r.1.children, CopyOf exampleChromosome child) ∧
    (exampleOffspring.1.parents = examplePopulation.parents ∧
    exampleOffspring.1.mu = examplePopulation.mu ∧
    exampleOffspring.1.lambda = examplePopulation.lambda ∧
    exampleOffspring.1.trainedGenerations = examplePopulation.trainedGenerations ∧
    exampleOffspring.1.children.length = examplePopulation.children.length ∧
    (∀ i, i < exampleParams.lambda →
      ∃ (k : Nat) (parent clone child : chromosome) (s1 s2 : RandState),
        k < exampleParams.mu ∧ examplePopulation.parents[k]? = some parent ∧
        CopyOf parent clone ∧
        probabilisticMutation exampleParams clone s1 = Except.ok (child, s2) ∧
        exampleOffspring.1.children[i]? = some child) ∧
    ((∀ p c s1 m, probabilisticMutation p c s1 = Except.ok m → m.1 = c) →
      ∀ i, i < exampleParams.lambda →
        ∃ (k : Nat) (parent child : chromosome),
          k < exampleParams.mu ∧ examplePopulation.parents[k]? = some parent ∧
          exampleOffspring.1.children[i]? = some child ∧ CopyOf parent child) ∧
    ∀ s0, mutateRandomParent exampleParams examplePopulation s0 =
      mutateRandomParentWith probabilisticMutation exampleParams examplePopulation s0) :=
  ⟨by decide, by decide, by decide, by decide, rfl, ⟨_, rfl, by decide⟩,
    mutateRandomParent_clones probabilisticMutation exampleParams examplePopulation exampleRand
      exampleOffspring (by decide) (by decide) (by decide) (by decide) rfl⟩

/-! ## The default fitness function -/

theorem executeNode_frame (params : parameters) (inputs : List CFloat) (activeNodes : List Nat)
    (s : List CFloat × List node) (i : Nat) :
    (executeNode params inputs activeNodes s i).1.length = s.1.length ∧
    (executeNode params inputs activeNodes s i).2.map
        (fun n => (n.function, n.inputs, n.weights, n.active)) =
      s.2.map (fun n => (n.function, n.inputs, n.weights, n.active)) := by
  refine ⟨?_, ?_⟩
  · exact forLoop_induction (fun _ (h : List CFloat) => h.length = s.1.length) _ _ _ rfl
      (fun k h _ hh => by simpa using hh)
  · show (s.2.set _ _).map _ = _
    apply List.ext_getElem?
    intro j
    simp only [List.getElem?_map, List.getElem?_set]
    split
    · rename_i hj
      subst hj
      split
      · rename_i hlt
        rw [List.getD_eq_getElem?_getD, List.getElem?_eq_getElem hlt]
        rfl
      · rename_i hlt
        rw [List.getElem?_eq_none (by omega)]
    · rfl

theorem executeChromosome_frame (params : parameters) (chromo : chromosome)
    (inputs outputs : List CFloat) :
    SameButHold params (executeChromosome params chromo inputs outputs).1 ∧
    (executeChromosome params chromo inputs outputs).1.nodeInputsHold.length =
      params.nodeInputsHold.length ∧
    (executeChromosome params chromo inputs outputs).2.1 =
      { chromo with nodes := (executeChromosome params chromo inputs outputs).2.1.nodes } ∧
    (executeChromosome params chromo inputs outputs).2.1.nodes.map
        (fun n => (n.function, n.inputs, n.weights, n.active)) =
      chromo.nodes.map (fun n => (n.function, n.inputs, n.weights, n.active)) ∧
    (executeChromosome params chromo inputs outputs).2.2.length = outputs.length := by
  have key := forLoop_induction
    (fun _ (s : List CFloat × List node) =>
      s.1.length = params.nodeInputsHold.length ∧
      s.2.map (fun n => (n.function, n.inputs, n.weights, n.active)) =
        chromo.nodes.map (fun n => (n.function, n.inputs, n.weights, n.active)))
    chromo.numActiveNodes (executeNode params inputs chromo.activeNodes)
    (params.nodeInputsHold, chromo.nodes) ⟨rfl, rfl⟩
    (fun k s _ hs => by
      obtain ⟨e1, e2⟩ := executeNode_frame params inputs chromo.activeNodes s k
      exact ⟨e1.trans hs.1, e2.trans hs.2⟩)
  refine ⟨rfl, key.1, rfl, key.2, ?_⟩
  exact forLoop_induction (fun _ (o : List CFloat) => o.length = outputs.length) _ _ _ rfl
    (fun k o _ ho => by simpa using ho)

theorem SameButHold.dims {p q : parameters} (h : SameButHold p q) :
    q.numInputs = p.numInputs ∧ q.numNodes = p.numNodes ∧ q.numOutputs = p.numOutputs ∧
    q.arity = p.arity ∧ q.funcSet = p.funcSet := by
  unfold SameButHold at h
  rw [h]
  exact ⟨rfl, rfl, rfl, rfl, rfl⟩

theorem SameButOutputs.start (c : chromosome) : SameButOutputs c c := ⟨rfl, rfl, rfl⟩

theorem SameButOutputs.next {c d e : chromosome} (h1 : SameButOutputs c d)
    (h2 : SameButOutputs d e) : SameButOutputs c e := by
  obtain ⟨a1, a2, a3⟩ := h1
  obtain ⟨b1, b2, b3⟩ := h2
  refine ⟨?_, b2.trans a2, b3.trans a3⟩
  rw [b1, a1]

theorem SameButOutputs.fields {c d : chromosome} (h : SameButOutputs c d) :
    d.numInputs = c.numInputs ∧ d.numOutputs = c.numOutputs ∧ d.numNodes = c.numNodes ∧
    d.numActiveNodes = c.numActiveNodes ∧ d.arity = c.arity ∧
    d.outputNodes = c.outputNodes ∧ d.activeNodes = c.activeNodes ∧ d.fitness = c.fitness := by
  have h1 := h.1
  rw [h1]
  exact ⟨rfl, rfl, rfl, rfl, rfl, rfl, rfl, rfl⟩

theorem SameButOutputs.genes_eq {c d : chromosome} (h : SameButOutputs c d) :
    genes d = genes c := by
  have := congrArg (List.map (fun t : Nat × List Nat × List CFloat × Nat =>
    (t.1, t.2.1, t.2.2.1))) h.2.1
  simpa [genes, List.map_map, Function.comp_def] using this

theorem SameButOutputs.connections {c d : chromosome} (h : SameButOutputs c d) :
    d.nodes.map (fun n => n.inputs) = c.nodes.map (fun n => n.inputs) := by
  have := congrArg (List.map (fun t : Nat × List Nat × List CFloat × Nat => t.2.1)) h.2.1
  simpa [List.map_map, Function.comp_def] using this

theorem SameButOutputs.keepsArrays {c d : chromosome} (h : SameButOutputs c d)
    (hA : Allocated c) : Allocated d := by
  obtain ⟨f1, f2, f3, f4, f5, f6, f7, f8⟩ := h.fields
  obtain ⟨h1, h2, h3, h4, h5⟩ := hA
  have hlen : d.nodes.length = c.nodes.length := by
    simpa using congrArg List.length h.2.1
  refine ⟨by rw [hlen, f3, h1], ?_, by rw [f6, f2, h3], by rw [f7, f3, h4],
    by rw [h.2.2, f2, h5]⟩
  intro n hn
  obtain ⟨i, hi⟩ := List.mem_iff_getElem?.mp hn
  have hm := congrArg (fun l => l[i]?) h.2.1
  simp only [List.getElem?_map, hi, Option.map_some'] at hm
  cases hci : c.nodes[i]? with
  | none => simp [hci] at hm
  | some m =>
    simp only [hci, Option.map_some', Option.some.injEq, Prod.mk.injEq] at hm
    rw [f5, hm.2.1, hm.2.2.1]
    exact h2 m (List.getElem?_mem hci)

theorem SameButOutputs.decoded {c d : chromosome} (h : SameButOutputs c d)
    (hA : Allocated c) (hR : GenesInRange c) (hD : Decoded c) :
    GenesInRange d ∧ Decoded d := by
  obtain ⟨f1, f2, f3, f4, f5, f6, f7, f8⟩ := h.fields
  have hAd := h.keepsArrays hA
  have hRd : GenesInRange d := by
    refine ⟨?_, by rw [f6, f1, f3]; exact hR.2⟩
    intro n hn g hg
    have hmem : n.inputs ∈ d.nodes.map (fun n => n.inputs) := List.mem_map_of_mem _ hn
    rw [h.connections] at hmem
    obtain ⟨m, hm, hmi⟩ := List.mem_map.mp hmem
    rw [f1, f3]
    exact hR.1 m hm g (hmi ▸ hg)
  refine ⟨hRd, ?_, ?_⟩
  · rw [setActiveNodes_activeList_congr hA hR hAd hRd h.connections f6 f1]
    unfold activeList
    rw [f7, f4]
    exact hD.1
  · rw [f4, f7]
    exact hD.2

theorem executeChromosome_getD (params : parameters) (chromo : chromosome)
    (inputs : List CFloat) (hF : Fits params chromo) (hA : Allocated chromo)
    (hAc : Acyclic params.numInputs chromo) (hO : OutputsInRange chromo) (hD : Decoded chromo)
    (p : parameters) (c : chromosome) (hp : SameButHold params p)
    (hh : p.nodeInputsHold.length = params.nodeInputsHold.length)
    (hc : SameButOutputs chromo c) (j : Nat) (hj : j < params.numOutputs) :
    (executeChromosome p c inputs c.outputValues).2.2.getD j default =
      value params.funcSet params.numInputs params.arity (genes chromo) inputs
        (chromo.outputNodes.getD j 0) := by
  obtain ⟨d1, d2, d3, d4, d5⟩ := hp.dims
  obtain ⟨f1, f2, f3, f4, f5, f6, f7, f8⟩ := hc.fields
  obtain ⟨hFi, hFn, hFo, hFa, hFh⟩ := hF
  have hR : GenesInRange chromo := Acyclic.genesInRange (hFi ▸ hAc) hA.1 hO
  have hAd := hc.keepsArrays hA
  obtain ⟨hRd, hDd⟩ := hc.decoded hA hR hD
  have := executeChromosome_outputs p c inputs c.outputValues
    ⟨by rw [f1, d1, hFi], by rw [f3, d2, hFn], by rw [f2, d3, hFo], by rw [f5, d4, hFa],
      by rw [hh, d4, hFh]⟩
    hAd (by rw [d1]; exact hAc.of_conn hc.connections) hRd.2 hDd
    (by rw [d3, hc.2.2, hA.2.2.2.2, hFo]) j (by rw [d3]; exact hj)
  rw [List.getD_eq_getElem?_getD, this, d1, d4, d5, hc.genes_eq, f6]
  rfl

theorem outputOf_eq_value (params : parameters) (chromo : chromosome)
    (inputs : List CFloat) (hF : Fits params chromo) (hA : Allocated chromo)
    (hAc : Acyclic params.numInputs chromo) (hO : OutputsInRange chromo) (hD : Decoded chromo)
    (j : Nat) (hj : j < params.numOutputs) :
    outputOf params chromo inputs j =
      value params.funcSet params.numInputs params.arity (genes chromo) inputs
        (chromo.outputNodes.getD j 0) :=
  executeChromosome_getD params chromo inputs hF hA hAc hO hD params chromo
    (SameButHold.same params) rfl (SameButOutputs.start chromo) j hj

theorem CFloat.add_abs (e t : CFloat) :
    (if CFloat.ge t CFloat.zero then CFloat.add e t else CFloat.sub e t) =
      CFloat.add e (CFloat.abs t) := by
  cases t with
  | fin k =>
    by_cases hk : k < 0
    · have : ((k.natAbs : Int)) = -k := by omega
      simp [CFloat.ge, CFloat.le, CFloat.lt, CFloat.zero, CFloat.abs, CFloat.sub, CFloat.neg,
        hk, this]
    · have : ((k.natAbs : Int)) = k := by omega
      simp [CFloat.ge, CFloat.le, CFloat.lt, CFloat.zero, CFloat.abs, hk, this]
  | pinf => simp [CFloat.ge, CFloat.le, CFloat.lt, CFloat.zero, CFloat.abs]
  | ninf =>
    simp [CFloat.ge, CFloat.le, CFloat.lt, CFloat.zero, CFloat.abs, CFloat.sub, CFloat.neg]
  | nan =>
    simp [CFloat.ge, CFloat.le, CFloat.zero, CFloat.abs, CFloat.sub, CFloat.neg]

theorem forLoop_eq_foldl_map {α : Type} (n : Nat) (body : α → Nat → α) (init : α)
    {β : Type} (term : Nat → β) (op : α → β → α)
    (h : ∀ j, j < n → ∀ e, body e j = op e (term j)) :
    forLoop n body init = ((List.range n).map term).foldl op init := by
  induction n with
  | zero => rfl
  | succ k ih =>
    rw [List.range_succ, List.map_append, List.foldl_append,
      ← ih (fun j hj e => h j (Nat.lt_succ_of_lt hj) e)]
    exact h k (Nat.lt_succ_self k) _

theorem supervisedSample_spec (params : parameters) (chromo : chromosome) (dat : data)
    (hF : Fits params chromo) (hA : Allocated chromo)
    (hAc : Acyclic params.numInputs chromo) (hO : OutputsInRange chromo) (hD : Decoded chromo)
    (hout : chromo.numOutputs = dat.numOutputs)
    (st : parameters × chromosome × CFloat) (k : Nat) (hp : SameButHold params st.1)
    (hh : st.1.nodeInputsHold.length = params.nodeInputsHold.length)
    (hc : SameButOutputs chromo st.2.1) :
    SameButHold params (supervisedSample dat st k).1 ∧
    (supervisedSample dat st k).1.nodeInputsHold.length = params.nodeInputsHold.length ∧
    SameButOutputs chromo (supervisedSample dat st k).2.1 ∧
    (supervisedSample dat st k).2.2 =
      ((List.range dat.numOutputs).map (fun j =>
        CFloat.abs (CFloat.sub (outputOf params chromo (dat.inputData.getD k []) j)
          (expectedOf dat k j)))).foldl CFloat.add st.2.2 := by
  obtain ⟨g1, g2, g3, g4, g5⟩ :=
    executeChromosome_frame st.1 st.2.1 (dat.inputData.getD k []) st.2.1.outputValues
  obtain ⟨f1, f2, f3, f4, f5, f6, f7, f8⟩ := hc.fields
  have hstep : SameButOutputs st.2.1
      { (executeChromosome st.1 st.2.1 (dat.inputData.getD k []) st.2.1.outputValues).2.1 with
        outputValues :=
          (executeChromosome st.1 st.2.1 (dat.inputData.getD k [])
            st.2.1.outputValues).2.2 } := by
    refine ⟨?_, g4, g5⟩
    conv_lhs => rw [g3]
  have hn : (executeChromosome st.1 st.2.1 (dat.inputData.getD k [])
      st.2.1.outputValues).2.1.numOutputs = dat.numOutputs := by
    rw [g3]
    exact f2.trans hout
  refine ⟨hp.compose g1, g2.trans hh, hc.next hstep, ?_⟩
  show forLoop (executeChromosome st.1 st.2.1 (dat.inputData.getD k [])
      st.2.1.outputValues).2.1.numOutputs _ st.2.2 = _
  rw [hn]
  apply forLoop_eq_foldl_map
  intro j hj e
  have hjp : j < params.numOutputs := by
    rw [← hF.2.2.1, hout]
    exact hj
  have hval := executeChromosome_getD params chromo (dat.inputData.getD k []) hF hA hAc hO hD
    st.1 st.2.1 hp hh hc j hjp
  rw [← outputOf_eq_value params chromo (dat.inputData.getD k []) hF hA hAc hO hD j hjp] at hval
  show (if CFloat.ge (CFloat.sub ((executeChromosome st.1 st.2.1 (dat.inputData.getD k [])
      st.2.1.outputValues).2.2.getD j default) ((dat.outputData.getD k []).getD j default))
        CFloat.zero then _ else _) = _
  rw [hval]
  exact CFloat.add_abs e _

theorem supervisedLearning_loop (params : parameters) (chromo : chromosome) (dat : data)
    (hF : Fits params chromo) (hA : Allocated chromo)
    (hAc : Acyclic params.numInputs chromo) (hO : OutputsInRange chromo) (hD : Decoded chromo)
    (hout : chromo.numOutputs = dat.numOutputs) :
    (forLoop dat.numSamples (supervisedSample dat) (params, chromo, CFloat.zero)).2.2 =
      absoluteError params chromo dat := by
  have key := forLoop_induction
    (fun k (st : parameters × chromosome × CFloat) =>
      SameButHold params st.1 ∧
      st.1.nodeInputsHold.length = params.nodeInputsHold.length ∧
      SameButOutputs chromo st.2.1 ∧
      st.2.2 = ((List.range k).flatMap (fun i =>
        (List.range dat.numOutputs).map (fun j =>
          CFloat.abs (CFloat.sub (outputOf params chromo (dat.inputData.getD i []) j)
            (expectedOf dat i j))))).foldl CFloat.add CFloat.zero)
    dat.numSamples (supervisedSample dat) (params, chromo, CFloat.zero)
    ⟨SameButHold.same params, rfl, SameButOutputs.start chromo, rfl⟩
    (fun k st _ hP => by
      obtain ⟨e1, e2, e3, e4⟩ := supervisedSample_spec params chromo dat hF hA hAc hO hD hout
        st k hP.1 hP.2.1 hP.2.2.1
      refine ⟨e1, e2, e3, ?_⟩
      rw [e4, hP.2.2.2, List.range_succ, List.flatMap_append, List.foldl_append]
      simp)
  exact key.2.2.2

theorem excessBits_fold (q : Nat) :
    ∀ (l : List Nat) (s : Nat × Nat), (s.2 = q / 2 ^ s.1 ∧ (s.1 = 0 ∨ 2 ^ 23 ≤ s.2)) →
      ((l.foldl
          (fun (s : Nat × Nat) b =>
            if 2 ^ 23 ≤ s.2 / 2 ^ b then (s.1 + b, s.2 / 2 ^ b) else s) s).2 =
          q / 2 ^ (l.foldl
            (fun (s : Nat × Nat) b =>
              if 2 ^ 23 ≤ s.2 / 2 ^ b then (s.1 + b, s.2 / 2 ^ b) else s) s).1 ∧
        ((l.foldl
            (fun (s : Nat × Nat) b =>
              if 2 ^ 23 ≤ s.2 / 2 ^ b then (s.1 + b, s.2 / 2 ^ b) else s) s).1 = 0 ∨
          2 ^ 23 ≤ (l.foldl
            (fun (s : Nat × Nat) b =>
              if 2 ^ 23 ≤ s.2 / 2 ^ b then (s.1 + b, s.2 / 2 ^ b) else s) s).2)) := by
  intro l
  induction l with
  | nil => intro s hs; exact hs
  | cons b l ih =>
    intro s hs
    rw [List.foldl_cons]
    apply ih
    split
    · rename_i hb
      refine ⟨?_, Or.inr hb⟩
      show s.2 / 2 ^ b = q / 2 ^ (s.1 + b)
      rw [hs.1, Nat.div_div_eq_div_mul, pow_add]
    · exact hs

theorem excessBits_le (q : Nat) (hq : 1 ≤ q) : 2 ^ excessBits q ≤ q := by
  have h := excessBits_fold q [128, 64, 32, 16, 8, 4, 2, 1] (0, q) ⟨by simp, Or.inl rfl⟩
  unfold excessBits
  rcases h.2 with h0 | h1
  · rw [h0]
    simpa using hq
  · rw [h.1] at h1
    have hpos : 0 < q / 2 ^ ([128, 64, 32, 16, 8, 4, 2, 1].foldl
        (fun (s : Nat × Nat) b =>
          if 2 ^ 23 ≤ s.2 / 2 ^ b then (s.1 + b, s.2 / 2 ^ b) else s) (0, q)).1 :=
      Nat.lt_of_lt_of_le (by positivity) h1
    exact (Nat.div_pos_iff (by positivity)).mp hpos

theorem roundNearestEven_ge (N D : Nat) : N / D ≤ roundNearestEven N D := by
  unfold roundNearestEven
  simp only
  split
  · exact Nat.le_refl _
  · split
    · exact Nat.le_succ _
    · split
      · exact Nat.le_refl _
      · exact Nat.le_succ _

theorem roundMag_pos (N : Nat) (hN : 1 ≤ N) : 1 ≤ roundMag N 1 := by
  unfold roundMag
  simp only [Nat.div_one, Nat.one_mul]
  have h1 := excessBits_le N hN
  have h2 := roundNearestEven_ge N (2 ^ excessBits N)
  have h3 : 1 ≤ N / 2 ^ excessBits N := Nat.div_pos h1 (by positivity)
  have h4 : 1 ≤ 2 ^ excessBits N := Nat.one_le_two_pow
  exact Nat.mul_le_mul (Nat.le_trans h3 h2) h4

theorem ofUnits_eq_zero (k : Int) : CFloat.ofUnits k = CFloat.zero ↔ k = 0 := by
  constructor
  · intro h
    by_contra hk
    have hN : 1 ≤ k.natAbs := by omega
    have hpos := roundMag_pos k.natAbs hN
    unfold CFloat.ofUnits CFloat.ofSignMag at h
    simp only [Nat.div_one, CFloat.zero] at h
    split at h
    · split at h <;> cases h
    · split at h
      · split at h <;> cases h
      · simp only [CFloat.fin.injEq] at h
        split at h <;> omega
  · intro h
    subst h
    decide

theorem ofUnits_nonneg (k : Int) (hk : 0 ≤ k) :
    CFloat.ge (CFloat.ofUnits k) CFloat.zero = true := by
  have hd : decide (k < 0) = false := by simpa using hk
  unfold CFloat.ofUnits CFloat.ofSignMag
  rw [hd]
  simp only [Nat.div_one, Bool.false_eq_true, if_false]
  split
  · rfl
  · split
    · rfl
    · simp [CFloat.ge, CFloat.le, CFloat.lt, CFloat.zero]

theorem ofUnits_isnan (k : Int) : (CFloat.ofUnits k).isnan = false := by
  unfold CFloat.ofUnits CFloat.ofSignMag
  split
  · split <;> rfl
  · simp only
    split
    · split <;> rfl
    · rfl

theorem CFloat.abs_nonneg (x : CFloat) (hx : x.isnan = false) :
    CFloat.ge (CFloat.abs x) CFloat.zero = true := by
  cases x with
  | fin k => simp [CFloat.abs, CFloat.ge, CFloat.le, CFloat.lt, CFloat.zero]
  | pinf => rfl
  | ninf => rfl
  | nan => cases hx

theorem CFloat.abs_eq_zero (x : CFloat) : CFloat.abs x = CFloat.zero ↔ x = CFloat.zero := by
  cases x with
  | fin k =>
    simp only [CFloat.abs, CFloat.zero, CFloat.fin.injEq]
    omega
  | pinf => simp [CFloat.abs, CFloat.zero]
  | ninf => simp [CFloat.abs, CFloat.zero]
  | nan => simp [CFloat.abs, CFloat.zero]

theorem CFloat.add_nonneg (x y : CFloat) (hx : CFloat.ge x CFloat.zero = true)
    (hy : CFloat.ge y CFloat.zero = true) :
    CFloat.ge (CFloat.add x y) CFloat.zero = true ∧
    (CFloat.add x y = CFloat.zero ↔ x = CFloat.zero ∧ y = CFloat.zero) := by
  cases x with
  | fin a =>
    cases y with
    | fin b =>
      have ha : 0 ≤ a := by simpa [CFloat.ge, CFloat.le, CFloat.lt, CFloat.zero] using hx
      have hb : 0 ≤ b := by simpa [CFloat.ge, CFloat.le, CFloat.lt, CFloat.zero] using hy
      refine ⟨ofUnits_nonneg (a + b) (by omega), ?_⟩
      show CFloat.ofUnits (a + b) = CFloat.zero ↔ _
      rw [ofUnits_eq_zero]
      simp only [CFloat.zero, CFloat.fin.injEq]
      omega
    | pinf => exact ⟨rfl, by simp [CFloat.add, CFloat.zero]⟩
    | ninf => simp [CFloat.ge, CFloat.le, CFloat.lt, CFloat.zero] at hy
    | nan => simp [CFloat.ge, CFloat.le, CFloat.zero] at hy
  | pinf =>
    cases y with
    | fin b => exact ⟨rfl, by simp [CFloat.add, CFloat.zero]⟩
    | pinf => exact ⟨rfl, by simp [CFloat.add, CFloat.zero]⟩
    | ninf => simp [CFloat.ge, CFloat.le, CFloat.lt, CFloat.zero] at hy
    | nan => simp [CFloat.ge, CFloat.le, CFloat.zero] at hy
  | ninf => simp [CFloat.ge, CFloat.le, CFloat.lt, CFloat.zero] at hx
  | nan => simp [CFloat.ge, CFloat.le, CFloat.zero] at hx

theorem foldl_add_nonneg :
    ∀ (terms : List CFloat) (e : CFloat), CFloat.ge e CFloat.zero = true →
      (∀ t ∈ terms, CFloat.ge t CFloat.zero = true) →
      CFloat.ge (terms.foldl CFloat.add e) CFloat.zero = true ∧
      (terms.foldl CFloat.add e = CFloat.zero ↔
        e = CFloat.zero ∧ ∀ t ∈ terms, t = CFloat.zero) := by
  intro terms
  induction terms with
  | nil =>
    intro e he _
    exact ⟨he, by simp⟩
  | cons t terms ih =>
    intro e he ht
    obtain ⟨a1, a2⟩ := CFloat.add_nonneg e t he (ht t (List.mem_cons_self _ _))
    obtain ⟨b1, b2⟩ := ih (CFloat.add e t) a1 (fun u hu => ht u (List.mem_cons_of_mem _ hu))
    rw [List.foldl_cons]
    refine ⟨b1, ?_⟩
    rw [b2, a2]
    simp only [List.mem_cons, forall_eq_or_imp]
    tauto

theorem sanitise_isFinite (x : CFloat) : CFloat.isFinite (sanitise x) = true := by
  cases x with
  | fin k => rfl
  | pinf => decide
  | ninf => decide
  | nan => decide

theorem getD_isFinite (l : List CFloat) (a : Nat)
    (h : ∀ x ∈ l, CFloat.isFinite x = true) : CFloat.isFinite (l.getD a default) = true := by
  rw [List.getD_eq_getElem?_getD]
  cases hx : l[a]? with
  | none => rfl
  | some x => exact h x (List.getElem?_mem hx)

theorem value_isFinite (funcSet : fuctionSet) (numInputs arity : Nat)
    (g : List (Nat × List Nat × List CFloat)) (inputs : List CFloat) (a : Nat)
    (h : ∀ x ∈ inputs, CFloat.isFinite x = true) :
    CFloat.isFinite (value funcSet numInputs arity g inputs a) = true := by
  rw [value]
  split
  · exact getD_isFinite inputs a h
  · exact sanitise_isFinite _

theorem row_isFinite (rows : List (List CFloat)) (i : Nat)
    (h : ∀ row ∈ rows, ∀ x ∈ row, CFloat.isFinite x = true) :
    ∀ x ∈ rows.getD i [], CFloat.isFinite x = true := by
  rw [List.getD_eq_getElem?_getD]
  cases hx : rows[i]? with
  | none => intro x hx; cases hx
  | some row => exact h row (List.getElem?_mem hx)

theorem abs_sub_finite (x y : CFloat) (hx : CFloat.isFinite x = true)
    (hy : CFloat.isFinite y = true) :
    CFloat.ge (CFloat.abs (CFloat.sub x y)) CFloat.zero = true ∧
    (CFloat.abs (CFloat.sub x y) = CFloat.zero ↔ x = y) := by
  cases x with
  | fin a =>
    cases y with
    | fin b =>
      have hs : CFloat.sub (CFloat.fin a) (CFloat.fin b) = CFloat.ofUnits (a + -b) := rfl
      rw [hs]
      refine ⟨CFloat.abs_nonneg _ (ofUnits_isnan _), ?_⟩
      rw [CFloat.abs_eq_zero, ofUnits_eq_zero, CFloat.fin.injEq]
      omega
    | pinf => cases hy
    | ninf => cases hy
    | nan => cases hy
  | pinf => cases hx
  | ninf => cases hx
  | nan => cases hx

/-- C14, as amended. Default fitness is the summed absolute error: for every decoded
chromosome (allocated, acyclic, with in-range output genes and the dimensions of the
parameters) and every data set whose `numInputs` and `numOutputs` equal the chromosome's,
`supervisedLearning` returns the sum, added up in `float` arithmetic sample by sample and
output by output, of `|output_j(sample i) - expected[i][j]|`, where `output_j` is the result
of `executeChromosome` on the sample's inputs; when every value of the data set is finite, the
result is `>= 0`, and it is `0` exactly when every output equals its expected value on every
sample. -/
theorem supervisedLearning_absolute_error (params : parameters) (chromo : chromosome)
    (dat : data) (hF : Fits params chromo) (hA : Allocated chromo)
    (hAc : Acyclic params.numInputs chromo) (hO : OutputsInRange chromo) (hD : Decoded chromo)
    (hin : chromo.numInputs = dat.numInputs) (hout : chromo.numOutputs = dat.numOutputs) :
    (∃ r, supervisedLearning params chromo dat = Except.ok r ∧
      r.2.2 = absoluteError params chromo dat) ∧
    (FiniteData dat →
      CFloat.ge (absoluteError params chromo dat) CFloat.zero = true ∧
      (absoluteError params chromo dat = CFloat.zero ↔
        ∀ i, i < dat.numSamples → ∀ j, j < dat.numOutputs →
          outputOf params chromo (dat.inputData.getD i []) j = expectedOf dat i j)) := by
  refine ⟨?_, ?_⟩
  · refine ⟨((forLoop dat.numSamples (supervisedSample dat)
        (params, chromo, CFloat.zero)).1.nodeInputsHold,
      (forLoop dat.numSamples (supervisedSample dat) (params, chromo, CFloat.zero)).2.1,
      (forLoop dat.numSamples (supervisedSample dat) (params, chromo, CFloat.zero)).2.2),
      ?_, supervisedLearning_loop params chromo dat hF hA hAc hO hD hout⟩
    unfold supervisedLearning
    simp [hin, hout]
  · intro hfin
    have hterm : ∀ i j, j < dat.numOutputs →
        CFloat.ge (CFloat.abs (CFloat.sub (outputOf params chromo (dat.inputData.getD i []) j)
          (expectedOf dat i j))) CFloat.zero = true ∧
        (CFloat.abs (CFloat.sub (outputOf params chromo (dat.inputData.getD i []) j)
          (expectedOf dat i j)) = CFloat.zero ↔
          outputOf params chromo (dat.inputData.getD i []) j = expectedOf dat i j) := by
      intro i j hj
      have hjp : j < params.numOutputs := by
        rw [← hF.2.2.1, hout]
        exact hj
      refine abs_sub_finite _ _ ?_ ?_
      · rw [outputOf_eq_value params chromo _ hF hA hAc hO hD j hjp]
        exact value_isFinite _ _ _ _ _ _ (row_isFinite _ i hfin.1)
      · exact getD_isFinite _ j (row_isFinite _ i hfin.2)
    have hmem : ∀ t, t ∈ errorTerms params chromo dat ↔
        ∃ i, i < dat.numSamples ∧ ∃ j, j < dat.numOutputs ∧
          CFloat.abs (CFloat.sub (outputOf params chromo (dat.inputData.getD i []) j)
            (expectedOf dat i j)) = t := by
      intro t
      simp [errorTerms, List.mem_flatMap, List.mem_map, List.mem_range]
    obtain ⟨s1, s2⟩ := foldl_add_nonneg (errorTerms params chromo dat) CFloat.zero (by decide)
      (fun t ht => by
        obtain ⟨i, _, j, hj, e⟩ := (hmem t).mp ht
        exact e ▸ (hterm i j hj).1)
    refine ⟨s1, ?_⟩
    unfold absoluteError
    rw [s2]
    constructor
    · rintro ⟨_, hall⟩ i hi j hj
      exact (hterm i j hj).2.mp (hall _ ((hmem _).mpr ⟨i, hi, j, hj, rfl⟩))
    · intro hall
      refine ⟨rfl, fun t ht => ?_⟩
      obtain ⟨i, hi, j, hj, e⟩ := (hmem t).mp ht
      exact e ▸ (hterm i j hj).2.mpr (hall i hi j hj)

theorem supervisedLearning_absolute_error_witness :
    Fits exampleParams exampleChromosome ∧ Allocated exampleChromosome ∧
    Acyclic exampleParams.numInputs exampleChromosome ∧ OutputsInRange exampleChromosome ∧
    Decoded exampleChromosome ∧ exampleChromosome.numInputs = exampleData.numInputs ∧
    exampleChromosome.numOutputs = exampleData.numOutputs ∧ FiniteData exampleData ∧
    absoluteError exampleParams exampleChromosome exampleData = CFloat.ofNat 3 ∧
    ((∃ r, supervisedLearning exampleParams exampleChromosome exampleData = Except.ok r ∧
      r.2.2 = absoluteError exampleParams exampleChromosome exampleData) ∧
    (FiniteData exampleData →
      CFloat.ge (absoluteError exampleParams exampleChromosome exampleData) CFloat.zero = true ∧
      (absoluteError exampleParams exampleChromosome exampleData = CFloat.zero ↔
        ∀ i, i < exampleData.numSamples → ∀ j, j < exampleData.numOutputs →
          outputOf exampleParams exampleChromosome (exampleData.inputData.getD i []) j =
            expectedOf exampleData i j))) :=
  ⟨by decide, by decide, by decide, by decide, by decide, by decide, by decide, by decide,
    by decide,
    supervisedLearning_absolute_error exampleParams exampleChromosome exampleData (by decide)
      (by decide) (by decide) (by decide) (by decide) (by decide) (by decide)⟩

/-- C14, counterexample. On a data set whose only sample has the input `+inf` and the expected
output `+inf`, with a decoded chromosome whose output gene addresses that input, the output
equals its expected value, and `supervisedLearning` returns not-a-number (`inf - inf`): the
result is neither `>= 0` nor `0`. -/
theorem supervisedLearning_infinite_counterexample :
    Fits exampleParams examplePassThrough ∧ Allocated examplePassThrough ∧
    Acyclic exampleParams.numInputs examplePassThrough ∧ OutputsInRange examplePassThrough ∧
    Decoded examplePassThrough ∧
    examplePassThrough.numInputs = exampleInfiniteData.numInputs ∧
    examplePassThrough.numOutputs = exampleInfiniteData.numOutputs ∧
    outputOf exampleParams examplePassThrough (exampleInfiniteData.inputData.getD 0 []) 0 =
      expectedOf exampleInfiniteData 0 0 ∧
    ∃ r, supervisedLearning exampleParams examplePassThrough exampleInfiniteData =
        Except.ok r ∧
      r.2.2 = CFloat.nan ∧ CFloat.ge r.2.2 CFloat.zero = false ∧ r.2.2 ≠ CFloat.zero :=
  ⟨by decide, by decide, by decide, by decide, by decide, by decide, by decide, by decide,
    ⟨_, rfl, by decide, by decide, by decide⟩⟩

/-! ## The parameter `mu` -/

theorem setMu_keeps_positive (params : parameters) (mu : Int) (h : 1 ≤ getMu params) :
    1 ≤ getMu (setMu params mu) := by
  unfold setMu
  split
  · show 1 ≤ mu.toNat
    omega
  · exact h

/-- C21. Invalid mu is rejected without effect: `setMu` with a value `mu <= 0` leaves the
parameters unchanged; `setMu` with a value `mu > 0` sets `mu` to that value and leaves every
other parameter unchanged; so, as `initialiseParameters` sets `mu = 1`, `getMu` returns a value
`>= 1` after every sequence of calls of `setMu`. -/
theorem setMu_rejects_invalid (params : parameters) (mu : Int) :
    (mu ≤ 0 → setMu params mu = params) ∧
    (0 < mu → (getMu (setMu params mu) : Int) = mu ∧
      setMu params mu = { params with mu := getMu (setMu params mu) }) ∧
    (1 ≤ getMu params → ∀ values : List Int, 1 ≤ getMu (values.foldl setMu params)) ∧
    ∀ (numInputs numNodes numOutputs arity : Nat) (values : List Int),
      getMu (initialiseParameters numInputs numNodes numOutputs arity) = 1 ∧
      1 ≤ getMu (values.foldl setMu
        (initialiseParameters numInputs numNodes numOutputs arity)) := by
  have hfold : ∀ (values : List Int) (p : parameters), 1 ≤ getMu p →
      1 ≤ getMu (values.foldl setMu p) := by
    intro values
    induction values with
    | nil => intro p hp; exact hp
    | cons v values ih =>
      intro p hp
      exact ih (setMu p v) (setMu_keeps_positive p v hp)
  refine ⟨?_, ?_, fun h values => hfold values params h, ?_⟩
  · intro h
    unfold setMu
    rw [if_neg (by omega)]
  · intro h
    unfold setMu
    rw [if_pos (by omega)]
    refine ⟨?_, rfl⟩
    show ((mu.toNat : Nat) : Int) = mu
    omega
  · intro a b c d values
    exact ⟨rfl, hfold values _ (Nat.le_refl 1)⟩

theorem setMu_rejects_invalid_witness :
    setMu exampleParams 0 = exampleParams ∧ setMu exampleParams (-3) = exampleParams ∧
    getMu (setMu exampleParams 5) = 5 ∧
    getMu ([3, -2, 0, 7, -1].foldl setMu (initialiseParameters 2 1 1 2)) = 7 ∧
    1 ≤ getMu ([3, -2, 0, 7, -1].foldl setMu (initialiseParameters 2 1 1 2)) :=
  ⟨(setMu_rejects_invalid exampleParams 0).1 (by decide),
    (setMu_rejects_invalid exampleParams (-3)).1 (by decide), by decide, by decide,
    ((setMu_rejects_invalid exampleParams 0).2.2.2 2 1 1 2 [3, -2, 0, 7, -1]).2⟩

/-! ## What an evaluation leaves unchanged -/

theorem supervisedSample_frame (params : parameters) (chromo : chromosome) (dat : data)
    (st : parameters × chromosome × CFloat) (k : Nat) (hp : SameButHold params st.1)
    (hh : st.1.nodeInputsHold.length = params.nodeInputsHold.length)
    (hc : SameButOutputs chromo st.2.1) :
    SameButHold params (supervisedSample dat st k).1 ∧
    (supervisedSample dat st k).1.nodeInputsHold.length = params.nodeInputsHold.length ∧
    SameButOutputs chromo (supervisedSample dat st k).2.1 := by
  obtain ⟨g1, g2, g3, g4, g5⟩ :=
    executeChromosome_frame st.1 st.2.1 (dat.inputData.getD k []) st.2.1.outputValues
  have hstep : SameButOutputs st.2.1
      { (executeChromosome st.1 st.2.1 (dat.inputData.getD k []) st.2.1.outputValues).2.1 with
        outputValues :=
          (executeChromosome st.1 st.2.1 (dat.inputData.getD k [])
            st.2.1.outputValues).2.2 } := by
    refine ⟨?_, g4, g5⟩
    conv_lhs => rw [g3]
  exact ⟨hp.compose g1, g2.trans hh, hc.next hstep⟩

theorem supervisedLearning_frame (params : parameters) (chromo : chromosome) (dat : data)
    (r : List CFloat × chromosome × CFloat)
    (h : supervisedLearning params chromo dat = Except.ok r) :
    r.1.length = params.nodeInputsHold.length ∧ SameButOutputs chromo r.2.1 := by
  have key := forLoop_induction
    (fun _ (st : parameters × chromosome × CFloat) =>
      SameButHold params st.1 ∧
      st.1.nodeInputsHold.length = params.nodeInputsHold.length ∧
      SameButOutputs chromo st.2.1)
    dat.numSamples (supervisedSample dat) (params, chromo, CFloat.zero)
    ⟨SameButHold.same params, rfl, SameButOutputs.start chromo⟩
    (fun k st _ hP => supervisedSample_frame params chromo dat st k hP.1 hP.2.1 hP.2.2)
  unfold supervisedLearning at h
  split at h
  · cases h
  · split at h
    · cases h
    · cases h
      exact ⟨key.2.1, key.2.2⟩

/-- C30. Evaluation does not change the genotype: for every chromosome, every input vector and
every data set, `executeChromosome` and, when it returns, `supervisedLearning` leave the
function gene, the connection genes, the weight genes and the `active` flag of every node, the
output genes, the active list, `numActiveNodes`, the fitness field and the dimensions of the
chromosome unchanged; they change at most the cached outputs of the nodes, the scratch buffer
`nodeInputsHold` of the parameters (whose length stays) and the contents of the output value
storage (whose length stays). -/
theorem evaluation_keeps_genotype (params : parameters) (chromo : chromosome)
    (inputs outputs : List CFloat) (dat : data) :
    (SameButHold params (executeChromosome params chromo inputs outputs).1 ∧
      (executeChromosome params chromo inputs outputs).1.nodeInputsHold.length =
        params.nodeInputsHold.length ∧
      (executeChromosome params chromo inputs outputs).2.2.length = outputs.length ∧
      (executeChromosome params chromo inputs outputs).2.1 =
        { chromo with nodes := (executeChromosome params chromo inputs outputs).2.1.nodes } ∧
      (executeChromosome params chromo inputs outputs).2.1.nodes.map
          (fun n => (n.function, n.inputs, n.weights, n.active)) =
        chromo.nodes.map (fun n => (n.function, n.inputs, n.weights, n.active))) ∧
    ∀ r, supervisedLearning params chromo dat = Except.ok r →
      r.1.length = params.nodeInputsHold.length ∧
      r.2.1 = { chromo with nodes := r.2.1.nodes, outputValues := r.2.1.outputValues } ∧
      r.2.1.nodes.map (fun n => (n.function, n.inputs, n.weights, n.active)) =
        chromo.nodes.map (fun n => (n.function, n.inputs, n.weights, n.active)) ∧
      r.2.1.outputValues.length = chromo.outputValues.length ∧
      r.2.1.outputNodes = chromo.outputNodes ∧ r.2.1.activeNodes = chromo.activeNodes ∧
      r.2.1.numActiveNodes = chromo.numActiveNodes ∧ r.2.1.fitness = chromo.fitness := by
  obtain ⟨g1, g2, g3, g4, g5⟩ := executeChromosome_frame params chromo inputs outputs
  refine ⟨⟨g1, g2, g5, g3, g4⟩, ?_⟩
  intro r hr
  obtain ⟨h1, h2⟩ := supervisedLearning_frame params chromo dat r hr
  obtain ⟨f1, f2, f3, f4, f5, f6, f7, f8⟩ := h2.fields
  exact ⟨h1, h2.1, h2.2.1, h2.2.2, f6, f7, f4, f8⟩

theorem evaluation_keeps_genotype_witness :
    (∃ r, supervisedLearning exampleParams exampleChromosome exampleData = Except.ok r ∧
      r.2.1.nodes.map (fun n => n.output) = [CFloat.ofNat 4] ∧
      exampleChromosome.nodes.map (fun n => n.output) = [CFloat.zero] ∧
      r.2.1.outputValues = [CFloat.ofNat 4] ∧
      r.1.length = exampleParams.nodeInputsHold.length ∧
      r.2.1 = { exampleChromosome with
        nodes := r.2.1.nodes, outputValues := r.2.1.outputValues } ∧
      r.2.1.nodes.map (fun n => (n.function, n.inputs, n.weights, n.active)) =
        exampleChromosome.nodes.map (fun n => (n.function, n.inputs, n.weights, n.active)) ∧
      r.2.1.outputValues.length = exampleChromosome.outputValues.length ∧
      r.2.1.outputNodes = exampleChromosome.outputNodes ∧
      r.2.1.activeNodes = exampleChromosome.activeNodes ∧
      r.2.1.numActiveNodes = exampleChromosome.numActiveNodes ∧
      r.2.1.fitness = exampleChromosome.fitness) :=
  ⟨_, rfl, by decide, by decide, by decide,
    (evaluation_keeps_genotype exampleParams exampleChromosome [] [] exampleData).2 _ rfl⟩

/-! ## The order of the evaluation -/

theorem executionState_spec (params : parameters) (chromo : chromosome)
    (inputs : List CFloat) (hF : Fits params chromo) (hA : Allocated chromo)
    (hAc : Acyclic params.numInputs chromo) (hO : OutputsInRange chromo) (hD : Decoded chromo)
    (k : Nat) (hk : k ≤ chromo.numActiveNodes) :
    (executionState params chromo inputs k).1.length = params.arity ∧
    (executionState params chromo inputs k).2.map
        (fun n => (n.function, n.inputs, n.weights)) = genes chromo ∧
    ∀ m, m < k → ∀ i, (activeList chromo)[m]? = some i →
      ((executionState params chromo inputs k).2.getD i default).output =
        value params.funcSet params.numInputs params.arity (genes chromo) inputs
          (params.numInputs + i) := by
  obtain ⟨hFi, hFn, hFo, hFa, hFh⟩ := hF
  have hAc1 : Acyclic chromo.numInputs chromo := hFi ▸ hAc
  have hR := Acyclic.genesInRange hAc1 hA.1 hO
  obtain ⟨_, hsorted, hmem, _, _⟩ := setActiveNodes_spec chromo hA hR
  rw [← hD.1] at hsorted hmem
  have hgetL : ∀ j, j < chromo.numActiveNodes →
      (activeList chromo)[j]? = some (chromo.activeNodes.getD j 0) := by
    intro j hj
    have hjl : j < chromo.activeNodes.length := Nat.lt_of_lt_of_le hj hD.2
    simp [activeList, List.getElem?_take, hj, List.getElem?_eq_getElem hjl]
  have hnode : ∀ i, Reachable chromo i → ∃ n, chromo.nodes[i]? = some n ∧
      (genes chromo)[i]? = some (n.function, n.inputs, n.weights) ∧
      n.inputs.length = params.arity ∧ ∀ c ∈ n.inputs, c < params.numInputs + i := by
    intro i hi
    have hlt : i < chromo.nodes.length := by rw [hA.1]; exact hi.lt hR
    refine ⟨chromo.nodes[i], List.getElem?_eq_getElem hlt, ?_, ?_, ?_⟩
    · simp [genes, List.getElem?_eq_getElem hlt]
    · rw [← hFa]
      exact (hA.2.1 _ (List.getElem_mem hlt)).1
    · intro c hc
      refine hAc i hlt c ?_
      simpa [List.getD_eq_getElem?_getD, List.getElem?_eq_getElem hlt] using hc
  exact forLoop_induction
    (fun j (s : List CFloat × List node) =>
      s.1.length = params.arity ∧
      s.2.map (fun n => (n.function, n.inputs, n.weights)) = genes chromo ∧
      ∀ m, m < j → ∀ i, (activeList chromo)[m]? = some i →
        (s.2.getD i default).output =
          value params.funcSet params.numInputs params.arity (genes chromo) inputs
            (params.numInputs + i))
    k (executeNode params inputs chromo.activeNodes)
    (params.nodeInputsHold, chromo.nodes)
    ⟨hFh, rfl, fun m hm => absurd hm (Nat.not_lt_zero m)⟩
    (by
      intro j s hj hP
      have hLj := hgetL j (by omega)
      have hreach : Reachable chromo (chromo.activeNodes.getD j 0) :=
        (hmem _).mp (List.getElem?_mem hLj)
      obtain ⟨n, hn, hgn, hnl, hnacyc⟩ := hnode _ hreach
      obtain ⟨e1, e2, e3, e4⟩ := executeNode_spec params (genes chromo) inputs
        chromo.activeNodes j (chromo.activeNodes.getD j 0) s n.function n.inputs n.weights rfl
        hgn hnl hnacyc
        (by
          intro c hc hge
          have hrc : Reachable chromo (c - chromo.numInputs) :=
            Reachable.connection hreach hn hc (hFi ▸ hge)
          obtain ⟨m, hm⟩ := List.mem_iff_getElem?.mp ((hmem _).mpr hrc)
          have hlt := hnacyc c hc
          have hmj : m < j := (sorted_index hsorted hm hLj).mpr (by omega)
          have := hP.2.2 m hmj _ hm
          rw [hFi] at this
          rw [this]
          congr 1
          omega)
        hP.1 hP.2.1
      refine ⟨e1, e2, ?_⟩
      intro m hm i hi
      rcases Nat.lt_succ_iff_lt_or_eq.mp hm with hm | hm
      · have hne : i ≠ chromo.activeNodes.getD j 0 := by
          intro heq
          have := (sorted_index hsorted hi hLj).mp hm
          omega
        rw [e4 i hne]
        exact hP.2.2 m hm i hi
      · subst hm
        rw [hLj] at hi
        cases hi
        exact e3)

theorem activeList_order (chromo : chromosome) (hA : Allocated chromo)
    (hR : GenesInRange chromo) (hAc : Acyclic chromo.numInputs chromo) (hD : Decoded chromo)
    (k idx : Nat) (n : node) (hk : (activeList chromo)[k]? = some idx)
    (hn : chromo.nodes[idx]? = some n) (c : Nat) (hc : c ∈ n.inputs)
    (hge : chromo.numInputs ≤ c) :
    ∃ m, m < k ∧ (activeList chromo)[m]? = some (c - chromo.numInputs) := by
  obtain ⟨_, hsorted, hmem, _, _⟩ := setActiveNodes_spec chromo hA hR
  rw [← hD.1] at hsorted hmem
  have hreach : Reachable chromo idx := (hmem _).mp (List.getElem?_mem hk)
  have hrc : Reachable chromo (c - chromo.numInputs) := Reachable.connection hreach hn hc hge
  obtain ⟨m, hm⟩ := List.mem_iff_getElem?.mp ((hmem _).mpr hrc)
  have hidx : idx < chromo.nodes.length := (List.getElem?_eq_some_iff.mp hn).1
  have hlt : c < chromo.numInputs + idx := by
    refine hAc idx hidx c ?_
    simpa [List.getD_eq_getElem?_getD, hn] using hc
  exact ⟨m, (sorted_index hsorted hm hk).mpr (by omega), hm⟩

/-- C22. Ascending order is a valid evaluation order: for every chromosome (with allocated
arrays) that satisfies the acyclicity invariant and has in-range output genes, after
`setActiveNodes`, for every active node and every connection gene `c` of it with
`c >= numInputs`, the node `c - numInputs` is in the active list at a position strictly before
it; so, during `executeChromosome` (with parameters of the dimensions of the chromosome), every
value gathered from a node when the `k`-th active node is computed is the value of that node
for the given inputs, computed in one of the first `k` runs of the loop, whatever the cached
outputs were before. -/
theorem ascending_order_valid (chromo : chromosome) (hA : Allocated chromo)
    (hAc : Acyclic chromo.numInputs chromo) (hO : OutputsInRange chromo) :
    (∀ (k idx : Nat) (n : node) (c : Nat),
      (activeList (setActiveNodes chromo))[k]? = some idx →
      (setActiveNodes chromo).nodes[idx]? = some n → c ∈ n.inputs → chromo.numInputs ≤ c →
      ∃ m, m < k ∧ (activeList (setActiveNodes chromo))[m]? = some (c - chromo.numInputs)) ∧
    ∀ (params : parameters) (inputs : List CFloat), Fits params chromo →
      ∀ (k idx : Nat) (n : node) (c : Nat),
        (activeList (setActiveNodes chromo))[k]? = some idx →
        (setActiveNodes chromo).nodes[idx]? = some n → c ∈ n.inputs →
        chromo.numInputs ≤ c →
        readLocation params.numInputs
            (executionState params (setActiveNodes chromo) inputs k).2 inputs c =
          value params.funcSet params.numInputs params.arity (genes chromo) inputs c := by
  have hs := setActiveNodes_same chromo
  have hR : GenesInRange chromo := Acyclic.genesInRange hAc hA.1 hO
  have hAd := hs.allocated hA
  have hRd := hs.keepsRange hR
  have hDd := setActiveNodes_decoded chromo hA hR
  have hAcd : Acyclic (setActiveNodes chromo).numInputs (setActiveNodes chromo) := by
    rw [hs.numInputs]
    exact hAc.of_conn hs.conn
  have horder : ∀ (k idx : Nat) (n : node) (c : Nat),
      (activeList (setActiveNodes chromo))[k]? = some idx →
      (setActiveNodes chromo).nodes[idx]? = some n → c ∈ n.inputs → chromo.numInputs ≤ c →
      ∃ m, m < k ∧
        (activeList (setActiveNodes chromo))[m]? = some (c - chromo.numInputs) := by
    intro k idx n c hk hn hc hge
    have := activeList_order (setActiveNodes chromo) hAd hRd hAcd hDd k idx n hk hn c hc
      (by rw [hs.numInputs]; exact hge)
    rw [hs.numInputs] at this
    exact this
  refine ⟨horder, ?_⟩
  intro params inputs hF k idx n c hk hn hc hge
  obtain ⟨m, hmk, hm⟩ := horder k idx n c hk hn hc hge
  obtain ⟨hFi, hFn, hFo, hFa, hFh⟩ := hF
  have hkl : k < (activeList (setActiveNodes chromo)).length :=
    (List.getElem?_eq_some_iff.mp hk).1
  have hkn : k ≤ (setActiveNodes chromo).numActiveNodes := by
    have : (activeList (setActiveNodes chromo)).length ≤
        (setActiveNodes chromo).numActiveNodes := by
      simp [activeList]
    omega
  obtain ⟨_, _, e3⟩ := executionState_spec params (setActiveNodes chromo) inputs
    ⟨hs.numInputs.trans hFi, hs.numNodes.trans hFn, hs.numOutputs.trans hFo,
      hs.arity.trans hFa, hFh⟩
    hAd (by rw [← hFi]; exact hAc.of_conn hs.conn) hRd.2 hDd k hkn
  have hval := e3 m hmk _ hm
  have hge2 : params.numInputs ≤ c := hFi ▸ hge
  rw [hFi] at hval
  unfold readLocation
  rw [if_neg (by omega), hval, hs.genes]
  congr 1
  omega

theorem ascending_order_valid_witness :
    Allocated exampleGraph ∧ Acyclic exampleGraph.numInputs exampleGraph ∧
    OutputsInRange exampleGraph ∧
    activeList (setActiveNodes exampleGraph) = [0, 1, 2] ∧
    (setActiveNodes exampleGraph).nodes.map (fun n => n.inputs) = [[0, 0], [0, 0], [2, 1]] ∧
    ((∀ (k idx : Nat) (n : node) (c : Nat),
      (activeList (setActiveNodes exampleGraph))[k]? = some idx →
      (setActiveNodes exampleGraph).nodes[idx]? = some n → c ∈ n.inputs →
      exampleGraph.numInputs ≤ c →
      ∃ m, m < k ∧
        (activeList (setActiveNodes exampleGraph))[m]? = some (c - exampleGraph.numInputs)) ∧
    ∀ (params : parameters) (inputs : List CFloat), Fits params exampleGraph →
      ∀ (k idx : Nat) (n : node) (c : Nat),
        (activeList (setActiveNodes exampleGraph))[k]? = some idx →
        (setActiveNodes exampleGraph).nodes[idx]? = some n → c ∈ n.inputs →
        exampleGraph.numInputs ≤ c →
        readLocation params.numInputs
            (executionState params (setActiveNodes exampleGraph) inputs k).2 inputs c =
          value params.funcSet params.numInputs params.arity (genes exampleGraph) inputs c) :=
  ⟨by decide, by decide, by decide, by decide, by decide,
    ascending_order_valid exampleGraph (by decide) (by decide) (by decide)⟩

/-! ## Finite node outputs -/

theorem value_node_isFinite (funcSet : fuctionSet) (numInputs arity : Nat)
    (g : List (Nat × List Nat × List CFloat)) (inputs : List CFloat) (a : Nat)
    (h : numInputs ≤ a) :
    CFloat.isFinite (value funcSet numInputs arity g inputs a) = true := by
  rw [value, if_neg (by omega)]
  exact sanitise_isFinite _

/-- C26. No infinity reaches downstream nodes: for every decoded chromosome (allocated, with
the dimensions of the parameters and in-range output genes) that satisfies the acyclicity
invariant, every function set and every input vector, after `executeChromosome` the cached
output of every active node is a finite value (neither an infinity nor not-a-number), and every
value gathered from a node while the `k`-th active node is computed is finite; with an input
vector of finite values, every gathered value is finite. -/
theorem no_infinity_downstream (params : parameters) (chromo : chromosome)
    (inputs outputs : List CFloat) (hF : Fits params chromo) (hA : Allocated chromo)
    (hAc : Acyclic params.numInputs chromo) (hO : OutputsInRange chromo)
    (hD : Decoded chromo) :
    (∀ (m idx : Nat), (activeList chromo)[m]? = some idx →
      CFloat.isFinite
        ((executeChromosome params chromo inputs outputs).2.1.nodes.getD idx default).output =
          true) ∧
    (∀ (k idx : Nat) (n : node) (c : Nat), (activeList chromo)[k]? = some idx →
      chromo.nodes[idx]? = some n → c ∈ n.inputs → params.numInputs ≤ c →
      CFloat.isFinite
        (readLocation params.numInputs (executionState params chromo inputs k).2 inputs c) =
          true) ∧
    ((∀ x ∈ inputs, CFloat.isFinite x = true) →
      ∀ (k idx : Nat) (n : node) (c : Nat), (activeList chromo)[k]? = some idx →
        chromo.nodes[idx]? = some n → c ∈ n.inputs →
        CFloat.isFinite
          (readLocation params.numInputs (executionState params chromo inputs k).2 inputs c) =
            true) := by
  have hR : GenesInRange chromo := Acyclic.genesInRange (hF.1 ▸ hAc) hA.1 hO
  have hlen : ∀ (k idx : Nat), (activeList chromo)[k]? = some idx →
      k < chromo.numActiveNodes := by
    intro k idx hk
    have h1 := (List.getElem?_eq_some_iff.mp hk).1
    have h2 : (activeList chromo).length ≤ chromo.numActiveNodes := by simp [activeList]
    omega
  have hnode : ∀ (k idx : Nat) (n : node) (c : Nat), (activeList chromo)[k]? = some idx →
      chromo.nodes[idx]? = some n → c ∈ n.inputs → params.numInputs ≤ c →
      CFloat.isFinite
        (readLocation params.numInputs (executionState params chromo inputs k).2 inputs c) =
          true := by
    intro k idx n c hk hn hc hge
    obtain ⟨m, hmk, hm⟩ := activeList_order chromo hA hR (hF.1 ▸ hAc) hD k idx n hk hn c hc
      (hF.1 ▸ hge)
    obtain ⟨_, _, e3⟩ := executionState_spec params chromo inputs hF hA hAc hO hD k
      (Nat.le_of_lt (hlen k idx hk))
    have hval := e3 m hmk _ hm
    rw [hF.1] at hval
    unfold readLocation
    rw [if_neg (by omega), hval]
    exact value_node_isFinite _ _ _ _ _ _ (by omega)
  refine ⟨?_, hnode, ?_⟩
  · intro m idx hm
    obtain ⟨_, _, e3⟩ := executionState_spec params chromo inputs hF hA hAc hO hD
      chromo.numActiveNodes (Nat.le_refl _)
    have hval := e3 m (hlen m idx hm) idx hm
    show CFloat.isFinite
      ((executionState params chromo inputs chromo.numActiveNodes).2.getD idx default).output =
        true
    rw [hval]
    exact value_node_isFinite _ _ _ _ _ _ (by omega)
  · intro hfin k idx n c hk hn hc
    by_cases hge : params.numInputs ≤ c
    · exact hnode k idx n c hk hn hc hge
    · unfold readLocation
      rw [if_pos (by omega)]
      exact getD_isFinite inputs c hfin

theorem no_infinity_downstream_witness :
    Fits exampleParams exampleChromosome ∧ Allocated exampleChromosome ∧
    Acyclic exampleParams.numInputs exampleChromosome ∧ OutputsInRange exampleChromosome ∧
    Decoded exampleChromosome ∧ activeList exampleChromosome = [0] ∧
    add exampleParams.arity exampleLowInputs [CFloat.zero, CFloat.zero] = CFloat.ninf ∧
    CFloat.isFinite
      ((executeChromosome exampleParams exampleChromosome exampleLowInputs
        [CFloat.zero]).2.1.nodes.getD 0 default).output = true :=
  ⟨by decide, by decide, by decide, by decide, by decide, by decide, by decide,
    (no_infinity_downstream exampleParams exampleChromosome exampleLowInputs [CFloat.zero]
      (by decide) (by decide) (by decide) (by decide) (by decide)).1 0 0 (by decide)⟩

/-! ## The boolean node functions -/

theorem CFloat.finite_cases (x : CFloat) (h : CFloat.isFinite x = true) :
    ∃ k, x = CFloat.fin k := by
  cases x with
  | fin k => exact ⟨k, rfl⟩
  | pinf => cases h
  | ninf => cases h
  | nan => cases h

theorem CFloat.eq_one_iff (x : CFloat) : CFloat.eq x CFloat.one = true ↔ x = CFloat.one := by
  obtain ⟨j, hj⟩ := CFloat.finite_cases CFloat.one (by decide)
  rw [hj]
  cases x <;> simp [CFloat.eq]

theorem CFloat.eq_zero_iff (x : CFloat) : CFloat.eq x CFloat.zero = true ↔ x = CFloat.zero := by
  cases x <;> simp [CFloat.eq, CFloat.zero]

theorem any_map_comp {α β : Type} (f : α → β) (p : β → Bool) (l : List α) :
    (l.map f).any p = l.any (fun x => p (f x)) := by
  induction l with
  | nil => rfl
  | cons a l ih => simp only [List.map_cons, List.any_cons, ih]

theorem range_any_getD (l : List CFloat) (p : CFloat → Bool) :
    (List.range l.length).any (fun i => p (l.getD i default)) = l.any p := by
  have h := range_map_getD CFloat CFloat id l default
  rw [List.map_id] at h
  conv_rhs => rw [← h]
  rw [any_map_comp]
  rfl

theorem range_countP_getD (l : List CFloat) (p : CFloat → Bool) :
    (List.range l.length).countP (fun i => p (l.getD i default)) = l.countP p := by
  have h := range_map_getD CFloat CFloat id l default
  rw [List.map_id] at h
  conv_rhs => rw [← h]
  rw [List.countP_map]
  rfl

theorem firstHit_spec (numInputs : Nat) (inputs : List CFloat) (key start other : CFloat) :
    firstHit numInputs inputs key start other =
      if (List.range numInputs).any (fun i => CFloat.eq (inputs.getD i default) key) then other
      else start := by
  have key2 : ∀ n, forLoop n
      (fun (s : CFloat × Bool) i =>
        if s.2 then s
        else if CFloat.eq (inputs.getD i default) key then (other, true) else s)
      (start, false) =
      if (List.range n).any (fun i => CFloat.eq (inputs.getD i default) key) then (other, true)
      else (start, false) := by
    intro n
    induction n with
    | zero => rfl
    | succ k ih =>
      show (fun (s : CFloat × Bool) i =>
        if s.2 then s
        else if CFloat.eq (inputs.getD i default) key then (other, true) else s)
        (forLoop k _ (start, false)) k = _
      rw [ih, List.range_succ, List.any_append]
      simp only [List.any_cons, List.any_nil, Bool.or_false]
      generalize (List.range k).any (fun i => CFloat.eq (inputs.getD i default) key) = a
      generalize CFloat.eq (inputs.getD k default) key = b
      cases a <;> cases b <;> rfl
  unfold firstHit
  rw [key2]
  split <;> rfl

theorem countOnes_spec (numInputs : Nat) (inputs : List CFloat) :
    countOnes numInputs inputs =
      min ((List.range numInputs).countP
        (fun i => CFloat.eq (inputs.getD i default) CFloat.one)) 2 := by
  have key : ∀ n, forLoop n
      (fun (s : Nat × Bool) i =>
        if s.2 then s
        else
          let numOnes := if CFloat.eq (inputs.getD i default) CFloat.one then s.1 + 1 else s.1
          (numOnes, decide (numOnes > 1)))
      (0, false) =
      (min ((List.range n).countP (fun i => CFloat.eq (inputs.getD i default) CFloat.one)) 2,
        decide (min ((List.range n).countP
          (fun i => CFloat.eq (inputs.getD i default) CFloat.one)) 2 > 1)) := by
    intro n
    induction n with
    | zero => rfl
    | succ k ih =>
      show (fun (s : Nat × Bool) i =>
        if s.2 then s
        else
          let numOnes := if CFloat.eq (inputs.getD i default) CFloat.one then s.1 + 1 else s.1
          (numOnes, decide (numOnes > 1)))
        (forLoop k _ (0, false)) k = _
      rw [ih, List.range_succ, List.countP_append]
      simp only [List.countP_cons, List.countP_nil]
      generalize (List.range k).countP
        (fun i => CFloat.eq (inputs.getD i default) CFloat.one) = cnt
      generalize CFloat.eq (inputs.getD k default) CFloat.one = b
      match cnt with
      | 0 => cases b <;> rfl
      | 1 => cases b <;> rfl
      | m + 2 =>
        have h1 : min (m + 2) 2 = 2 := by omega
        have h2 : ∀ j, min (m + 2 + j) 2 = 2 := by intro j; omega
        cases b
        · simp only [h1, Bool.false_eq_true, if_false, Nat.zero_add, Nat.add_zero]
          rfl
        · simp only [h1, if_true, Nat.zero_add, h2]
          rfl
  unfold countOnes
  rw [key]

/-- C28. Boolean built-ins compute their truth functions: for every arity `>= 1`, every input
vector of that length whose entries are all `0` or `1` and all connection weights, `and`
returns `1` iff every input is `1`, `or` returns `1` iff some input is `1`, `xor` returns `1`
iff exactly one input is `1`, `nand`, `nor` and `xnor` return `1` minus the result of `and`,
`or` and `xor`, and `not` returns `1` iff the first input is `0`; every result is `0` or `1`
and is the same for all connection weights. -/
theorem boolean_builtins (numInputs : Nat) (inputs weights weights2 : List CFloat)
    (hn : 1 ≤ numInputs) (hlen : inputs.length = numInputs)
    (h01 : ∀ x ∈ inputs, x = CFloat.zero ∨ x = CFloat.one) :
    (and numInputs inputs weights = CFloat.one ↔ ∀ x ∈ inputs, x = CFloat.one) ∧
    (or numInputs inputs weights = CFloat.one ↔ ∃ x ∈ inputs, x = CFloat.one) ∧
    (xor numInputs inputs weights = CFloat.one ↔
      inputs.countP (fun x => decide (x = CFloat.one)) = 1) ∧
    nand numInputs inputs weights = CFloat.sub CFloat.one (and numInputs inputs weights) ∧
    nor numInputs inputs weights = CFloat.sub CFloat.one (or numInputs inputs weights) ∧
    xnor numInputs inputs weights = CFloat.sub CFloat.one (xor numInputs inputs weights) ∧
    (not numInputs inputs weights = CFloat.one ↔ inputs.getD 0 default = CFloat.zero) ∧
    (∀ f ∈ [and, nand, or, nor, xor, xnor, not],
      (f numInputs inputs weights = CFloat.zero ∨ f numInputs inputs weights = CFloat.one) ∧
      f numInputs inputs weights = f numInputs inputs weights2) := by
  subst hlen
  have hzo : CFloat.zero ≠ CFloat.one := by decide
  have hs1 : CFloat.sub CFloat.one CFloat.one = CFloat.zero := by decide
  have hs0 : CFloat.sub CFloat.one CFloat.zero = CFloat.one := by decide
  have hn0 : CFloat.ofNat 0 = CFloat.zero := by decide
  have hn1 : CFloat.ofNat 1 = CFloat.one := rfl
  have hand : and inputs.length inputs weights =
      if inputs.any (fun x => CFloat.eq x CFloat.zero) then CFloat.zero else CFloat.one := by
    unfold and
    rw [firstHit_spec, range_any_getD inputs (fun x => CFloat.eq x CFloat.zero)]
  have hnand : nand inputs.length inputs weights =
      if inputs.any (fun x => CFloat.eq x CFloat.zero) then CFloat.one else CFloat.zero := by
    unfold nand
    rw [firstHit_spec, range_any_getD inputs (fun x => CFloat.eq x CFloat.zero)]
  have hor : or inputs.length inputs weights =
      if inputs.any (fun x => CFloat.eq x CFloat.one) then CFloat.one else CFloat.zero := by
    unfold or
    rw [firstHit_spec, range_any_getD inputs (fun x => CFloat.eq x CFloat.one)]
  have hnor : nor inputs.length inputs weights =
      if inputs.any (fun x => CFloat.eq x CFloat.one) then CFloat.zero else CFloat.one := by
    unfold nor
    rw [firstHit_spec, range_any_getD inputs (fun x => CFloat.eq x CFloat.one)]
  have hcount : countOnes inputs.length inputs =
      min (inputs.countP (fun x => decide (x = CFloat.one))) 2 := by
    rw [countOnes_spec, range_countP_getD inputs (fun x => CFloat.eq x CFloat.one)]
    congr 1
    apply List.countP_congr
    intro x _
    simp only [decide_eq_true_eq]
    exact CFloat.eq_one_iff x
  refine ⟨?_, ?_, ?_, ?_, ?_, ?_, ?_, ?_⟩
  · rw [hand]
    constructor
    · intro h x hx
      rcases h01 x hx with h0 | h1
      · subst h0
        have : inputs.any (fun x => CFloat.eq x CFloat.zero) = true :=
          List.any_eq_true.mpr ⟨_, hx, by decide⟩
        rw [this] at h
        exact absurd h hzo
      · exact h1
    · intro h
      have : inputs.any (fun x => CFloat.eq x CFloat.zero) = false := by
        rw [Bool.eq_false_iff]
        intro hany
        obtain ⟨x, hx, hxe⟩ := List.any_eq_true.mp hany
        have h1 := h x hx
        have h0 := (CFloat.eq_zero_iff x).mp hxe
        exact hzo (h0 ▸ h1)
      rw [this]
      rfl
  · rw [hor]
    constructor
    · intro h
      by_cases hany : inputs.any (fun x => CFloat.eq x CFloat.one) = true
      · obtain ⟨x, hx, hxe⟩ := List.any_eq_true.mp hany
        exact ⟨x, hx, (CFloat.eq_one_iff x).mp hxe⟩
      · rw [if_neg hany] at h
        exact absurd h hzo
    · rintro ⟨x, hx, h1⟩
      have : inputs.any (fun x => CFloat.eq x CFloat.one) = true :=
        List.any_eq_true.mpr ⟨x, hx, (CFloat.eq_one_iff x).mpr h1⟩
      rw [this]
      rfl
  · unfold xor
    rw [hcount]
    constructor
    · intro h
      by_contra hne
      have : ¬ min (inputs.countP (fun x => decide (x = CFloat.one))) 2 = 1 := by omega
      rw [if_neg this, hn0] at h
      exact hzo h
    · intro h
      rw [h]
      rfl
  · rw [hand, hnand]
    split
    · exact hs0.symm
    · exact hs1.symm
  · rw [hor, hnor]
    split
    · exact hs1.symm
    · exact hs0.symm
  · unfold xor xnor
    split
    · rw [hn0, hn1]
      exact hs1.symm
    · rw [hn0, hn1]
      exact hs0.symm
  · unfold not
    rw [← CFloat.eq_zero_iff]
    split
    · rename_i h
      exact ⟨fun _ => h, fun _ => rfl⟩
    · rename_i h
      constructor
      · intro h2
        exact absurd h2 hzo
      · intro h2
        exact absurd h2 h
  · intro f hf
    simp only [List.mem_cons, List.mem_singleton, List.not_mem_nil, or_false] at hf
    rcases hf with h | h | h | h | h | h | h <;> subst h
    · exact ⟨by rw [hand]; split <;> simp, rfl⟩
    · exact ⟨by rw [hnand]; split <;> simp, rfl⟩
    · exact ⟨by rw [hor]; split <;> simp, rfl⟩
    · exact ⟨by rw [hnor]; split <;> simp, rfl⟩
    · exact ⟨by unfold xor; split <;> simp [hn0, hn1], rfl⟩
    · exact ⟨by unfold xnor; split <;> simp [hn0, hn1], rfl⟩
    · exact ⟨by unfold not; split <;> simp, rfl⟩

theorem boolean_builtins_witness :
    1 ≤ 3 ∧ exampleBits.length = 3 ∧
    (∀ x ∈ exampleBits, x = CFloat.zero ∨ x = CFloat.one) ∧
    and 3 exampleBits [] = CFloat.zero ∧ or 3 exampleBits [] = CFloat.one ∧
    xor 3 exampleBits [] = CFloat.one ∧ not 3 exampleBits [] = CFloat.zero ∧
    nand 3 exampleBits [] = CFloat.sub CFloat.one (and 3 exampleBits []) ∧
    (xor 3 exampleBits [] = CFloat.one ↔
      exampleBits.countP (fun x => decide (x = CFloat.one)) = 1) :=
  ⟨by decide, by decide, by decide, by decide, by decide, by decide, by decide,
    (boolean_builtins 3 exampleBits [] [] (by decide) (by decide) (by decide)).2.2.2.1,
    (boolean_builtins 3 exampleBits [] [] (by decide) (by decide) (by decide)).2.2.1⟩

/-! ## Output genes and function genes -/

theorem bind_ok {α β : Type} (x : Except Fault α) (f : α → Except Fault β) (r : β)
    (h : (x >>= f) = Except.ok r) : ∃ a, x = Except.ok a ∧ f a = Except.ok r := by
  cases x with
  | error e => cases h
  | ok a => exact ⟨a, rfl, h⟩

theorem randMod_lt (n : Nat) (s : RandState) (r : Nat × RandState)
    (h : randMod n s = Except.ok r) : r.1 < n := by
  unfold randMod at h
  split at h
  · cases h
  · rename_i hn
    cases h
    exact Nat.mod_lt _ (Nat.pos_of_ne_zero hn)

theorem getRandomFunction_lt (params : parameters) (s : RandState) (r : Nat × RandState)
    (h : getRandomFunction params s = Except.ok r) : r.1 < params.funcSet.numFunctions := by
  unfold getRandomFunction at h
  split at h
  · cases h
  · exact randMod_lt _ _ _ h

theorem initialiseNode_function (params : parameters) (nodePosition : Nat) (s : RandState)
    (r : node × RandState) (h : initialiseNode params nodePosition s = Except.ok r) :
    r.1.function < params.funcSet.numFunctions := by
  unfold initialiseNode at h
  obtain ⟨f, hf, h1⟩ := bind_ok _ _ _ h
  obtain ⟨g, _, h2⟩ := bind_ok _ _ _ h1
  cases h2
  exact getRandomFunction_lt params s f hf

theorem initialiseChromosome_ranges (params : parameters) (s : RandState)
    (r : chromosome × RandState) (h : initialiseChromosome params s = Except.ok r) :
    OutputsAndFunctionsInRange params r.1 := by
  unfold initialiseChromosome at h
  split at h
  · cases h
  · obtain ⟨ns, hns, h1⟩ := bind_ok _ _ _ h
    obtain ⟨os, hos, h2⟩ := bind_ok _ _ _ h1
    cases h2
    have hnodes : ∀ n ∈ ns.1, n.function < params.funcSet.numFunctions :=
      forLoopE_inv
        (fun _ (st : List node × RandState) =>
          ∀ n ∈ st.1, n.function < params.funcSet.numFunctions)
        params.numNodes _ ([], s) (by simp)
        (by
          intro k st t _ hP ht
          obtain ⟨n, hn, h3⟩ := bind_ok _ _ _ ht
          cases h3
          intro m hm
          rcases List.mem_append.mp hm with hm | hm
          · exact hP m hm
          · rw [List.mem_singleton] at hm
            subst hm
            exact initialiseNode_function params k st.2 n hn)
        ns hns
    have houts : ∀ o ∈ os.1, o < params.numInputs + params.numNodes :=
      forLoopE_inv
        (fun _ (st : List Nat × RandState) =>
          ∀ o ∈ st.1, o < params.numInputs + params.numNodes)
        params.numOutputs _ ([], ns.2) (by simp)
        (by
          intro k st t _ hP ht
          obtain ⟨o, ho, h3⟩ := bind_ok _ _ _ ht
          cases h3
          intro m hm
          rcases List.mem_append.mp hm with hm | hm
          · exact hP m hm
          · rw [List.mem_singleton] at hm
            subst hm
            exact randMod_lt _ _ o ho)
        os hos
    have hs := setActiveNodes_same
      { numInputs := params.numInputs
        numOutputs := params.numOutputs
        numNodes := params.numNodes
        numActiveNodes := params.numNodes
        arity := params.arity
        nodes := ns.1
        outputNodes := os.1
        activeNodes := forLoop params.numNodes (fun l i => l ++ [i]) []
        fitness := CFloat.neg CFloat.one
        outputValues := List.replicate params.numOutputs CFloat.zero }
    refine ⟨?_, ?_⟩
    · intro o ho
      rw [hs.outputNodes] at ho
      exact houts o ho
    · intro n hn
      obtain ⟨i, hi⟩ := List.mem_iff_getElem?.mp hn
      obtain ⟨m, hm, e1, _⟩ := erased_getElem? hs.nodes hi
      rw [e1]
      exact hnodes m (List.getElem?_mem hm)

theorem probabilisticMutation_keeps (params : parameters) (P : chromosome → Prop)
    (chromo : chromosome) (s : RandState) (r : chromosome × RandState)
    (hfun : ∀ c i f, P c → f < params.funcSet.numFunctions → P (setFunctionGene c i f))
    (hin : ∀ c i k g, P c → g < params.numInputs + i → P (setInputGene c i k g))
    (hw : ∀ c i k w, P c → P (setWeightGene c i k w))
    (hout : ∀ c k o, P c → o < params.numInputs + params.numNodes → P (setOutputGene c k o))
    (h0 : P chromo) (h : probabilisticMutation params chromo s = Except.ok r) : P r.1 := by
  unfold probabilisticMutation at h
  split at h
  · rename_i st hst
    have hP : P st.1 := forLoopE_inv (fun _ (st : chromosome × RandState) => P st.1)
      params.numNodes (mutateNode params) (chromo, s) h0
      (by
        intro i st1 t _ hP1 ht
        unfold mutateNode at ht
        split at ht
        · rename_i u hu
          have hPu : P u.1 := by
            unfold mutateFunctionGene at hu
            split at hu
            · split at hu
              · rename_i f hf
                cases hu
                exact hfun _ _ _ hP1 (getRandomFunction_lt _ _ f hf)
              · cases hu
            · cases hu
              exact hP1
          exact forLoopE_inv (fun _ (st : chromosome × RandState) => P st.1)
            params.arity (mutateConnection params i) u hPu
            (by
              intro j st2 t2 _ hP2 ht2
              unfold mutateConnection at ht2
              split at ht2
              · rename_i v hv
                cases ht2
                have hPv : P v.1 := by
                  unfold mutateInputGene at hv
                  split at hv
                  · split at hv
                    · rename_i c hc
                      cases hv
                      exact hin _ _ _ _ hP2 (randMod_lt _ _ c hc)
                    · cases hv
                  · cases hv
                    exact hP2
                exact mutateWeightGene_ok params P i j v (hw · i) hPv
              · cases ht2)
            t ht
        · cases ht)
      st hst
    exact forLoopE_inv (fun _ (st : chromosome × RandState) => P st.1)
      params.numOutputs (mutateOutput params) st hP
      (by
        intro i st1 t _ hP1 ht
        unfold mutateOutput at ht
        split at ht
        · split at ht
          · rename_i o ho
            cases ht
            exact hout _ _ _ hP1 (randMod_lt _ _ o ho)
          · cases ht
        · cases ht
          exact hP1)
      r h
  · cases h

theorem modifyNode_forall (nodes : List node) (i : Nat) (f : node → node) (Q : node → Prop)
    (h : ∀ n ∈ nodes, Q n) (hf : ∀ n, Q n → Q (f n)) : ∀ n ∈ modifyNode nodes i f, Q n := by
  intro n hn
  obtain ⟨j, hj⟩ := List.mem_iff_getElem?.mp hn
  rw [modifyNode_getElem?] at hj
  split at hj
  · cases hm : nodes[j]? with
    | none => simp [hm] at hj
    | some m =>
      simp only [hm, Option.map_some', Option.some.injEq] at hj
      subst hj
      exact hf m (h m (List.getElem?_mem hm))
  · exact h n (List.getElem?_mem hj)

/-- C27. Output and function genes stay in range: every chromosome that `initialiseChromosome`
returns has every output gene in `[0, numInputs + numNodes)` and the function gene of every
node in `[0, numFunctions)`, and `probabilisticMutation`, when it returns, preserves both
properties, for every mutation rate and every sequence of random draws (with the same
parameters, so the same function set); with a non-empty function set and at least one input
both functions return. -/
theorem output_and_function_genes_in_range (params : parameters) (s : RandState) :
    (∀ r, initialiseChromosome params s = Except.ok r →
      OutputsAndFunctionsInRange params r.1) ∧
    (∀ chromo r, OutputsAndFunctionsInRange params chromo →
      probabilisticMutation params chromo s = Except.ok r →
      OutputsAndFunctionsInRange params r.1) ∧
    (1 ≤ params.numInputs → 1 ≤ params.funcSet.numFunctions →
      (∃ r, initialiseChromosome params s = Except.ok r) ∧
      ∀ chromo, ∃ r, probabilisticMutation params chromo s = Except.ok r) := by
  refine ⟨fun r h => initialiseChromosome_ranges params s r h, ?_, ?_⟩
  · intro chromo r h0 h
    refine probabilisticMutation_keeps params (OutputsAndFunctionsInRange params) chromo s r
      ?_ ?_ ?_ ?_ h0 h
    · intro c i f hc hf
      exact ⟨hc.1, modifyNode_forall _ _ _
        (fun n => n.function < params.funcSet.numFunctions ∨ n.function = f)
        (fun n hn => Or.inl (hc.2 n hn)) (fun n _ => Or.inr rfl) |>
        fun hall n hn => (hall n hn).elim id (fun e => e ▸ hf)⟩
    · intro c i k g hc _
      exact ⟨hc.1, modifyNode_forall _ _ _
        (fun n => n.function < params.funcSet.numFunctions) hc.2 (fun n hn => hn)⟩
    · intro c i k w hc
      exact ⟨hc.1, modifyNode_forall _ _ _
        (fun n => n.function < params.funcSet.numFunctions) hc.2 (fun n hn => hn)⟩
    · intro c k o hc ho
      refine ⟨?_, hc.2⟩
      intro x hx
      rcases List.mem_or_eq_of_mem_set hx with hx | hx
      · exact hc.1 x hx
      · exact hx ▸ ho
  · intro hI hF
    obtain ⟨r, hr, _⟩ := initialiseChromosome_ok params s hI hF
    refine ⟨⟨r, hr⟩, fun chromo => ?_⟩
    obtain ⟨r2, hr2, _⟩ := probabilisticMutation_invariant params (fun _ => True) chromo s hI hF
      (fun _ _ _ _ _ => trivial) (fun _ _ _ _ _ _ _ => trivial) (fun _ _ _ _ _ => trivial)
      (fun _ _ _ _ _ => trivial) trivial
    exact ⟨r2, hr2⟩

theorem output_and_function_genes_in_range_witness :
    OutputsAndFunctionsInRange exampleParams exampleChromosome ∧
    1 ≤ exampleParams.numInputs ∧ 1 ≤ exampleParams.funcSet.numFunctions ∧
    (∃ r, probabilisticMutation exampleParams exampleChromosome exampleRand = Except.ok r ∧
      OutputsAndFunctionsInRange exampleParams r.1) ∧
    ∃ r, initialiseChromosome exampleParams exampleRand = Except.ok r ∧
      OutputsAndFunctionsInRange exampleParams r.1 :=
  ⟨by decide, by decide, by decide,
    ⟨_, rfl, (output_and_function_genes_in_range exampleParams exampleRand).2.1
      exampleChromosome _ (by decide) rfl⟩,
    ⟨_, rfl, (output_and_function_genes_in_range exampleParams exampleRand).1 _ rfl⟩⟩

/-! ## The candidate indices that the selection reads -/

theorem forLoopX_eq {σ ε : Type} (P : Nat → σ → Prop) (n : Nat)
    (bodyX : σ → Nat → Except ε σ) (body : σ → Nat → σ) (init : σ) (h0 : P 0 init)
    (hstep : ∀ k s, k < n → P k s → bodyX s k = Except.ok (body s k) ∧ P (k + 1) (body s k)) :
    forLoopX n bodyX init = Except.ok (forLoop n body init) ∧ P n (forLoop n body init) := by
  induction n with
  | zero => exact ⟨rfl, h0⟩
  | succ m ih =>
    obtain ⟨h1, h2⟩ := ih (fun k s hk hP => hstep k s (Nat.lt_succ_of_lt hk) hP)
    obtain ⟨h3, h4⟩ := hstep m _ (Nat.lt_succ_self m) h2
    simp only [forLoopX, forLoop, h1]
    exact ⟨h3, h4⟩

theorem forLoopX_stops {σ ε : Type} (bodyX : σ → Nat → Except ε σ) (init s : σ) (e : ε)
    (k : Nat) (hk : forLoopX k bodyX init = Except.ok s) (he : bodyX s k = Except.error e) :
    ∀ n, k < n → forLoopX n bodyX init = Except.error e := by
  intro n
  induction n with
  | zero => intro h; omega
  | succ m ih =>
    intro h
    rcases Nat.lt_succ_iff_lt_or_eq.mp h with h | h
    · simp only [forLoopX, ih h]
    · subst h
      simp only [forLoopX, hk, he]

theorem readChromosome_inside (a : List chromosome) (i : Nat) (c : chromosome)
    (h : a[i]? = some c) : readChromosome a (Int.ofNat i) = Except.ok c := by
  unfold readChromosome
  rw [if_neg (by simp)]
  simp [h]

theorem readChromosome_outside (a : List chromosome) (i : Nat) (h : a.length ≤ i) :
    readChromosome a (Int.ofNat i) = Except.error (Int.ofNat i) := by
  unfold readChromosome
  rw [if_neg (by simp)]
  simp [List.getElem?_eq_none h]

theorem sortPassChecked_eq (n : Nat) (a : List chromosome) (hn : n ≤ a.length) :
    sortPassChecked n a =
      Except.ok (bubblePass (fun x y : chromosome => CFloat.gt x.fitness y.fitness) n a) := by
  unfold sortPassChecked bubblePass
  refine (forLoopX_eq (fun _ (s : List chromosome × Bool) => s.1.length = a.length) (n - 1) _ _
    (a, true) rfl ?_).1
  rintro i ⟨l, f⟩ hi hl
  simp only at hl
  have h0 : i < l.length := by omega
  have h1 : i + 1 < l.length := by omega
  refine ⟨?_, (bubbleStep_spec _ (fun x y h => CFloat.gt_asymm _ _ h) n i (by omega) l f).1.trans
    hl⟩
  unfold sortStepChecked bubbleStep
  simp only [readChromosome_inside l i _ (List.getElem?_eq_getElem h0),
    readChromosome_inside l (i + 1) _ (List.getElem?_eq_getElem h1),
    List.getElem?_eq_getElem h0, List.getElem?_eq_getElem h1]

theorem sortLoopChecked_eq (n : Nat) :
    ∀ (fuel : Nat) (a : List chromosome), n ≤ a.length →
      sortLoopChecked n fuel a =
        Except.ok
          (bubbleLoop (fun x y : chromosome => CFloat.gt x.fitness y.fitness) n fuel a) := by
  intro fuel
  induction fuel with
  | zero => intro a _; rfl
  | succ fuel ih =>
    intro a hn
    obtain ⟨h1, _⟩ := bubblePass_spec (fun x y : chromosome => CFloat.gt x.fitness y.fitness)
      (fun x y h => CFloat.gt_asymm _ _ h) n a
    simp only [sortLoopChecked, bubbleLoop, sortPassChecked_eq n a hn]
    split
    · rfl
    · exact ih _ (by omega)

theorem sortChromosomeArrayChecked_eq (a : List chromosome) (n : Nat) (h1 : 1 ≤ n)
    (hn : n ≤ a.length) :
    sortChromosomeArrayChecked a n = Except.ok (sortChromosomeArray a n) := by
  have e0 : a[0]? = some a[0] := List.getElem?_eq_getElem (by omega)
  have e1 : a[n - 1]? = some a[n - 1] := List.getElem?_eq_getElem (by omega)
  have hidx : Int.ofNat n - 1 = Int.ofNat (n - 1) := by
    simp only [Int.ofNat_eq_coe]
    omega
  unfold sortChromosomeArrayChecked sortChromosomeArray swapEnds
  rw [hidx, show (0 : Int) = Int.ofNat 0 from rfl, readChromosome_inside a 0 _ e0,
    readChromosome_inside a (n - 1) _ e1]
  simp only [e0, e1]
  exact sortLoopChecked_eq n _ _ (by simp; omega)

theorem pickHighestChecked_inside (params : parameters) (parents cands : List chromosome)
    (n : Nat) (h1 : 1 ≤ n) (hn : n = cands.length) (hmu : params.mu ≤ n) :
    pickHighestChecked params parents cands n =
      Except.ok (pickHighest params parents cands n) := by
  have hslen : (sortChromosomeArray cands n).length = cands.length := by
    rw [hn]
    exact (sortChromosomeArray_spec cands).1.length_eq
  unfold pickHighestChecked pickHighest
  rw [sortChromosomeArrayChecked_eq cands n h1 (by omega)]
  simp only
  rw [(forLoopX_eq (fun _ _ => True) params.mu _
    (fun ps i => match ps[i]?, (sortChromosomeArray cands n)[i]? with
      | some p, some c => ps.set i (copyChromosome params p c)
      | _, _ => ps) parents trivial ?_).1]
  intro i ps hi _
  have hil : i < (sortChromosomeArray cands n).length := by omega
  refine ⟨?_, trivial⟩
  simp only [readChromosome_inside _ i _ (List.getElem?_eq_getElem hil),
    List.getElem?_eq_getElem hil]
  cases ps[i]? <;> rfl

theorem pickHighestChecked_outside (params : parameters) (parents cands : List chromosome)
    (n : Nat) (h1 : 1 ≤ n) (hn : n = cands.length) (hmu : n < params.mu) :
    pickHighestChecked params parents cands n = Except.error (Int.ofNat n) := by
  have hslen : (sortChromosomeArray cands n).length = n := by
    rw [hn]
    exact (sortChromosomeArray_spec cands).1.length_eq
  unfold pickHighestChecked
  rw [sortChromosomeArrayChecked_eq cands n h1 (by omega)]
  simp only
  have hfirst := (forLoopX_eq (fun _ (_ : List chromosome) => True) n
    (fun ps i =>
      match readChromosome (sortChromosomeArray cands n) (Int.ofNat i) with
      | Except.error e => Except.error e
      | Except.ok c =>
        match ps[i]? with
        | some p => Except.ok (ps.set i (copyChromosome params p c))
        | none => Except.ok ps)
    (fun ps i => match ps[i]?, (sortChromosomeArray cands n)[i]? with
      | some p, some c => ps.set i (copyChromosome params p c)
      | _, _ => ps) parents trivial (by
        intro i ps hi _
        have hil : i < (sortChromosomeArray cands n).length := by omega
        refine ⟨?_, trivial⟩
        simp only [readChromosome_inside _ i _ (List.getElem?_eq_getElem hil),
          List.getElem?_eq_getElem hil]
        cases ps[i]? <;> rfl)).1
  rw [forLoopX_stops _ parents _ (Int.ofNat n) n hfirst
    (by simp only [readChromosome_outside _ n (Nat.le_of_eq hslen)]) params.mu hmu]

/-- C29. Selection reads only inside the candidate pool when mu fits: in `evolvePopulation`
with `mu, lambda >= 1`, whose pool `candidateChromos` is allocated with `numCandidateChromos`
entries, under the `+` strategy the pool size is `mu + lambda` and `pickHighest` with
`sortChromosomeArray`, run with every read of a candidate checked, reads no index outside the
pool and returns the result of `pickHighest`; under the `,` strategy the pool size is `lambda`,
the checked run reads inside the pool only, and returns, exactly when `mu <= lambda`, and for
`mu > lambda` it stops at the read of the candidate index `lambda`, which is outside the
pool. -/
theorem selection_reads_inside_pool (params : parameters) (parents cands : List chromosome)
    (hmu : 1 ≤ params.mu) (hlambda : 1 ≤ params.lambda)
    (hpool : cands.length = numCandidates params) :
    (∀ s cs, initialiseCandidates params s = Except.ok cs →
      cs.1.length = numCandidates params) ∧
    (params.evolutionaryStrategy = '+' →
      numCandidates params = params.mu + params.lambda ∧
      pickHighestChecked params parents cands (numCandidates params) =
        Except.ok (pickHighest params parents cands (numCandidates params))) ∧
    (params.evolutionaryStrategy ≠ '+' →
      numCandidates params = params.lambda ∧
      ((∃ r, pickHighestChecked params parents cands (numCandidates params) = Except.ok r) ↔
        params.mu ≤ params.lambda) ∧
      (params.mu ≤ params.lambda →
        pickHighestChecked params parents cands (numCandidates params) =
          Except.ok (pickHighest params parents cands (numCandidates params))) ∧
      (params.lambda < params.mu →
        pickHighestChecked params parents cands (numCandidates params) =
          Except.error (Int.ofNat params.lambda))) := by
  refine ⟨fun s cs h => initialiseCandidates_length params s cs h, ?_, ?_⟩
  · intro hplus
    have hnum : numCandidates params = params.mu + params.lambda := by
      unfold numCandidates
      rw [if_pos hplus]
    refine ⟨hnum, pickHighestChecked_inside params parents cands _ (by omega) hpool.symm
      (by omega)⟩
  · intro hcomma
    have hnum : numCandidates params = params.lambda := by
      unfold numCandidates
      rw [if_neg hcomma]
    have hout : params.lambda < params.mu →
        pickHighestChecked params parents cands (numCandidates params) =
          Except.error (Int.ofNat params.lambda) := by
      intro h
      have := pickHighestChecked_outside params parents cands _ (by omega) hpool.symm
        (by omega)
      rw [this, hnum]
    refine ⟨hnum, ⟨?_, ?_⟩, ?_, hout⟩
    · rintro ⟨r, hr⟩
      by_contra hlt
      rw [hout (by omega)] at hr
      cases hr
    · intro hle
      exact ⟨_, pickHighestChecked_inside params parents cands _ (by omega) hpool.symm
        (by omega)⟩
    · intro hle
      exact pickHighestChecked_inside params parents cands _ (by omega) hpool.symm (by omega)

theorem selection_reads_inside_pool_witness :
    1 ≤ exampleWideParams.mu ∧ 1 ≤ exampleWideParams.lambda ∧
    [exampleChromosome].length = numCandidates exampleWideParams ∧
    exampleWideParams.evolutionaryStrategy ≠ '+' ∧
    exampleWideParams.lambda < exampleWideParams.mu ∧
    pickHighestChecked exampleWideParams [exampleBlank, exampleBlank] [exampleChromosome]
      (numCandidates exampleWideParams) = Except.error 1 ∧
    examplePlusParams.evolutionaryStrategy = '+' ∧
    pickHighestChecked examplePlusParams [exampleBlank] exampleRankedPool.tail
        (numCandidates examplePlusParams) =
      Except.ok (pickHighest examplePlusParams [exampleBlank] exampleRankedPool.tail
        (numCandidates examplePlusParams)) :=
  ⟨by decide, by decide, by decide, by decide, by decide,
    ((selection_reads_inside_pool exampleWideParams [exampleBlank, exampleBlank]
      [exampleChromosome] (by decide) (by decide) (by decide)).2.2 (by decide)).2.2.2
        (by decide),
    by decide,
    ((selection_reads_inside_pool examplePlusParams [exampleBlank] exampleRankedPool.tail
      (by decide) (by decide) (by decide)).2.1 (by decide)).2⟩


/-! ## Ties in the selection (lines 952-999) -/

theorem bubbleStep_filter {α : Type} (gt : α → α → Bool) (p : α → Bool)
    (hp : ∀ x y, gt x y = true → ¬ (p x = true ∧ p y = true)) (s : List α × Bool) (i : Nat) :
    (bubbleStep gt s i).1.filter p = s.1.filter p := by
  unfold bubbleStep
  split
  · rename_i x y hx hy
    split
    · rename_i hgt
      obtain ⟨A, B, _, h1, h2⟩ := swap_split s.1 i x y hx hy
      have hxy := hp x y hgt
      show ((s.1.set i y).set (i + 1) x).filter p = s.1.filter p
      rw [h2]
      conv_rhs => rw [h1]
      simp only [List.filter_append, List.filter_cons]
      cases hpx : p x <;> cases hpy : p y <;> simp_all
    · rfl
  · rfl

theorem bubblePass_filter {α : Type} (gt : α → α → Bool) (p : α → Bool)
    (hp : ∀ x y, gt x y = true → ¬ (p x = true ∧ p y = true)) (n : Nat) (a : List α) :
    (bubblePass gt n a).1.filter p = a.filter p := by
  unfold bubblePass
  refine forLoop_induction (fun _ s => s.1.filter p = a.filter p) (n - 1) _ (a, true) rfl ?_
  intro k s _ hs
  beta_reduce at hs ⊢
  rw [bubbleStep_filter gt p hp, hs]

theorem bubbleLoop_filter {α : Type} (gt : α → α → Bool) (p : α → Bool)
    (hp : ∀ x y, gt x y = true → ¬ (p x = true ∧ p y = true)) (n fuel : Nat) (a : List α) :
    (bubbleLoop gt n fuel a).filter p = a.filter p := by
  induction fuel generalizing a with
  | zero => rfl
  | succ m ih =>
    simp only [bubbleLoop]
    split
    · exact bubblePass_filter gt p hp n a
    · rw [ih, bubblePass_filter gt p hp n a]

theorem bubbleStep_noop {α : Type} (gt : α → α → Bool) (s : List α × Bool) (i : Nat)
    (h : ∀ x ∈ s.1, ∀ y ∈ s.1, gt x y = false) : bubbleStep gt s i = s := by
  unfold bubbleStep
  split
  · rename_i x y hx hy
    rw [h x (List.getElem?_mem hx) y (List.getElem?_mem hy)]
    rfl
  · rfl

theorem bubblePass_noop {α : Type} (gt : α → α → Bool) (n : Nat) (a : List α)
    (h : ∀ x ∈ a, ∀ y ∈ a, gt x y = false) : bubblePass gt n a = (a, true) := by
  unfold bubblePass
  refine forLoop_induction (fun _ s => s = (a, true)) (n - 1) _ (a, true) rfl ?_
  intro k s _ hs
  beta_reduce at hs ⊢
  rw [hs]
  exact bubbleStep_noop gt (a, true) k h

theorem bubbleLoop_noop {α : Type} (gt : α → α → Bool) (n fuel : Nat) (a : List α)
    (h : ∀ x ∈ a, ∀ y ∈ a, gt x y = false) : bubbleLoop gt n fuel a = a := by
  cases fuel with
  | zero => rfl
  | succ m =>
    simp only [bubbleLoop]
    rw [bubblePass_noop gt n a h]
    rfl

theorem CFloat.gt_irrefl (x : CFloat) : CFloat.gt x x = false := by
  cases h : CFloat.gt x x
  · rfl
  · rw [CFloat.gt_asymm x x h] at h
    exact h.symm

theorem sortChromosomeArray_filter (chromoArray : List chromosome) (n : Nat) (f : CFloat) :
    (sortChromosomeArray chromoArray n).filter (fun c => decide (c.fitness = f)) =
      (swapEnds chromoArray n).filter (fun c => decide (c.fitness = f)) := by
  unfold sortChromosomeArray
  apply bubbleLoop_filter
  intro x y hgt hxy
  simp only [decide_eq_true_eq] at hxy
  rw [hxy.1, hxy.2, CFloat.gt_irrefl] at hgt
  exact Bool.noConfusion hgt

theorem sortChromosomeArray_tied (chromoArray : List chromosome) (n : Nat)
    (h : ∀ c ∈ chromoArray, ∀ d ∈ chromoArray, c.fitness = d.fitness) :
    sortChromosomeArray chromoArray n = swapEnds chromoArray n := by
  unfold sortChromosomeArray
  apply bubbleLoop_noop
  intro x hx y hy
  have hx2 := (swapEnds_perm chromoArray n).mem_iff.mp hx
  have hy2 := (swapEnds_perm chromoArray n).mem_iff.mp hy
  show CFloat.gt x.fitness y.fitness = false
  rw [h x hx2 y hy2, CFloat.gt_irrefl]

theorem swapEnds_getElem (a : List chromosome) (hn : 2 ≤ a.length) (i : Nat)
    (hi : i < a.length - 1) :
    ∃ j src, j ≠ 0 ∧ (i = 0 → j = a.length - 1) ∧ a[j]? = some src ∧
      (swapEnds a a.length)[i]? = some src := by
  have h0 : a[0]? = some a[0] := List.getElem?_eq_getElem (by omega)
  have h1 : a[a.length - 1]? = some a[a.length - 1] := List.getElem?_eq_getElem (by omega)
  have hsw : swapEnds a a.length = (a.set 0 a[a.length - 1]).set (a.length - 1) a[0] := by
    unfold swapEnds
    rw [h0, h1]
  rw [hsw]
  by_cases hi0 : i = 0
  · subst hi0
    refine ⟨a.length - 1, a[a.length - 1], by omega, fun _ => rfl, h1, ?_⟩
    rw [List.getElem?_set_ne (by omega), List.getElem?_set_eq_of_lt _ (by omega)]
  · refine ⟨i, a[i], hi0, fun h => absurd h hi0, List.getElem?_eq_getElem (by omega), ?_⟩
    rw [List.getElem?_set_ne (by omega), List.getElem?_set_ne (by omega)]
    exact List.getElem?_eq_getElem (by omega)

/-- C24. `sortChromosomeArray` sorts stably after its swap: for every fitness value the
candidates of that fitness stand in the sorted pool in the order in which the swap of the
first and the last candidate left them. So for a pool of at least two candidates that all
have the same fitness and `1 <= mu < n`, after `pickHighest` `parents[0]` is a copy of the
candidate of the last slot, and every parent slot below `mu` holds the copy of a candidate
whose slot in the pool was not the first. -/
theorem first_slot_lost_on_ties (params : parameters) (parents pool : List chromosome)
    (hn : 2 ≤ pool.length) (hmu1 : 1 ≤ params.mu) (hmu : params.mu < pool.length)
    (hpl : params.mu ≤ parents.length)
    (hc : ∀ c ∈ pool, Fits params c ∧ Allocated c)
    (hp : ∀ p ∈ parents, Fits params p ∧ Allocated p) :
    (∀ f, (sortChromosomeArray pool pool.length).filter (fun c => decide (c.fitness = f)) =
      (swapEnds pool pool.length).filter (fun c => decide (c.fitness = f))) ∧
    ((∀ c ∈ pool, ∀ d ∈ pool, c.fitness = d.fitness) →
      (∃ p last, pool[pool.length - 1]? = some last ∧
        (pickHighest params parents pool pool.length).1[0]? = some p ∧ CopyOf last p) ∧
      ∀ i, i < params.mu → ∃ j dest src, j ≠ 0 ∧ parents[i]? = some dest ∧
        pool[j]? = some src ∧
        (pickHighest params parents pool pool.length).1[i]? =
          some (copyChromosome params dest src) ∧
        CopyOf src (copyChromosome params dest src)) := by
  refine ⟨fun f => sortChromosomeArray_filter pool pool.length f, ?_⟩
  intro htie
  have hsort := sortChromosomeArray_tied pool pool.length htie
  have hslen : (sortChromosomeArray pool pool.length).length = pool.length :=
    (sortChromosomeArray_spec pool).1.length_eq
  obtain ⟨_, q2, _⟩ := pickHighest_parents params parents pool pool.length hpl (by omega)
  have key : ∀ i, i < params.mu → ∃ j dest src, j ≠ 0 ∧ (i = 0 → j = pool.length - 1) ∧
      parents[i]? = some dest ∧ pool[j]? = some src ∧
      (pickHighest params parents pool pool.length).1[i]? =
        some (copyChromosome params dest src) ∧
      CopyOf src (copyChromosome params dest src) := by
    intro i hi
    obtain ⟨dest, c, e1, e2, e3⟩ := q2 i hi
    obtain ⟨j, src, hj, hj0, e4, e5⟩ := swapEnds_getElem pool hn i (by omega)
    rw [hsort, e5] at e2
    have hcs : c = src := (Option.some.inj e2).symm
    subst hcs
    have hpm := hp dest (List.getElem?_mem e1)
    have hcm := hc c (List.getElem?_mem e4)
    exact ⟨j, dest, c, hj, hj0, e1, e4, e3,
      (copyChromosome_spec params dest c hpm.1 hpm.2 hcm.1 hcm.2).1⟩
  constructor
  · obtain ⟨j, dest, src, _, hj0, _, e4, e3, e5⟩ := key 0 (by omega)
    rw [hj0 rfl] at e4
    exact ⟨_, src, e4, e3, e5⟩
  · intro i hi
    obtain ⟨j, dest, src, hj, _, e1, e4, e3, e5⟩ := key i hi
    exact ⟨j, dest, src, hj, e1, e4, e3, e5⟩

theorem first_slot_lost_on_ties_witness :
    (∀ f, (sortChromosomeArray exampleTiedPool 3).filter (fun c => decide (c.fitness = f)) =
      (swapEnds exampleTiedPool 3).filter (fun c => decide (c.fitness = f))) ∧
    ((∀ c ∈ exampleTiedPool, ∀ d ∈ exampleTiedPool, c.fitness = d.fitness) →
      (∃ p last, exampleTiedPool[2]? = some last ∧
        (pickHighest exampleParams [exampleBlank] exampleTiedPool 3).1[0]? = some p ∧
        CopyOf last p) ∧
      ∀ i, i < exampleParams.mu → ∃ j dest src, j ≠ 0 ∧ [exampleBlank][i]? = some dest ∧
        exampleTiedPool[j]? = some src ∧
        (pickHighest exampleParams [exampleBlank] exampleTiedPool 3).1[i]? =
          some (copyChromosome exampleParams dest src) ∧
        CopyOf src (copyChromosome exampleParams dest src)) :=
  first_slot_lost_on_ties exampleParams [exampleBlank] exampleTiedPool (by decide) (by decide)
    (by decide) (by decide) (by decide) (by decide)

theorem bubbleStep_head {α : Type} (gt : α → α → Bool) (x : α) (s : List α × Bool) (i : Nat)
    (h0 : s.1[0]? = some x) (hmin : ∀ y ∈ s.1, gt x y = false) :
    (bubbleStep gt s i).1[0]? = some x ∧ ∀ y ∈ (bubbleStep gt s i).1, gt x y = false := by
  unfold bubbleStep
  split
  · rename_i x1 y1 hx hy
    split
    · rename_i hgt
      obtain ⟨A, B, hA, h1, h2⟩ := swap_split s.1 i x1 y1 hx hy
      show ((s.1.set i y1).set (i + 1) x1)[0]? = some x ∧
        ∀ y ∈ (s.1.set i y1).set (i + 1) x1, gt x y = false
      rw [h2]
      rw [h1] at h0 hmin
      cases A with
      | nil =>
        simp only [List.nil_append, List.getElem?_cons_zero, Option.some.injEq] at h0
        subst h0
        rw [hmin y1 (by simp)] at hgt
        exact Bool.noConfusion hgt
      | cons a A1 =>
        refine ⟨by simpa using h0, fun y hy1 => hmin y ?_⟩
        simp only [List.mem_append, List.mem_cons] at hy1 ⊢
        tauto
    · exact ⟨h0, hmin⟩
  · exact ⟨h0, hmin⟩

theorem bubbleLoop_head {α : Type} (gt : α → α → Bool) (x : α) (n fuel : Nat) (a : List α)
    (h0 : a[0]? = some x) (hmin : ∀ y ∈ a, gt x y = false) :
    (bubbleLoop gt n fuel a)[0]? = some x := by
  have pass : ∀ b : List α, b[0]? = some x → (∀ y ∈ b, gt x y = false) →
      (bubblePass gt n b).1[0]? = some x ∧ ∀ y ∈ (bubblePass gt n b).1, gt x y = false := by
    intro b hb0 hbmin
    unfold bubblePass
    refine forLoop_induction
      (fun _ s => s.1[0]? = some x ∧ ∀ y ∈ s.1, gt x y = false) (n - 1) _ (b, true)
      ⟨hb0, hbmin⟩ ?_
    intro k s _ hs
    exact bubbleStep_head gt x s k hs.1 hs.2
  induction fuel generalizing a with
  | zero => exact h0
  | succ m ih =>
    simp only [bubbleLoop]
    split
    · exact (pass a h0 hmin).1
    · exact ih _ (pass a h0 hmin).1 (pass a h0 hmin).2

/-- The last candidate of the pool wins every tie: when no candidate has a fitness below that
of the candidate in the last slot, `pickHighest` copies that candidate into `parents[0]`.
Under the `+` strategy with `mu = 1` the last slot holds the old parent. -/
theorem pickHighest_keeps_last (params : parameters) (parents pool : List chromosome)
    (dest last : chromosome) (hn : 2 ≤ pool.length) (hmu1 : 1 ≤ params.mu)
    (hmu : params.mu ≤ pool.length) (hpl : params.mu ≤ parents.length)
    (hd : parents[0]? = some dest) (hl : pool[pool.length - 1]? = some last)
    (hmin : ∀ c ∈ pool, CFloat.gt last.fitness c.fitness = false) :
    (pickHighest params parents pool pool.length).1[0]? =
      some (copyChromosome params dest last) := by
  have hslen : (sortChromosomeArray pool pool.length).length = pool.length :=
    (sortChromosomeArray_spec pool).1.length_eq
  obtain ⟨_, q2, _⟩ := pickHighest_parents params parents pool pool.length hpl (by omega)
  obtain ⟨p, c, e1, e2, e3⟩ := q2 0 (by omega)
  obtain ⟨j, src, _, hj0, e4, e5⟩ := swapEnds_getElem pool hn 0 (by omega)
  rw [hj0 rfl, hl] at e4
  have hsrc : src = last := (Option.some.inj e4).symm
  subst hsrc
  have hhead : (sortChromosomeArray pool pool.length)[0]? = some src := by
    unfold sortChromosomeArray
    refine bubbleLoop_head _ src _ _ _ e5 ?_
    intro y hy
    exact hmin y ((swapEnds_perm pool pool.length).mem_iff.mp hy)
  rw [hhead] at e2
  rw [hd] at e1
  rw [e3, ← Option.some.inj e1, ← Option.some.inj e2]

/-- C23. Evaluation of one generation of `evolvePopulation` at a tie: with the `+` strategy,
`mu = 1`, `lambda = 1`, the parent with connection genes `[0, 1]` and the child with
connection genes `[1, 1]`, both of fitness `2`, the candidate pool is filled as
`[child, parent]`, the swap of `sortChromosomeArray` moves the parent to the first slot, the
sort leaves it there, and the chromosome selected as the new parent has the connection genes
`[0, 1]` of the old parent, not those of the child. -/
theorem tie_keeps_old_parent :
    examplePlusParams.evolutionaryStrategy = '+' ∧ examplePlusParams.mu = 1 ∧
    examplePlusParams.lambda = 1 ∧
    ∃ st0 st1,
      evolveInit exampleFitness examplePlusParams exampleTiePopulation exampleData
        exampleRand = Except.ok st0 ∧
      selectionStep exampleFitness exampleData st0 = Except.ok st1 ∧
      st0.pop.parents.map (fun c => c.fitness) = [CFloat.ofNat 2] ∧
      st0.pop.parents.map (fun c => c.nodes.map (fun n => n.inputs)) = [[[0, 1]]] ∧
      st1.pop.children.map (fun c => c.fitness) = [CFloat.ofNat 2] ∧
      st1.pop.children.map (fun c => c.nodes.map (fun n => n.inputs)) = [[[1, 1]]] ∧
      (fillCandidates st1.params { st0.pop with children := st1.pop.children }
        (numCandidates st1.params) st0.candidateChromos).map
          (fun c => c.nodes.map (fun n => n.inputs)) = [[[1, 1]], [[0, 1]]] ∧
      st1.candidateChromos.map (fun c => c.nodes.map (fun n => n.inputs)) =
        [[[0, 1]], [[1, 1]]] ∧
      st1.candidateChromos.map (fun c => c.fitness) = [CFloat.ofNat 2, CFloat.ofNat 2] ∧
      st1.pop.parents.map (fun c => c.fitness) = [CFloat.ofNat 2] ∧
      st1.pop.parents.map (fun c => c.nodes.map (fun n => n.inputs)) = [[[0, 1]]] :=
  ⟨rfl, rfl, rfl, _, _, rfl, rfl, by decide, by decide, by decide, by decide, by decide,
    by decide, by decide, by decide, by decide⟩

/-! ## Termination and bounds of the decoding (lines 1150-1204, 1606-1626) -/

theorem forLoopO_eq {σ : Type} (P : Nat → σ → Prop) (n : Nat) (bodyO : σ → Nat → Option σ)
    (body : σ → Nat → σ) (init : σ) (h0 : P 0 init)
    (hstep : ∀ k s, k < n → P k s → bodyO s k = some (body s k) ∧ P (k + 1) (body s k)) :
    forLoopO n bodyO init = some (forLoop n body init) ∧ P n (forLoop n body init) := by
  induction n with
  | zero => exact ⟨rfl, h0⟩
  | succ m ih =>
    obtain ⟨h1, h2⟩ := ih (fun k s hk hP => hstep k s (Nat.lt_succ_of_lt hk) hP)
    obtain ⟨h3, h4⟩ := hstep m _ (Nat.lt_succ_self m) h2
    simp only [forLoopO, forLoop, h1]
    exact ⟨h3, h4⟩

theorem recursivelySetActiveNodesChecked_eq (numInputs arity : Nat) (conn : List (List Nat))
    (hlen : ∀ l ∈ conn, l.length = arity)
    (hrange : ∀ l ∈ conn, ∀ g ∈ l, g < numInputs + conn.length) :
    ∀ (depth : Nat) (c : chromosome) (v : Nat), c.numInputs = numInputs → c.arity = arity →
      c.nodes.map (fun n => n.inputs) = conn → MarkInv c → v < numInputs + conn.length →
      conn.length - c.numActiveNodes ≤ depth →
      recursivelySetActiveNodesChecked depth c v =
        some (recursivelySetActiveNodes (depth + 1) c v) := by
  intro depth
  induction depth with
  | zero =>
    intro c v hI ha hconn hinv hv hf
    have hnl : c.nodes.length = conn.length := by rw [← hconn]; simp
    simp only [recursivelySetActiveNodesChecked, recursivelySetActiveNodes, hI, ha]
    split
    · rfl
    · rename_i hge
      have hidx : v - numInputs < c.nodes.length := by omega
      split
      · rename_i hnone
        rw [List.getElem?_eq_getElem hidx] at hnone
        exact absurd hnone (by simp)
      · rename_i n hn
        split
        · rfl
        · rename_i hact
          have hnot : ¬ flagged c (v - numInputs) := by
            rintro ⟨m, hm, hm1⟩
            rw [hn] at hm
            cases hm
            exact hact hm1
          have hroom := hinv.room hidx hnot
          omega
  | succ d ih =>
    intro c v hI ha hconn hinv hv hf
    have hnl : c.nodes.length = conn.length := by rw [← hconn]; simp
    simp only [recursivelySetActiveNodesChecked, recursivelySetActiveNodes, hI, ha]
    split
    · rfl
    · rename_i hge
      have hge : numInputs ≤ v := Nat.le_of_not_lt hge
      have hidx : v - numInputs < c.nodes.length := by omega
      split
      · rename_i hnone
        rw [List.getElem?_eq_getElem hidx] at hnone
        exact absurd hnone (by simp)
      · rename_i n hn
        split
        · rfl
        · rename_i hact
          have hnot : ¬ flagged c (v - numInputs) := by
            rintro ⟨m, hm, hm1⟩
            rw [hn] at hm
            cases hm
            exact hact hm1
          have hroom := hinv.room hidx hnot
          have hk : c.numActiveNodes < c.activeNodes.length := hinv.length ▸ hroom
          have hinv1 := logActive_inv hinv hidx hnot
          have hsame1 := logActive_same c (v - numInputs)
          have hcn : conn[v - numInputs]? = some n.inputs := by
            rw [← hconn, List.getElem?_map, hn]
            rfl
          have hnmem : n.inputs ∈ conn := List.mem_iff_getElem?.mpr ⟨_, hcn⟩
          rw [if_pos hk]
          refine (forLoopO_eq
            (MarkLoop numInputs arity conn (logActive c (v - numInputs)) (v - numInputs)
              n.inputs) arity _ _ _ ?_ ?_).1
          · exact ⟨SameGenes.refl _, hinv1, fun _ h => h, Nat.le_refl _,
              fun k hk => absurd hk (Nat.not_lt_zero k), fun _ h hn => absurd h hn,
              fun _ h hn => absurd h hn⟩
          · intro j s hj hLs
            have hjl : j < n.inputs.length := by rw [hlen _ hnmem]; exact hj
            have hgj : n.inputs[j]? = some (n.inputs.getD j 0) := by
              simp [List.getD_eq_getElem?_getD, List.getElem?_eq_getElem hjl]
            have hg : n.inputs.getD j 0 ∈ n.inputs := by
              simp [List.getD_eq_getElem?_getD, List.getElem?_eq_getElem hjl]
            have hsd := hsame1.trans hLs.same
            have hcount : c.numActiveNodes + 1 ≤ s.numActiveNodes := hLs.count
            constructor
            · simp only [hgj]
              exact ih s _ (hsd.numInputs.trans hI) (hsd.arity.trans ha)
                (hsd.conn.trans hconn) hLs.inv (hrange _ hnmem _ hg) (by omega)
            · refine hLs.step (recursivelySetActiveNodes_post numInputs arity conn hlen hrange
                (d + 1) s _ (hsd.numInputs.trans hI) (hsd.arity.trans ha)
                (hsd.conn.trans hconn) hLs.inv (hrange _ hnmem _ hg) (by omega)) ?_
              intro hge2
              exact ⟨n.inputs, hcn, j, hj, by omega⟩

theorem resetChromosome_spec (chromo : chromosome) (hA : Allocated chromo) :
    SameGenes chromo (resetChromosome chromo) ∧ MarkInv (resetChromosome chromo) ∧
    ∀ i, ¬ flagged (resetChromosome chromo) i := by
  have hAn := hA.1
  have hAa := hA.2.2.2.1
  have hs0 : SameGenes chromo (resetChromosome chromo) :=
    ⟨rfl, rfl, rfl, rfl, rfl, rfl, rfl, resetActive_map _ _ _ (fun _ => rfl), rfl⟩
  have hnone : ∀ i, ¬ flagged (resetChromosome chromo) i := by
    rintro i ⟨n, hn, hact⟩
    simp only [resetChromosome, resetActive_getElem?] at hn
    split at hn
    · cases hni : chromo.nodes[i]? with
      | none => simp [hni] at hn
      | some m =>
        simp only [hni, Option.map_some', Option.some.injEq] at hn
        subst hn
        simp at hact
    · rw [List.getElem?_eq_none (by omega)] at hn
      cases hn
  refine ⟨hs0, ⟨by simp [activeList, resetChromosome], ?_, Nat.zero_le _, ?_⟩, hnone⟩
  · intro i
    simp only [activeList, resetChromosome, List.take_zero, List.not_mem_nil, false_iff]
    exact hnone i
  · rw [hs0.length, hs0.activeLength, hAa, hAn]

theorem markOutputsChecked_eq (chromo c0 : chromosome) (hA : Allocated chromo)
    (hR : GenesInRange chromo) (hs : SameGenes chromo c0) (hinv : MarkInv c0) :
    markOutputsChecked c0 = some (markOutputs c0) := by
  obtain ⟨hAn, hAl, hAo, hAa, _⟩ := hA
  have hlen : ∀ l ∈ chromo.nodes.map (fun n => n.inputs), l.length = chromo.arity := by
    intro l hl
    obtain ⟨n, hn, rfl⟩ := List.mem_map.mp hl
    exact (hAl n hn).1
  have hconnlen : (chromo.nodes.map (fun n => n.inputs)).length = chromo.numNodes := by
    simp [hAn]
  have hrange : ∀ l ∈ chromo.nodes.map (fun n => n.inputs), ∀ g ∈ l,
      g < chromo.numInputs + (chromo.nodes.map (fun n => n.inputs)).length := by
    intro l hl g hg
    obtain ⟨n, hn, rfl⟩ := List.mem_map.mp hl
    rw [hconnlen]
    exact hR.1 n hn g hg
  unfold markOutputsChecked markOutputs
  refine (forLoopO_eq (fun _ d => SameGenes chromo d ∧ MarkInv d) _ _ _ _ ⟨hs, hinv⟩ ?_).1
  rintro k d hk ⟨h1, h2⟩
  rw [hs.numOutputs] at hk
  have hko : k < chromo.outputNodes.length := by omega
  have hgk : d.outputNodes[k]? = some (d.outputNodes.getD k 0) := by
    rw [h1.outputNodes]
    simp [List.getD_eq_getElem?_getD, List.getElem?_eq_getElem hko]
  have hmem : chromo.outputNodes.getD k 0 ∈ chromo.outputNodes := by
    simp [List.getD_eq_getElem?_getD, List.getElem?_eq_getElem hko]
  simp only [hgk]
  split
  · exact ⟨rfl, h1, h2⟩
  · simp only [h1.outputNodes, h1.numNodes]
    have hv : chromo.outputNodes.getD k 0 <
        chromo.numInputs + (chromo.nodes.map (fun n => n.inputs)).length := by
      rw [hconnlen]
      exact hR.2 _ hmem
    constructor
    · exact recursivelySetActiveNodesChecked_eq chromo.numInputs chromo.arity _ hlen hrange
        chromo.numNodes d _ h1.numInputs h1.arity h1.conn h2 hv (by rw [hconnlen]; omega)
    · have hP := recursivelySetActiveNodes_post chromo.numInputs chromo.arity _ hlen hrange
        (chromo.numNodes + 1) d _ h1.numInputs h1.arity h1.conn h2 hv
        (by rw [hconnlen]; omega)
      exact ⟨h1.trans hP.same, hP.inv⟩

theorem resetActiveChecked_eq (nodes : List node) (k : Nat) (hk : k ≤ nodes.length) :
    resetActiveChecked k nodes = some (resetActive k nodes) := by
  unfold resetActiveChecked resetActive
  refine (forLoopO_eq (fun _ ns => ns.length = nodes.length) k _ _ nodes rfl ?_).1
  intro i ns hi hns
  have hil : i < ns.length := by omega
  refine ⟨?_, (modifyNode_length ns i _).trans hns⟩
  unfold modifyNode
  rw [List.getElem?_eq_getElem hil]

theorem bubblePassChecked_eq {α : Type} (gt : α → α → Bool)
    (hasym : ∀ x y, gt x y = true → gt y x = false) (n : Nat) (a : List α)
    (hn : n ≤ a.length) : bubblePassChecked gt n a = some (bubblePass gt n a) := by
  unfold bubblePassChecked bubblePass
  refine (forLoopO_eq (fun _ (s : List α × Bool) => s.1.length = a.length) (n - 1) _ _
    (a, true) rfl ?_).1
  rintro i ⟨l, f⟩ hi hl
  simp only at hl
  have h0 : i < l.length := by omega
  have h1 : i + 1 < l.length := by omega
  refine ⟨?_, (bubbleStep_spec gt hasym n i (by omega) l f).1.trans hl⟩
  unfold bubbleStepChecked bubbleStep
  simp only [List.getElem?_eq_getElem h0, List.getElem?_eq_getElem h1]

theorem bubbleLoopChecked_eq {α : Type} (gt : α → α → Bool)
    (hasym : ∀ x y, gt x y = true → gt y x = false) (n : Nat) :
    ∀ (fuel : Nat) (a : List α), n ≤ a.length → inversions gt (a.take n) < fuel →
      bubbleLoopChecked gt n fuel a = some (bubbleLoop gt n fuel a) := by
  intro fuel
  induction fuel with
  | zero =>
    intro a _ h
    omega
  | succ fuel ih =>
    intro a hn h
    obtain ⟨h1, _, _, _, h5⟩ := bubblePass_spec gt hasym n a
    simp only [bubbleLoopChecked, bubbleLoop, bubblePassChecked_eq gt hasym n a hn]
    split
    · rfl
    · rename_i hf
      have hf : (bubblePass gt n a).2 = false := by simpa using hf
      exact ih _ (by omega) (by have := h5 hf; omega)

theorem bubbleSortIntChecked_eq (a : List Nat) (n : Nat) (hn : n ≤ a.length) :
    bubbleSortIntChecked a n = some (bubbleSortInt a n) :=
  bubbleLoopChecked_eq (fun a b : Nat => decide (a > b))
    (by intro x y h; simp at h ⊢; omega) n (sortFuel n) a hn (sortFuel_enough _ n a)

/-- C25. Decoding ends and stays inside its arrays, also on a cyclic graph: for every
allocated chromosome whose connection and output genes are smaller than
`numInputs + numNodes`, `setActiveNodes` run with every array access checked, with the calls of
`recursivelySetActiveNodes` nested at most `numNodes` calls below the call made by
`setActiveNodes`, and with at most `sortFuel` passes of the bubble sort, fails nowhere and
returns the result of `setActiveNodes`; the nodes are logged without repetition, and
`numActiveNodes` ends at most `numNodes`, the length of `activeNodes`. -/
theorem decoding_terminates_in_bounds (chromo : chromosome) (hA : Allocated chromo)
    (hR : GenesInRange chromo) :
    setActiveNodesChecked chromo = some (setActiveNodes chromo) ∧
    (markingLog chromo).Nodup ∧
    (markingLog chromo).length = (setActiveNodes chromo).numActiveNodes ∧
    (setActiveNodes chromo).numActiveNodes ≤ chromo.numNodes ∧
    (setActiveNodes chromo).activeNodes.length = chromo.numNodes := by
  obtain ⟨hs0, hinv0, hnone⟩ := resetChromosome_spec chromo hA
  obtain ⟨h1, h2, _⟩ := markOutputs_spec chromo _ hA hR hs0 hinv0 hnone
  have hmark := markOutputsChecked_eq chromo _ hA hR hs0 hinv0
  have hreset := resetActiveChecked_eq chromo.nodes chromo.numNodes (Nat.le_of_eq hA.1.symm)
  have hsort := bubbleSortIntChecked_eq (markOutputs (resetChromosome chromo)).activeNodes
    (markOutputs (resetChromosome chromo)).numActiveNodes h2.le
  have hlenA : (markOutputs (resetChromosome chromo)).activeNodes.length = chromo.numNodes :=
    h1.activeLength.trans hA.2.2.2.1
  refine ⟨?_, h2.nodup, activeList_length h2, ?_, ?_⟩
  · unfold setActiveNodesChecked
    rw [hreset]
    simp only
    have hm2 : markOutputsChecked
        { chromo with numActiveNodes := 0, nodes := resetActive chromo.numNodes chromo.nodes } =
        some (markOutputs (resetChromosome chromo)) := hmark
    rw [hm2]
    simp only
    rw [hsort]
    rfl
  · show (markOutputs (resetChromosome chromo)).numActiveNodes ≤ chromo.numNodes
    rw [← hlenA]
    exact h2.le
  · show (bubbleSortInt _ _).length = chromo.numNodes
    rw [(bubbleSortInt_spec _ _).1]
    exact hlenA

theorem decoding_terminates_in_bounds_witness :
    setActiveNodesChecked exampleCycle = some (setActiveNodes exampleCycle) ∧
    (markingLog exampleCycle).Nodup ∧
    (markingLog exampleCycle).length = (setActiveNodes exampleCycle).numActiveNodes ∧
    (setActiveNodes exampleCycle).numActiveNodes ≤ exampleCycle.numNodes ∧
    (setActiveNodes exampleCycle).activeNodes.length = exampleCycle.numNodes :=
  decoding_terminates_in_bounds exampleCycle (by decide) (by decide)

/-- The bound on the nesting is reached: on `exampleCycle`, of two nodes, the marking from the
output gene succeeds with calls nested two deep and fails when only one nested call is
allowed. -/
theorem nesting_bound_reached :
    exampleCycle.numNodes = 2 ∧
    (recursivelySetActiveNodesChecked 2 (resetChromosome exampleCycle) 2).isSome = true ∧
    recursivelySetActiveNodesChecked 1 (resetChromosome exampleCycle) 2 = none := by
  decide

/-! ## Mutation at the rate zero (lines 1279-1314, 1599-1601) -/

theorem roundNearestEven_le (N D : Nat) : roundNearestEven N D ≤ N / D + 1 := by
  unfold roundNearestEven
  simp only
  split
  · exact Nat.le_succ _
  · split
    · exact Nat.le_refl _
    · split
      · exact Nat.le_succ _
      · exact Nat.le_refl _

theorem roundMag_ratio_pos (N D : Nat) (hD : 1 ≤ D) (h : D ≤ N) : 1 ≤ roundMag N D := by
  unfold roundMag
  simp only
  have hq : 1 ≤ N / D := Nat.div_pos h hD
  have h1 := excessBits_le (N / D) hq
  have h2 := roundNearestEven_ge N (D * 2 ^ excessBits (N / D))
  have h3 : D * 2 ^ excessBits (N / D) ≤ N :=
    Nat.le_trans (Nat.mul_le_mul_left D h1) (Nat.mul_div_le N D)
  have h4 : 1 ≤ N / (D * 2 ^ excessBits (N / D)) := Nat.div_pos h3 (by positivity)
  have h5 : 1 ≤ 2 ^ excessBits (N / D) := Nat.one_le_two_pow
  exact Nat.mul_le_mul (Nat.le_trans h4 h2) h5

theorem ofSignMag_ratio_pos (N D : Nat) (hD : 1 ≤ D) (h : D ≤ N) :
    CFloat.le (ofSignMag false N D) CFloat.zero = false := by
  have hpos := roundMag_ratio_pos N D hD h
  unfold ofSignMag
  simp only [Bool.false_eq_true, if_false]
  split
  · rfl
  · split
    · rfl
    · simp only [CFloat.le, CFloat.lt, CFloat.zero]
      simp
      omega

theorem roundMag_bounds (N : Nat) (hN : 1 ≤ N) :
    N ≤ 2 * roundMag N 1 ∧ roundMag N 1 ≤ 2 * N := by
  unfold roundMag
  simp only [Nat.div_one, Nat.one_mul]
  have h1 := excessBits_le N hN
  have h2 := roundNearestEven_ge N (2 ^ excessBits N)
  have h3 := roundNearestEven_le N (2 ^ excessBits N)
  have hx : 1 ≤ N / 2 ^ excessBits N := Nat.div_pos h1 (by positivity)
  have hdm := Nat.div_add_mod N (2 ^ excessBits N)
  have hr := Nat.mod_lt N (show 0 < 2 ^ excessBits N by positivity)
  generalize 2 ^ excessBits N = P at *
  generalize roundNearestEven N P = R at *
  have hy : P ≤ P * (N / P) := Nat.le_mul_of_pos_right P hx
  have hlow : P * (N / P) ≤ R * P := by
    rw [Nat.mul_comm]
    exact Nat.mul_le_mul_right P h2
  have hup : R * P ≤ P * (N / P) + P := by
    calc R * P ≤ (N / P + 1) * P := Nat.mul_le_mul_right P h3
      _ = P * (N / P) + P := by ring
  generalize P * (N / P) = y at *
  generalize R * P = a at *
  omega

theorem ofNat_bounds (n : Nat) (h1 : 1 ≤ n) (h2 : n < 2 ^ 31) :
    ∃ a : Nat, ofNat n = CFloat.fin (a : Int) ∧ 2 ^ 148 ≤ a ∧ a ≤ 2 ^ 181 := by
  have hN1 : 2 ^ 149 ≤ n * 2 ^ 149 := Nat.le_mul_of_pos_left _ h1
  have hN2 : n * 2 ^ 149 < 2 ^ 31 * 2 ^ 149 := Nat.mul_lt_mul_of_pos_right h2 (by positivity)
  obtain ⟨b1, b2⟩ := roundMag_bounds (n * 2 ^ 149) (by omega)
  have e1 : (2 : Nat) ^ 31 * 2 ^ 149 = 2 ^ 180 := by rw [← Nat.pow_add]
  have e2 : (2 : Nat) ^ 149 = 2 * 2 ^ 148 := by rw [← Nat.pow_succ']
  have e3 : (2 : Nat) ^ 181 = 2 * 2 ^ 180 := by rw [← Nat.pow_succ']
  have e4 : (2 : Nat) ^ 31 * 2 ^ 149 ≤ 2 ^ 24 * 2 ^ 253 := by decide
  have e5 : (2 : Nat) ^ 181 < maxUnits := by decide
  refine ⟨roundMag (n * 2 ^ 149) 1, ?_, by omega, by omega⟩
  unfold ofNat ofSignMag
  simp only [Nat.div_one, Bool.false_eq_true, if_false]
  rw [if_neg (by omega), if_neg (by omega)]

theorem randFloat_pos (s : RandState) (hs : s.Positive) :
    CFloat.le (randFloat s).1 CFloat.zero = false := by
  obtain ⟨hM, hd⟩ := hs
  obtain ⟨a, ha, a1, a2⟩ := ofNat_bounds (s.draws 0) (hd 0).1 (by have := (hd 0).2; omega)
  obtain ⟨b, hb, b1, b2⟩ := ofNat_bounds s.RAND_MAX (by have := hd 0; omega) hM
  show CFloat.le (CFloat.div (ofNat (s.draws 0)) (ofNat s.RAND_MAX)) CFloat.zero = false
  rw [ha, hb]
  have hb0 : ¬ ((b : Int) = 0) := by
    have : 0 < 2 ^ 148 := by positivity
    omega
  have ha0 : ¬ ((a : Int) < 0) := by omega
  have hb1 : ¬ ((b : Int) < 0) := by omega
  have hsign : (decide ((a : Int) < 0) != decide ((b : Int) < 0)) = false := by
    simp [ha0, hb1]
  simp only [CFloat.div, hb0, if_false, hsign, Int.natAbs_ofNat]
  refine ofSignMag_ratio_pos _ _ (by have : 0 < 2 ^ 148 := by positivity
                                     omega) ?_
  have e : (2 : Nat) ^ 181 ≤ 2 ^ 148 * 2 ^ 149 := by decide
  calc b ≤ 2 ^ 181 := b2
    _ ≤ 2 ^ 148 * 2 ^ 149 := e
    _ ≤ a * 2 ^ 149 := Nat.mul_le_mul_right _ a1

theorem RandState.Positive.afterDraw {s : RandState} (hs : s.Positive) : (rand s).2.Positive :=
  ⟨hs.1, fun n => hs.2 (n + 1)⟩

theorem mutateFunctionGene_zero (params : parameters) (i : Nat) (st : chromosome × RandState)
    (hrate : params.mutationRate = CFloat.zero) (hs : st.2.Positive) :
    ∃ t, mutateFunctionGene params i st = Except.ok t ∧ t.1 = st.1 ∧ t.2.Positive := by
  unfold mutateFunctionGene
  rw [hrate, randFloat_pos st.2 hs]
  exact ⟨_, rfl, rfl, hs.afterDraw⟩

theorem mutateInputGene_zero (params : parameters) (i j : Nat) (st : chromosome × RandState)
    (hrate : params.mutationRate = CFloat.zero) (hs : st.2.Positive) :
    ∃ t, mutateInputGene params i j st = Except.ok t ∧ t.1 = st.1 ∧ t.2.Positive := by
  unfold mutateInputGene
  rw [hrate, randFloat_pos st.2 hs]
  exact ⟨_, rfl, rfl, hs.afterDraw⟩

theorem mutateWeightGene_zero (params : parameters) (i j : Nat) (st : chromosome × RandState)
    (hrate : params.mutationRate = CFloat.zero) (hs : st.2.Positive) :
    (mutateWeightGene params i j st).1 = st.1 ∧ (mutateWeightGene params i j st).2.Positive := by
  unfold mutateWeightGene
  rw [hrate, randFloat_pos st.2 hs]
  exact ⟨rfl, hs.afterDraw⟩

theorem mutateOutput_zero (params : parameters) (i : Nat) (st : chromosome × RandState)
    (hrate : params.mutationRate = CFloat.zero) (hs : st.2.Positive) :
    ∃ t, mutateOutput params st i = Except.ok t ∧ t.1 = st.1 ∧ t.2.Positive := by
  unfold mutateOutput
  rw [hrate, randFloat_pos st.2 hs]
  exact ⟨_, rfl, rfl, hs.afterDraw⟩

theorem probabilisticMutation_zero (params : parameters) (chromo : chromosome) (s : RandState)
    (hrate : params.mutationRate = CFloat.zero) (hs : s.Positive) :
    ∃ s1, probabilisticMutation params chromo s = Except.ok (chromo, s1) ∧ s1.Positive := by
  obtain ⟨st, hst, hc, hp⟩ := forLoopE_ok
    (fun _ (st : chromosome × RandState) => st.1 = chromo ∧ st.2.Positive)
    params.numNodes (mutateNode params) (chromo, s) ⟨rfl, hs⟩
    (by
      intro i st _ hP
      obtain ⟨t, ht, htc, htp⟩ := mutateFunctionGene_zero params i st hrate hP.2
      obtain ⟨u, hu, hPu⟩ := forLoopE_ok
        (fun _ (st : chromosome × RandState) => st.1 = chromo ∧ st.2.Positive)
        params.arity (mutateConnection params i) t ⟨htc.trans hP.1, htp⟩
        (by
          intro j st _ hP
          obtain ⟨v, hv, hvc, hvp⟩ := mutateInputGene_zero params i j st hrate hP.2
          obtain ⟨w1, w2⟩ := mutateWeightGene_zero params i j v hrate hvp
          refine ⟨mutateWeightGene params i j v, ?_, w1.trans (hvc.trans hP.1), w2⟩
          simp only [mutateConnection, hv])
      exact ⟨u, by simp only [mutateNode, ht, hu], hPu⟩)
  obtain ⟨r, hr, hrc, hrp⟩ := forLoopE_ok
    (fun _ (st : chromosome × RandState) => st.1 = chromo ∧ st.2.Positive)
    params.numOutputs (mutateOutput params) st ⟨hc, hp⟩
    (by
      intro i st _ hP
      obtain ⟨t, ht, htc, htp⟩ := mutateOutput_zero params i st hrate hP.2
      exact ⟨t, ht, htc.trans hP.1, htp⟩)
  refine ⟨r.2, ?_, hrp⟩
  simp only [probabilisticMutation, hst, hr]
  rw [← hrc]

theorem mutateRandomParent_zero (params : parameters) (pop : population) (s : RandState)
    (hrate : params.mutationRate = CFloat.zero) (hs : s.Positive) (hmu : 1 ≤ params.mu)
    (hp : pop.parents.length = params.mu) (hc : pop.children.length = params.lambda) :
    ∃ r, mutateRandomParent params pop s = Except.ok r ∧ r.2.Positive ∧
      r.1.parents = pop.parents ∧ r.1.children.length = pop.children.length ∧
      ∀ i, i < params.lambda → ∃ (k : Nat) (dest parent : chromosome),
        k < params.mu ∧ pop.parents[k]? = some parent ∧ pop.children[i]? = some dest ∧
        r.1.children[i]? = some (copyChromosome params dest parent) := by
  obtain ⟨r, hr, h1, h2, h3, _, h5⟩ := forLoopE_ok
    (fun j (st : population × RandState) =>
      st.2.Positive ∧ st.1.parents = pop.parents ∧
      st.1.children.length = pop.children.length ∧
      (∀ i, j ≤ i → st.1.children[i]? = pop.children[i]?) ∧
      ∀ i, i < j → ∃ (k : Nat) (dest parent : chromosome),
        k < params.mu ∧ pop.parents[k]? = some parent ∧ pop.children[i]? = some dest ∧
        st.1.children[i]? = some (copyChromosome params dest parent))
    params.lambda (reproduceChild params) (pop, s)
    ⟨hs, rfl, rfl, fun _ _ => rfl, fun i hi => absurd hi (Nat.not_lt_zero i)⟩
    (by
      rintro j st hj ⟨q1, q2, q3, q4, q5⟩
      have hmod : randMod params.mu st.2 =
          Except.ok ((rand st.2).1 % params.mu, (rand st.2).2) := by
        unfold randMod
        rw [if_neg (by omega)]
      have hk : (rand st.2).1 % params.mu < params.mu := Nat.mod_lt _ (by omega)
      have hjc : j < pop.children.length := by omega
      have hchild : st.1.children[j]? = some (pop.children[j]) := by
        rw [q4 j (Nat.le_refl j), List.getElem?_eq_getElem hjc]
      have hkp : (rand st.2).1 % params.mu < pop.parents.length := by omega
      have hparent : st.1.parents[(rand st.2).1 % params.mu]? =
          some (pop.parents[(rand st.2).1 % params.mu]) := by
        rw [q2, List.getElem?_eq_getElem hkp]
      obtain ⟨s1, hm, hs1⟩ := probabilisticMutation_zero params
        (copyChromosome params pop.children[j] pop.parents[(rand st.2).1 % params.mu])
        (rand st.2).2 hrate q1.afterDraw
      refine ⟨(setChild st.1 j (copyChromosome params pop.children[j]
          pop.parents[(rand st.2).1 % params.mu]), s1),
        by simp only [reproduceChild, hmod, hchild, hparent, hm], hs1, q2, ?_, ?_, ?_⟩
      · simp only [setChild, List.length_set]
        exact q3
      · intro i hi
        simp only [setChild]
        rw [List.getElem?_set_ne (by omega)]
        exact q4 i (by omega)
      · intro i hi
        simp only [setChild]
        rcases Nat.lt_succ_iff_lt_or_eq.mp hi with hi | hi
        · rw [List.getElem?_set_ne (by omega)]
          exact q5 i hi
        · subst hi
          refine ⟨_, pop.children[i], pop.parents[(rand st.2).1 % params.mu], hk,
            List.getElem?_eq_getElem hkp, List.getElem?_eq_getElem hjc, ?_⟩
          rw [List.getElem?_set_self (by omega)])
  exact ⟨r, hr, h1, h2, h3, h5⟩

theorem Fits.transfer {p q : parameters} {c : chromosome} (h : SameButHold p q)
    (hh : q.nodeInputsHold.length = p.nodeInputsHold.length) (hF : Fits p c) : Fits q c := by
  unfold SameButHold at h
  obtain ⟨f1, f2, f3, f4, f5⟩ := hF
  rw [h]
  exact ⟨f1, f2, f3, f4, hh.trans f5⟩

theorem absoluteError_congr (p q : parameters) (c d : chromosome) (dat : data)
    (h : SameButHold p q) (hh : q.nodeInputsHold.length = p.nodeInputsHold.length)
    (hFc : Fits p c) (hAc : Allocated c) (hYc : Acyclic p.numInputs c)
    (hOc : OutputsInRange c) (hDc : Decoded c)
    (hFd : Fits p d) (hAd : Allocated d) (hYd : Acyclic p.numInputs d)
    (hOd : OutputsInRange d) (hDd : Decoded d)
    (hg : genes d = genes c) (ho : d.outputNodes = c.outputNodes)
    (hout : c.numOutputs = dat.numOutputs) :
    absoluteError q d dat = absoluteError p c dat := by
  have hFq : Fits q d := Fits.transfer h hh hFd
  have hq : q.funcSet = p.funcSet ∧ q.numInputs = p.numInputs ∧ q.arity = p.arity ∧
      q.numOutputs = p.numOutputs := by
    unfold SameButHold at h
    rw [h]
    exact ⟨rfl, rfl, rfl, rfl⟩
  have hterm : ∀ (inputs : List CFloat) (j : Nat), j < dat.numOutputs →
      outputOf q d inputs j = outputOf p c inputs j := by
    intro inputs j hj
    have hjp : j < p.numOutputs := by
      rw [← hFc.2.2.1, hout]
      exact hj
    rw [outputOf_eq_value q d inputs hFq hAd (hq.2.1 ▸ hYd) hOd hDd j (hq.2.2.2 ▸ hjp),
      outputOf_eq_value p c inputs hFc hAc hYc hOc hDc j hjp, hq.1, hq.2.1, hq.2.2.1, hg, ho]
  unfold absoluteError errorTerms
  congr 2
  funext i
  apply List.map_congr_left
  intro j hj
  rw [hterm _ j (List.mem_range.mp hj)]

theorem Fits.back {p q : parameters} {c : chromosome} (h : SameButHold p q)
    (hh : q.nodeInputsHold.length = p.nodeInputsHold.length) (hF : Fits q c) : Fits p c := by
  unfold SameButHold at h
  obtain ⟨f1, f2, f3, f4, f5⟩ := hF
  rw [h] at f1 f2 f3 f4 f5
  exact ⟨f1, f2, f3, f4, hh.symm.trans f5⟩

theorem sortChromosomeArray_single (x : chromosome) : sortChromosomeArray [x] 1 = [x] := rfl

theorem singleton_of_getElem? {α : Type} (l : List α) (a : α) (hl : l.length = 1)
    (h : l[0]? = some a) : l = [a] := by
  match l, hl, h with
  | [b], _, h =>
    simp only [List.getElem?_cons_zero, Option.some.injEq] at h
    rw [h]

/-- The facts about a chromosome that carries the genes of an acyclic chromosome `g`: after
`setActiveNodes` it is ready for an evaluation. -/
theorem decoded_of_genes (params : parameters) (g c : chromosome) (hFg : Fits params g)
    (hYg : Acyclic params.numInputs g) (hOg : OutputsInRange g)
    (hFc : Fits params c) (hAc : Allocated c) (hgc : genes c = genes g)
    (hoc : c.outputNodes = g.outputNodes) :
    Fits params (setActiveNodes c) ∧ Allocated (setActiveNodes c) ∧
    Acyclic params.numInputs (setActiveNodes c) ∧ OutputsInRange (setActiveNodes c) ∧
    Decoded (setActiveNodes c) ∧ genes (setActiveNodes c) = genes g ∧
    (setActiveNodes c).outputNodes = g.outputNodes := by
  have hs := setActiveNodes_same c
  have hYc : Acyclic params.numInputs c := Acyclic.of_conn (genes_inputs hgc) hYg
  have hOc : ∀ o ∈ c.outputNodes, o < c.numInputs + c.numNodes := by
    intro o ho
    rw [hoc] at ho
    have := hOg o ho
    rw [hFc.1, hFc.2.1, ← hFg.1, ← hFg.2.1]
    exact this
  have hRc : GenesInRange c := Acyclic.genesInRange (hFc.1 ▸ hYc) hAc.1 hOc
  refine ⟨⟨hs.numInputs.trans hFc.1, hs.numNodes.trans hFc.2.1, hs.numOutputs.trans hFc.2.2.1,
    hs.arity.trans hFc.2.2.2.1, hFc.2.2.2.2⟩, hs.allocated hAc, Acyclic.of_conn hs.conn hYc,
    (hs.keepsRange hRc).2, setActiveNodes_decoded c hAc hRc, hs.genes.trans hgc,
    hs.outputNodes.trans hoc⟩

theorem supervisedLearning_ok (params : parameters) (chromo : chromosome) (dat : data)
    (hin : chromo.numInputs = dat.numInputs) (hout : chromo.numOutputs = dat.numOutputs) :
    supervisedLearning params chromo dat =
      Except.ok
        ((forLoop dat.numSamples (supervisedSample dat)
            (params, chromo, CFloat.zero)).1.nodeInputsHold,
          (forLoop dat.numSamples (supervisedSample dat) (params, chromo, CFloat.zero)).2.1,
          (forLoop dat.numSamples (supervisedSample dat) (params, chromo, CFloat.zero)).2.2) := by
  unfold supervisedLearning
  simp [hin, hout]

theorem selectionStep_single (F : FitnessFunction) (dat : data) (st : EvoState)
    (P1 : parameters) (c2 p k : chromosome) (hP1l : P1.lambda = 1) (hP1m : P1.mu = 1)
    (hP1s : P1.evolutionaryStrategy ≠ '+') (hp : st.pop.parents = [p])
    (hk : st.candidateChromos = [k])
    (hev : evaluateChromosomes F dat st.params.lambda st.params st.pop.children =
      Except.ok (P1, [c2])) :
    selectionStep F dat st =
      Except.ok
        { st with
          params := P1
          pop := { st.pop with
            children := [c2]
            parents := [copyChromosome P1 p (copyChromosome P1 k c2)] }
          candidateChromos := [copyChromosome P1 k c2] } := by
  have hnum : numCandidates P1 = 1 := by
    unfold numCandidates
    rw [if_neg hP1s]
    exact hP1l
  unfold selectionStep
  rw [hev]
  simp only [hnum, hp, hk, pickHighest, fillCandidates, forLoop, hP1l, hP1m,
    List.getElem?_cons_zero, List.set_cons_zero, Nat.lt_irrefl, Nat.zero_lt_one, if_true,
    sortChromosomeArray_single]

theorem selectionStep_clone (params : parameters) (g : chromosome) (dat : data)
    (st : EvoState) (hmu : params.mu = 1) (hlambda : params.lambda = 1)
    (hcomma : params.evolutionaryStrategy ≠ '+')
    (hFg : Fits params g) (hAg : Allocated g) (hYg : Acyclic params.numInputs g)
    (hOg : OutputsInRange g) (hin : g.numInputs = dat.numInputs)
    (hout : g.numOutputs = dat.numOutputs) (hst : CloneState params g st) :
    ∃ st1, selectionStep supervisedLearning dat st = Except.ok st1 ∧
      CloneState params g st1 ∧
      ∃ p, st1.pop.parents = [p] ∧ genes p = genes g ∧ p.outputNodes = g.outputNodes ∧
        p.fitness = absoluteError params (setActiveNodes g) dat := by
  obtain ⟨c, hc, hFc, hAc, hgc, hoc⟩ := hst.child
  obtain ⟨p, hp, hFp, hAp⟩ := hst.parent
  obtain ⟨k, hk, hFk, hAk⟩ := hst.candidate
  obtain ⟨c1F, c1A, c1Y, c1O, c1D, c1g, c1o⟩ :=
    decoded_of_genes params g c hFg hYg hOg hFc hAc hgc hoc
  obtain ⟨g1F, g1A, g1Y, g1O, g1D, g1g, g1o⟩ :=
    decoded_of_genes params g g hFg hYg hOg hFg hAg rfl rfl
  have hqn : st.params.numInputs = params.numInputs := by
    have h := hst.same
    unfold SameButHold at h
    rw [h]
  have hsl := supervisedLearning_ok st.params (setActiveNodes c) dat
    (by rw [c1F.1, ← hFg.1]; exact hin) (by rw [c1F.2.2.1, ← hFg.2.2.1]; exact hout)
  have c1Fq : Fits st.params (setActiveNodes c) := Fits.transfer hst.same hst.hold c1F
  have hfit := supervisedLearning_loop st.params (setActiveNodes c) dat c1Fq c1A
    (hqn ▸ c1Y) c1O c1D (by rw [c1F.2.2.1, ← hFg.2.2.1]; exact hout)
  obtain ⟨hrl, hrs⟩ := supervisedLearning_frame st.params (setActiveNodes c) dat _ hsl
  generalize (forLoop dat.numSamples (supervisedSample dat)
    (st.params, setActiveNodes c, CFloat.zero)) = R at hsl hfit hrl hrs
  simp only at hrl hrs
  have hval : R.2.2 = absoluteError params (setActiveNodes g) dat := by
    rw [hfit]
    exact absoluteError_congr params st.params (setActiveNodes g) (setActiveNodes c) dat
      hst.same hst.hold g1F g1A g1Y g1O g1D c1F c1A c1Y c1O c1D (c1g.trans g1g.symm)
      (c1o.trans g1o.symm) (by rw [g1F.2.2.1, ← hFg.2.2.1]; exact hout)
  obtain ⟨f1, f2, f3, f4, f5, f6, f7, f8⟩ := hrs.fields
  have hsame1 : SameButHold params { st.params with nodeInputsHold := R.1.nodeInputsHold } :=
    hst.same.compose rfl
  have hhold1 : ({ st.params with nodeInputsHold := R.1.nodeInputsHold } :
      parameters).nodeInputsHold.length = params.nodeInputsHold.length := hrl.trans hst.hold
  have c2F : Fits params { R.2.1 with fitness := R.2.2 } :=
    ⟨f1.trans c1F.1, f3.trans c1F.2.1, f2.trans c1F.2.2.1, f5.trans c1F.2.2.2.1, c1F.2.2.2.2⟩
  have c2A : Allocated { R.2.1 with fitness := R.2.2 } := hrs.keepsArrays c1A
  have c2g : genes { R.2.1 with fitness := R.2.2 } = genes g := hrs.genes_eq.trans c1g
  have c2o : ({ R.2.1 with fitness := R.2.2 } : chromosome).outputNodes = g.outputNodes :=
    f6.trans c1o
  obtain ⟨x1, x2, x3, _, _⟩ := copyChromosome_spec
    { st.params with nodeInputsHold := R.1.nodeInputsHold } k { R.2.1 with fitness := R.2.2 }
    (Fits.transfer hsame1 hhold1 hFk) hAk (Fits.transfer hsame1 hhold1 c2F) c2A
  obtain ⟨y1, y2, y3, _, _⟩ := copyChromosome_spec
    { st.params with nodeInputsHold := R.1.nodeInputsHold } p
    (copyChromosome { st.params with nodeInputsHold := R.1.nodeInputsHold } k
      { R.2.1 with fitness := R.2.2 })
    (Fits.transfer hsame1 hhold1 hFp) hAp x3 x2
  have hl1 : st.params.lambda = 1 := hst.same.lambda_eq.trans hlambda
  have hev : evaluateChromosomes supervisedLearning dat st.params.lambda st.params
      st.pop.children =
      Except.ok ({ st.params with nodeInputsHold := R.1.nodeInputsHold },
        [{ R.2.1 with fitness := R.2.2 }]) := by
    rw [hl1, hc]
    simp only [evaluateChromosomes, forLoopE, evaluateChromosome, List.getElem?_cons_zero,
      setChromosomeFitness, hsl, List.set_cons_zero]
  have hsel := selectionStep_single supervisedLearning dat st
    { st.params with nodeInputsHold := R.1.nodeInputsHold } { R.2.1 with fitness := R.2.2 } p k
    (hsame1.lambda_eq.trans hlambda) (hsame1.mu_eq.trans hmu)
    (by rw [hsame1.strategy_eq]; exact hcomma) hp hk hev
  exact ⟨_, hsel, ⟨hsame1, hhold1, ⟨_, rfl, Fits.back hsame1 hhold1 y3, y2⟩,
      ⟨_, rfl, c2F, c2A, c2g, c2o⟩, ⟨_, rfl, Fits.back hsame1 hhold1 x3, x2⟩, hst.rng⟩,
    ⟨_, rfl, y1.1.trans (x1.1.trans c2g), y1.2.2.1.trans (x1.2.2.1.trans c2o),
      y1.2.2.2.2.2.trans (x1.2.2.2.2.2.trans hval)⟩⟩

theorem reproductionStep_clone (params : parameters) (g : chromosome) (st1 : EvoState)
    (hmu : params.mu = 1) (hlambda : params.lambda = 1)
    (hrate : params.mutationRate = CFloat.zero) (hst : CloneState params g st1)
    (hpar : ∃ p, st1.pop.parents = [p] ∧ genes p = genes g ∧ p.outputNodes = g.outputNodes) :
    ∃ st2, reproductionStep st1 = Except.ok st2 ∧ CloneState params g st2 ∧
      st2.pop.parents = st1.pop.parents ∧
      ∃ p c, st1.pop.parents = [p] ∧ st2.pop.children = [c] ∧ CopyOf p c := by
  obtain ⟨c, hc, hFc, hAc, _, _⟩ := hst.child
  obtain ⟨p, hp, hFp, hAp⟩ := hst.parent
  obtain ⟨p2, hp2, hpg, hpo⟩ := hpar
  have hpp : p2 = p := by
    rw [hp] at hp2
    exact (List.cons.inj hp2).1.symm
  rw [hpp] at hpg hpo
  have hq : st1.params.mu = 1 ∧ st1.params.lambda = 1 ∧
      st1.params.mutationRate = CFloat.zero := by
    have h := hst.same
    unfold SameButHold at h
    rw [h]
    exact ⟨hmu, hlambda, hrate⟩
  obtain ⟨r, hr, r1, r2, r3, r4⟩ := mutateRandomParent_zero st1.params st1.pop st1.rng hq.2.2
    hst.rng (by omega) (by rw [hp, hq.1]; rfl) (by rw [hc, hq.2.1]; rfl)
  obtain ⟨k, dest, parent, hk, e1, e2, e3⟩ := r4 0 (by omega)
  have hk0 : k = 0 := by omega
  subst hk0
  rw [hp] at e1
  rw [hc] at e2
  simp only [List.getElem?_cons_zero, Option.some.injEq] at e1 e2
  rw [← e1, ← e2] at e3
  have hchildren : r.1.children = [copyChromosome st1.params c p] :=
    singleton_of_getElem? _ _ (by rw [r3, hc]; rfl) e3
  obtain ⟨x1, x2, x3, _, _⟩ := copyChromosome_spec st1.params c p
    (Fits.transfer hst.same hst.hold hFc) hAc (Fits.transfer hst.same hst.hold hFp) hAp
  refine ⟨{ st1 with pop := r.1, rng := r.2 }, by
    unfold reproductionStep
    rw [hr], ⟨hst.same, hst.hold, ⟨p, r2.trans hp, hFp, hAp⟩,
      ⟨_, hchildren, Fits.back hst.same hst.hold x3, x2, x1.1.trans hpg,
        x1.2.2.1.trans hpo⟩, hst.candidate, r1⟩, r2, p, _, hp, hchildren, x1⟩

theorem evolveTrace_clone (params : parameters) (g : chromosome) (dat : data)
    (hmu : params.mu = 1) (hlambda : params.lambda = 1)
    (hcomma : params.evolutionaryStrategy ≠ '+') (hrate : params.mutationRate = CFloat.zero)
    (huf : params.updateFrequency ≠ 0)
    (hFg : Fits params g) (hAg : Allocated g) (hYg : Acyclic params.numInputs g)
    (hOg : OutputsInRange g) (hin : g.numInputs = dat.numInputs)
    (hout : g.numOutputs = dat.numOutputs) :
    ∀ (n : Nat) (st : EvoState), CloneState params g st →
      ∃ trace, evolveTrace supervisedLearning dat n st = Except.ok trace ∧
        ∀ ps ∈ trace, ∃ p, ps = [p] ∧ genes p = genes g ∧ p.outputNodes = g.outputNodes ∧
          p.fitness = absoluteError params (setActiveNodes g) dat := by
  intro n
  induction n with
  | zero =>
    intro st _
    exact ⟨[], rfl, fun ps hps => absurd hps (List.not_mem_nil ps)⟩
  | succ n ih =>
    intro st hst
    obtain ⟨st1, hsel, hst1, p, hp, hpg, hpo, hpf⟩ :=
      selectionStep_clone params g dat st hmu hlambda hcomma hFg hAg hYg hOg hin hout hst
    by_cases hfound : solutionFound st1 = true
    · refine ⟨[st1.pop.parents], by simp only [evolveTrace, hsel, hfound, if_true], ?_⟩
      intro ps hps
      rw [List.mem_singleton] at hps
      exact ⟨p, hps.trans hp, hpg, hpo, hpf⟩
    · obtain ⟨st2, hrep, hst2, _, _⟩ :=
        reproductionStep_clone params g st1 hmu hlambda hrate hst1 ⟨p, hp, hpg, hpo⟩
      obtain ⟨rest, hrest, hall⟩ := ih st2 hst2
      have hnot : solutionFound st1 = false := by simpa using hfound
      have huf1 : ¬ st1.params.updateFrequency = 0 := by
        have h := hst1.same
        unfold SameButHold at h
        rw [h]
        exact huf
      refine ⟨st1.pop.parents :: rest,
        by simp only [evolveTrace, hsel, hnot, huf1, hrep, hrest, Bool.false_eq_true,
          if_false], ?_⟩
      intro ps hps
      rcases List.mem_cons.mp hps with hps | hps
      · exact ⟨p, hps.trans hp, hpg, hpo, hpf⟩
      · exact hall ps hps

theorem randMod_eq (n : Nat) (s : RandState) (h : 0 < n) :
    randMod n s = Except.ok ((rand s).1 % n, (rand s).2) := by
  unfold randMod
  rw [if_neg (by omega)]

theorem initialiseNode_positive (params : parameters) (nodePosition : Nat) (s : RandState)
    (hI : 1 ≤ params.numInputs) (hF : 1 ≤ params.funcSet.numFunctions) (hs : s.Positive) :
    ∃ r, initialiseNode params nodePosition s = Except.ok r ∧ r.2.Positive := by
  have hf : getRandomFunction params s =
      Except.ok ((rand s).1 % params.funcSet.numFunctions, (rand s).2) := by
    unfold getRandomFunction
    rw [if_neg (by omega), randMod_eq _ s (by omega)]
  obtain ⟨gs, hg, hpos⟩ := forLoopE_ok
    (fun _ (st : List Nat × List CFloat × RandState) => st.2.2.Positive)
    params.arity
    (fun (st : List Nat × List CFloat × RandState) _ => do
      let c ← getRandomNodeInput params nodePosition st.2.2
      let w := getRandomConnectionWeight params c.2
      pure (st.1 ++ [c.1], st.2.1 ++ [w.1], w.2))
    ([], [], (rand s).2) hs.afterDraw
    (by
      intro k st _ hP
      simp only [getRandomNodeInput, randMod_eq _ st.2.2 (show 0 < params.numInputs +
        nodePosition by omega), bind, Except.bind, pure, Except.pure]
      exact ⟨_, rfl, hP.afterDraw.afterDraw⟩)
  simp only [bind, Except.bind, pure, Except.pure] at hg
  simp only [initialiseNode, hf, hg, bind, Except.bind, pure, Except.pure]
  exact ⟨_, rfl, hpos⟩

theorem initialiseChromosome_positive (params : parameters) (s : RandState)
    (hI : 1 ≤ params.numInputs) (hF : 1 ≤ params.funcSet.numFunctions) (hs : s.Positive) :
    ∃ r, initialiseChromosome params s = Except.ok r ∧ r.2.Positive := by
  obtain ⟨ns, hns, hnp⟩ := forLoopE_ok
    (fun _ (st : List node × RandState) => st.2.Positive)
    params.numNodes
    (fun (st : List node × RandState) i => do
      let n ← initialiseNode params i st.2
      pure (st.1 ++ [n.1], n.2))
    ([], s) hs
    (by
      intro k st _ hP
      obtain ⟨n, hn, hnpos⟩ := initialiseNode_positive params k st.2 hI hF hP
      simp only [hn, bind, Except.bind, pure, Except.pure]
      exact ⟨_, rfl, hnpos⟩)
  obtain ⟨os, hos, hop⟩ := forLoopE_ok
    (fun _ (st : List Nat × RandState) => st.2.Positive)
    params.numOutputs
    (fun (st : List Nat × RandState) _ => do
      let o ← getRandomChromosomeOutput params st.2
      pure (st.1 ++ [o.1], o.2))
    ([], ns.2) hnp
    (by
      intro k st _ hP
      simp only [getRandomChromosomeOutput, randMod_eq _ st.2 (show 0 < params.numInputs +
        params.numNodes by omega), bind, Except.bind, pure, Except.pure]
      exact ⟨_, rfl, hP.afterDraw⟩)
  simp only [bind, Except.bind, pure, Except.pure] at hns hos
  simp only [initialiseChromosome, Nat.not_lt.mpr hF, if_false, hns, hos, bind, Except.bind,
    pure, Except.pure]
  exact ⟨_, rfl, hop⟩

theorem evolveInit_clone (params : parameters) (pop : population) (dat : data)
    (s : RandState) (g p : chromosome) (hlambda : params.lambda = 1)
    (hcomma : params.evolutionaryStrategy ≠ '+') (hI : 1 ≤ params.numInputs)
    (hFn : 1 ≤ params.funcSet.numFunctions)
    (hhold : params.nodeInputsHold.length = params.arity) (hs : s.Positive)
    (hp : pop.parents = [p]) (hFp : Fits params p) (hAp : Allocated p)
    (hc : pop.children = [g]) (hFg : Fits params g) (hAg : Allocated g) :
    ∃ st0, evolveInit supervisedLearning params pop dat s = Except.ok st0 ∧
      CloneState params g st0 ∧ st0.params = params ∧ st0.pop = pop := by
  obtain ⟨r, hr, hrp⟩ := initialiseChromosome_positive params s hI hFn hs
  obtain ⟨r2, hr2, _, hrA, _, d1, d2, d3, d4⟩ := initialiseChromosome_ok params s hI hFn
  rw [hr] at hr2
  cases hr2
  have hnum : numCandidates params = 1 := by
    unfold numCandidates
    rw [if_neg hcomma]
    exact hlambda
  have hcs : initialiseCandidates params s = Except.ok ([r.1], r.2) := by
    unfold initialiseCandidates
    rw [hnum]
    simp only [forLoopE, hr, List.nil_append]
  refine ⟨{ params := params, pop := pop, candidateChromos := [r.1], rng := r.2 }, by
    unfold evolveInit
    rw [hcs]
    simp only [if_neg hcomma], ⟨SameButHold.same params, rfl, ⟨p, hp, hFp, hAp⟩,
      ⟨g, hc, hFg, hAg, rfl, rfl⟩, ⟨r.1, rfl, ⟨d1, d2, d3, d4, hhold⟩, hrA⟩, hrp⟩, rfl, rfl⟩

theorem afterSelection_clone (params : parameters) (g : chromosome) (dat : data)
    (hmu : params.mu = 1) (hlambda : params.lambda = 1)
    (hcomma : params.evolutionaryStrategy ≠ '+') (hrate : params.mutationRate = CFloat.zero)
    (hFg : Fits params g) (hAg : Allocated g) (hYg : Acyclic params.numInputs g)
    (hOg : OutputsInRange g) (hin : g.numInputs = dat.numInputs)
    (hout : g.numOutputs = dat.numOutputs) :
    ∀ (i : Nat) (st : EvoState), CloneState params g st →
      ∃ st1 st2 q c, afterSelection supervisedLearning dat i st = Except.ok st1 ∧
        st1.pop.parents = [q] ∧ genes q = genes g ∧ q.outputNodes = g.outputNodes ∧
        q.fitness = absoluteError params (setActiveNodes g) dat ∧
        reproductionStep st1 = Except.ok st2 ∧ st2.pop.parents = [q] ∧
        st2.pop.children = [c] ∧ CopyOf q c := by
  intro i
  induction i with
  | zero =>
    intro st hst
    obtain ⟨st1, hsel, hst1, q, hq, hqg, hqo, hqf⟩ :=
      selectionStep_clone params g dat st hmu hlambda hcomma hFg hAg hYg hOg hin hout hst
    obtain ⟨st2, hrep, _, hpar, q2, c, hq2, hc, hcopy⟩ :=
      reproductionStep_clone params g st1 hmu hlambda hrate hst1 ⟨q, hq, hqg, hqo⟩
    have hqq : q2 = q := by
      rw [hq] at hq2
      exact (List.cons.inj hq2).1.symm
    rw [hqq] at hcopy
    exact ⟨st1, st2, q, c, hsel, hq, hqg, hqo, hqf, hrep, hpar.trans hq, hc, hcopy⟩
  | succ i ih =>
    intro st hst
    obtain ⟨st1, hsel, hst1, q, hq, hqg, hqo, _⟩ :=
      selectionStep_clone params g dat st hmu hlambda hcomma hFg hAg hYg hOg hin hout hst
    obtain ⟨st2, hrep, hst2, _, _⟩ :=
      reproductionStep_clone params g st1 hmu hlambda hrate hst1 ⟨q, hq, hqg, hqo⟩
    obtain ⟨t1, t2, q3, c3, h1, h2⟩ := ih st2 hst2
    exact ⟨t1, t2, q3, c3, by simp only [afterSelection, hsel, hrep, h1], h2⟩

theorem examplePositiveDraws_positive : examplePositiveDraws.Positive :=
  ⟨by decide, fun n => ⟨Nat.le_add_left 1 _, by
    show n % 5 + 1 ≤ 32767
    omega⟩⟩

end CGP
